import Mathlib

/-!
# SRPR: sign-random-projection hashing, the vector store and the ranking trainer

A shallow embedding of `SRPR_Project` (`LSH.cpp`, `UserItemStore.cpp`,
`SRPR_Trainer.cpp`).

Conventions of the embedding:

* `double` values are interpreted exactly, in a linearly ordered field `F`
  (the rationals for evaluation, the reals for the analytic statements), where a
  statement is on the rule that the code evaluates or on the function that it
  approximates.  The statements that compare the results of two computations
  (a scaled or negated input of the hasher, the collision probability of a
  multiple) are over the type `Double`, IEEE 754 binary64 with rounding,
  infinities and NaN.
* `int` values are `Int`, the counters of the training loop with the wrap-around
  `int_wrap`; `static_cast<size_t>` is reduction modulo `2 ^ 64`.
* C++ exceptions are the `error` results of `Except Exn`.
* The pseudo-random generators are streams of draws that are handed to the
  constructors.
-/

namespace SRPR

/-- The C++ exceptions that the embedded code can raise. -/
inductive Exn where
  | length_error
  | out_of_range
  deriving DecidableEq, Repr

/-! ## `std::inner_product` -/

/-- The call `std::inner_product(first1, last1, first2, init)`: the accumulator
runs over the first range from left to right, `acc = acc + x * y`.  Reading the
second range past its end is undefined in the source; the embedding stops there. -/
def inner_product {F : Type} [Add F] [Mul F] : List F → List F → F → F
  | x :: xs, y :: ys, acc => inner_product xs ys (acc + x * y)
  | _, _, acc => acc

/-! ## LSH.h / LSH.cpp -/

/-- The method `LSH::generate_code` of the abstract base class, for a hasher with
`b` hash functions and the virtual `hash_to_bit`.  `code.reserve(b)` raises
`std::length_error` for a negative `b` (it is converted to a huge `size_t`);
otherwise the loop `for (int i = 0; i < b; ++i)` appends one character per index. -/
def LSH.generate_code {F : Type} (b : Int) (hash_to_bit : List F → Int → Char)
    (vec : List F) : Except Exn String :=
  if b < 0 then .error Exn.length_error
  else .ok ((List.range b.toNat).foldl
    (fun code (i : Nat) => code.push (hash_to_bit vec (i : Int))) "")

/-- The class `SRPHasher` with the members inherited from `LSH`. -/
structure SRPHasher (F : Type) where
  d : Int
  b : Int
  random_vectors : List (List F)
  initialized : Bool

/-- The constructor `SRPHasher::SRPHasher(dimensions, num_hashes, seed)`.
`gen s k` is the `k`-th value that `std::normal_distribution<double>(0, 1)` draws
from a `std::mt19937` seeded with `s`; `entropy` is the value that
`std::random_device` returns, used when `seed == 0`.  The `resize` calls raise
`std::length_error` for a negative size.  The draw number `i * dimensions + j`
is stored at `random_vectors[i][j]`. -/
def SRPHasher.new {F : Type} (dimensions num_hashes : Int) (seed entropy : Nat)
    (gen : Nat → Nat → F) : Except Exn (SRPHasher F) :=
  let s := if seed = 0 then entropy else seed
  if num_hashes < 0 then .error Exn.length_error
  else if 0 < num_hashes ∧ dimensions < 0 then .error Exn.length_error
  else .ok
    { d := dimensions
      b := num_hashes
      random_vectors := (List.range num_hashes.toNat).map fun i =>
        (List.range dimensions.toNat).map fun j => gen s (i * dimensions.toNat + j)
      initialized := true }

/-- The method `SRPHasher::hash_to_bit`.  `vec.size() != static_cast<size_t>(d)`
compares the length with `d` reduced modulo `2 ^ 64`.  The guard makes
`random_vectors[hash_function_index]` an in-range access on every constructed
hasher; the embedding reads the empty vector where the index is out of range. -/
def SRPHasher.hash_to_bit {F : Type} [LinearOrderedField F] (h : SRPHasher F)
    (vec : List F) (hash_function_index : Int) : Char :=
  if !h.initialized || decide (hash_function_index < 0)
      || decide (hash_function_index ≥ h.b)
      || decide ((vec.length : Int) ≠ h.d % 2 ^ 64) then
    '0'
  else
    let projection :=
      inner_product vec (h.random_vectors.getD hash_function_index.toNat []) 0
    if projection ≥ 0 then '1' else '0'

/-- The call `hasher.generate_code(vec)` on an `SRPHasher`. -/
def SRPHasher.generate_code {F : Type} [LinearOrderedField F] (h : SRPHasher F)
    (vec : List F) : Except Exn String :=
  LSH.generate_code h.b h.hash_to_bit vec

/-- The method `SRPHasher::is_initialized`. -/
def SRPHasher.is_initialized {F : Type} (h : SRPHasher F) : Bool :=
  h.initialized && decide ((h.random_vectors.length : Int) = h.b % 2 ^ 64)

/-- The range of the C++ type `int`. -/
def is_int (x : Int) : Prop := -2 ^ 31 ≤ x ∧ x < 2 ^ 31

instance (x : Int) : Decidable (is_int x) := by unfold is_int; infer_instance

/-- The value that an arithmetic operation on the C++ type `int` stores when its
mathematical result is `x`: `x` itself when it is in the range of `int`; an
overflow is undefined in the source, and the embedding takes the value that
two's-complement arithmetic on 32 bits gives. -/
def int_wrap (x : Int) : Int := (x + 2 ^ 31) % 2 ^ 32 - 2 ^ 31

/-- The hasher that `SRPHasher(2, 3, 7)` builds when the generator seeded with `7`
draws `-2, -1, 0, 1, 2, 3`. -/
def hasher_7 : SRPHasher ℚ :=
  { d := 2, b := 3, random_vectors := [[-2, -1], [0, 1], [2, 3]], initialized := true }

/-! ## Triplet.h / UserItemStore.h / UserItemStore.cpp -/

/-- Modelled from the spec: `Triplet.h` is not among the sources.  A preference
triplet is `(user_id, preferred_item_id, less_preferred_item_id)`, three `int`
fields in this order (the tests build triplets as `{user, preferred, less_preferred}`). -/
structure Triplet where
  user_id : Int
  preferred_item_id : Int
  less_preferred_item_id : Int
  deriving DecidableEq, Repr

/-- The call `ids.insert(x)` on a `std::set<int>`, kept as the ascending list of
its elements: a present element is not inserted again. -/
def set_insert (x : Int) : List Int → List Int
  | [] => [x]
  | y :: ys =>
    if x < y then x :: y :: ys
    else if x = y then y :: ys
    else y :: set_insert x ys

/-- The call `m.at(k)` on a `std::unordered_map<int, V>`, kept as the list of its
entries: `std::out_of_range` when the key is absent. -/
def umap_at {V : Type} : List (Int × V) → Int → Except Exn V
  | [], _ => .error Exn.out_of_range
  | (k', v) :: rest, k => if k' = k then .ok v else umap_at rest k

/-- The statement `m[k] = v` on a `std::unordered_map<int, V>`: the entry of `k` is
overwritten when present and created otherwise. -/
def umap_assign {V : Type} : List (Int × V) → Int → V → List (Int × V)
  | [], k, v => [(k, v)]
  | (k', v') :: rest, k, v =>
    if k' = k then (k, v) :: rest else (k', v') :: umap_assign rest k v

/-- The class `UserItemStore`.  `dist` is the stream of values that `dist(rng)`
returns over the life of the store and `rng` counts the draws made so far. -/
structure UserItemStore (F : Type) where
  d : Int
  user_vectors : List (Int × List F)
  item_vectors : List (Int × List F)
  dist : Nat → F
  rng : Nat

/-- The constructor `UserItemStore::UserItemStore(dimensions)`: both maps are empty. -/
def UserItemStore.new {F : Type} (dimensions : Int) (dist : Nat → F) : UserItemStore F :=
  { d := dimensions, user_vectors := [], item_vectors := [], dist := dist, rng := 0 }

/-- The loop `for (int i = 0; i < d; ++i) vectors[id][i] = dist(rng);` on the
vector `v` that was just stored under `id`; the state is the vector and the
number of draws made. -/
def fill_vector {F : Type} (dist : Nat → F) (d : Int) (v : List F) (rng : Nat) :
    List F × Nat :=
  (List.range d.toNat).foldl
    (fun (st : List F × Nat) i => (st.1.set i (dist st.2), st.2 + 1)) (v, rng)

/-- The body of the two loops of `UserItemStore::initialize` over the collected
ids: `vectors[id] = Vector(d)` followed by the fill loop.  `Vector(d)` raises
`std::length_error` for a negative `d`, and holds `d` zeros otherwise. -/
def init_vector {F : Type} [Zero F] (d : Int) (dist : Nat → F)
    (st : List (Int × List F) × Nat) (id : Int) : Except Exn (List (Int × List F) × Nat) :=
  if d < 0 then .error Exn.length_error
  else
    let r := fill_vector dist d (List.replicate d.toNat 0) st.2
    .ok (umap_assign st.1 id r.1, r.2)

/-- The method `UserItemStore::initialize`: the ids are collected into two
`std::set<int>`, then one vector is created per user id and per item id, in
ascending order of the ids. -/
def UserItemStore.initialize {F : Type} [Zero F] (s : UserItemStore F)
    (triplets : List Triplet) : Except Exn (UserItemStore F) :=
  let user_ids := triplets.foldl (fun ids t => set_insert t.user_id ids) []
  let item_ids := triplets.foldl
    (fun ids t => set_insert t.less_preferred_item_id (set_insert t.preferred_item_id ids)) []
  match user_ids.foldlM (init_vector s.d s.dist) (s.user_vectors, s.rng) with
  | .error e => .error e
  | .ok us =>
    match item_ids.foldlM (init_vector s.d s.dist) (s.item_vectors, us.2) with
    | .error e => .error e
    | .ok is => .ok { s with user_vectors := us.1, item_vectors := is.1, rng := is.2 }

/-- The method `UserItemStore::get_user_vector`. -/
def UserItemStore.get_user_vector {F : Type} (s : UserItemStore F) (user_id : Int) :
    Except Exn (List F) :=
  umap_at s.user_vectors user_id

/-- The method `UserItemStore::get_item_vector`. -/
def UserItemStore.get_item_vector {F : Type} (s : UserItemStore F) (item_id : Int) :
    Except Exn (List F) :=
  umap_at s.item_vectors item_id

/-- The method `UserItemStore::get_all_item_vectors`. -/
def UserItemStore.get_all_item_vectors {F : Type} (s : UserItemStore F) :
    List (Int × List F) :=
  s.item_vectors

/-- The triplets of the concrete scenario of the specification. -/
def scenario_triplets : List Triplet :=
  [⟨1, 10, 20⟩, ⟨1, 10, 30⟩, ⟨2, 40, 50⟩]

/-! ## SRPR_Trainer.h / SRPR_Trainer.cpp -/

/-- The functions of `<cmath>` that the trainer calls, and the constant `M_PI`. -/
structure CMath (F : Type) where
  sqrt : F → F
  acos : F → F
  erf : F → F
  exp : F → F
  log : F → F
  log2 : F → F
  M_PI : F

/-- The struct `SRPR_Trainer::TrainingParams`. -/
structure TrainingParams (F : Type) where
  epochs : Int
  learning_rate : F
  b_lsh_length : Int
  regularization : F
  verbose : Bool
  validation_freq : Int

/-- The statement that modifies, through the reference `m.at(k)`, the vector
stored under `k`; the map is unchanged when the key is absent. -/
def umap_modify {V : Type} : List (Int × V) → Int → (V → V) → List (Int × V)
  | [], _, _ => []
  | (k', v) :: rest, k, f =>
    if k' = k then (k', f v) :: rest else (k', v) :: umap_modify rest k f

namespace SRPR_Trainer

variable {F : Type} [LinearOrderedField F]

/-- The file-local function `norm`. -/
def norm (m : CMath F) (v : List F) : F :=
  m.sqrt (inner_product v v 0)

/-- The file-local function `dot_product`. -/
def dot_product (v1 v2 : List F) : F :=
  inner_product v1 v2 0

/-- The method `SRPR_Trainer::calculate_p_srp`. -/
def calculate_p_srp (m : CMath F) (v1 v2 : List F) : F :=
  let n1 := norm m v1
  let n2 := norm m v2
  if n1 < 1e-12 ∨ n2 < 1e-12 then
    0.5
  else
    let cosine_sim := dot_product v1 v2 / (n1 * n2)
    let cosine_sim := max (-1.0) (min 1.0 cosine_sim)
    1.0 - (m.acos cosine_sim / m.M_PI)

/-- The method `SRPR_Trainer::calculate_gamma`; the parameter `b` is not used. -/
def calculate_gamma (m : CMath F) (p_ui p_uj : F) (_b : Int) : F :=
  let p_ui := max 1e-12 (min (1.0 - 1e-12) p_ui)
  let p_uj := max 1e-12 (min (1.0 - 1e-12) p_uj)
  let numerator := p_uj - p_ui
  let variance_ui := p_ui * (1.0 - p_ui)
  let variance_uj := p_uj * (1.0 - p_uj)
  let denominator := m.sqrt (variance_ui + variance_uj)
  if denominator < 1e-12 then
    0.0
  else
    numerator / denominator

/-- The method `SRPR_Trainer::phi`. -/
def phi (m : CMath F) (x : F) : F :=
  0.5 * (1.0 + m.erf (x / m.sqrt 2.0))

/-- The method `SRPR_Trainer::phi_prime`. -/
def phi_prime (m : CMath F) (x : F) : F :=
  (1.0 / m.sqrt (2.0 * m.M_PI)) * m.exp (-0.5 * x * x)

/-- The method `SRPR_Trainer::safe_acos`. -/
def safe_acos (m : CMath F) (x : F) : F :=
  m.acos (max (-1.0) (min 1.0 x))

/-- The method `SRPR_Trainer::apply_regularization`, as the new value of the
vector that is passed by reference. -/
def apply_regularization (vector : List F) (reg_factor learning_rate : F) : List F :=
  vector.map fun val => val - learning_rate * reg_factor * val

/-- The method `SRPR_Trainer::evaluate_triplet` on the store of the trainer; the
three lookups raise `std::out_of_range` for an unknown id. -/
def evaluate_triplet (m : CMath F) (store : UserItemStore F) (triplet : Triplet)
    (params : TrainingParams F) : Except Exn F :=
  match store.get_user_vector triplet.user_id with
  | .error e => .error e
  | .ok xu =>
    match store.get_item_vector triplet.preferred_item_id with
    | .error e => .error e
    | .ok yi =>
      match store.get_item_vector triplet.less_preferred_item_id with
      | .error e => .error e
      | .ok yj =>
        let p_ui := calculate_p_srp m xu yi
        let p_uj := calculate_p_srp m xu yj
        let gamma := calculate_gamma m p_ui p_uj params.b_lsh_length
        let sqrt_b_gamma := m.sqrt (params.b_lsh_length : F) * gamma
        .ok (m.log (phi m sqrt_b_gamma + 1e-12))

/-- The compound assignment `v[k] += learning_rate * grad[k]` on one vector.  An
index outside `v` or `grad` is undefined in the source; the embedding then leaves
`v` unchanged, respectively reads `0`. -/
def add_scaled_at (learning_rate : F) (grad : List F) (k : Nat) (v : List F) : List F :=
  v.set k (v.getD k 0 + learning_rate * grad.getD k 0)

/-- One iteration of the update loop of `update_vectors`: the three compound
assignments, in source order, each through its reference into the store. -/
def update_step (triplet : Triplet) (grad_xu grad_yi grad_yj : List F) (learning_rate : F)
    (store : UserItemStore F) (k : Nat) : UserItemStore F :=
  let users := umap_modify store.user_vectors triplet.user_id
    (add_scaled_at learning_rate grad_xu k)
  let items := umap_modify store.item_vectors triplet.preferred_item_id
    (add_scaled_at learning_rate grad_yi k)
  let items := umap_modify items triplet.less_preferred_item_id
    (add_scaled_at learning_rate grad_yj k)
  { store with user_vectors := users, item_vectors := items }

/-- The method `SRPR_Trainer::update_vectors` as a transformer of the store: the
three references are looked up (raising `std::out_of_range`), the loop runs over
`k < xu.size()`, then `apply_regularization` is called on the three references. -/
def update_vectors (store : UserItemStore F) (triplet : Triplet)
    (grad_xu grad_yi grad_yj : List F) (params : TrainingParams F) :
    Except Exn (UserItemStore F) :=
  match store.get_user_vector triplet.user_id with
  | .error e => .error e
  | .ok xu =>
    match store.get_item_vector triplet.preferred_item_id with
    | .error e => .error e
    | .ok _ =>
      match store.get_item_vector triplet.less_preferred_item_id with
      | .error e => .error e
      | .ok _ =>
        let d := xu.length
        let s0 := (List.range d).foldl
          (update_step triplet grad_xu grad_yi grad_yj params.learning_rate) store
        let reg := fun v : List F =>
          apply_regularization v params.regularization params.learning_rate
        let users := umap_modify s0.user_vectors triplet.user_id reg
        let items := umap_modify s0.item_vectors triplet.preferred_item_id reg
        let items := umap_modify items triplet.less_preferred_item_id reg
        .ok { s0 with user_vectors := users, item_vectors := items }

end SRPR_Trainer

/-- The struct `SRPR_Trainer::TrainingStats`. -/
structure TrainingStats (F : Type) where
  epoch_losses : List F
  validation_scores : List F
  final_loss : F
  training_time_ms : F
  total_updates : Int
  converged : Bool

namespace SRPR_Trainer

variable {F : Type} [LinearOrderedField F]

/-- The method `SRPR_Trainer::calculate_gamma_derivatives`; the parameter `b` is
not used. -/
def calculate_gamma_derivatives (m : CMath F) (p_ui p_uj : F) (_b : Int) : F × F :=
  let p_ui := max 1e-12 (min (1.0 - 1e-12) p_ui)
  let p_uj := max 1e-12 (min (1.0 - 1e-12) p_uj)
  let var_ui := p_ui * (1.0 - p_ui)
  let var_uj := p_uj * (1.0 - p_uj)
  let sigma := m.sqrt (var_ui + var_uj)
  if sigma < 1e-12 then
    (0.0, 0.0)
  else
    let numerator := p_uj - p_ui
    let dgamma_dpui_num := -sigma - numerator * (1.0 - 2.0 * p_ui) / (2.0 * sigma)
    let dgamma_dpui := dgamma_dpui_num / (sigma * sigma)
    let dgamma_dpuj_num := sigma - numerator * (1.0 - 2.0 * p_uj) / (2.0 * sigma)
    let dgamma_dpuj := dgamma_dpuj_num / (sigma * sigma)
    (dgamma_dpui, dgamma_dpuj)

/-- The method `SRPR_Trainer::calculate_p_srp_derivatives`.  The loop writes
`grad_v1[i]` and `grad_v2[i]` for `i < v1.size()`; reading `v2[i]` past the end of
`v2` is undefined in the source and reads `0` here. -/
def calculate_p_srp_derivatives (m : CMath F) (v1 v2 : List F) : List F × List F :=
  let d := v1.length
  let grad_v1 : List F := List.replicate d 0.0
  let grad_v2 : List F := List.replicate d 0.0
  let n1 := norm m v1
  let n2 := norm m v2
  if n1 < 1e-12 ∨ n2 < 1e-12 then
    (grad_v1, grad_v2)
  else
    let dot_prod := dot_product v1 v2
    let cosine_sim := dot_prod / (n1 * n2)
    let cosine_sim := max (-1.0) (min 1.0 cosine_sim)
    let sin_theta := m.sqrt (1.0 - cosine_sim * cosine_sim)
    if sin_theta < 1e-12 then
      (grad_v1, grad_v2)
    else
      let dp_dcos := 1.0 / (m.M_PI * sin_theta)
      (List.range d).foldl
        (fun (g : List F × List F) i =>
          let dcos_dv1i := v2.getD i 0 / (n1 * n2) - (cosine_sim * v1.getD i 0) / (n1 * n1)
          let dcos_dv2i := v1.getD i 0 / (n1 * n2) - (cosine_sim * v2.getD i 0) / (n2 * n2)
          (g.1.set i (dp_dcos * dcos_dv1i), g.2.set i (dp_dcos * dcos_dv2i)))
        (grad_v1, grad_v2)

/-- The method `SRPR_Trainer::compute_gradients`, returning the three gradients
that the source writes through its output parameters. -/
def compute_gradients (m : CMath F) (store : UserItemStore F) (triplet : Triplet)
    (params : TrainingParams F) : Except Exn (List F × List F × List F) :=
  match store.get_user_vector triplet.user_id with
  | .error e => .error e
  | .ok xu =>
    match store.get_item_vector triplet.preferred_item_id with
    | .error e => .error e
    | .ok yi =>
      match store.get_item_vector triplet.less_preferred_item_id with
      | .error e => .error e
      | .ok yj =>
        let d := xu.length
        let grad_xu : List F := List.replicate d 0.0
        let grad_yi : List F := List.replicate d 0.0
        let grad_yj : List F := List.replicate d 0.0
        let p_ui := calculate_p_srp m xu yi
        let p_uj := calculate_p_srp m xu yj
        let gamma := calculate_gamma m p_ui p_uj params.b_lsh_length
        let sqrt_b_gamma := m.sqrt (params.b_lsh_length : F) * gamma
        let gamma_derivs := calculate_gamma_derivatives m p_ui p_uj params.b_lsh_length
        let dgamma_dpui := gamma_derivs.1
        let dgamma_dpuj := gamma_derivs.2
        let phi_val := phi m sqrt_b_gamma
        let phi_prime_val := phi_prime m sqrt_b_gamma
        if phi_val < 1e-12 then
          .ok (grad_xu, grad_yi, grad_yj)
        else
          let common_factor := (phi_prime_val / phi_val) * m.sqrt (params.b_lsh_length : F)
          let dpui_derivs := calculate_p_srp_derivatives m xu yi
          let dpui_dxu := dpui_derivs.1
          let dpui_dyi := dpui_derivs.2
          let dpuj_derivs := calculate_p_srp_derivatives m xu yj
          let dpuj_dxu := dpuj_derivs.1
          let dpuj_dyj := dpuj_derivs.2
          .ok ((List.range d).foldl
            (fun (g : List F × List F × List F) k =>
              (g.1.set k (common_factor *
                  (dgamma_dpui * dpui_dxu.getD k 0 + dgamma_dpuj * dpuj_dxu.getD k 0)),
                g.2.1.set k (common_factor * dgamma_dpui * dpui_dyi.getD k 0),
                g.2.2.set k (common_factor * dgamma_dpuj * dpuj_dyj.getD k 0)))
            (grad_xu, grad_yi, grad_yj))

/-- The method `SRPR_Trainer::check_convergence` with its default tolerance `1e-6`
as the last argument of the source. -/
def check_convergence (losses : List F) (tolerance : F) : Bool :=
  if losses.length < 3 then false
  else
    let n := losses.length
    let recent_change := |losses.getD (n - 1) 0 - losses.getD (n - 2) 0|
    decide (recent_change < tolerance)

/-- The loop `for (const auto& triplet : triplets) total_loss += evaluate_triplet(...)`
of `calculate_total_loss`. -/
def sum_losses (m : CMath F) (store : UserItemStore F) (params : TrainingParams F) :
    List Triplet → F → Except Exn F
  | [], total_loss => .ok total_loss
  | triplet :: rest, total_loss =>
    match evaluate_triplet m store triplet params with
    | .error e => .error e
    | .ok v => sum_losses m store params rest (total_loss + v)

/-- The method `SRPR_Trainer::calculate_total_loss`: the sum of `evaluate_triplet`
over the triplets, divided by their number. -/
def calculate_total_loss (m : CMath F) (store : UserItemStore F) (triplets : List Triplet)
    (params : TrainingParams F) : Except Exn F :=
  match sum_losses m store params triplets 0.0 with
  | .error e => .error e
  | .ok total_loss => .ok (total_loss / (triplets.length : F))

/-- The loop over the training triplets inside one epoch of `train`: gradients,
update, then the objective of the triplet on the updated store is added to
`epoch_loss` and the `int` counter `updates` is incremented.  No exception is
caught. -/
def train_triplets (m : CMath F) (params : TrainingParams F) :
    List Triplet → UserItemStore F → F → Int → Except Exn (UserItemStore F × F × Int)
  | [], store, epoch_loss, updates => .ok (store, epoch_loss, updates)
  | triplet :: rest, store, epoch_loss, updates =>
    match compute_gradients m store triplet params with
    | .error e => .error e
    | .ok grads =>
      match update_vectors store triplet grads.1 grads.2.1 grads.2.2 params with
      | .error e => .error e
      | .ok store1 =>
        match evaluate_triplet m store1 triplet params with
        | .error e => .error e
        | .ok v =>
          train_triplets m params rest store1 (epoch_loss + v) (int_wrap (updates + 1))

/-- The validation block of one epoch of `train`: when a validation set is given
and `(epoch + 1) % validation_freq == 0`, the validation loss is computed and
recorded.  The remainder is the truncating remainder of C++ (undefined for
`validation_freq == 0`, where the embedding takes the dividend). -/
def validation_step (m : CMath F) (validation_triplets : List Triplet)
    (params : TrainingParams F) (epoch : Int) (store : UserItemStore F)
    (stats : TrainingStats F) : Except Exn (TrainingStats F) :=
  if !validation_triplets.isEmpty &&
      decide (Int.tmod (epoch + 1) params.validation_freq = 0) then
    match calculate_total_loss m store validation_triplets params with
    | .error e => .error e
    | .ok validation_loss => .ok
        { stats with validation_scores := stats.validation_scores ++ [validation_loss] }
  else .ok stats

/-- The epoch loop `for (int epoch = 0; epoch < params.epochs; ++epoch)` of `train`,
with the number of iterations still to run as first argument: the pass over the
training triplets, the mean loss of the epoch, the `int` addition
`stats.total_updates += updates`, the validation block, and the convergence check
that ends the loop. -/
def train_epochs (m : CMath F) (training_triplets validation_triplets : List Triplet)
    (params : TrainingParams F) :
    Nat → Int → UserItemStore F → TrainingStats F →
      Except Exn (UserItemStore F × TrainingStats F)
  | 0, _, store, stats => .ok (store, stats)
  | n + 1, epoch, store, stats =>
    match train_triplets m params training_triplets store 0.0 0 with
    | .error e => .error e
    | .ok r =>
      match validation_step m validation_triplets params epoch r.1
          { stats with
            epoch_losses := stats.epoch_losses ++ [r.2.1 / (training_triplets.length : F)]
            total_updates := int_wrap (stats.total_updates + r.2.2) } with
      | .error e => .error e
      | .ok stats2 =>
        if check_convergence stats2.epoch_losses 1e-6 then
          .ok (r.1, { stats2 with converged := true })
        else
          train_epochs m training_triplets validation_triplets params n (epoch + 1)
            r.1 stats2

/-- The method `SRPR_Trainer::train`, returning the store of the trainer after the
run together with the statistics.  `total_duration` is the measured wall-clock
time in milliseconds.  `epoch_losses.back()` is undefined on an empty vector (no
epoch ran); the embedding then leaves `final_loss` at `0`. -/
def train (m : CMath F) (store : UserItemStore F) (training_triplets : List Triplet)
    (params : TrainingParams F) (validation_triplets : List Triplet) (total_duration : F) :
    Except Exn (UserItemStore F × TrainingStats F) :=
  let stats : TrainingStats F :=
    { epoch_losses := [], validation_scores := [], final_loss := 0.0,
      training_time_ms := 0.0, total_updates := 0, converged := false }
  match train_epochs m training_triplets validation_triplets params params.epochs.toNat 0
      store stats with
  | .error e => .error e
  | .ok r => .ok (r.1, { r.2 with
      final_loss := r.2.epoch_losses.getLastD 0
      training_time_ms := total_duration })

end SRPR_Trainer

/-! ## ExhaustiveBenchmark.h / ExhaustiveBenchmark.cpp -/

/-- The struct `RecommendationResult`. -/
structure RecommendationResult (F : Type) where
  item_id : Int
  score : F
  hamming_distance : Int
  rank : Int

/-- The postcondition of `std::sort(first, last, comp)` for a strict weak ordering
`comp`: the result is a rearrangement of the input in which no later element is
ordered before an earlier one.  The order among equivalent elements is not
specified by the library, so the searches take the sorting function as a
parameter that satisfies this postcondition. -/
def is_std_sort {α : Type} (comp : α → α → Prop) (sort : List α → List α) : Prop :=
  ∀ l, (sort l).Perm l ∧ (sort l).Pairwise (fun a b => ¬ comp b a)

namespace ExhaustiveBenchmark

variable {F : Type} [LinearOrderedField F]

/-- The method `ExhaustiveBenchmark::cosine_similarity`. -/
def cosine_similarity (m : CMath F) (v1 v2 : List F) : F :=
  if v1.length ≠ v2.length then 0.0
  else
    let dot_product := inner_product v1 v2 0.0
    let norm1 := m.sqrt (inner_product v1 v1 0.0)
    let norm2 := m.sqrt (inner_product v2 v2 0.0)
    if norm1 = 0.0 ∨ norm2 = 0.0 then 0.0
    else dot_product / (norm1 * norm2)

/-- The method `ExhaustiveBenchmark::hamming_distance`.  The codes consist of the
characters `'0'` and `'1'`, so that byte positions and character positions of the
`std::string` agree. -/
def hamming_distance (code1 code2 : String) : Int :=
  if code1.length ≠ code2.length then -1
  else
    (List.range code1.length).foldl
      (fun (distance : Int) i =>
        if code1.data.getD i ' ' ≠ code2.data.getD i ' ' then distance + 1 else distance) 0

/-- The method `ExhaustiveBenchmark::exhaustive_search` on the store of the
harness, with `sort` the effect of the `std::sort` call.  An exception of the
lookup is caught and leaves the result empty.  The measured `retrieval_time` is
not part of the embedding. -/
def exhaustive_search (m : CMath F) (sort : List (Int × F) → List (Int × F))
    (store : UserItemStore F) (user_id top_k : Int) : List (RecommendationResult F) :=
  match store.get_user_vector user_id with
  | .error _ => []
  | .ok user_vector =>
    let all_items := store.get_all_item_vectors
    let item_similarities := all_items.map fun item_pair =>
      (item_pair.1, cosine_similarity m user_vector item_pair.2)
    let item_similarities := sort item_similarities
    let k := min top_k (item_similarities.length : Int)
    (List.range k.toNat).map fun (i : Nat) =>
      { item_id := (item_similarities.getD i (0, 0)).1
        score := (item_similarities.getD i (0, 0)).2
        hamming_distance := -1
        rank := (i : Int) + 1 }

/-- The loop of `lsh_search` over all items: the code of each item and its
Hamming distance to the code of the user. -/
def item_distances (hasher : SRPHasher F) (user_code : String) :
    List (Int × List F) → Except Exn (List (Int × Int))
  | [] => .ok []
  | item_pair :: rest =>
    match hasher.generate_code item_pair.2 with
    | .error e => .error e
    | .ok item_code =>
      match item_distances hasher user_code rest with
      | .error e => .error e
      | .ok ds => .ok ((item_pair.1, hamming_distance user_code item_code) :: ds)

/-- The method `ExhaustiveBenchmark::lsh_search` on the store and the hasher of
the harness, with `sort` the effect of the `std::sort` call.  Every exception is
caught and leaves the result empty. -/
def lsh_search (sort : List (Int × Int) → List (Int × Int))
    (store : UserItemStore F) (hasher : SRPHasher F) (user_id top_k : Int) :
    List (RecommendationResult F) :=
  match store.get_user_vector user_id with
  | .error _ => []
  | .ok user_vector =>
    match hasher.generate_code user_vector with
    | .error _ => []
    | .ok user_code =>
      match item_distances hasher user_code store.get_all_item_vectors with
      | .error _ => []
      | .ok ds =>
        let ds := sort ds
        let k := min top_k (ds.length : Int)
        (List.range k.toNat).map fun (i : Nat) =>
          let hamming_dist := (ds.getD i (0, 0)).2
          let similarity_score : F := 1.0 - ((hamming_dist : F) / (hasher.b : F))
          { item_id := (ds.getD i (0, 0)).1
            score := similarity_score
            hamming_distance := hamming_dist
            rank := (i : Int) + 1 }

/-- The expression `recommendations[i].item_id`; the loops of the metrics keep `i`
below the size of the vector. -/
def item_id_at (recommendations : List (RecommendationResult F)) (i : Nat) : Int :=
  match recommendations[i]? with
  | some r => r.item_id
  | none => 0

/-- The counting loop shared by `calculate_precision_at_k` and
`calculate_recall_at_k`: `relevant_found` after `items_to_check` iterations. -/
def count_relevant (recommendations : List (RecommendationResult F))
    (ground_truth : Finset Int) (items_to_check : Int) : Int :=
  (List.range items_to_check.toNat).foldl
    (fun (relevant_found : Int) i =>
      if item_id_at recommendations i ∈ ground_truth then relevant_found + 1
      else relevant_found) 0

/-- The method `ExhaustiveBenchmark::calculate_precision_at_k`; the
`std::set<int>` of relevant items is a finite set. -/
def calculate_precision_at_k (recommendations : List (RecommendationResult F))
    (ground_truth : Finset Int) (k : Int) : F :=
  if recommendations.isEmpty || decide (k ≤ 0) then 0.0
  else
    let items_to_check := min k (recommendations.length : Int)
    let relevant_found := count_relevant recommendations ground_truth items_to_check
    (relevant_found : F) / (items_to_check : F)

/-- The method `ExhaustiveBenchmark::calculate_recall_at_k`. -/
def calculate_recall_at_k (recommendations : List (RecommendationResult F))
    (ground_truth : Finset Int) (k : Int) : F :=
  if decide (ground_truth = ∅) || decide (k ≤ 0) then 0.0
  else
    let items_to_check := min k (recommendations.length : Int)
    let relevant_found := count_relevant recommendations ground_truth items_to_check
    (relevant_found : F) / (ground_truth.card : F)

/-- The method `ExhaustiveBenchmark::calculate_ndcg_at_k`. -/
def calculate_ndcg_at_k (m : CMath F) (recommendations : List (RecommendationResult F))
    (ground_truth : Finset Int) (k : Int) : F :=
  if recommendations.isEmpty || decide (ground_truth = ∅) || decide (k ≤ 0) then 0.0
  else
    let items_to_check := min k (recommendations.length : Int)
    let dcg := (List.range items_to_check.toNat).foldl
      (fun (dcg : F) i =>
        if item_id_at recommendations i ∈ ground_truth then
          dcg + 1.0 / m.log2 ((i + 2 : Nat) : F)
        else dcg) 0.0
    let relevant_items := min k (ground_truth.card : Int)
    let idcg := (List.range relevant_items.toNat).foldl
      (fun (idcg : F) i => idcg + 1.0 / m.log2 ((i + 2 : Nat) : F)) 0.0
    if idcg > 0.0 then dcg / idcg else 0.0

/-- The method `ExhaustiveBenchmark::calculate_map`; the state of the loop is
`(sum_precision, relevant_found)`. -/
def calculate_map (recommendations : List (RecommendationResult F))
    (ground_truth : Finset Int) : F :=
  if recommendations.isEmpty || decide (ground_truth = ∅) then 0.0
  else
    let st := (List.range recommendations.length).foldl
      (fun (st : F × Int) i =>
        if item_id_at recommendations i ∈ ground_truth then
          let relevant_found := st.2 + 1
          let precision_at_i := (relevant_found : F) / ((i + 1 : Nat) : F)
          (st.1 + precision_at_i, relevant_found)
        else st) (0.0, 0)
    if st.2 > 0 then st.1 / (st.2 : F) else 0.0

end ExhaustiveBenchmark

/-- The struct `EvaluationMetrics`. -/
structure EvaluationMetrics (F : Type) where
  precision_at_k : F
  recall_at_k : F
  ndcg_at_k : F
  map_score : F
  avg_retrieval_time_ms : F
  avg_similarity_score : F
  total_recommendations : Int

namespace ExhaustiveBenchmark

variable {F : Type} [LinearOrderedField F]

/-- A default-constructed `EvaluationMetrics`: every member initialiser is zero. -/
def EvaluationMetrics.new : EvaluationMetrics F :=
  { precision_at_k := 0.0, recall_at_k := 0.0, ndcg_at_k := 0.0, map_score := 0.0,
    avg_retrieval_time_ms := 0.0, avg_similarity_score := 0.0, total_recommendations := 0 }

/-- The method `ExhaustiveBenchmark::evaluate_recommendations`.  The sizes are
converted to `int`, which keeps them for fewer than `2 ^ 31` recommendations. -/
def evaluate_recommendations (m : CMath F) (recommendations : List (RecommendationResult F))
    (ground_truth_items : Finset Int) (avg_retrieval_time_ms : F) : EvaluationMetrics F :=
  let metrics : EvaluationMetrics F :=
    { (EvaluationMetrics.new : EvaluationMetrics F) with
      avg_retrieval_time_ms := avg_retrieval_time_ms
      total_recommendations := (recommendations.length : Int) }
  if recommendations.isEmpty || decide (ground_truth_items = ∅) then metrics
  else
    let k : Int := (recommendations.length : Int)
    let total_similarity := recommendations.foldl (fun (total : F) r => total + r.score) 0.0
    { metrics with
      precision_at_k := calculate_precision_at_k recommendations ground_truth_items k
      recall_at_k := calculate_recall_at_k recommendations ground_truth_items k
      ndcg_at_k := calculate_ndcg_at_k m recommendations ground_truth_items k
      map_score := calculate_map recommendations ground_truth_items
      avg_similarity_score := total_similarity / (recommendations.length : F) }

/-- The body of the loop of `benchmark_methods` for one user: both searches, the
ground truth as the set of the item ids of the exhaustive result, and the metrics
of both result lists.  `exhaustive_time` and `lsh_time` are the microseconds that
the clock measured for the two searches. -/
def benchmark_user (m : CMath F) (sort_scores : List (Int × F) → List (Int × F))
    (sort_distances : List (Int × Int) → List (Int × Int)) (store : UserItemStore F)
    (hasher : SRPHasher F) (top_k user_id exhaustive_time lsh_time : Int) :
    EvaluationMetrics F × EvaluationMetrics F :=
  let exhaustive_recs := exhaustive_search m sort_scores store user_id top_k
  let lsh_recs := lsh_search sort_distances store hasher user_id top_k
  let ground_truth : Finset Int :=
    exhaustive_recs.foldl (fun ground_truth r => insert r.item_id ground_truth) ∅
  let exhaustive_time_ms : F := (exhaustive_time : F) / 1000.0
  let lsh_time_ms : F := (lsh_time : F) / 1000.0
  let ex_metrics := evaluate_recommendations m exhaustive_recs ground_truth exhaustive_time_ms
  let lsh_metrics := evaluate_recommendations m lsh_recs ground_truth lsh_time_ms
  (ex_metrics, lsh_metrics)

end ExhaustiveBenchmark

/-- The error function of `<cmath>` on the reals, by its Maclaurin series
`2 / sqrt π * Σ (-1)^n x^(2n+1) / (n! (2n+1))`, which converges for every `x`; it is
the integral `2 / sqrt π * ∫ exp(-t^2)` over `[0, x]` (first statement of `erf_facts`). -/
noncomputable def erf (x : ℝ) : ℝ :=
  2 / Real.sqrt Real.pi *
    tsum fun n : ℕ => (-1) ^ n * x ^ (2 * n + 1) / ((n.factorial : ℝ) * (2 * n + 1))

/-- The functions of `<cmath>` on the reals; each call of the trainer that the
claims cover stays inside the domain on which the C function and the real
function agree. -/
noncomputable def libm : CMath ℝ :=
  { sqrt := Real.sqrt
    acos := Real.arccos
    erf := erf
    exp := Real.exp
    log := Real.log
    log2 := Real.logb 2
    M_PI := Real.pi }

/-- A store of dimension `2` with one user and two items, over the rationals. -/
def store_q : UserItemStore ℚ :=
  { d := 2
    user_vectors := [(1, [1, 2])]
    item_vectors := [(10, [3, 4]), (20, [5, 6])]
    dist := fun _ => 0
    rng := 6 }

/-- Training parameters with learning rate `1/2` and regularization `1/4`. -/
def params_q : TrainingParams ℚ :=
  { epochs := 1, learning_rate := 1 / 2, b_lsh_length := 16, regularization := 1 / 4,
    verbose := false, validation_freq := 1 }

/-- A store of dimension `2` whose user `1` is `(1, 0)` and whose items `10` and
`20` are `(0, 1)` and `(0, -1)`, both orthogonal to the user. -/
def store_orth (F : Type) [LinearOrderedField F] : UserItemStore F :=
  { d := 2
    user_vectors := [(1, [1, 0])]
    item_vectors := [(10, [0, 1]), (20, [0, -1])]
    dist := fun _ => 0
    rng := 6 }

/-- A store of dimension `2` whose user `1` is `(1, 0)`, whose item `10` is
`(1, 0)`, parallel to the user, and whose item `20` is `(0, 1)`, orthogonal to it. -/
def store_par (F : Type) [LinearOrderedField F] : UserItemStore F :=
  { d := 2
    user_vectors := [(1, [1, 0])]
    item_vectors := [(10, [1, 0]), (20, [0, 1])]
    dist := fun _ => 0
    rng := 6 }

/-- The default training parameters of `TrainingParams`. -/
def default_params (F : Type) [LinearOrderedField F] : TrainingParams F :=
  { epochs := 10, learning_rate := 0.01, b_lsh_length := 16, regularization := 0.001,
    verbose := true, validation_freq := 5 }

/-- The standard normal cumulative distribution function, the integral of the
density `exp(-t^2 / 2) / sqrt(2 π)` over `(-∞, x]`. -/
noncomputable def normal_cdf (x : ℝ) : ℝ :=
  ∫ t in Set.Iic x, Real.exp (-t ^ 2 / 2) / Real.sqrt (2 * Real.pi)

/-- A store of dimension `2` whose user `1` and items `10` and `20` are all the
zero vector. -/
def store_zero (F : Type) [LinearOrderedField F] : UserItemStore F :=
  { d := 2
    user_vectors := [(1, [0, 0])]
    item_vectors := [(10, [0, 0]), (20, [0, 0])]
    dist := fun _ => 0
    rng := 6 }

/-- The default training parameters with the given number of epochs. -/
def params_epochs (F : Type) [LinearOrderedField F] (epochs : Int) : TrainingParams F :=
  { epochs := epochs, learning_rate := 0.01, b_lsh_length := 16, regularization := 0.001,
    verbose := false, validation_freq := 5 }

/-- The three ids of a triplet are keys of the store. -/
def triplet_known {F : Type} (store : UserItemStore F) (t : Triplet) : Prop :=
  t.user_id ∈ store.user_vectors.map Prod.fst ∧
    t.preferred_item_id ∈ store.item_vectors.map Prod.fst ∧
    t.less_preferred_item_id ∈ store.item_vectors.map Prod.fst

/-- Two stores hold the same user ids and the same item ids, in the same order. -/
def same_keys {F : Type} (s1 s2 : UserItemStore F) : Prop :=
  s2.user_vectors.map Prod.fst = s1.user_vectors.map Prod.fst ∧
    s2.item_vectors.map Prod.fst = s1.item_vectors.map Prod.fst

/-- The number of relevant items among the first `r` recommendations. -/
def relevant_count {F : Type} (recommendations : List (RecommendationResult F))
    (ground_truth : Finset Int) (r : Nat) : Nat :=
  ((recommendations.take r).filter (fun x => decide (x.item_id ∈ ground_truth))).length

/-- The positions, counted from `0`, of the recommendations that are relevant; the
rank of position `i` is `i + 1`. -/
def relevant_positions {F : Type} (recommendations : List (RecommendationResult F))
    (ground_truth : Finset Int) : List Nat :=
  (List.range recommendations.length).filter fun i =>
    match recommendations[i]? with
    | some x => decide (x.item_id ∈ ground_truth)
    | none => false

/-- The Hamming distance of two codes, the number of positions at which they differ. -/
def hamming (c1 c2 : List Char) : Nat :=
  ((List.zip c1 c2).filter (fun p => decide (p.1 ≠ p.2))).length

/-- A recommendation list of one entry, the item `1`. -/
def recs_one (F : Type) [LinearOrderedField F] : List (RecommendationResult F) :=
  [{ item_id := 1, score := 1, hamming_distance := -1, rank := 1 }]

/-- A recommendation list of three entries, the items `1`, `2`, `3`. -/
def recs_three (F : Type) [LinearOrderedField F] : List (RecommendationResult F) :=
  [{ item_id := 1, score := 1, hamming_distance := -1, rank := 1 },
   { item_id := 2, score := 1 / 2, hamming_distance := -1, rank := 2 },
   { item_id := 3, score := 0, hamming_distance := -1, rank := 3 }]

/-- A sorting function that meets the postcondition of `std::sort` for the
comparison `a.second > b.second` of `exhaustive_search`: insertion sort. -/
def sort_by_score_desc {F : Type} [LinearOrderedField F] :
    List (Int × F) → List (Int × F) :=
  List.insertionSort (fun a b => a.2 ≥ b.2)

/-- A sorting function that meets the postcondition of `std::sort` for the
comparison `a.second < b.second` of `lsh_search`: insertion sort. -/
def sort_by_distance_asc : List (Int × Int) → List (Int × Int) :=
  List.insertionSort (fun a b => a.2 ≤ b.2)

/-- The code that `generate_code` returns for `v` on a hasher with `b ≥ 0`. -/
def code_of {F : Type} [LinearOrderedField F] (hasher : SRPHasher F) (v : List F) : String :=
  String.mk ((List.range hasher.b.toNat).map fun (i : Nat) => hasher.hash_to_bit v (i : Int))

/-- A hasher of dimension `2` with two projection vectors, over the reals. -/
def hasher_xy : SRPHasher ℝ :=
  { d := 2, b := 2, random_vectors := [[1, 0], [0, 1]], initialized := true }

/-- Two successive calls `hasher.generate_code(vec)` on one hasher object, as the
determinism test makes them.  The methods `generate_code` and `hash_to_bit` are
`const` and the class has no `mutable` member, so the second call runs on the
object that the first call saw.  The result holds both return values and the
hasher after the calls. -/
def generate_code_twice {F : Type} [LinearOrderedField F] (hasher : SRPHasher F)
    (vec : List F) : Except Exn String × Except Exn String × SRPHasher F :=
  let code_1 := hasher.generate_code vec
  let code_2 := hasher.generate_code vec
  (code_1, code_2, hasher)

/-- The id of a user is a key of the user map of the store. -/
def user_known {F : Type} (store : UserItemStore F) (user_id : Int) : Prop :=
  user_id ∈ store.user_vectors.map Prod.fst

instance {F : Type} (store : UserItemStore F) (user_id : Int) :
    Decidable (user_known store user_id) := by
  unfold user_known; infer_instance

/-- A store of dimension `2` with the user `1` and the single item `10`, both `(1, 0)`. -/
def store_single (F : Type) [LinearOrderedField F] : UserItemStore F :=
  { d := 2
    user_vectors := [(1, [1, 0])]
    item_vectors := [(10, [1, 0])]
    dist := fun _ => 0
    rng := 4 }

/-- A store of dimension `2` whose user `1` is `(1, 0)`, whose item `10` is
`(1, 0)`, parallel to the user, and whose item `20` is `(-1, 0)`, opposite to it. -/
def store_opp (F : Type) [LinearOrderedField F] : UserItemStore F :=
  { d := 2
    user_vectors := [(1, [1, 0])]
    item_vectors := [(10, [1, 0]), (20, [-1, 0])]
    dist := fun _ => 0
    rng := 6 }

/-! ## Specification-level notions -/

/-- The clamp of `x` into the interval `[lo, hi]`. -/
def clamp {F : Type} [LinearOrderedField F] (x lo hi : F) : F :=
  max lo (min hi x)

/-- The Euclidean norm, the square root of the sum of the squares. -/
def euclidean_norm {F : Type} [LinearOrderedField F] (m : CMath F) (v : List F) : F :=
  m.sqrt (List.map (fun x => x * x) v).sum

/-- The cosine similarity, the dot product over the product of the norms. -/
def cos_sim {F : Type} [LinearOrderedField F] (m : CMath F) (v1 v2 : List F) : F :=
  (List.zipWith (· * ·) v1 v2).sum / (euclidean_norm m v1 * euclidean_norm m v2)

/-- The invariant of one map of the store during `initialize`: the keys are
pairwise distinct and every stored vector has `d` components. -/
def map_ok {F : Type} (d : Int) (m : List (Int × List F)) : Prop :=
  (m.map Prod.fst).Nodup ∧ ∀ e ∈ m, (e.2.length : Int) = d


/-- The dot product of two vectors, as the sum of the componentwise products. -/
def dot {F : Type} [LinearOrderedField F] (v w : List F) : F :=
  (List.zipWith (· * ·) v w).sum

/-- The analytic gradient, with respect to `v`, of the collision probability
`1 - acos(cos(v, w)) / π`: the derivative `1 / (π * sqrt(1 - cos²))` of the outer
function times the gradient `w / (|v| |w|) - cos * v / |v|²` of the cosine. -/
def p_srp_gradient {F : Type} [LinearOrderedField F] (m : CMath F) (v w : List F) : List F :=
  (List.range v.length).map fun i =>
    1 / (m.M_PI * m.sqrt (1 - clamp (cos_sim m v w) (-1) 1 * clamp (cos_sim m v w) (-1) 1)) *
      (w.getD i 0 / (euclidean_norm m v * euclidean_norm m w) -
        clamp (cos_sim m v w) (-1) 1 * v.getD i 0 /
          (euclidean_norm m v * euclidean_norm m v))

/-! ## The type `double`

The claims on the exact relation between two computations of the hasher and of the
collision probability are checked on the arithmetic that the compiled code runs:
IEEE 754 binary64 with rounding to nearest, ties to even, every operation rounded
on its own (no fused multiply-add). -/

/-- The values of the C++ type `double` (IEEE 754 binary64): the finite values as
rational numbers, the two infinities, and NaN.  The sign of a zero and the payload
of a NaN are not represented. -/
inductive Double where
  | fin (q : ℚ)
  | pinf
  | ninf
  | nan
  deriving DecidableEq

namespace Double

/-- The nearest integer of `x`, the even one of the two when `x` lies halfway. -/
def rne {K : Type} [LinearOrderedField K] [FloorRing K] (x : K) : Int :=
  if x - ⌊x⌋ < 1 / 2 then ⌊x⌋
  else if 1 / 2 < x - ⌊x⌋ then ⌊x⌋ + 1
  else if ⌊x⌋ % 2 = 0 then ⌊x⌋ else ⌊x⌋ + 1

/-- Rounding of a positive number `a` to a `double`.  With `2 ^ e ≤ a < 2 ^ (e + 1)`
the representable numbers around `a` are the multiples of `2 ^ (e - 52)` (53
significant bits); below `2 ^ (-1022)` they are the multiples of `2 ^ (-1074)`
(subnormal numbers).  A rounded value of `2 ^ 1024` or more is an overflow. -/
def round_pos {K : Type} [LinearOrderedField K] [FloorRing K] (a : K) : Double :=
  let e := max (Int.log 2 a) (-1022)
  let r : ℚ := rne (a / 2 ^ (e - 52)) * 2 ^ (e - 52)
  if r < 2 ^ 1024 then fin r else pinf

/-- The negation of a `double`, which is exact. -/
def neg : Double → Double
  | fin q => fin (-q)
  | pinf => ninf
  | ninf => pinf
  | nan => nan

/-- Rounding to nearest, ties to even, of a number to a `double`. -/
def round {K : Type} [LinearOrderedField K] [FloorRing K] (x : K) : Double :=
  if x = 0 then fin 0 else if 0 < x then round_pos x else neg (round_pos (-x))

/-- The sum of two `double`s. -/
def add : Double → Double → Double
  | fin x, fin y => round (x + y)
  | fin _, pinf => pinf
  | fin _, ninf => ninf
  | pinf, fin _ => pinf
  | pinf, pinf => pinf
  | pinf, ninf => nan
  | ninf, fin _ => ninf
  | ninf, ninf => ninf
  | ninf, pinf => nan
  | nan, _ => nan
  | _, nan => nan

/-- The product of two `double`s. -/
def mul : Double → Double → Double
  | fin x, fin y => round (x * y)
  | fin x, pinf => if x = 0 then nan else if 0 < x then pinf else ninf
  | fin x, ninf => if x = 0 then nan else if 0 < x then ninf else pinf
  | pinf, fin y => if y = 0 then nan else if 0 < y then pinf else ninf
  | ninf, fin y => if y = 0 then nan else if 0 < y then ninf else pinf
  | pinf, pinf => pinf
  | pinf, ninf => ninf
  | ninf, pinf => ninf
  | ninf, ninf => pinf
  | nan, _ => nan
  | _, nan => nan

/-- The quotient of two `double`s.  A zero divisor counts as `+0`. -/
def div : Double → Double → Double
  | fin x, fin y =>
    if y = 0 then (if x = 0 then nan else if 0 < x then pinf else ninf) else round (x / y)
  | fin _, pinf => fin 0
  | fin _, ninf => fin 0
  | pinf, fin y => if 0 ≤ y then pinf else ninf
  | ninf, fin y => if 0 ≤ y then ninf else pinf
  | pinf, pinf => nan
  | pinf, ninf => nan
  | ninf, pinf => nan
  | ninf, ninf => nan
  | nan, _ => nan
  | _, nan => nan

/-- The comparison `a < b` of two `double`s, false when one of them is NaN. -/
def lt : Double → Double → Bool
  | fin x, fin y => decide (x < y)
  | fin _, pinf => true
  | fin _, ninf => false
  | pinf, _ => false
  | ninf, fin _ => true
  | ninf, pinf => true
  | ninf, ninf => false
  | ninf, nan => false
  | nan, _ => false
  | fin _, nan => false

/-- The comparison `a <= b` of two `double`s, false when one of them is NaN. -/
def le : Double → Double → Bool
  | fin x, fin y => decide (x ≤ y)
  | fin _, pinf => true
  | fin _, ninf => false
  | pinf, pinf => true
  | pinf, fin _ => false
  | pinf, ninf => false
  | pinf, nan => false
  | ninf, nan => false
  | ninf, _ => true
  | nan, _ => false
  | fin _, nan => false

instance : Neg Double := ⟨neg⟩
instance : Add Double := ⟨add⟩
instance : Sub Double := ⟨fun a b => add a (neg b)⟩
instance : Mul Double := ⟨mul⟩
instance : Div Double := ⟨div⟩
instance : LT Double := ⟨fun a b => lt a b = true⟩
instance : LE Double := ⟨fun a b => le a b = true⟩
instance (a b : Double) : Decidable (a < b) := inferInstanceAs (Decidable (lt a b = true))
instance (a b : Double) : Decidable (a ≤ b) := inferInstanceAs (Decidable (le a b = true))

/-- A decimal literal of the source: the `double` nearest to the written number. -/
instance : OfScientific Double :=
  ⟨fun mantissa exponentSign decimalExponent =>
    round (OfScientific.ofScientific mantissa exponentSign decimalExponent : ℚ)⟩

/-- The call `std::min(a, b)`, which returns `b` when `b < a` and `a` otherwise. -/
def min (a b : Double) : Double := if b < a then b else a

/-- The call `std::max(a, b)`, which returns `b` when `a < b` and `a` otherwise. -/
def max (a b : Double) : Double := if a < b then b else a

/-- The call `std::sqrt(x)`, which IEEE 754 requires to be correctly rounded. -/
noncomputable def sqrt : Double → Double
  | fin q => if q < 0 then nan else round (Real.sqrt (q : ℝ))
  | pinf => pinf
  | ninf => nan
  | nan => nan

/-- The call `std::acos(x)` as the correctly rounded arc cosine.  The library
function may differ from it in the last digit; at `x = 1` the C standard fixes the
result `+0`, which is the value here. -/
noncomputable def acos : Double → Double
  | fin q => if q < -1 ∨ 1 < q then nan else round (Real.arccos (q : ℝ))
  | pinf => nan
  | ninf => nan
  | nan => nan

/-- The constant `M_PI`, the `double` nearest to `π`:
`0x1.921FB54442D18p+1 = 884279719003555 / 2 ^ 48`. -/
def M_PI : Double := fin (884279719003555 / 281474976710656)

/-- An operation whose exact result is `x` neither underflows nor overflows: `x` is
zero or of magnitude at least `2 ^ (-1022)`, the smallest normal number, and the
rounded result is not an infinity. -/
def in_range (x : ℚ) : Prop :=
  (x = 0 ∨ (2 : ℚ) ^ (-1022 : ℤ) ≤ |x|) ∧ round x ≠ pinf ∧ round x ≠ ninf

/-- The multiplication `a * b` has finite operands and neither underflows nor
overflows. -/
def mul_in_range : Double → Double → Prop
  | fin x, fin y => in_range (x * y)
  | _, _ => False

/-- The addition `a + b` has finite operands and neither underflows nor overflows. -/
def add_in_range : Double → Double → Prop
  | fin x, fin y => in_range (x + y)
  | _, _ => False

/-- A `double` that is zero or a normal number: a finite value that rounding leaves
unchanged, zero or of magnitude at least `2 ^ (-1022)`. -/
def normal_or_zero : Double → Prop
  | fin q => round q = fin q ∧ (q = 0 ∨ (2 : ℚ) ^ (-1022 : ℤ) ≤ |q|)
  | _ => False

end Double

namespace IEEE

/-- No multiplication and no addition of the call
`std::inner_product(first1, last1, first2, init)` underflows or overflows. -/
def inner_product_in_range : List Double → List Double → Double → Prop
  | x :: xs, y :: ys, acc =>
    Double.mul_in_range x y ∧ Double.add_in_range acc (x * y) ∧
      inner_product_in_range xs ys (acc + x * y)
  | _, _, _ => True


/-- The method `SRPHasher::hash_to_bit` in `double` arithmetic: the guards of
`SRPHasher.hash_to_bit`, the accumulation `acc = acc + x * y` of
`std::inner_product` from `0.0`, and the test `projection >= 0.0`. -/
def hash_to_bit (h : SRPHasher Double) (vec : List Double) (hash_function_index : Int) :
    Char :=
  if !h.initialized || decide (hash_function_index < 0)
      || decide (hash_function_index ≥ h.b)
      || decide ((vec.length : Int) ≠ h.d % 2 ^ 64) then
    '0'
  else
    let projection :=
      inner_product vec (h.random_vectors.getD hash_function_index.toNat []) 0.0
    if projection ≥ 0.0 then '1' else '0'

/-- The call `hasher.generate_code(vec)` on an `SRPHasher` in `double` arithmetic. -/
def generate_code (h : SRPHasher Double) (vec : List Double) : Except Exn String :=
  LSH.generate_code h.b (hash_to_bit h) vec

/-- The file-local function `norm` of the trainer in `double` arithmetic. -/
noncomputable def norm (v : List Double) : Double :=
  Double.sqrt (inner_product v v 0.0)

/-- The file-local function `dot_product` of the trainer in `double` arithmetic. -/
def dot_product (v1 v2 : List Double) : Double :=
  inner_product v1 v2 0.0

/-- The method `SRPR_Trainer::calculate_p_srp` in `double` arithmetic. -/
noncomputable def calculate_p_srp (v1 v2 : List Double) : Double :=
  let n1 := norm v1
  let n2 := norm v2
  if n1 < 1e-12 ∨ n2 < 1e-12 then
    0.5
  else
    let cosine_sim := dot_product v1 v2 / (n1 * n2)
    let cosine_sim := Double.max (-1.0) (Double.min 1.0 cosine_sim)
    1.0 - (Double.acos cosine_sim / Double.M_PI)

end IEEE

/-- The hasher `hasher_7` with its entries as `double`s. -/
def hasher_7_double : SRPHasher Double :=
  { d := 2, b := 3
    random_vectors := [[.fin (-2), .fin (-1)], [.fin 0, .fin 1], [.fin 2, .fin 3]]
    initialized := true }

/-! ## The gradients in `double` arithmetic -/

namespace Double

/-- The conversion of an `int` to `double`. -/
def ofInt (n : Int) : Double := round (n : ℚ)

/-- The call `std::erf(x)` as the correctly rounded error function; at `x = 0` the
C standard fixes the result `0`, which is the value here. -/
noncomputable def erf : Double → Double
  | fin q => round (SRPR.erf (q : ℝ))
  | pinf => fin 1
  | ninf => fin (-1)
  | nan => nan

/-- The call `std::exp(x)` as the correctly rounded exponential; at `x = 0` the
C standard fixes the result `1`, which is the value here. -/
noncomputable def exp : Double → Double
  | fin q => round (Real.exp (q : ℝ))
  | pinf => pinf
  | ninf => fin 0
  | nan => nan

end Double

namespace IEEE

/-- The method `SRPR_Trainer::calculate_gamma` in `double` arithmetic. -/
noncomputable def calculate_gamma (p_ui p_uj : Double) (_b : Int) : Double :=
  let p_ui := Double.max 1e-12 (Double.min (1.0 - 1e-12) p_ui)
  let p_uj := Double.max 1e-12 (Double.min (1.0 - 1e-12) p_uj)
  let numerator := p_uj - p_ui
  let variance_ui := p_ui * (1.0 - p_ui)
  let variance_uj := p_uj * (1.0 - p_uj)
  let denominator := Double.sqrt (variance_ui + variance_uj)
  if denominator < 1e-12 then
    0.0
  else
    numerator / denominator

/-- The method `SRPR_Trainer::calculate_gamma_derivatives` in `double` arithmetic. -/
noncomputable def calculate_gamma_derivatives (p_ui p_uj : Double) (_b : Int) :
    Double × Double :=
  let p_ui := Double.max 1e-12 (Double.min (1.0 - 1e-12) p_ui)
  let p_uj := Double.max 1e-12 (Double.min (1.0 - 1e-12) p_uj)
  let var_ui := p_ui * (1.0 - p_ui)
  let var_uj := p_uj * (1.0 - p_uj)
  let sigma := Double.sqrt (var_ui + var_uj)
  if sigma < 1e-12 then
    (0.0, 0.0)
  else
    let numerator := p_uj - p_ui
    let dgamma_dpui_num := -sigma - numerator * (1.0 - 2.0 * p_ui) / (2.0 * sigma)
    let dgamma_dpui := dgamma_dpui_num / (sigma * sigma)
    let dgamma_dpuj_num := sigma - numerator * (1.0 - 2.0 * p_uj) / (2.0 * sigma)
    let dgamma_dpuj := dgamma_dpuj_num / (sigma * sigma)
    (dgamma_dpui, dgamma_dpuj)

/-- The method `SRPR_Trainer::phi` in `double` arithmetic. -/
noncomputable def phi (x : Double) : Double :=
  0.5 * (1.0 + Double.erf (x / Double.sqrt 2.0))

/-- The method `SRPR_Trainer::phi_prime` in `double` arithmetic. -/
noncomputable def phi_prime (x : Double) : Double :=
  (1.0 / Double.sqrt (2.0 * Double.M_PI)) * Double.exp (-0.5 * x * x)

/-- The method `SRPR_Trainer::calculate_p_srp_derivatives` in `double` arithmetic. -/
noncomputable def calculate_p_srp_derivatives (v1 v2 : List Double) :
    List Double × List Double :=
  let d := v1.length
  let grad_v1 : List Double := List.replicate d 0.0
  let grad_v2 : List Double := List.replicate d 0.0
  let n1 := norm v1
  let n2 := norm v2
  if n1 < 1e-12 ∨ n2 < 1e-12 then
    (grad_v1, grad_v2)
  else
    let dot_prod := dot_product v1 v2
    let cosine_sim := dot_prod / (n1 * n2)
    let cosine_sim := Double.max (-1.0) (Double.min 1.0 cosine_sim)
    let sin_theta := Double.sqrt (1.0 - cosine_sim * cosine_sim)
    if sin_theta < 1e-12 then
      (grad_v1, grad_v2)
    else
      let dp_dcos := 1.0 / (Double.M_PI * sin_theta)
      (List.range d).foldl
        (fun (g : List Double × List Double) i =>
          let dcos_dv1i :=
            v2.getD i 0.0 / (n1 * n2) - (cosine_sim * v1.getD i 0.0) / (n1 * n1)
          let dcos_dv2i :=
            v1.getD i 0.0 / (n1 * n2) - (cosine_sim * v2.getD i 0.0) / (n2 * n2)
          (g.1.set i (dp_dcos * dcos_dv1i), g.2.set i (dp_dcos * dcos_dv2i)))
        (grad_v1, grad_v2)

/-- The method `SRPR_Trainer::compute_gradients` in `double` arithmetic, returning
the three gradients that the source writes through its output parameters. -/
noncomputable def compute_gradients (store : UserItemStore Double) (triplet : Triplet)
    (params : TrainingParams Double) :
    Except Exn (List Double × List Double × List Double) :=
  match store.get_user_vector triplet.user_id with
  | .error e => .error e
  | .ok xu =>
    match store.get_item_vector triplet.preferred_item_id with
    | .error e => .error e
    | .ok yi =>
      match store.get_item_vector triplet.less_preferred_item_id with
      | .error e => .error e
      | .ok yj =>
        let d := xu.length
        let grad_xu : List Double := List.replicate d 0.0
        let grad_yi : List Double := List.replicate d 0.0
        let grad_yj : List Double := List.replicate d 0.0
        let p_ui := calculate_p_srp xu yi
        let p_uj := calculate_p_srp xu yj
        let gamma := calculate_gamma p_ui p_uj params.b_lsh_length
        let sqrt_b_gamma := Double.sqrt (Double.ofInt params.b_lsh_length) * gamma
        let gamma_derivs := calculate_gamma_derivatives p_ui p_uj params.b_lsh_length
        let dgamma_dpui := gamma_derivs.1
        let dgamma_dpuj := gamma_derivs.2
        let phi_val := phi sqrt_b_gamma
        let phi_prime_val := phi_prime sqrt_b_gamma
        if phi_val < 1e-12 then
          .ok (grad_xu, grad_yi, grad_yj)
        else
          let common_factor :=
            (phi_prime_val / phi_val) * Double.sqrt (Double.ofInt params.b_lsh_length)
          let dpui_derivs := calculate_p_srp_derivatives xu yi
          let dpui_dxu := dpui_derivs.1
          let dpui_dyi := dpui_derivs.2
          let dpuj_derivs := calculate_p_srp_derivatives xu yj
          let dpuj_dxu := dpuj_derivs.1
          let dpuj_dyj := dpuj_derivs.2
          .ok ((List.range d).foldl
            (fun (g : List Double × List Double × List Double) k =>
              (g.1.set k (common_factor *
                  (dgamma_dpui * dpui_dxu.getD k 0.0 + dgamma_dpuj * dpuj_dxu.getD k 0.0)),
                g.2.1.set k (common_factor * dgamma_dpui * dpui_dyi.getD k 0.0),
                g.2.2.set k (common_factor * dgamma_dpuj * dpuj_dyj.getD k 0.0)))
            (grad_xu, grad_yi, grad_yj))

end IEEE

/-- A store of dimension `2` with the user `1` at `(5, 1)` and the items `10` and
`20` at `(1, -5)` and `(-1, 5)`, both orthogonal to the user vector. -/
def store_orth_double : UserItemStore Double :=
  { d := 2
    user_vectors := [(1, [.fin 5, .fin 1])]
    item_vectors := [(10, [.fin 1, .fin (-5)]), (20, [.fin (-1), .fin 5])]
    dist := fun _ => .fin 0
    rng := 0 }

/-- The default values of `TrainingParams` as `double`s. -/
def default_params_double : TrainingParams Double :=
  { epochs := 10, learning_rate := 0.01, b_lsh_length := 16, regularization := 0.001,
    verbose := true, validation_freq := 5 }

/-! # Lemmas and claims

## The hasher -/

theorem foldl_push_data (f : Nat → Char) (l : List Nat) (s : String) :
    (l.foldl (fun code i => code.push (f i)) s).data = s.data ++ l.map f := by
  induction l generalizing s with
  | nil => simp
  | cons a l ih =>
    rw [List.foldl_cons, ih]
    simp [String.push]

theorem generate_code_ok {F : Type} (b : Int) (hash_to_bit : List F → Int → Char)
    (vec : List F) (hb : 0 ≤ b) :
    LSH.generate_code b hash_to_bit vec =
      .ok (String.mk ((List.range b.toNat).map fun (i : Nat) => hash_to_bit vec (i : Int))) := by
  unfold LSH.generate_code
  rw [if_neg (not_lt.mpr hb)]
  congr 1
  apply String.ext
  rw [foldl_push_data (fun (i : Nat) => hash_to_bit vec (i : Int))]
  simp

theorem inner_product_eq_add_dot {F : Type} [LinearOrderedField F] (v w : List F) (acc : F) :
    inner_product v w acc = acc + dot v w := by
  induction v generalizing w acc with
  | nil => simp [inner_product, dot]
  | cons x xs ih =>
    cases w with
    | nil => simp [inner_product, dot]
    | cons y ys =>
      simp only [inner_product, ih, dot, List.zipWith_cons_cons, List.sum_cons]
      ring

theorem inner_product_zero_eq_dot {F : Type} [LinearOrderedField F] (v w : List F) :
    inner_product v w 0 = dot v w := by
  rw [inner_product_eq_add_dot, zero_add]

/-! ## Claims on the hasher -/

/-- C1: for every hasher with bit-length `b ≥ 0` and every vector, of any length,
`generate_code` returns a code of exactly `b` characters. -/
theorem C1_generate_code_length {F : Type} [LinearOrderedField F] (h : SRPHasher F)
    (vec : List F) (hb : 0 ≤ h.b) :
    ∃ code, h.generate_code vec = .ok code ∧ (code.length : Int) = h.b := by
  refine ⟨_, generate_code_ok h.b h.hash_to_bit vec hb, ?_⟩
  simp [String.length, Int.toNat_of_nonneg hb]

/-- A constructed hasher carries the constructor arguments, is initialized, and
its family is the table of draws. -/
theorem SRPHasher.new_ok {F : Type} {dimensions num_hashes : Int} {seed entropy : Nat}
    {gen : Nat → Nat → F} {h : SRPHasher F}
    (hnew : SRPHasher.new dimensions num_hashes seed entropy gen = .ok h) :
    0 ≤ num_hashes ∧ (0 < num_hashes → 0 ≤ dimensions) ∧ h.d = dimensions ∧
      h.b = num_hashes ∧ h.initialized = true ∧
      h.random_vectors = (List.range num_hashes.toNat).map (fun i =>
        (List.range dimensions.toNat).map fun j =>
          gen (if seed = 0 then entropy else seed) (i * dimensions.toNat + j)) := by
  unfold SRPHasher.new at hnew
  by_cases h1 : num_hashes < 0
  · simp [h1] at hnew
  · by_cases h2 : 0 < num_hashes ∧ dimensions < 0
    · simp [h1, h2] at hnew
    · rw [if_neg h1, if_neg h2] at hnew
      injection hnew with hnew
      subst hnew
      refine ⟨not_lt.mp h1, fun hp => ?_, rfl, rfl, rfl, rfl⟩
      by_contra hneg
      exact h2 ⟨hp, not_le.mp hneg⟩

theorem is_int_emod {x : Int} (hx : is_int x) (h0 : 0 ≤ x) : x % 2 ^ 64 = x := by
  apply Int.emod_eq_of_lt h0
  have := hx.2
  omega

theorem hash_to_bit_of_guard {F : Type} [LinearOrderedField F] (h : SRPHasher F)
    (vec : List F) (i : Nat) (hinit : h.initialized = true) (hi : (i : Int) < h.b)
    (hlen : (vec.length : Int) = h.d % 2 ^ 64) :
    h.hash_to_bit vec (i : Int) =
      if 0 ≤ dot vec (h.random_vectors.getD i []) then '1' else '0' := by
  have h2 : ¬ ((i : Int) < 0) := not_lt.mpr (Int.ofNat_nonneg _)
  have h3 : ¬ ((i : Int) ≥ h.b) := not_le.mpr hi
  unfold SRPHasher.hash_to_bit
  rw [if_neg]
  · simp only [inner_product_zero_eq_dot, ge_iff_le, Int.toNat_ofNat]
  · simp only [hinit, Bool.not_true, Bool.false_or, Bool.or_eq_true, decide_eq_true_eq,
      not_or, not_not]
    exact ⟨⟨h2, h3⟩, hlen⟩

theorem hash_to_bit_of_length_ne {F : Type} [LinearOrderedField F] (h : SRPHasher F)
    (vec : List F) (i : Int) (hlen : (vec.length : Int) ≠ h.d % 2 ^ 64) :
    h.hash_to_bit vec i = '0' := by
  unfold SRPHasher.hash_to_bit
  rw [if_pos]
  simp only [Bool.or_eq_true, decide_eq_true_eq]
  exact Or.inr hlen

theorem hasher_7_new :
    SRPHasher.new 2 3 7 0 (fun _ k => (k : ℚ) - 2) = .ok hasher_7 := by
  simp only [SRPHasher.new, hasher_7]
  norm_num [List.range, List.range.loop, Int.toNat]

/-- C1 at the hasher `hasher_7` and a vector of the wrong length. -/
theorem C1_generate_code_length_witness :
    (0 : Int) ≤ hasher_7.b ∧
    ∃ code, hasher_7.generate_code [1, 1, 1] = .ok code ∧ (code.length : Int) = hasher_7.b :=
  ⟨by decide, C1_generate_code_length _ _ (by decide)⟩

/-- C2: on a constructed hasher of dimension `d` with `b` bits, for a vector `v` of
length `d` and an index `i < b`, the `i`-th character of `generate_code v` is `'1'`
when the dot product of `v` with the `i`-th projection vector is `≥ 0`, and `'0'`
otherwise. -/
theorem C2_generate_code_bit {F : Type} [LinearOrderedField F]
    (dimensions num_hashes : Int) (seed entropy : Nat) (gen : Nat → Nat → F)
    (h : SRPHasher F) (v : List F) (i : Nat)
    (hd : is_int dimensions)
    (hnew : SRPHasher.new dimensions num_hashes seed entropy gen = .ok h)
    (hv : (v.length : Int) = dimensions) (hi : (i : Int) < num_hashes) :
    ∃ code a, h.generate_code v = .ok code ∧ h.random_vectors[i]? = some a ∧
      code.data[i]? = some (if 0 ≤ dot v a then '1' else '0') := by
  obtain ⟨hb0, -, hd', hb', hinit, hrv⟩ := SRPHasher.new_ok hnew
  have hilt : i < num_hashes.toNat := by omega
  have hlen : h.random_vectors.length = num_hashes.toNat := by simp [hrv]
  have hget : h.random_vectors[i]? = some (h.random_vectors.getD i []) := by
    rw [List.getD_eq_getElem?_getD, List.getElem?_eq_getElem (by omega)]
    simp
  refine ⟨_, h.random_vectors.getD i [],
    generate_code_ok h.b h.hash_to_bit v (by omega), hget, ?_⟩
  have hdn : 0 ≤ dimensions := by rw [← hv]; exact Int.ofNat_nonneg _
  have h4 : (v.length : Int) = h.d % 2 ^ 64 := by
    rw [hd', is_int_emod hd hdn]; exact hv
  have hidx : (List.range h.b.toNat)[i]? = some i :=
    List.getElem?_range (by rw [hb']; exact hilt)
  rw [List.getElem?_map, hidx, Option.map_some',
    hash_to_bit_of_guard h v i hinit (by omega) h4]

/-- C2 at `hasher_7`, the vector `(1, -1)` and the index `1`. -/
theorem C2_generate_code_bit_witness :
    is_int 2 ∧ SRPHasher.new 2 3 7 0 (fun _ k => (k : ℚ) - 2) = .ok hasher_7 ∧
    (([1, -1] : List ℚ).length : Int) = 2 ∧ ((1 : Nat) : Int) < (3 : Int) ∧
    ∃ code, ∃ a : List ℚ, hasher_7.generate_code [1, -1] = .ok code ∧
      hasher_7.random_vectors[1]? = some a ∧
      code.data[1]? = some (if 0 ≤ dot [1, -1] a then '1' else '0') :=
  ⟨by decide, hasher_7_new, rfl, by decide,
    C2_generate_code_bit 2 3 7 0 _ _ [1, -1] 1 (by decide) hasher_7_new rfl (by decide)⟩

/-- C3: on a constructed hasher of dimension `d` with `b` bits, `generate_code` of a
vector whose length is not `d` does not fail and returns `b` characters `'0'`. -/
theorem C3_wrong_dimension_all_zero {F : Type} [LinearOrderedField F]
    (dimensions num_hashes : Int) (seed entropy : Nat) (gen : Nat → Nat → F)
    (h : SRPHasher F) (vec : List F)
    (hd : is_int dimensions)
    (hnew : SRPHasher.new dimensions num_hashes seed entropy gen = .ok h)
    (hlen : (vec.length : Int) ≠ dimensions) :
    h.generate_code vec = .ok (String.mk (List.replicate h.b.toNat '0')) ∧
      ((List.replicate h.b.toNat '0').length : Int) = h.b := by
  obtain ⟨hb0, hdim, hd', hb', hinit, -⟩ := SRPHasher.new_ok hnew
  refine ⟨?_, by simp [hb', Int.toNat_of_nonneg hb0]⟩
  rw [SRPHasher.generate_code, generate_code_ok h.b h.hash_to_bit vec (by omega)]
  congr 2
  rw [List.eq_replicate_iff]
  refine ⟨by simp, ?_⟩
  intro c hc
  simp only [List.mem_map, List.mem_range] at hc
  obtain ⟨i, hi, rfl⟩ := hc
  have hpos : 0 < num_hashes := by omega
  have hne : (vec.length : Int) ≠ h.d % 2 ^ 64 := by
    rw [hd', is_int_emod hd (hdim hpos)]; exact hlen
  exact hash_to_bit_of_length_ne h vec _ hne

/-- C3 at `hasher_7`, on the empty vector. -/
theorem C3_wrong_dimension_all_zero_witness :
    is_int 2 ∧ SRPHasher.new 2 3 7 0 (fun _ k => (k : ℚ) - 2) = .ok hasher_7 ∧
    (([] : List ℚ).length : Int) ≠ 2 ∧ hasher_7.generate_code [] = .ok "000" :=
  ⟨by decide, hasher_7_new, by decide,
    (C3_wrong_dimension_all_zero 2 3 7 0 _ _ [] (by decide) hasher_7_new (by decide)).1⟩

/-! ## The vector store -/

theorem mem_set_insert (a x : Int) (l : List Int) :
    a ∈ set_insert x l ↔ a = x ∨ a ∈ l := by
  induction l with
  | nil => simp [set_insert]
  | cons y ys ih =>
    unfold set_insert
    by_cases h1 : x < y
    · simp [h1]
    · by_cases h2 : x = y
      · subst h2
        simp
      · simp only [h1, h2, if_false, List.mem_cons, ih]
        tauto

theorem mem_user_ids (a : Int) (ts : List Triplet) (acc : List Int) :
    a ∈ ts.foldl (fun ids t => set_insert t.user_id ids) acc ↔
      a ∈ acc ∨ ∃ t ∈ ts, t.user_id = a := by
  induction ts generalizing acc with
  | nil => simp
  | cons t ts ih =>
    rw [List.foldl_cons, ih, mem_set_insert]
    simp only [List.mem_cons, exists_eq_or_imp]
    constructor
    · rintro ((h | h) | h)
      · exact Or.inr (Or.inl h.symm)
      · exact Or.inl h
      · exact Or.inr (Or.inr h)
    · rintro (h | h | h)
      · exact Or.inl (Or.inr h)
      · exact Or.inl (Or.inl h.symm)
      · exact Or.inr h

theorem mem_item_ids (a : Int) (ts : List Triplet) (acc : List Int) :
    a ∈ ts.foldl (fun ids t =>
        set_insert t.less_preferred_item_id (set_insert t.preferred_item_id ids)) acc ↔
      a ∈ acc ∨ ∃ t ∈ ts, t.preferred_item_id = a ∨ t.less_preferred_item_id = a := by
  induction ts generalizing acc with
  | nil => simp
  | cons t ts ih =>
    rw [List.foldl_cons, ih, mem_set_insert, mem_set_insert]
    simp only [List.mem_cons, exists_eq_or_imp]
    constructor
    · rintro ((h | h | h) | h)
      · exact Or.inr (Or.inl (Or.inr h.symm))
      · exact Or.inr (Or.inl (Or.inl h.symm))
      · exact Or.inl h
      · exact Or.inr (Or.inr h)
    · rintro (h | (h | h) | h)
      · exact Or.inl (Or.inr (Or.inr h))
      · exact Or.inl (Or.inr (Or.inl h.symm))
      · exact Or.inl (Or.inl h.symm)
      · exact Or.inr h

theorem umap_at_assign {V : Type} (m : List (Int × V)) (k k' : Int) (v : V) :
    umap_at (umap_assign m k v) k' = if k = k' then .ok v else umap_at m k' := by
  induction m with
  | nil => simp [umap_assign, umap_at]
  | cons e rest ih =>
    obtain ⟨k0, v0⟩ := e
    unfold umap_assign
    by_cases h : k0 = k
    · subst h
      by_cases h' : k0 = k' <;> simp [umap_at, h']
    · by_cases h' : k0 = k'
      · subst h'
        simp [h, umap_at, Ne.symm h]
      · simp [h, h', umap_at, ih]

theorem keys_umap_assign {V : Type} (m : List (Int × V)) (k a : Int) (v : V) :
    a ∈ (umap_assign m k v).map Prod.fst ↔ a = k ∨ a ∈ m.map Prod.fst := by
  induction m with
  | nil => simp [umap_assign]
  | cons e rest ih =>
    obtain ⟨k0, v0⟩ := e
    unfold umap_assign
    by_cases h : k0 = k
    · subst h
      simp
    · simp only [h, if_false, List.map_cons, List.mem_cons, ih]
      tauto

theorem nodup_keys_umap_assign {V : Type} (m : List (Int × V)) (k : Int) (v : V)
    (hm : (m.map Prod.fst).Nodup) : ((umap_assign m k v).map Prod.fst).Nodup := by
  induction m with
  | nil => simp [umap_assign]
  | cons e rest ih =>
    obtain ⟨k0, v0⟩ := e
    rw [List.map_cons, List.nodup_cons] at hm
    unfold umap_assign
    by_cases h : k0 = k
    · subst h
      simpa using hm
    · simp only [h, if_false, List.map_cons, List.nodup_cons]
      refine ⟨?_, ih hm.2⟩
      rw [keys_umap_assign]
      rintro (h' | h')
      · exact h h'
      · exact hm.1 h'

theorem values_umap_assign {V : Type} (P : V → Prop) (m : List (Int × V)) (k : Int) (v : V)
    (hv : P v) (hm : ∀ e ∈ m, P e.2) : ∀ e ∈ umap_assign m k v, P e.2 := by
  induction m with
  | nil =>
    intro e he
    simp only [umap_assign, List.mem_singleton] at he
    subst he
    exact hv
  | cons e0 rest ih =>
    obtain ⟨k0, v0⟩ := e0
    unfold umap_assign
    by_cases h : k0 = k
    · simp only [h, if_true, List.mem_cons]
      rintro e (rfl | he)
      · exact hv
      · exact hm e (List.mem_cons_of_mem _ he)
    · simp only [h, if_false, List.mem_cons]
      rintro e (rfl | he)
      · exact hm _ (List.mem_cons_self _ _)
      · exact ih (fun e he => hm e (List.mem_cons_of_mem _ he)) e he

theorem umap_at_error_iff {V : Type} (m : List (Int × V)) (k : Int) :
    umap_at m k = .error Exn.out_of_range ↔ k ∉ m.map Prod.fst := by
  induction m with
  | nil => simp [umap_at]
  | cons e rest ih =>
    obtain ⟨k0, v0⟩ := e
    unfold umap_at
    by_cases h : k0 = k
    · simp [h]
    · simp [h, ih, Ne.symm h]

theorem umap_at_of_mem_keys {V : Type} (m : List (Int × V)) (k : Int)
    (hk : k ∈ m.map Prod.fst) : ∃ v, umap_at m k = .ok v ∧ (k, v) ∈ m := by
  induction m with
  | nil => simp at hk
  | cons e rest ih =>
    obtain ⟨k0, v0⟩ := e
    unfold umap_at
    by_cases h : k0 = k
    · subst h
      exact ⟨v0, by simp, List.mem_cons_self _ _⟩
    · simp only [List.map_cons, List.mem_cons] at hk
      obtain ⟨v, hv, hmem⟩ := ih (hk.resolve_left (Ne.symm h))
      exact ⟨v, by simp [h, hv], List.mem_cons_of_mem _ hmem⟩

theorem fill_vector_length {F : Type} (dist : Nat → F) (d : Int) (v : List F) (rng : Nat) :
    (fill_vector dist d v rng).1.length = v.length := by
  unfold fill_vector
  generalize List.range d.toNat = l
  suffices h : ∀ st : List F × Nat,
      (l.foldl (fun (st : List F × Nat) i => (st.1.set i (dist st.2), st.2 + 1)) st).1.length
        = st.1.length from h (v, rng)
  induction l with
  | nil => intro st; rfl
  | cons i l ih =>
    intro st
    rw [List.foldl_cons, ih]
    simp

theorem init_loop_ok {F : Type} [Zero F] (d : Int) (dist : Nat → F) (hd : 0 ≤ d)
    (ids : List Int) (st : List (Int × List F) × Nat) (hst : map_ok d st.1) :
    ∃ st', ids.foldlM (init_vector d dist) st = .ok st' ∧ map_ok d st'.1 ∧
      ∀ a, a ∈ st'.1.map Prod.fst ↔ a ∈ ids ∨ a ∈ st.1.map Prod.fst := by
  induction ids generalizing st with
  | nil => exact ⟨st, rfl, hst, by simp⟩
  | cons id ids ih =>
    have hstep : init_vector d dist st id =
        .ok (umap_assign st.1 id (fill_vector dist d (List.replicate d.toNat 0) st.2).1,
          (fill_vector dist d (List.replicate d.toNat 0) st.2).2) := by
      unfold init_vector
      rw [if_neg (not_lt.mpr hd)]
    have hok : map_ok d
        (umap_assign st.1 id (fill_vector dist d (List.replicate d.toNat 0) st.2).1) := by
      refine ⟨nodup_keys_umap_assign _ _ _ hst.1, ?_⟩
      apply values_umap_assign (fun v : List F => (v.length : Int) = d) _ _ _ _ hst.2
      rw [fill_vector_length, List.length_replicate, Int.toNat_of_nonneg hd]
    obtain ⟨st', h1, h2, h3⟩ := ih
      (umap_assign st.1 id (fill_vector dist d (List.replicate d.toNat 0) st.2).1,
        (fill_vector dist d (List.replicate d.toNat 0) st.2).2) hok
    refine ⟨st', ?_, h2, ?_⟩
    · rw [List.foldlM_cons, hstep]
      exact h1
    · intro a
      rw [h3, keys_umap_assign, List.mem_cons]
      tauto

theorem map_ok_nil {F : Type} (d : Int) : map_ok d ([] : List (Int × List F)) :=
  ⟨by simp, by simp⟩

/-- The result of `initialize` on a fresh store of dimension `d ≥ 0`: both maps
satisfy the invariant, and their keys are the collected ids. -/
theorem initialize_fresh {F : Type} [Zero F] (dimensions : Int) (dist : Nat → F)
    (triplets : List Triplet) (hd : 0 ≤ dimensions) :
    ∃ s, UserItemStore.initialize (UserItemStore.new dimensions dist) triplets = .ok s ∧
      map_ok dimensions s.user_vectors ∧ map_ok dimensions s.item_vectors ∧
      (∀ a, a ∈ s.user_vectors.map Prod.fst ↔ ∃ t ∈ triplets, t.user_id = a) ∧
      (∀ a, a ∈ s.item_vectors.map Prod.fst ↔
        ∃ t ∈ triplets, t.preferred_item_id = a ∨ t.less_preferred_item_id = a) := by
  obtain ⟨us, hu1, hu2, hu3⟩ := init_loop_ok dimensions dist hd
    (triplets.foldl (fun ids t => set_insert t.user_id ids) []) ([], 0) (map_ok_nil _)
  obtain ⟨is, hi1, hi2, hi3⟩ := init_loop_ok dimensions dist hd
    (triplets.foldl (fun ids t =>
      set_insert t.less_preferred_item_id (set_insert t.preferred_item_id ids)) [])
    ([], us.2) (map_ok_nil _)
  refine ⟨{ UserItemStore.new dimensions dist with
    user_vectors := us.1, item_vectors := is.1, rng := is.2 }, ?_, hu2, hi2, ?_, ?_⟩
  · simp only [ UserItemStore.initialize, UserItemStore.new, hu1, hi1]
  · intro a
    rw [hu3, mem_user_ids]
    simp
  · intro a
    rw [hi3, mem_item_ids]
    simp

/-- C4: after `initialize(triplets)` on a fresh store of dimension `d`, for every
input triplet the user vector and the two item vectors are found and have length
`d`, and `get_all_item_vectors` has exactly one entry per item id of the triplets
(the user map has pairwise distinct keys as well). -/
theorem C4_initialize_creates_vectors {F : Type} [Zero F] (dimensions : Int)
    (dist : Nat → F) (triplets : List Triplet) (hd : 0 ≤ dimensions) :
    ∃ s, UserItemStore.initialize (UserItemStore.new dimensions dist) triplets = .ok s ∧
      (∀ t ∈ triplets, ∃ xu yi yj,
        s.get_user_vector t.user_id = .ok xu ∧ (xu.length : Int) = dimensions ∧
        s.get_item_vector t.preferred_item_id = .ok yi ∧ (yi.length : Int) = dimensions ∧
        s.get_item_vector t.less_preferred_item_id = .ok yj ∧
          (yj.length : Int) = dimensions) ∧
      (s.get_all_item_vectors.map Prod.fst).Nodup ∧
      (∀ id, id ∈ s.get_all_item_vectors.map Prod.fst ↔
        ∃ t ∈ triplets, t.preferred_item_id = id ∨ t.less_preferred_item_id = id) ∧
      (s.user_vectors.map Prod.fst).Nodup := by
  obtain ⟨s, hs, hu, hi, hku, hki⟩ := initialize_fresh dimensions dist triplets hd
  refine ⟨s, hs, ?_, hi.1, hki, hu.1⟩
  intro t ht
  obtain ⟨xu, hxu, hxm⟩ := umap_at_of_mem_keys s.user_vectors t.user_id
    ((hku _).2 ⟨t, ht, rfl⟩)
  obtain ⟨yi, hyi, hyim⟩ := umap_at_of_mem_keys s.item_vectors t.preferred_item_id
    ((hki _).2 ⟨t, ht, Or.inl rfl⟩)
  obtain ⟨yj, hyj, hyjm⟩ := umap_at_of_mem_keys s.item_vectors t.less_preferred_item_id
    ((hki _).2 ⟨t, ht, Or.inr rfl⟩)
  exact ⟨xu, yi, yj, hxu, hu.2 _ hxm, hyi, hi.2 _ hyim, hyj, hi.2 _ hyjm⟩

/-- C4 at the concrete scenario of the specification: dimension `4`, the triplets
`(1,10,20), (1,10,30), (2,40,50)`, with the draws `0, 1, 2, ...`. -/
theorem C4_initialize_creates_vectors_witness :
    (0 : Int) ≤ 4 ∧
    ∃ s, UserItemStore.initialize (UserItemStore.new 4 (fun k => (k : ℚ))) scenario_triplets = .ok s ∧
      (∀ t ∈ scenario_triplets, ∃ xu yi yj,
        s.get_user_vector t.user_id = .ok xu ∧ (xu.length : Int) = 4 ∧
        s.get_item_vector t.preferred_item_id = .ok yi ∧ (yi.length : Int) = 4 ∧
        s.get_item_vector t.less_preferred_item_id = .ok yj ∧ (yj.length : Int) = 4) ∧
      (s.get_all_item_vectors.map Prod.fst).Nodup ∧
      (∀ id, id ∈ s.get_all_item_vectors.map Prod.fst ↔
        ∃ t ∈ scenario_triplets, t.preferred_item_id = id ∨ t.less_preferred_item_id = id) ∧
      (s.user_vectors.map Prod.fst).Nodup :=
  ⟨by decide, C4_initialize_creates_vectors 4 _ scenario_triplets (by decide)⟩

/-- C5: after `initialize(triplets)` on a fresh store, `get_user_vector(id)` fails
with `std::out_of_range` exactly when `id` is the user id of no input triplet, and
`get_item_vector(id)` fails exactly when `id` is neither the preferred nor the
less-preferred item id of an input triplet. -/
theorem C5_lookup_fails_iff_unknown {F : Type} [Zero F] (dimensions : Int)
    (dist : Nat → F) (triplets : List Triplet) (hd : 0 ≤ dimensions) :
    ∃ s, UserItemStore.initialize (UserItemStore.new dimensions dist) triplets = .ok s ∧
      ∀ id,
        (s.get_user_vector id = .error Exn.out_of_range ↔
          ¬ ∃ t ∈ triplets, t.user_id = id) ∧
        ((∃ e, s.get_user_vector id = .error e) ↔ ¬ ∃ t ∈ triplets, t.user_id = id) ∧
        (s.get_item_vector id = .error Exn.out_of_range ↔
          ¬ ∃ t ∈ triplets, t.preferred_item_id = id ∨ t.less_preferred_item_id = id) ∧
        ((∃ e, s.get_item_vector id = .error e) ↔
          ¬ ∃ t ∈ triplets, t.preferred_item_id = id ∨ t.less_preferred_item_id = id) := by
  obtain ⟨s, hs, -, -, hku, hki⟩ := initialize_fresh dimensions dist triplets hd
  have hany : ∀ (m : List (Int × List F)) (k : Int),
      (∃ e, umap_at m k = .error e) ↔ umap_at m k = .error Exn.out_of_range := by
    intro m k
    constructor
    · rintro ⟨e, he⟩
      by_contra hne
      have hk : k ∈ m.map Prod.fst := by
        by_contra hk
        exact hne ((umap_at_error_iff m k).2 hk)
      obtain ⟨v, hv, -⟩ := umap_at_of_mem_keys m k hk
      rw [hv] at he
      cases he
    · intro h
      exact ⟨_, h⟩
  refine ⟨s, hs, fun id => ⟨?_, ?_, ?_, ?_⟩⟩
  · rw [UserItemStore.get_user_vector, umap_at_error_iff, hku]
  · rw [UserItemStore.get_user_vector, hany, umap_at_error_iff, hku]
  · rw [UserItemStore.get_item_vector, umap_at_error_iff, hki]
  · rw [UserItemStore.get_item_vector, hany, umap_at_error_iff, hki]

/-- C5 at the concrete scenario of the specification. -/
theorem C5_lookup_fails_iff_unknown_witness :
    (0 : Int) ≤ 4 ∧
    ∃ s, UserItemStore.initialize (UserItemStore.new 4 (fun k => (k : ℚ))) scenario_triplets = .ok s ∧
      s.get_user_vector 99 = .error Exn.out_of_range ∧
      s.get_user_vector 10 = .error Exn.out_of_range ∧
      ¬ s.get_item_vector 10 = .error Exn.out_of_range :=
  ⟨by decide, by
    obtain ⟨s, hs, h⟩ := C5_lookup_fails_iff_unknown 4 (fun k => (k : ℚ))
      scenario_triplets (by decide)
    refine ⟨s, hs, (h 99).1.2 (by decide), (h 10).1.2 (by decide), ?_⟩
    rw [(h 10).2.2.1]
    decide⟩

/-! ## The trainer: collision probability and separation statistic -/

theorem dot_self {F : Type} [LinearOrderedField F] (v : List F) :
    dot v v = (List.map (fun x => x * x) v).sum := by
  induction v with
  | nil => simp [dot]
  | cons x xs ih =>
    simp only [dot, List.zipWith_cons_cons, List.sum_cons, List.map_cons] at ih ⊢
    rw [ih]

theorem norm_eq_euclidean_norm {F : Type} [LinearOrderedField F] (m : CMath F) (v : List F) :
    SRPR_Trainer.norm m v = euclidean_norm m v := by
  rw [SRPR_Trainer.norm, inner_product_zero_eq_dot, dot_self, euclidean_norm]

theorem dot_product_eq_dot {F : Type} [LinearOrderedField F] (v1 v2 : List F) :
    SRPR_Trainer.dot_product v1 v2 = dot v1 v2 :=
  inner_product_zero_eq_dot v1 v2

/-- The value of `calculate_p_srp` in terms of the norms and the cosine similarity,
for any interpretation of the `<cmath>` functions. -/
theorem calculate_p_srp_eq {F : Type} [LinearOrderedField F] (m : CMath F) (v1 v2 : List F) :
    SRPR_Trainer.calculate_p_srp m v1 v2 =
      if euclidean_norm m v1 < 1e-12 ∨ euclidean_norm m v2 < 1e-12 then 0.5
      else 1 - m.acos (clamp (cos_sim m v1 v2) (-1) 1) / m.M_PI := by
  simp only [SRPR_Trainer.calculate_p_srp, norm_eq_euclidean_norm, dot_product_eq_dot, dot,
    clamp, cos_sim]
  norm_num

/-- Norms and collision probabilities of the zero vector and of the unit vectors of
the plane. -/
theorem unit_vector_facts :
    -- euclidean_norm_zero
    (∀ (v : List ℝ),
        (∀ x ∈ v, x = 0) →
        euclidean_norm libm v = 0) ∧
    -- euclidean_norm_unit_x
    (euclidean_norm libm [1, 0] = 1) ∧
    -- euclidean_norm_unit_y
    (euclidean_norm libm [0, 1] = 1) ∧
    -- p_srp_orth_pos
    (SRPR_Trainer.calculate_p_srp libm [1, 0] [0, 1] = 1 / 2) ∧
    -- p_srp_orth_neg
    (SRPR_Trainer.calculate_p_srp libm [1, 0] [0, -1] = 1 / 2) ∧
    -- p_srp_parallel
    (SRPR_Trainer.calculate_p_srp libm [1, 0] [1, 0] = 1) ∧
    -- p_srp_zero_zero
    (SRPR_Trainer.calculate_p_srp libm [0, 0] [0, 0] = 1 / 2) ∧
    -- p_srp_derivatives_zero_zero
    (SRPR_Trainer.calculate_p_srp_derivatives libm [0, 0] [0, 0] = ([0, 0], [0, 0])) ∧
    -- p_srp_opposite
    (SRPR_Trainer.calculate_p_srp libm [1, 0] [-1, 0] = 0) := by
  have euclidean_norm_zero : ∀ (v : List ℝ),
        (∀ x ∈ v, x = 0) →
        euclidean_norm libm v = 0 := by
    intro v hv
    have hs : (List.map (fun x => x * x) v).sum = 0 := by
      apply List.sum_eq_zero
      intro y hy
      obtain ⟨x, hx, rfl⟩ := List.mem_map.1 hy
      rw [hv x hx, mul_zero]
    rw [euclidean_norm, hs]
    exact Real.sqrt_zero
  have euclidean_norm_unit_x : euclidean_norm libm [1, 0] = 1 := by
    simp [euclidean_norm, libm]
  have euclidean_norm_unit_y : euclidean_norm libm [0, 1] = 1 := by
    simp [euclidean_norm, libm]
  have euclidean_norm_unit_neg_y : euclidean_norm libm [0, -1] = 1 := by
    simp [euclidean_norm, libm]
  have calculate_p_srp_of_units : ∀ (v1 v2 : List ℝ),
        euclidean_norm libm v1 = 1 →
        euclidean_norm libm v2 = 1 →
        SRPR_Trainer.calculate_p_srp libm v1 v2 =
          1 - Real.arccos (clamp (dot v1 v2) (-1) 1) / Real.pi := by
    intro v1 v2 h1 h2
    rw [calculate_p_srp_eq, if_neg, cos_sim, h1, h2, mul_one, div_one]
    · rfl
    · rw [h1, h2]
      norm_num
  have p_srp_orth_pos : SRPR_Trainer.calculate_p_srp libm [1, 0] [0, 1] = 1 / 2 := by
    rw [calculate_p_srp_of_units _ _ euclidean_norm_unit_x euclidean_norm_unit_y]
    have hd : dot ([1, 0] : List ℝ) [0, 1] = 0 := by simp [dot]
    have hc : clamp (0 : ℝ) (-1) 1 = 0 := by simp [clamp]
    rw [hd, hc, Real.arccos_zero]
    field_simp
    ring
  have p_srp_orth_neg : SRPR_Trainer.calculate_p_srp libm [1, 0] [0, -1] = 1 / 2 := by
    rw [calculate_p_srp_of_units _ _ euclidean_norm_unit_x euclidean_norm_unit_neg_y]
    have hd : dot ([1, 0] : List ℝ) [0, -1] = 0 := by simp [dot]
    have hc : clamp (0 : ℝ) (-1) 1 = 0 := by simp [clamp]
    rw [hd, hc, Real.arccos_zero]
    field_simp
    ring
  have p_srp_parallel : SRPR_Trainer.calculate_p_srp libm [1, 0] [1, 0] = 1 := by
    rw [calculate_p_srp_of_units _ _ euclidean_norm_unit_x euclidean_norm_unit_x]
    have hd : dot ([1, 0] : List ℝ) [1, 0] = 1 := by simp [dot]
    have hc : clamp (1 : ℝ) (-1) 1 = 1 := by simp [clamp]
    rw [hd, hc, Real.arccos_one, zero_div, sub_zero]
  have p_srp_zero_zero : SRPR_Trainer.calculate_p_srp libm [0, 0] [0, 0] = 1 / 2 := by
    rw [calculate_p_srp_eq, if_pos]
    · norm_num
    · left
      rw [euclidean_norm_zero _ (by simp)]
      norm_num
  have p_srp_derivatives_zero_zero :
      SRPR_Trainer.calculate_p_srp_derivatives libm [0, 0] [0, 0] = ([0, 0], [0, 0]) := by
    have hn : SRPR_Trainer.norm libm [0, 0] = 0 := by
      rw [norm_eq_euclidean_norm, euclidean_norm_zero _ (by simp)]
    simp only [SRPR_Trainer.calculate_p_srp_derivatives, hn]
    norm_num [List.replicate]
  have euclidean_norm_unit_neg_x : euclidean_norm libm [-1, 0] = 1 := by
    simp [euclidean_norm, libm]
  have p_srp_opposite : SRPR_Trainer.calculate_p_srp libm [1, 0] [-1, 0] = 0 := by
    rw [calculate_p_srp_of_units _ _ euclidean_norm_unit_x euclidean_norm_unit_neg_x]
    have hd : dot ([1, 0] : List ℝ) [-1, 0] = -1 := by simp [dot]
    have hc : clamp (-1 : ℝ) (-1) 1 = -1 := by simp [clamp]
    rw [hd, hc, Real.arccos_neg_one, div_self Real.pi_ne_zero, sub_self]
  exact ⟨euclidean_norm_zero, euclidean_norm_unit_x, euclidean_norm_unit_y, p_srp_orth_pos,
    p_srp_orth_neg, p_srp_parallel, p_srp_zero_zero, p_srp_derivatives_zero_zero, p_srp_opposite⟩

/-- C8: for vectors of equal length, `calculate_p_srp v1 v2` is
`1 - arccos(clamp(cos_sim v1 v2, -1, 1)) / π` when both norms are at least `1e-12`,
and exactly `0.5` when a norm is below `1e-12`, in particular for a zero vector. -/
theorem C8_calculate_p_srp_formula (v1 v2 : List ℝ) (hlen : v1.length = v2.length) :
    (1e-12 ≤ euclidean_norm libm v1 ∧ 1e-12 ≤ euclidean_norm libm v2 →
      SRPR_Trainer.calculate_p_srp libm v1 v2 =
        1 - Real.arccos (clamp (cos_sim libm v1 v2) (-1) 1) / Real.pi) ∧
    (euclidean_norm libm v1 < 1e-12 ∨ euclidean_norm libm v2 < 1e-12 →
      SRPR_Trainer.calculate_p_srp libm v1 v2 = 0.5) ∧
    ((∀ x ∈ v1, x = 0) ∨ (∀ x ∈ v2, x = 0) →
      SRPR_Trainer.calculate_p_srp libm v1 v2 = 0.5) := by
  have euclidean_norm_zero := unit_vector_facts.1
  have _ := hlen
  have hsmall : euclidean_norm libm v1 < 1e-12 ∨ euclidean_norm libm v2 < 1e-12 →
      SRPR_Trainer.calculate_p_srp libm v1 v2 = 0.5 := by
    intro h
    rw [calculate_p_srp_eq, if_pos h]
  refine ⟨?_, hsmall, ?_⟩
  · rintro ⟨h1, h2⟩
    rw [calculate_p_srp_eq, if_neg]
    · rfl
    · rintro (h | h)
      · exact absurd h (not_lt.mpr h1)
      · exact absurd h (not_lt.mpr h2)
  · rintro (h | h)
    · apply hsmall
      left
      rw [euclidean_norm_zero v1 h]
      norm_num
    · apply hsmall
      right
      rw [euclidean_norm_zero v2 h]
      norm_num

/-- C8 at the vectors `(3, 4)` and `(0, 0)`. -/
theorem C8_calculate_p_srp_formula_witness :
    ([3, 4] : List ℝ).length = ([0, 0] : List ℝ).length ∧
      SRPR_Trainer.calculate_p_srp libm [3, 4] [0, 0] = 0.5 :=
  ⟨rfl, (C8_calculate_p_srp_formula [3, 4] [0, 0] rfl).2.2 (Or.inr (by simp))⟩

theorem variance_ge (q : ℝ) (h1 : 1e-12 ≤ q) (h2 : q ≤ 1 - 1e-12) :
    1e-12 * (1 - 1e-12) ≤ q * (1 - q) := by
  nlinarith [mul_nonneg (sub_nonneg.2 h1) (sub_nonneg.2 h2)]

theorem clamp_prob_bounds (p : ℝ) :
    1e-12 ≤ clamp p 1e-12 (1 - 1e-12) ∧ clamp p 1e-12 (1 - 1e-12) ≤ 1 - 1e-12 := by
  unfold clamp
  exact ⟨le_max_left _ _, max_le (by norm_num) (min_le_left _ _)⟩

/-- The combined standard deviation of two clamped probabilities is never below
the threshold `1e-12` of `calculate_gamma`. -/
theorem gamma_denominator_ge (p q : ℝ) :
    1e-12 ≤ Real.sqrt (clamp p 1e-12 (1 - 1e-12) * (1 - clamp p 1e-12 (1 - 1e-12)) +
      clamp q 1e-12 (1 - 1e-12) * (1 - clamp q 1e-12 (1 - 1e-12))) := by
  have hp := variance_ge _ (clamp_prob_bounds p).1 (clamp_prob_bounds p).2
  have hq := variance_ge _ (clamp_prob_bounds q).1 (clamp_prob_bounds q).2
  apply Real.le_sqrt_of_sq_le
  have : ((1e-12 : ℝ)) ^ 2 ≤ 1e-12 * (1 - 1e-12) + 1e-12 * (1 - 1e-12) := by norm_num
  linarith

theorem clamp_mono {p q : ℝ} (h : p ≤ q) :
    clamp p 1e-12 (1 - 1e-12) ≤ clamp q 1e-12 (1 - 1e-12) := by
  unfold clamp
  exact max_le_max le_rfl (min_le_min le_rfl h)

theorem clamp_of_mem {F : Type} [LinearOrderedField F] (x lo hi : F) (h1 : lo ≤ x)
    (h2 : x ≤ hi) : clamp x lo hi = x := by
  unfold clamp
  rw [min_eq_right h2, max_eq_right h1]

/-- Closed forms of `calculate_gamma` and of its derivatives. -/
theorem gamma_facts :
    -- calculate_gamma_eq
    (∀ (p_i p_j : ℝ) (b : Int),
        SRPR_Trainer.calculate_gamma libm p_i p_j b =
          (if Real.sqrt (clamp p_i 1e-12 (1 - 1e-12) * (1 - clamp p_i 1e-12 (1 - 1e-12)) +
              clamp p_j 1e-12 (1 - 1e-12) * (1 - clamp p_j 1e-12 (1 - 1e-12))) < 1e-12 then 0
            else (clamp p_j 1e-12 (1 - 1e-12) - clamp p_i 1e-12 (1 - 1e-12)) /
              Real.sqrt (clamp p_i 1e-12 (1 - 1e-12) * (1 - clamp p_i 1e-12 (1 - 1e-12)) +
                clamp p_j 1e-12 (1 - 1e-12) * (1 - clamp p_j 1e-12 (1 - 1e-12))))) ∧
    -- calculate_gamma_quotient
    (∀ (p_i p_j : ℝ) (b : Int),
        SRPR_Trainer.calculate_gamma libm p_i p_j b =
          (clamp p_j 1e-12 (1 - 1e-12) - clamp p_i 1e-12 (1 - 1e-12)) /
            Real.sqrt (clamp p_i 1e-12 (1 - 1e-12) * (1 - clamp p_i 1e-12 (1 - 1e-12)) +
              clamp p_j 1e-12 (1 - 1e-12) * (1 - clamp p_j 1e-12 (1 - 1e-12)))) ∧
    -- calculate_gamma_swap
    (∀ (p_i p_j : ℝ) (b : Int),
        SRPR_Trainer.calculate_gamma libm p_j p_i b =
          - SRPR_Trainer.calculate_gamma libm p_i p_j b) ∧
    -- calculate_gamma_nonpos
    (∀ (p_i p_j : ℝ) (b : Int),
        p_j ≤ p_i →
        SRPR_Trainer.calculate_gamma libm p_i p_j b ≤ 0) ∧
    -- calculate_gamma_neg
    (∀ (p_i p_j : ℝ) (b : Int),
        clamp p_j 1e-12 (1 - 1e-12) < clamp p_i 1e-12 (1 - 1e-12) →
        SRPR_Trainer.calculate_gamma libm p_i p_j b < 0) ∧
    -- gamma_one_zero_le
    (∀ (b : Int),
        SRPR_Trainer.calculate_gamma libm 1 0 b ≤ -600000) ∧
    -- calculate_gamma_interior
    (∀ (p q : ℝ) (b : Int),
        1e-12 < p →
        p < 1 - 1e-12 →
        1e-12 < q →
        q < 1 - 1e-12 →
        SRPR_Trainer.calculate_gamma libm p q b =
          (q - p) / Real.sqrt (p * (1 - p) + q * (1 - q))) ∧
    -- calculate_gamma_derivatives_interior
    (∀ (p q : ℝ) (b : Int),
        1e-12 < p →
        p < 1 - 1e-12 →
        1e-12 < q →
        q < 1 - 1e-12 →
        SRPR_Trainer.calculate_gamma_derivatives libm p q b =
          ((-Real.sqrt (p * (1 - p) + q * (1 - q)) -
              (q - p) * (1 - 2 * p) / (2 * Real.sqrt (p * (1 - p) + q * (1 - q)))) /
              (Real.sqrt (p * (1 - p) + q * (1 - q)) * Real.sqrt (p * (1 - p) + q * (1 - q))),
            (Real.sqrt (p * (1 - p) + q * (1 - q)) -
              (q - p) * (1 - 2 * q) / (2 * Real.sqrt (p * (1 - p) + q * (1 - q)))) /
              (Real.sqrt (p * (1 - p) + q * (1 - q)) * Real.sqrt (p * (1 - p) + q * (1 - q))))) ∧
    -- calculate_gamma_derivatives_quotient
    (∀ (p_i p_j : ℝ) (b : Int),
        SRPR_Trainer.calculate_gamma_derivatives libm p_i p_j b =
          ((-Real.sqrt (clamp p_i 1e-12 (1 - 1e-12) * (1 - clamp p_i 1e-12 (1 - 1e-12)) +
                clamp p_j 1e-12 (1 - 1e-12) * (1 - clamp p_j 1e-12 (1 - 1e-12))) -
              (clamp p_j 1e-12 (1 - 1e-12) - clamp p_i 1e-12 (1 - 1e-12)) *
                (1 - 2 * clamp p_i 1e-12 (1 - 1e-12)) /
                (2 * Real.sqrt (clamp p_i 1e-12 (1 - 1e-12) * (1 - clamp p_i 1e-12 (1 - 1e-12)) +
                  clamp p_j 1e-12 (1 - 1e-12) * (1 - clamp p_j 1e-12 (1 - 1e-12))))) /
              (Real.sqrt (clamp p_i 1e-12 (1 - 1e-12) * (1 - clamp p_i 1e-12 (1 - 1e-12)) +
                  clamp p_j 1e-12 (1 - 1e-12) * (1 - clamp p_j 1e-12 (1 - 1e-12))) *
                Real.sqrt (clamp p_i 1e-12 (1 - 1e-12) * (1 - clamp p_i 1e-12 (1 - 1e-12)) +
                  clamp p_j 1e-12 (1 - 1e-12) * (1 - clamp p_j 1e-12 (1 - 1e-12)))),
            (Real.sqrt (clamp p_i 1e-12 (1 - 1e-12) * (1 - clamp p_i 1e-12 (1 - 1e-12)) +
                clamp p_j 1e-12 (1 - 1e-12) * (1 - clamp p_j 1e-12 (1 - 1e-12))) -
              (clamp p_j 1e-12 (1 - 1e-12) - clamp p_i 1e-12 (1 - 1e-12)) *
                (1 - 2 * clamp p_j 1e-12 (1 - 1e-12)) /
                (2 * Real.sqrt (clamp p_i 1e-12 (1 - 1e-12) * (1 - clamp p_i 1e-12 (1 - 1e-12)) +
                  clamp p_j 1e-12 (1 - 1e-12) * (1 - clamp p_j 1e-12 (1 - 1e-12))))) /
              (Real.sqrt (clamp p_i 1e-12 (1 - 1e-12) * (1 - clamp p_i 1e-12 (1 - 1e-12)) +
                  clamp p_j 1e-12 (1 - 1e-12) * (1 - clamp p_j 1e-12 (1 - 1e-12))) *
                Real.sqrt (clamp p_i 1e-12 (1 - 1e-12) * (1 - clamp p_i 1e-12 (1 - 1e-12)) +
                  clamp p_j 1e-12 (1 - 1e-12) * (1 - clamp p_j 1e-12 (1 - 1e-12)))))) := by
  -- The value of `calculate_gamma` on the reals in terms of the clamped
  -- probabilities.
  have calculate_gamma_eq : ∀ (p_i p_j : ℝ) (b : Int),
        SRPR_Trainer.calculate_gamma libm p_i p_j b =
          (if Real.sqrt (clamp p_i 1e-12 (1 - 1e-12) * (1 - clamp p_i 1e-12 (1 - 1e-12)) +
              clamp p_j 1e-12 (1 - 1e-12) * (1 - clamp p_j 1e-12 (1 - 1e-12))) < 1e-12 then 0
            else (clamp p_j 1e-12 (1 - 1e-12) - clamp p_i 1e-12 (1 - 1e-12)) /
              Real.sqrt (clamp p_i 1e-12 (1 - 1e-12) * (1 - clamp p_i 1e-12 (1 - 1e-12)) +
                clamp p_j 1e-12 (1 - 1e-12) * (1 - clamp p_j 1e-12 (1 - 1e-12)))) := by
    intro p_i p_j b
    simp only [SRPR_Trainer.calculate_gamma, clamp, libm]
    norm_num
  -- On the reals `calculate_gamma` is the quotient.
  have calculate_gamma_quotient : ∀ (p_i p_j : ℝ) (b : Int),
        SRPR_Trainer.calculate_gamma libm p_i p_j b =
          (clamp p_j 1e-12 (1 - 1e-12) - clamp p_i 1e-12 (1 - 1e-12)) /
            Real.sqrt (clamp p_i 1e-12 (1 - 1e-12) * (1 - clamp p_i 1e-12 (1 - 1e-12)) +
              clamp p_j 1e-12 (1 - 1e-12) * (1 - clamp p_j 1e-12 (1 - 1e-12))) := by
    intro p_i p_j b
    rw [calculate_gamma_eq, if_neg (not_lt.mpr (gamma_denominator_ge p_i p_j))]
  have calculate_gamma_swap : ∀ (p_i p_j : ℝ) (b : Int),
        SRPR_Trainer.calculate_gamma libm p_j p_i b =
          - SRPR_Trainer.calculate_gamma libm p_i p_j b := by
    intro p_i p_j b
    rw [calculate_gamma_quotient, calculate_gamma_quotient, ← neg_div, neg_sub, add_comm]
  have calculate_gamma_nonpos : ∀ (p_i p_j : ℝ) (b : Int),
        p_j ≤ p_i →
        SRPR_Trainer.calculate_gamma libm p_i p_j b ≤ 0 := by
    intro p_i p_j b h
    rw [calculate_gamma_quotient]
    exact div_nonpos_of_nonpos_of_nonneg (sub_nonpos.2 (clamp_mono h)) (Real.sqrt_nonneg _)
  have calculate_gamma_neg : ∀ (p_i p_j : ℝ) (b : Int),
        clamp p_j 1e-12 (1 - 1e-12) < clamp p_i 1e-12 (1 - 1e-12) →
        SRPR_Trainer.calculate_gamma libm p_i p_j b < 0 := by
    intro p_i p_j b h
    rw [calculate_gamma_quotient]
    have hd := gamma_denominator_ge p_i p_j
    exact div_neg_of_neg_of_pos (sub_neg.2 h) (lt_of_lt_of_le (by norm_num) hd)
  have gamma_one_zero_le : ∀ (b : Int),
        SRPR_Trainer.calculate_gamma libm 1 0 b ≤ -600000 := by
    intro b
    have c1 : clamp (1 : ℝ) 1e-12 (1 - 1e-12) = 1 - 1e-12 := by
      simp only [clamp]
      norm_num
    have c0 : clamp (0 : ℝ) 1e-12 (1 - 1e-12) = 1e-12 := by
      simp only [clamp]
      norm_num
    rw [calculate_gamma_quotient, c1, c0]
    have hpos : (0 : ℝ) < Real.sqrt ((1 - 1e-12) * (1 - (1 - 1e-12)) + 1e-12 * (1 - 1e-12)) :=
      Real.sqrt_pos.mpr (by norm_num)
    have hle : Real.sqrt ((1 - 1e-12) * (1 - (1 - 1e-12)) + 1e-12 * (1 - 1e-12)) ≤ 1.5e-6 := by
      rw [Real.sqrt_le_left (by norm_num)]
      norm_num
    rw [div_le_iff₀ hpos]
    nlinarith
  have calculate_gamma_interior : ∀ (p q : ℝ) (b : Int),
        1e-12 < p →
        p < 1 - 1e-12 →
        1e-12 < q →
        q < 1 - 1e-12 →
        SRPR_Trainer.calculate_gamma libm p q b =
          (q - p) / Real.sqrt (p * (1 - p) + q * (1 - q)) := by
    intro p q b hp1 hp2 hq1 hq2
    rw [calculate_gamma_quotient, clamp_of_mem p _ _ hp1.le hp2.le,
      clamp_of_mem q _ _ hq1.le hq2.le]
  have calculate_gamma_derivatives_interior : ∀ (p q : ℝ) (b : Int),
        1e-12 < p →
        p < 1 - 1e-12 →
        1e-12 < q →
        q < 1 - 1e-12 →
        SRPR_Trainer.calculate_gamma_derivatives libm p q b =
          ((-Real.sqrt (p * (1 - p) + q * (1 - q)) -
              (q - p) * (1 - 2 * p) / (2 * Real.sqrt (p * (1 - p) + q * (1 - q)))) /
              (Real.sqrt (p * (1 - p) + q * (1 - q)) * Real.sqrt (p * (1 - p) + q * (1 - q))),
            (Real.sqrt (p * (1 - p) + q * (1 - q)) -
              (q - p) * (1 - 2 * q) / (2 * Real.sqrt (p * (1 - p) + q * (1 - q)))) /
              (Real.sqrt (p * (1 - p) + q * (1 - q)) * Real.sqrt (p * (1 - p) + q * (1 - q)))) := by
    intro p q b hp1 hp2 hq1 hq2
    have hg := gamma_denominator_ge p q
    rw [clamp_of_mem p _ _ hp1.le hp2.le, clamp_of_mem q _ _ hq1.le hq2.le] at hg
    have hcp : max (1e-12 : ℝ) (min (1.0 - 1e-12) p) = p := by
      have := clamp_of_mem p (1e-12 : ℝ) (1 - 1e-12) hp1.le hp2.le
      unfold clamp at this
      rw [show (1.0 : ℝ) = 1 by norm_num]
      exact this
    have hcq : max (1e-12 : ℝ) (min (1.0 - 1e-12) q) = q := by
      have := clamp_of_mem q (1e-12 : ℝ) (1 - 1e-12) hq1.le hq2.le
      unfold clamp at this
      rw [show (1.0 : ℝ) = 1 by norm_num]
      exact this
    have h10 : (1.0 : ℝ) = 1 := by norm_num
    have h20 : (2.0 : ℝ) = 2 := by norm_num
    simp only [SRPR_Trainer.calculate_gamma_derivatives, hcp, hcq]
    simp only [h10, h20, libm]
    rw [if_neg (not_lt.mpr hg)]
  have calculate_gamma_derivatives_quotient : ∀ (p_i p_j : ℝ) (b : Int),
        SRPR_Trainer.calculate_gamma_derivatives libm p_i p_j b =
          ((-Real.sqrt (clamp p_i 1e-12 (1 - 1e-12) * (1 - clamp p_i 1e-12 (1 - 1e-12)) +
                clamp p_j 1e-12 (1 - 1e-12) * (1 - clamp p_j 1e-12 (1 - 1e-12))) -
              (clamp p_j 1e-12 (1 - 1e-12) - clamp p_i 1e-12 (1 - 1e-12)) *
                (1 - 2 * clamp p_i 1e-12 (1 - 1e-12)) /
                (2 * Real.sqrt (clamp p_i 1e-12 (1 - 1e-12) * (1 - clamp p_i 1e-12 (1 - 1e-12)) +
                  clamp p_j 1e-12 (1 - 1e-12) * (1 - clamp p_j 1e-12 (1 - 1e-12))))) /
              (Real.sqrt (clamp p_i 1e-12 (1 - 1e-12) * (1 - clamp p_i 1e-12 (1 - 1e-12)) +
                  clamp p_j 1e-12 (1 - 1e-12) * (1 - clamp p_j 1e-12 (1 - 1e-12))) *
                Real.sqrt (clamp p_i 1e-12 (1 - 1e-12) * (1 - clamp p_i 1e-12 (1 - 1e-12)) +
                  clamp p_j 1e-12 (1 - 1e-12) * (1 - clamp p_j 1e-12 (1 - 1e-12)))),
            (Real.sqrt (clamp p_i 1e-12 (1 - 1e-12) * (1 - clamp p_i 1e-12 (1 - 1e-12)) +
                clamp p_j 1e-12 (1 - 1e-12) * (1 - clamp p_j 1e-12 (1 - 1e-12))) -
              (clamp p_j 1e-12 (1 - 1e-12) - clamp p_i 1e-12 (1 - 1e-12)) *
                (1 - 2 * clamp p_j 1e-12 (1 - 1e-12)) /
                (2 * Real.sqrt (clamp p_i 1e-12 (1 - 1e-12) * (1 - clamp p_i 1e-12 (1 - 1e-12)) +
                  clamp p_j 1e-12 (1 - 1e-12) * (1 - clamp p_j 1e-12 (1 - 1e-12))))) /
              (Real.sqrt (clamp p_i 1e-12 (1 - 1e-12) * (1 - clamp p_i 1e-12 (1 - 1e-12)) +
                  clamp p_j 1e-12 (1 - 1e-12) * (1 - clamp p_j 1e-12 (1 - 1e-12))) *
                Real.sqrt (clamp p_i 1e-12 (1 - 1e-12) * (1 - clamp p_i 1e-12 (1 - 1e-12)) +
                  clamp p_j 1e-12 (1 - 1e-12) * (1 - clamp p_j 1e-12 (1 - 1e-12))))) := by
    intro p_i p_j b
    have hg := gamma_denominator_ge p_i p_j
    have h10 : (1.0 : ℝ) = 1 := by norm_num
    have h20 : (2.0 : ℝ) = 2 := by norm_num
    unfold clamp at hg ⊢
    simp only [SRPR_Trainer.calculate_gamma_derivatives, h10, h20, libm]
    rw [if_neg (not_lt.mpr hg)]
  exact ⟨calculate_gamma_eq, calculate_gamma_quotient, calculate_gamma_swap,
    calculate_gamma_nonpos, calculate_gamma_neg, gamma_one_zero_le, calculate_gamma_interior,
    calculate_gamma_derivatives_interior, calculate_gamma_derivatives_quotient⟩

/-- C9: for all real `p_i`, `p_j`, with `q` the clamp of `p` into
`[1e-12, 1 - 1e-12]`, `calculate_gamma p_i p_j b` is
`(q_j - q_i) / sqrt(q_i (1 - q_i) + q_j (1 - q_j))`, except that it is `0` when
that square root is below `1e-12`; the result does not depend on `b`. -/
theorem C9_calculate_gamma_formula (p_i p_j : ℝ) (b : Int) :
    SRPR_Trainer.calculate_gamma libm p_i p_j b =
      (if Real.sqrt (clamp p_i 1e-12 (1 - 1e-12) * (1 - clamp p_i 1e-12 (1 - 1e-12)) +
          clamp p_j 1e-12 (1 - 1e-12) * (1 - clamp p_j 1e-12 (1 - 1e-12))) < 1e-12 then 0
        else (clamp p_j 1e-12 (1 - 1e-12) - clamp p_i 1e-12 (1 - 1e-12)) /
          Real.sqrt (clamp p_i 1e-12 (1 - 1e-12) * (1 - clamp p_i 1e-12 (1 - 1e-12)) +
            clamp p_j 1e-12 (1 - 1e-12) * (1 - clamp p_j 1e-12 (1 - 1e-12)))) ∧
    ∀ b2 : Int, SRPR_Trainer.calculate_gamma libm p_i p_j b2 =
      SRPR_Trainer.calculate_gamma libm p_i p_j b := by
  have calculate_gamma_eq := gamma_facts.1
  exact ⟨calculate_gamma_eq p_i p_j b, fun _ => rfl⟩

/-! ## The trainer: the update step -/

theorem umap_at_modify_same {V : Type} (m : List (Int × V)) (k : Int) (f : V → V) (v : V)
    (h : umap_at m k = .ok v) : umap_at (umap_modify m k f) k = .ok (f v) := by
  induction m with
  | nil => simp [umap_at] at h
  | cons e rest ih =>
    obtain ⟨k0, v0⟩ := e
    unfold umap_modify
    by_cases hk : k0 = k
    · simp only [umap_at, hk, if_true] at h ⊢
      injection h with h
      rw [h]
    · simp only [umap_at, hk, if_false] at h ⊢
      exact ih h

theorem umap_at_modify_ne {V : Type} (m : List (Int × V)) (k k2 : Int) (f : V → V)
    (hne : k ≠ k2) : umap_at (umap_modify m k f) k2 = umap_at m k2 := by
  induction m with
  | nil => rfl
  | cons e rest ih =>
    obtain ⟨k0, v0⟩ := e
    unfold umap_modify
    by_cases hk : k0 = k
    · subst hk
      simp [umap_at, hne]
    · by_cases hk2 : k0 = k2
      · subst hk2
        simp [umap_at, hk]
      · simp [umap_at, hk, hk2, ih]

theorem fold_add_scaled_getElem? {F : Type} [LinearOrderedField F] (lr : F) (g v : List F)
    (k i : Nat) :
    ((List.range k).foldl (fun w j => SRPR_Trainer.add_scaled_at lr g j w) v)[i]? =
      if i < k then v[i]?.map (fun x => x + lr * g.getD i 0) else v[i]? := by
  induction k with
  | zero => simp
  | succ k ih =>
    rw [List.range_succ, List.foldl_append, List.foldl_cons, List.foldl_nil,
      SRPR_Trainer.add_scaled_at, List.getElem?_set']
    by_cases hik : k = i
    · subst hik
      have hw := ih
      rw [if_neg (lt_irrefl _)] at hw
      rw [if_pos rfl, if_pos (Nat.lt_succ_self _), List.getD_eq_getElem?_getD, hw]
      cases hv : v[k]? with
      | none => simp
      | some x => simp
    · rw [if_neg hik, ih]
      have hiff : i < k + 1 ↔ i < k := by omega
      simp only [hiff]

theorem fold_add_scaled_eq_zipWith {F : Type} [LinearOrderedField F] (lr : F) (g v : List F)
    (h : g.length = v.length) :
    (List.range v.length).foldl (fun w j => SRPR_Trainer.add_scaled_at lr g j w) v =
      List.zipWith (fun x y => x + lr * y) v g := by
  apply List.ext_getElem?
  intro i
  rw [fold_add_scaled_getElem?, List.getElem?_zipWith']
  by_cases hi : i < v.length
  · have hg : i < g.length := by omega
    simp [hi, List.getElem?_eq_getElem hi, List.getElem?_eq_getElem hg]
  · have hg : g.length ≤ i := by omega
    simp [hi, List.getElem?_eq_none (not_lt.mp hi)]

theorem update_loop_lookup {F : Type} [LinearOrderedField F] (t : Triplet)
    (gxu gyi gyj : List F) (lr : F)
    (hne : t.preferred_item_id ≠ t.less_preferred_item_id) (l : List Nat)
    (s : UserItemStore F) (xu yi yj : List F)
    (hx : s.get_user_vector t.user_id = .ok xu)
    (hi : s.get_item_vector t.preferred_item_id = .ok yi)
    (hj : s.get_item_vector t.less_preferred_item_id = .ok yj) :
    (l.foldl (SRPR_Trainer.update_step t gxu gyi gyj lr) s).get_user_vector t.user_id =
        .ok (l.foldl (fun w j => SRPR_Trainer.add_scaled_at lr gxu j w) xu) ∧
      (l.foldl (SRPR_Trainer.update_step t gxu gyi gyj lr) s).get_item_vector
          t.preferred_item_id =
        .ok (l.foldl (fun w j => SRPR_Trainer.add_scaled_at lr gyi j w) yi) ∧
      (l.foldl (SRPR_Trainer.update_step t gxu gyi gyj lr) s).get_item_vector
          t.less_preferred_item_id =
        .ok (l.foldl (fun w j => SRPR_Trainer.add_scaled_at lr gyj j w) yj) := by
  induction l generalizing s xu yi yj with
  | nil => exact ⟨hx, hi, hj⟩
  | cons k l ih =>
    simp only [List.foldl_cons]
    apply ih
    · exact umap_at_modify_same _ _ _ _ hx
    · simp only [UserItemStore.get_item_vector, SRPR_Trainer.update_step]
      rw [umap_at_modify_ne _ _ _ _ (Ne.symm hne)]
      exact umap_at_modify_same _ _ _ _ hi
    · simp only [UserItemStore.get_item_vector, SRPR_Trainer.update_step]
      apply umap_at_modify_same
      rw [umap_at_modify_ne _ _ _ _ hne]
      exact hj

/-- C10: for a triplet whose user, preferred item and less-preferred item are
three distinct stored vectors of one length, with gradients of that length,
`update_vectors` replaces each vector `v` with gradient `g`, componentwise, by
`v + learning_rate * g` followed by the decay `w - learning_rate * regularization * w`,
that is by `(1 - learning_rate * regularization) * (v + learning_rate * g)`. -/
theorem C10_update_vectors_formula {F : Type} [LinearOrderedField F]
    (store : UserItemStore F) (t : Triplet) (gxu gyi gyj : List F)
    (params : TrainingParams F) (xu yi yj : List F)
    (hx : store.get_user_vector t.user_id = .ok xu)
    (hi : store.get_item_vector t.preferred_item_id = .ok yi)
    (hj : store.get_item_vector t.less_preferred_item_id = .ok yj)
    (hne : t.preferred_item_id ≠ t.less_preferred_item_id)
    (hyi : yi.length = xu.length) (hyj : yj.length = xu.length)
    (hgxu : gxu.length = xu.length) (hgyi : gyi.length = xu.length)
    (hgyj : gyj.length = xu.length) :
    ∃ s, SRPR_Trainer.update_vectors store t gxu gyi gyj params = .ok s ∧
      s.get_user_vector t.user_id = .ok (List.zipWith (fun v g =>
        (v + params.learning_rate * g) -
          params.learning_rate * params.regularization * (v + params.learning_rate * g))
        xu gxu) ∧
      s.get_item_vector t.preferred_item_id = .ok (List.zipWith (fun v g =>
        (v + params.learning_rate * g) -
          params.learning_rate * params.regularization * (v + params.learning_rate * g))
        yi gyi) ∧
      s.get_item_vector t.less_preferred_item_id = .ok (List.zipWith (fun v g =>
        (v + params.learning_rate * g) -
          params.learning_rate * params.regularization * (v + params.learning_rate * g))
        yj gyj) ∧
      ∀ v g : F, (v + params.learning_rate * g) -
          params.learning_rate * params.regularization * (v + params.learning_rate * g) =
        (1 - params.learning_rate * params.regularization) *
          (v + params.learning_rate * g) := by
  obtain ⟨h1, h2, h3⟩ := update_loop_lookup t gxu gyi gyj params.learning_rate hne
    (List.range xu.length) store xu yi yj hx hi hj
  rw [fold_add_scaled_eq_zipWith _ _ _ hgxu] at h1
  have e2 := fold_add_scaled_eq_zipWith params.learning_rate gyi yi (hgyi.trans hyi.symm)
  have e3 := fold_add_scaled_eq_zipWith params.learning_rate gyj yj (hgyj.trans hyj.symm)
  rw [hyi] at e2
  rw [hyj] at e3
  rw [e2] at h2
  rw [e3] at h3
  have hreg : ∀ v g : List F,
      SRPR_Trainer.apply_regularization
        (List.zipWith (fun x y => x + params.learning_rate * y) v g)
        params.regularization params.learning_rate =
      List.zipWith (fun v g => (v + params.learning_rate * g) -
        params.learning_rate * params.regularization * (v + params.learning_rate * g))
        v g := by
    intro v g
    rw [SRPR_Trainer.apply_regularization, List.map_zipWith]
  simp only [SRPR_Trainer.update_vectors, hx, hi, hj]
  refine ⟨_, rfl, ?_, ?_, ?_, fun v g => by ring⟩
  · rw [← hreg]
    exact umap_at_modify_same _ _ _ _ h1
  · rw [← hreg]
    simp only [UserItemStore.get_item_vector]
    rw [umap_at_modify_ne _ _ _ _ (Ne.symm hne)]
    exact umap_at_modify_same _ _ _ _ h2
  · rw [← hreg]
    simp only [UserItemStore.get_item_vector]
    apply umap_at_modify_same
    rw [umap_at_modify_ne _ _ _ _ hne]
    exact h3

/-- C10 at the store `store_q`, the triplet `(1, 10, 20)` and three gradients. -/
theorem C10_update_vectors_formula_witness :
    store_q.get_user_vector 1 = .ok [1, 2] ∧
    store_q.get_item_vector 10 = .ok [3, 4] ∧
    store_q.get_item_vector 20 = .ok [5, 6] ∧
    ∃ s, SRPR_Trainer.update_vectors store_q ⟨1, 10, 20⟩ [2, 0] [0, 2] [4, 4] params_q
        = .ok s ∧
      s.get_user_vector 1 = .ok [7 / 4, 7 / 4] ∧
      s.get_item_vector 10 = .ok [21 / 8, 35 / 8] ∧
      s.get_item_vector 20 = .ok [49 / 8, 7] := by
  refine ⟨rfl, rfl, rfl, ?_⟩
  obtain ⟨s, hs, h1, h2, h3, -⟩ := C10_update_vectors_formula store_q ⟨1, 10, 20⟩
    [2, 0] [0, 2] [4, 4] params_q [1, 2] [3, 4] [5, 6] rfl rfl rfl (by decide) rfl rfl rfl rfl rfl
  refine ⟨s, hs, ?_, ?_, ?_⟩
  · rw [h1]
    norm_num [params_q]
  · rw [h2]
    norm_num [params_q]
  · rw [h3]
    norm_num [params_q]

/-! ## The error function and the normal distribution function -/

theorem gauss_cont : Continuous (fun t : ℝ => Real.exp (-t ^ 2)) := by
  continuity

theorem calculate_gamma_self {F : Type} [LinearOrderedField F] (m : CMath F) (p : F)
    (b : Int) : SRPR_Trainer.calculate_gamma m p p b = 0 := by
  simp only [SRPR_Trainer.calculate_gamma, sub_self, zero_div]
  split_ifs <;> norm_num

theorem update_vectors_store_zero (params : TrainingParams ℝ) :
    SRPR_Trainer.update_vectors (store_zero ℝ) ⟨1, 10, 20⟩ [0, 0] [0, 0] [0, 0] params =
      .ok (store_zero ℝ) := by
  have hx : (store_zero ℝ).get_user_vector 1 = .ok [0, 0] := rfl
  have hi : (store_zero ℝ).get_item_vector 10 = .ok [0, 0] := rfl
  have hj : (store_zero ℝ).get_item_vector 20 = .ok [0, 0] := rfl
  simp only [SRPR_Trainer.update_vectors, hx, hi, hj]
  norm_num [List.range, List.range.loop, SRPR_Trainer.update_step, store_zero, umap_modify,
    SRPR_Trainer.add_scaled_at, SRPR_Trainer.apply_regularization]

/-- The objective at `0`, and the run of the trainer on the zero store. -/
theorem zero_store_facts :
    -- erf_zero
    (erf 0 = 0) ∧
    -- phi_libm
    (∀ (x : ℝ),
        SRPR_Trainer.phi libm x = (1 + erf (x / Real.sqrt 2)) / 2) ∧
    -- phi_zero
    (SRPR_Trainer.phi libm 0 = 1 / 2) ∧
    -- evaluate_triplet_ok
    (∀ (store : UserItemStore ℝ) (t : Triplet) (params : TrainingParams ℝ)
          (xu yi yj : List ℝ),
        store.get_user_vector t.user_id = .ok xu →
        store.get_item_vector t.preferred_item_id = .ok yi →
        store.get_item_vector t.less_preferred_item_id = .ok yj →
        SRPR_Trainer.evaluate_triplet libm store t params =
          .ok (Real.log (SRPR_Trainer.phi libm (Real.sqrt (params.b_lsh_length : ℝ) *
            SRPR_Trainer.calculate_gamma libm (SRPR_Trainer.calculate_p_srp libm xu yi)
              (SRPR_Trainer.calculate_p_srp libm xu yj) params.b_lsh_length) + 1e-12))) ∧
    -- train_store_zero_two_epochs
    (SRPR_Trainer.train libm (store_zero ℝ) [⟨1, 10, 20⟩] (params_epochs ℝ 2) [] 0 =
        .ok (store_zero ℝ,
          { epoch_losses := [Real.log (1 / 2 + 1e-12), Real.log (1 / 2 + 1e-12)]
            validation_scores := []
            final_loss := Real.log (1 / 2 + 1e-12)
            training_time_ms := 0
            total_updates := 2
            converged := false })) ∧
    -- saturated_items_differ
    (∀ (store : UserItemStore ℝ) (t : Triplet) (params : TrainingParams ℝ)
          (xu yi yj : List ℝ),
        store.get_item_vector t.preferred_item_id = .ok yi →
        store.get_item_vector t.less_preferred_item_id = .ok yj →
        SRPR_Trainer.phi libm (libm.sqrt (params.b_lsh_length : ℝ) *
          SRPR_Trainer.calculate_gamma libm (SRPR_Trainer.calculate_p_srp libm xu yi)
          (SRPR_Trainer.calculate_p_srp libm xu yj) params.b_lsh_length) < 1e-12 →
        t.preferred_item_id ≠ t.less_preferred_item_id) := by
  have p_srp_zero_zero := unit_vector_facts.2.2.2.2.2.2.1
  have p_srp_derivatives_zero_zero := unit_vector_facts.2.2.2.2.2.2.2.1
  have erf_zero : erf 0 = 0 := by
    simp [erf]
  have phi_libm : ∀ (x : ℝ),
        SRPR_Trainer.phi libm x = (1 + erf (x / Real.sqrt 2)) / 2 := by
    intro x
    simp only [SRPR_Trainer.phi, libm]
    norm_num
    ring
  have phi_zero : SRPR_Trainer.phi libm 0 = 1 / 2 := by
    rw [phi_libm, zero_div, erf_zero, add_zero]
  -- The value of `evaluate_triplet` once the three vectors are found.
  have evaluate_triplet_ok : ∀ (store : UserItemStore ℝ) (t : Triplet) (params : TrainingParams ℝ)
          (xu yi yj : List ℝ),
        store.get_user_vector t.user_id = .ok xu →
        store.get_item_vector t.preferred_item_id = .ok yi →
        store.get_item_vector t.less_preferred_item_id = .ok yj →
        SRPR_Trainer.evaluate_triplet libm store t params =
          .ok (Real.log (SRPR_Trainer.phi libm (Real.sqrt (params.b_lsh_length : ℝ) *
            SRPR_Trainer.calculate_gamma libm (SRPR_Trainer.calculate_p_srp libm xu yi)
              (SRPR_Trainer.calculate_p_srp libm xu yj) params.b_lsh_length) + 1e-12)) := by
    intro store t params xu yi yj hx hi hj
    simp only [SRPR_Trainer.evaluate_triplet, hx, hi, hj]
    rfl
  have compute_gradients_store_zero : ∀ (params : TrainingParams ℝ),
        SRPR_Trainer.compute_gradients libm (store_zero ℝ) ⟨1, 10, 20⟩ params =
          .ok ([0, 0], [0, 0], [0, 0]) := by
    intro params
    have hx : (store_zero ℝ).get_user_vector 1 = .ok [0, 0] := rfl
    have hi : (store_zero ℝ).get_item_vector 10 = .ok [0, 0] := rfl
    have hj : (store_zero ℝ).get_item_vector 20 = .ok [0, 0] := rfl
    simp only [SRPR_Trainer.compute_gradients, hx, hi, hj, p_srp_zero_zero,
      p_srp_derivatives_zero_zero]
    split_ifs <;> norm_num [List.range, List.range.loop, List.replicate]
  have evaluate_triplet_store_zero : ∀ (params : TrainingParams ℝ),
        SRPR_Trainer.evaluate_triplet libm (store_zero ℝ) ⟨1, 10, 20⟩ params =
          .ok (Real.log (1 / 2 + 1e-12)) := by
    intro params
    rw [evaluate_triplet_ok (store_zero ℝ) ⟨1, 10, 20⟩ params [0, 0] [0, 0] [0, 0] rfl rfl rfl,
      p_srp_zero_zero, calculate_gamma_self, mul_zero, phi_zero]
  have train_triplets_store_zero : ∀ (params : TrainingParams ℝ),
        SRPR_Trainer.train_triplets libm params [⟨1, 10, 20⟩] (store_zero ℝ) 0.0 0 =
          .ok (store_zero ℝ, Real.log (1 / 2 + 1e-12), 1) := by
    intro params
    simp only [SRPR_Trainer.train_triplets, compute_gradients_store_zero,
      update_vectors_store_zero, evaluate_triplet_store_zero]
    norm_num [int_wrap]
  have train_store_zero_two_epochs : SRPR_Trainer.train libm (store_zero ℝ) [⟨1, 10, 20⟩] (params_epochs ℝ 2) [] 0 =
        .ok (store_zero ℝ,
          { epoch_losses := [Real.log (1 / 2 + 1e-12), Real.log (1 / 2 + 1e-12)]
            validation_scores := []
            final_loss := Real.log (1 / 2 + 1e-12)
            training_time_ms := 0
            total_updates := 2
            converged := false }) := by
    have h2 : (params_epochs ℝ 2).epochs.toNat = 2 := rfl
    simp only [SRPR_Trainer.train, h2, SRPR_Trainer.train_epochs, train_triplets_store_zero,
      SRPR_Trainer.validation_step, SRPR_Trainer.check_convergence]
    norm_num [int_wrap]
  have saturated_items_differ : ∀ (store : UserItemStore ℝ) (t : Triplet) (params : TrainingParams ℝ)
          (xu yi yj : List ℝ),
        store.get_item_vector t.preferred_item_id = .ok yi →
        store.get_item_vector t.less_preferred_item_id = .ok yj →
        SRPR_Trainer.phi libm (libm.sqrt (params.b_lsh_length : ℝ) *
          SRPR_Trainer.calculate_gamma libm (SRPR_Trainer.calculate_p_srp libm xu yi)
          (SRPR_Trainer.calculate_p_srp libm xu yj) params.b_lsh_length) < 1e-12 →
        t.preferred_item_id ≠ t.less_preferred_item_id := by
    intro store t params xu yi yj hi hj hphi
    intro heq
    rw [heq, hj] at hi
    injection hi with hi
    subst hi
    rw [calculate_gamma_self, mul_zero, phi_zero] at hphi
    norm_num at hphi
  exact ⟨erf_zero, phi_libm, phi_zero, evaluate_triplet_ok, train_store_zero_two_epochs,
    saturated_items_differ⟩

/-- The error function is the integral of the Gaussian, strictly increasing and odd;
the objective `phi` is the normal distribution function; the loss of a triplet
is monotone in the separation statistic; the objective is saturated on the store
`store_opp`. -/
theorem erf_facts :
    -- erf_eq_integral
    (∀ (x : ℝ),
        erf x = 2 / Real.sqrt Real.pi * ∫ t in (0 : ℝ)..x, Real.exp (-t ^ 2)) ∧
    -- erf_strictMono
    (StrictMono erf) ∧
    -- erf_neg
    (∀ (x : ℝ),
        erf (-x) = - erf x) ∧
    -- phi_eq_normal_cdf
    (∀ (x : ℝ),
        SRPR_Trainer.phi libm x = normal_cdf x) ∧
    -- evaluate_triplet_swap
    (∀ (store : UserItemStore ℝ) (u i j : Int) (params : TrainingParams ℝ)
          (xu yi yj : List ℝ),
        store.get_user_vector u = .ok xu →
        store.get_item_vector i = .ok yi →
        store.get_item_vector j = .ok yj →
        SRPR_Trainer.calculate_p_srp libm xu yj ≤ SRPR_Trainer.calculate_p_srp libm xu yi →
        ∃ a a2, SRPR_Trainer.evaluate_triplet libm store ⟨u, i, j⟩ params = .ok a ∧
          SRPR_Trainer.evaluate_triplet libm store ⟨u, j, i⟩ params = .ok a2 ∧ a ≤ a2 ∧
          (0 < params.b_lsh_length →
            clamp (SRPR_Trainer.calculate_p_srp libm xu yj) 1e-12 (1 - 1e-12) <
              clamp (SRPR_Trainer.calculate_p_srp libm xu yi) 1e-12 (1 - 1e-12) → a < a2)) ∧
    -- phi_store_opp
    (SRPR_Trainer.phi libm (libm.sqrt ((default_params ℝ).b_lsh_length : ℝ) *
        SRPR_Trainer.calculate_gamma libm (SRPR_Trainer.calculate_p_srp libm [1, 0] [1, 0])
          (SRPR_Trainer.calculate_p_srp libm [1, 0] [-1, 0]) (default_params ℝ).b_lsh_length)
        < 1e-12) := by
  have p_srp_parallel := unit_vector_facts.2.2.2.2.2.1
  have p_srp_opposite := unit_vector_facts.2.2.2.2.2.2.2.2
  have calculate_gamma_swap := gamma_facts.2.2.1
  have calculate_gamma_nonpos := gamma_facts.2.2.2.1
  have calculate_gamma_neg := gamma_facts.2.2.2.2.1
  have gamma_one_zero_le := gamma_facts.2.2.2.2.2.1
  have erf_zero := zero_store_facts.1
  have phi_libm := zero_store_facts.2.1
  have evaluate_triplet_ok := zero_store_facts.2.2.2.1
  -- The Maclaurin series of the Gaussian `exp(-y^2)`.
  have gauss_series : ∀ (y : ℝ),
        (tsum fun n : ℕ => (-1 : ℝ) ^ n * y ^ (2 * n) / (n.factorial : ℝ)) =
          Real.exp (-y ^ 2) := by
    intro y
    rw [Real.exp_eq_exp_ℝ, NormedSpace.exp_eq_tsum_div]
    refine tsum_congr fun n => ?_
    have h : (-y ^ 2) ^ n = (-1) ^ n * y ^ (2 * n) := by rw [neg_pow, pow_mul]
    rw [h]
  -- The series of `erf` is differentiated term by term: its derivative is the
  -- Gaussian.
  have erf_series_hasDerivAt : ∀ (y : ℝ),
        HasDerivAt (fun z : ℝ => tsum fun n : ℕ =>
            (-1) ^ n * z ^ (2 * n + 1) / ((n.factorial : ℝ) * (2 * n + 1)))
          (Real.exp (-y ^ 2)) y := by
    intro y
    rw [← gauss_series]
    have hR : (0 : ℝ) < |y| + 1 := by positivity
    have hg : ∀ (n : ℕ) (z : ℝ), z ∈ Metric.ball (0 : ℝ) (|y| + 1) →
        HasDerivAt (fun z : ℝ => (-1) ^ n * z ^ (2 * n + 1) / ((n.factorial : ℝ) * (2 * n + 1)))
          ((-1 : ℝ) ^ n * z ^ (2 * n) / (n.factorial : ℝ)) z := by
      intro n z _
      have h := ((hasDerivAt_pow (2 * n + 1) z).const_mul ((-1 : ℝ) ^ n)).div_const
        ((n.factorial : ℝ) * (2 * n + 1))
      convert h using 1
      have h1 : ((n.factorial : ℝ)) ≠ 0 := Nat.cast_ne_zero.2 n.factorial_ne_zero
      have h2 : (2 * (n : ℝ) + 1) ≠ 0 := by positivity
      field_simp
      ring
    have hb : ∀ (n : ℕ) (z : ℝ), z ∈ Metric.ball (0 : ℝ) (|y| + 1) →
        ‖(-1 : ℝ) ^ n * z ^ (2 * n) / (n.factorial : ℝ)‖ ≤
          ((|y| + 1) ^ 2) ^ n / (n.factorial : ℝ) := by
      intro n z hz
      rw [Metric.mem_ball, dist_zero_right, Real.norm_eq_abs] at hz
      rw [Real.norm_eq_abs, abs_div, abs_mul, abs_pow, abs_neg, abs_one, one_pow, one_mul,
        abs_pow, Nat.abs_cast, pow_mul]
      apply div_le_div_of_nonneg_right _ (Nat.cast_nonneg _)
      apply pow_le_pow_left₀ (by positivity)
      apply pow_le_pow_left₀ (abs_nonneg _) hz.le
    have h0 : Summable fun n : ℕ =>
        (-1 : ℝ) ^ n * (0 : ℝ) ^ (2 * n + 1) / ((n.factorial : ℝ) * (2 * n + 1)) := by
      simp
      exact summable_zero
    have hy : y ∈ Metric.ball (0 : ℝ) (|y| + 1) := by
      rw [Metric.mem_ball, dist_zero_right, Real.norm_eq_abs]
      linarith
    exact hasDerivAt_tsum_of_isPreconnected (Real.summable_pow_div_factorial ((|y| + 1) ^ 2))
      Metric.isOpen_ball (convex_ball (0 : ℝ) (|y| + 1)).isPreconnected hg hb
      (Metric.mem_ball_self hR) h0 hy
  -- The error function is the integral of the Gaussian: both sides vanish at `0`
  -- and have the same derivative everywhere.
  have erf_eq_integral : ∀ (x : ℝ),
        erf x = 2 / Real.sqrt Real.pi * ∫ t in (0 : ℝ)..x, Real.exp (-t ^ 2) := by
    intro x
    have hF : ∀ y : ℝ, HasDerivAt (fun z : ℝ => ∫ t in (0 : ℝ)..z, Real.exp (-t ^ 2))
        (Real.exp (-y ^ 2)) y := fun y =>
      intervalIntegral.integral_hasDerivAt_right (gauss_cont.intervalIntegrable _ _)
        (gauss_cont.stronglyMeasurableAtFilter _ _) gauss_cont.continuousAt
    have hd : ∀ y : ℝ, HasDerivAt (fun z : ℝ =>
        (tsum fun n : ℕ => (-1) ^ n * z ^ (2 * n + 1) / ((n.factorial : ℝ) * (2 * n + 1))) -
          ∫ t in (0 : ℝ)..z, Real.exp (-t ^ 2)) 0 y := fun y => by
      simpa using (erf_series_hasDerivAt y).sub (hF y)
    have hconst := is_const_of_deriv_eq_zero (fun y => (hd y).differentiableAt)
      (fun y => (hd y).deriv) x 0
    simp only [intervalIntegral.integral_same, sub_zero] at hconst
    have h0 : (tsum fun n : ℕ =>
        (-1 : ℝ) ^ n * (0 : ℝ) ^ (2 * n + 1) / ((n.factorial : ℝ) * (2 * n + 1))) = 0 := by
      simp
    rw [h0, sub_eq_zero] at hconst
    rw [erf, hconst]
  have gauss_integral_sub : ∀ (x y : ℝ),
        (∫ t in (0 : ℝ)..y, Real.exp (-t ^ 2)) - (∫ t in (0 : ℝ)..x, Real.exp (-t ^ 2)) =
          ∫ t in x..y, Real.exp (-t ^ 2) := by
    intro x y
    exact intervalIntegral.integral_interval_sub_left (gauss_cont.intervalIntegrable _ _)
          (gauss_cont.intervalIntegrable _ _)
  have erf_strictMono : StrictMono erf := by
    intro x y hxy
    have hc : 0 < 2 / Real.sqrt Real.pi := by positivity
    have hpos : 0 < ∫ t in x..y, Real.exp (-t ^ 2) :=
      intervalIntegral.intervalIntegral_pos_of_pos (gauss_cont.intervalIntegrable _ _)
        (fun t => Real.exp_pos _) hxy
    rw [← gauss_integral_sub] at hpos
    simp only [erf_eq_integral]
    nlinarith
  have gauss_integrable : MeasureTheory.Integrable (fun t : ℝ => Real.exp (-t ^ 2)) := by
    have h := integrable_exp_neg_mul_sq (b := 1) one_pos
    simpa using h
  have gauss_integral_Ioi :
      ∫ t in Set.Ioi (0 : ℝ), Real.exp (-t ^ 2) = Real.sqrt Real.pi / 2 := by
    have hI := integral_gaussian_Ioi 1
    simpa using hI
  have gauss_integral_le : ∀ (x : ℝ),
        0 ≤ x →
        ∫ t in (0 : ℝ)..x, Real.exp (-t ^ 2) ≤ Real.sqrt Real.pi / 2 := by
    intro x hx
    rw [← gauss_integral_Ioi, intervalIntegral.integral_of_le hx]
    exact MeasureTheory.setIntegral_mono_set gauss_integrable.integrableOn
      (Filter.Eventually.of_forall (fun t => (Real.exp_pos _).le))
      (Set.Ioc_subset_Ioi_self).eventuallyLE
  have gauss_integral_neg : ∀ (x : ℝ),
        ∫ t in (0 : ℝ)..(-x), Real.exp (-t ^ 2) = - ∫ t in (0 : ℝ)..x, Real.exp (-t ^ 2) := by
    intro x
    have h := intervalIntegral.integral_comp_neg (a := 0) (b := x)
      (fun t : ℝ => Real.exp (-t ^ 2))
    simp only [neg_sq, neg_zero] at h
    rw [h, intervalIntegral.integral_symm]
  have erf_neg : ∀ (x : ℝ),
        erf (-x) = - erf x := by
    intro x
    simp only [erf_eq_integral]
    rw [gauss_integral_neg]
    ring
  have erf_le_one : ∀ (x : ℝ),
        erf x ≤ 1 := by
    intro x
    have hs : 0 < Real.sqrt Real.pi := by positivity
    rcases le_total 0 x with hx | hx
    · have := gauss_integral_le x hx
      simp only [erf_eq_integral]
      rw [div_mul_eq_mul_div, div_le_one hs]
      linarith
    · have : erf x ≤ erf 0 := erf_strictMono.monotone hx
      rw [erf_zero] at this
      linarith
  have neg_one_le_erf : ∀ (x : ℝ),
        -1 ≤ erf x := by
    intro x
    have := erf_le_one (-x)
    rw [erf_neg] at this
    linarith
  have phi_nonneg : ∀ (x : ℝ),
        0 ≤ SRPR_Trainer.phi libm x := by
    intro x
    rw [phi_libm]
    have := neg_one_le_erf (x / Real.sqrt 2)
    linarith
  have phi_strictMono : StrictMono (SRPR_Trainer.phi libm) := by
    intro x y hxy
    rw [phi_libm, phi_libm]
    have hs : 0 < Real.sqrt 2 := by positivity
    have := erf_strictMono (div_lt_div_of_pos_right hxy hs)
    linarith
  have density_integrable :
      MeasureTheory.Integrable (fun t : ℝ => Real.exp (-t ^ 2 / 2) / Real.sqrt (2 * Real.pi)) := by
    have h := integrable_exp_neg_mul_sq (b := 1 / 2) (by norm_num)
    have h2 := h.div_const (Real.sqrt (2 * Real.pi))
    refine h2.congr (Filter.Eventually.of_forall fun t => ?_)
    show Real.exp (-(1 / 2) * t ^ 2) / _ = Real.exp (-t ^ 2 / 2) / _
    congr 2
    ring
  have density_integral_Iic_zero :
      ∫ t in Set.Iic (0 : ℝ), Real.exp (-t ^ 2 / 2) / Real.sqrt (2 * Real.pi) = 1 / 2 := by
    have h := integral_comp_neg_Ioi (0 : ℝ)
      (fun t : ℝ => Real.exp (-t ^ 2 / 2) / Real.sqrt (2 * Real.pi))
    simp only [neg_sq, neg_zero] at h
    rw [← h, MeasureTheory.integral_div]
    have hI := integral_gaussian_Ioi (1 / 2)
    have he : (fun t : ℝ => Real.exp (-t ^ 2 / 2)) = fun t : ℝ => Real.exp (-(1 / 2) * t ^ 2) := by
      funext t
      congr 1
      ring
    rw [he, hI]
    have h2 : Real.pi / (1 / 2) = 2 * Real.pi := by ring
    rw [h2]
    have hs : 0 < Real.sqrt (2 * Real.pi) := by positivity
    field_simp
    ring
  have density_interval : ∀ (x : ℝ),
        ∫ t in (0 : ℝ)..x, Real.exp (-t ^ 2 / 2) / Real.sqrt (2 * Real.pi) =
          erf (x / Real.sqrt 2) / 2 := by
    intro x
    have hs2 : 0 < Real.sqrt 2 := by positivity
    have hsp : 0 < Real.sqrt Real.pi := by positivity
    have hc := intervalIntegral.integral_comp_div (a := 0) (b := x)
      (fun s : ℝ => Real.exp (-s ^ 2)) hs2.ne'
    have he : (fun t : ℝ => Real.exp (-(t / Real.sqrt 2) ^ 2)) =
        fun t : ℝ => Real.exp (-t ^ 2 / 2) := by
      funext t
      congr 1
      rw [div_pow, Real.sq_sqrt (by norm_num : (0 : ℝ) ≤ 2)]
      ring
    simp only [zero_div, smul_eq_mul] at hc
    rw [he] at hc
    rw [intervalIntegral.integral_div, hc, erf_eq_integral, Real.sqrt_mul (by norm_num : (0 : ℝ) ≤ 2)]
    field_simp
    ring
  have normal_cdf_eq : ∀ (x : ℝ),
        normal_cdf x = (1 + erf (x / Real.sqrt 2)) / 2 := by
    intro x
    have h := intervalIntegral.integral_Iic_sub_Iic
      (density_integrable.integrableOn (s := Set.Iic 0))
      (density_integrable.integrableOn (s := Set.Iic x))
    rw [density_integral_Iic_zero, density_interval] at h
    unfold normal_cdf
    linarith
  have phi_eq_normal_cdf : ∀ (x : ℝ),
        SRPR_Trainer.phi libm x = normal_cdf x := by
    intro x
    rw [phi_libm, normal_cdf_eq]
  -- The objective value `log(phi(sqrt(b) * g) + 1e-12)` is monotone in `g`, and
  -- strictly so for `b > 0`.
  have objective_mono : ∀ (b : Int) {g1 g2 : ℝ},
        g1 ≤ g2 →
        Real.log (SRPR_Trainer.phi libm (Real.sqrt (b : ℝ) * g1) + 1e-12) ≤
          Real.log (SRPR_Trainer.phi libm (Real.sqrt (b : ℝ) * g2) + 1e-12) := by
    intro b g1 g2 h
    have h0 := phi_nonneg (Real.sqrt (b : ℝ) * g1)
    have hm := phi_strictMono.monotone
      (mul_le_mul_of_nonneg_left h (Real.sqrt_nonneg (b : ℝ)))
    exact Real.log_le_log (by linarith [show (0 : ℝ) < 1e-12 by norm_num]) (by linarith)
  have objective_strictMono : ∀ (b : Int),
        0 < b →
        ∀ {g1 g2 : ℝ},
        g1 < g2 →
        Real.log (SRPR_Trainer.phi libm (Real.sqrt (b : ℝ) * g1) + 1e-12) <
          Real.log (SRPR_Trainer.phi libm (Real.sqrt (b : ℝ) * g2) + 1e-12) := by
    intro b hb g1 g2 h
    have h0 := phi_nonneg (Real.sqrt (b : ℝ) * g1)
    have hbr : (0 : ℝ) < (b : ℝ) := by exact_mod_cast hb
    have hm := phi_strictMono (mul_lt_mul_of_pos_left h (Real.sqrt_pos.2 hbr))
    exact Real.log_lt_log (by linarith [show (0 : ℝ) < 1e-12 by norm_num]) (by linarith)
  -- The objective of a triplet never exceeds the objective of the triplet with
  -- its two items exchanged when the preferred item is at least as collision-likely
  -- as the less-preferred one, and it is strictly smaller when the clamped
  -- probabilities differ and `b > 0`.
  have evaluate_triplet_swap : ∀ (store : UserItemStore ℝ) (u i j : Int) (params : TrainingParams ℝ)
          (xu yi yj : List ℝ),
        store.get_user_vector u = .ok xu →
        store.get_item_vector i = .ok yi →
        store.get_item_vector j = .ok yj →
        SRPR_Trainer.calculate_p_srp libm xu yj ≤ SRPR_Trainer.calculate_p_srp libm xu yi →
        ∃ a a2, SRPR_Trainer.evaluate_triplet libm store ⟨u, i, j⟩ params = .ok a ∧
          SRPR_Trainer.evaluate_triplet libm store ⟨u, j, i⟩ params = .ok a2 ∧ a ≤ a2 ∧
          (0 < params.b_lsh_length →
            clamp (SRPR_Trainer.calculate_p_srp libm xu yj) 1e-12 (1 - 1e-12) <
              clamp (SRPR_Trainer.calculate_p_srp libm xu yi) 1e-12 (1 - 1e-12) → a < a2) := by
    intro store u i j params xu yi yj hx hi hj hp
    refine ⟨_, _, evaluate_triplet_ok store ⟨u, i, j⟩ params xu yi yj hx hi hj,
      evaluate_triplet_ok store ⟨u, j, i⟩ params xu yj yi hx hj hi, ?_, ?_⟩
    · apply objective_mono
      rw [calculate_gamma_swap (SRPR_Trainer.calculate_p_srp libm xu yi)]
      have := calculate_gamma_nonpos _ _ params.b_lsh_length hp
      linarith
    · intro hb hlt
      apply objective_strictMono _ hb
      rw [calculate_gamma_swap (SRPR_Trainer.calculate_p_srp libm xu yi)]
      have := calculate_gamma_neg _ _ params.b_lsh_length hlt
      linarith
  have one_sub_erf : ∀ (y : ℝ),
        0 ≤ y →
        1 - erf y = 2 / Real.sqrt Real.pi * ∫ t in Set.Ioi y, Real.exp (-t ^ 2) := by
    intro y hy
    have hsplit : ∫ t in Set.Ioi (0 : ℝ), Real.exp (-t ^ 2) =
        (∫ t in Set.Ioc (0 : ℝ) y, Real.exp (-t ^ 2)) + ∫ t in Set.Ioi y, Real.exp (-t ^ 2) := by
      rw [← Set.Ioc_union_Ioi_eq_Ioi hy]
      exact MeasureTheory.setIntegral_union Set.Ioc_disjoint_Ioi_same measurableSet_Ioi
        gauss_integrable.integrableOn gauss_integrable.integrableOn
    rw [gauss_integral_Ioi, ← intervalIntegral.integral_of_le hy] at hsplit
    have hpi : 0 < Real.sqrt Real.pi := Real.sqrt_pos.mpr Real.pi_pos
    simp only [erf_eq_integral]
    have h2 : ∫ t in (0 : ℝ)..y, Real.exp (-t ^ 2) =
        Real.sqrt Real.pi / 2 - ∫ t in Set.Ioi y, Real.exp (-t ^ 2) := by linarith
    rw [h2]
    field_simp
    ring
  have gauss_tail_le : ∀ (y : ℝ),
        1 ≤ y →
        ∫ t in Set.Ioi y, Real.exp (-t ^ 2) ≤ Real.exp (-y) := by
    intro y hy
    rw [← integral_exp_neg_Ioi y]
    apply MeasureTheory.setIntegral_mono_on gauss_integrable.integrableOn
    · have h := exp_neg_integrableOn_Ioi y one_pos
      simpa using h
    · exact measurableSet_Ioi
    · intro t ht
      have ht1 : 1 ≤ t := hy.trans (le_of_lt ht)
      apply Real.exp_le_exp.mpr
      nlinarith
  have phi_le_exp : ∀ (z : ℝ),
        Real.sqrt 2 ≤ z →
        SRPR_Trainer.phi libm (-z) ≤ Real.exp (-(z / Real.sqrt 2)) := by
    intro z hz
    have hs2 : 0 < Real.sqrt 2 := Real.sqrt_pos.mpr two_pos
    have hy : 1 ≤ z / Real.sqrt 2 := (one_le_div hs2).mpr hz
    have hpi : 1 ≤ Real.sqrt Real.pi := by
      rw [Real.one_le_sqrt]
      linarith [Real.pi_gt_three]
    have htail := gauss_tail_le _ hy
    have hnn : 0 ≤ ∫ t in Set.Ioi (z / Real.sqrt 2), Real.exp (-t ^ 2) :=
      MeasureTheory.setIntegral_nonneg measurableSet_Ioi (fun t _ => (Real.exp_pos _).le)
    rw [phi_libm, neg_div, erf_neg]
    have h1 := one_sub_erf (z / Real.sqrt 2) (by linarith)
    have h3 : (1 + -erf (z / Real.sqrt 2)) / 2 =
        (1 / Real.sqrt Real.pi) * ∫ t in Set.Ioi (z / Real.sqrt 2), Real.exp (-t ^ 2) := by
      have : 1 + -erf (z / Real.sqrt 2) = 1 - erf (z / Real.sqrt 2) := by ring
      rw [this, h1]
      ring
    rw [h3]
    have h4 : 1 / Real.sqrt Real.pi ≤ 1 := by
      rw [div_le_one (by linarith)]
      exact hpi
    calc 1 / Real.sqrt Real.pi * ∫ t in Set.Ioi (z / Real.sqrt 2), Real.exp (-t ^ 2)
        ≤ 1 * ∫ t in Set.Ioi (z / Real.sqrt 2), Real.exp (-t ^ 2) :=
          mul_le_mul_of_nonneg_right h4 hnn
      _ = ∫ t in Set.Ioi (z / Real.sqrt 2), Real.exp (-t ^ 2) := one_mul _
      _ ≤ Real.exp (-(z / Real.sqrt 2)) := htail
  have phi_saturated : ∀ (x : ℝ),
        x ≤ -2400000 →
        SRPR_Trainer.phi libm x < 1e-12 := by
    intro x hx
    have hs2 : 0 < Real.sqrt 2 := Real.sqrt_pos.mpr two_pos
    have hs15 : Real.sqrt 2 ≤ 1.5 := by
      rw [Real.sqrt_le_left (by norm_num)]
      norm_num
    have hz : Real.sqrt 2 ≤ -x := by linarith
    have h := phi_le_exp (-x) hz
    rw [neg_neg] at h
    have hy : 1600000 ≤ -x / Real.sqrt 2 := by
      rw [le_div_iff₀ hs2]
      nlinarith
    have hq := Real.quadratic_le_exp_of_nonneg (by linarith : 0 ≤ -x / Real.sqrt 2)
    have hbig : (1e12 : ℝ) < Real.exp (-x / Real.sqrt 2) := by
      have : (1e12 : ℝ) < 1 + -x / Real.sqrt 2 + (-x / Real.sqrt 2) ^ 2 / 2 := by
        norm_num
        nlinarith
      linarith
    have hexp : Real.exp (-(-x / Real.sqrt 2)) < 1e-12 := by
      rw [Real.exp_neg]
      have hpos : (0 : ℝ) < 1e12 := by norm_num
      have := inv_strictAnti₀ hpos hbig
      calc (Real.exp (-x / Real.sqrt 2))⁻¹ < (1e12 : ℝ)⁻¹ := this
        _ = 1e-12 := by norm_num
    linarith
  have phi_store_opp : SRPR_Trainer.phi libm (libm.sqrt ((default_params ℝ).b_lsh_length : ℝ) *
        SRPR_Trainer.calculate_gamma libm (SRPR_Trainer.calculate_p_srp libm [1, 0] [1, 0])
          (SRPR_Trainer.calculate_p_srp libm [1, 0] [-1, 0]) (default_params ℝ).b_lsh_length)
        < 1e-12 := by
    rw [p_srp_parallel, p_srp_opposite]
    apply phi_saturated
    have h16 : libm.sqrt ((default_params ℝ).b_lsh_length : ℝ) = 4 := by
      show Real.sqrt (((16 : Int) : ℝ)) = 4
      rw [show (((16 : Int) : ℝ)) = 4 ^ 2 by norm_num]
      exact Real.sqrt_sq (by norm_num)
    rw [h16]
    have hg := gamma_one_zero_le (default_params ℝ).b_lsh_length
    linarith
  exact ⟨erf_eq_integral, erf_strictMono, erf_neg, phi_eq_normal_cdf, evaluate_triplet_swap,
    phi_store_opp⟩

/-! ## The trainer: the objective of one triplet -/

/-- C7, as stated, fails: on the store `store_orth`, whose two items are both
orthogonal to the user, `evaluate_triplet` of `(1, 10, 20)` is not the logarithm
of the normal distribution function at `sqrt(b) * gamma`. -/
theorem C7_counterexample :
    (store_orth ℝ).get_user_vector 1 = .ok [1, 0] ∧
    (store_orth ℝ).get_item_vector 10 = .ok [0, 1] ∧
    (store_orth ℝ).get_item_vector 20 = .ok [0, -1] ∧
    0 < (default_params ℝ).b_lsh_length ∧
    SRPR_Trainer.evaluate_triplet libm (store_orth ℝ) ⟨1, 10, 20⟩ (default_params ℝ) ≠
      .ok (Real.log (normal_cdf (Real.sqrt ((default_params ℝ).b_lsh_length : ℝ) *
        SRPR_Trainer.calculate_gamma libm (SRPR_Trainer.calculate_p_srp libm [1, 0] [0, 1])
          (SRPR_Trainer.calculate_p_srp libm [1, 0] [0, -1])
          (default_params ℝ).b_lsh_length))) := by
  have p_srp_orth_pos := unit_vector_facts.2.2.2.1
  have p_srp_orth_neg := unit_vector_facts.2.2.2.2.1
  have phi_zero := zero_store_facts.2.2.1
  have evaluate_triplet_ok := zero_store_facts.2.2.2.1
  have phi_eq_normal_cdf := erf_facts.2.2.2.1
  refine ⟨rfl, rfl, rfl, by decide, ?_⟩
  rw [evaluate_triplet_ok (store_orth ℝ) ⟨1, 10, 20⟩ (default_params ℝ) [1, 0] [0, 1] [0, -1]
    rfl rfl rfl, p_srp_orth_pos, p_srp_orth_neg, calculate_gamma_self, mul_zero,
    ← phi_eq_normal_cdf, phi_zero]
  intro h
  injection h with h
  have hlt : Real.log (1 / 2) < Real.log (1 / 2 + 1e-12) :=
    Real.log_lt_log (by norm_num) (by norm_num)
  rw [h] at hlt
  exact lt_irrefl _ hlt

/-- C7, amended: for every triplet whose three ids are in the store and every
training hash length `b > 0`, `evaluate_triplet` returns
`log(Φ(sqrt(b) * gamma(p_ui, p_uj)) + 1e-12)`, with `Φ` the standard normal
distribution function. -/
theorem C7_evaluate_triplet_formula (store : UserItemStore ℝ) (t : Triplet)
    (params : TrainingParams ℝ) (xu yi yj : List ℝ)
    (hx : store.get_user_vector t.user_id = .ok xu)
    (hi : store.get_item_vector t.preferred_item_id = .ok yi)
    (hj : store.get_item_vector t.less_preferred_item_id = .ok yj)
    (hb : 0 < params.b_lsh_length) :
    SRPR_Trainer.evaluate_triplet libm store t params =
      .ok (Real.log (normal_cdf (Real.sqrt (params.b_lsh_length : ℝ) *
        SRPR_Trainer.calculate_gamma libm (SRPR_Trainer.calculate_p_srp libm xu yi)
          (SRPR_Trainer.calculate_p_srp libm xu yj) params.b_lsh_length) + 1e-12)) := by
  have evaluate_triplet_ok := zero_store_facts.2.2.2.1
  have phi_eq_normal_cdf := erf_facts.2.2.2.1
  have _ := hb
  rw [evaluate_triplet_ok store t params xu yi yj hx hi hj, phi_eq_normal_cdf]

/-- C7, amended, at the store `store_orth` and the triplet `(1, 10, 20)`: the
value is `log(1/2 + 1e-12)`. -/
theorem C7_evaluate_triplet_formula_witness :
    (store_orth ℝ).get_user_vector 1 = .ok [1, 0] ∧
    (store_orth ℝ).get_item_vector 10 = .ok [0, 1] ∧
    (store_orth ℝ).get_item_vector 20 = .ok [0, -1] ∧
    0 < (default_params ℝ).b_lsh_length ∧
    SRPR_Trainer.evaluate_triplet libm (store_orth ℝ) ⟨1, 10, 20⟩ (default_params ℝ) =
      .ok (Real.log (1 / 2 + 1e-12)) := by
  have p_srp_orth_pos := unit_vector_facts.2.2.2.1
  have p_srp_orth_neg := unit_vector_facts.2.2.2.2.1
  have phi_zero := zero_store_facts.2.2.1
  have phi_eq_normal_cdf := erf_facts.2.2.2.1
  refine ⟨rfl, rfl, rfl, by decide, ?_⟩
  rw [C7_evaluate_triplet_formula (store_orth ℝ) ⟨1, 10, 20⟩ (default_params ℝ)
    [1, 0] [0, 1] [0, -1] rfl rfl rfl (by decide), p_srp_orth_pos, p_srp_orth_neg,
    calculate_gamma_self, mul_zero, ← phi_eq_normal_cdf, phi_zero]

/-! ## The trainer: the direction of the objective -/

/-- C6 fails on the code: on the store `store_par` the preferred item `10` is
parallel to the user (collision probability `1`) and the less-preferred item `20`
is orthogonal to it (collision probability `1/2`), yet `evaluate_triplet` of
`(1, 10, 20)` is strictly smaller than that of the triplet with the items
exchanged. -/
theorem C6_objective_reversed_at_store_par :
    (store_par ℝ).get_user_vector 1 = .ok [1, 0] ∧
    (store_par ℝ).get_item_vector 10 = .ok [1, 0] ∧
    (store_par ℝ).get_item_vector 20 = .ok [0, 1] ∧
    SRPR_Trainer.calculate_p_srp libm [1, 0] [1, 0] >
      SRPR_Trainer.calculate_p_srp libm [1, 0] [0, 1] ∧
    ∃ a a2,
      SRPR_Trainer.evaluate_triplet libm (store_par ℝ) ⟨1, 10, 20⟩ (default_params ℝ) = .ok a ∧
      SRPR_Trainer.evaluate_triplet libm (store_par ℝ) ⟨1, 20, 10⟩ (default_params ℝ) = .ok a2 ∧
      a < a2 := by
  have p_srp_orth_pos := unit_vector_facts.2.2.2.1
  have p_srp_parallel := unit_vector_facts.2.2.2.2.2.1
  have evaluate_triplet_swap := erf_facts.2.2.2.2.1
  have hp : SRPR_Trainer.calculate_p_srp libm [1, 0] [0, 1] ≤
      SRPR_Trainer.calculate_p_srp libm [1, 0] [1, 0] := by
    rw [p_srp_parallel, p_srp_orth_pos]
    norm_num
  obtain ⟨a, a2, h1, h2, -, h4⟩ := evaluate_triplet_swap (store_par ℝ) 1 10 20
    (default_params ℝ) [1, 0] [1, 0] [0, 1] rfl rfl rfl hp
  refine ⟨rfl, rfl, rfl, ?_, a, a2, h1, h2, h4 (by decide) ?_⟩
  · rw [p_srp_parallel, p_srp_orth_pos]
    norm_num
  · rw [p_srp_parallel, p_srp_orth_pos]
    simp only [clamp]
    norm_num

/-! ## The trainer: the training loop -/

theorem keys_umap_modify {V : Type} (m : List (Int × V)) (k : Int) (f : V → V) :
    (umap_modify m k f).map Prod.fst = m.map Prod.fst := by
  induction m with
  | nil => rfl
  | cons e rest ih =>
    obtain ⟨k0, v0⟩ := e
    unfold umap_modify
    by_cases hk : k0 = k
    · simp [hk]
    · simp [hk, ih]

theorem same_keys_refl {F : Type} (s : UserItemStore F) : same_keys s s := ⟨rfl, rfl⟩

theorem same_keys_trans {F : Type} {s1 s2 s3 : UserItemStore F} (h12 : same_keys s1 s2)
    (h23 : same_keys s2 s3) : same_keys s1 s3 :=
  ⟨h23.1.trans h12.1, h23.2.trans h12.2⟩

theorem triplet_known_of_same_keys {F : Type} {s1 s2 : UserItemStore F} (h : same_keys s1 s2)
    {t : Triplet} (ht : triplet_known s1 t) : triplet_known s2 t := by
  unfold triplet_known at ht ⊢
  rw [h.1, h.2]
  exact ht

theorem triplet_known_lookups {F : Type} {s : UserItemStore F} {t : Triplet}
    (ht : triplet_known s t) :
    ∃ xu yi yj, s.get_user_vector t.user_id = .ok xu ∧
      s.get_item_vector t.preferred_item_id = .ok yi ∧
      s.get_item_vector t.less_preferred_item_id = .ok yj := by
  obtain ⟨xu, hx, -⟩ := umap_at_of_mem_keys _ _ ht.1
  obtain ⟨yi, hi, -⟩ := umap_at_of_mem_keys _ _ ht.2.1
  obtain ⟨yj, hj, -⟩ := umap_at_of_mem_keys _ _ ht.2.2
  exact ⟨xu, yi, yj, hx, hi, hj⟩

theorem same_keys_update_step {F : Type} [LinearOrderedField F] (t : Triplet)
    (gxu gyi gyj : List F) (lr : F) (s : UserItemStore F) (k : Nat) :
    same_keys s (SRPR_Trainer.update_step t gxu gyi gyj lr s k) := by
  simp only [same_keys, SRPR_Trainer.update_step, keys_umap_modify, and_self]

theorem same_keys_update_loop {F : Type} [LinearOrderedField F] (t : Triplet)
    (gxu gyi gyj : List F) (lr : F) (l : List Nat) (s : UserItemStore F) :
    same_keys s (l.foldl (SRPR_Trainer.update_step t gxu gyi gyj lr) s) := by
  induction l generalizing s with
  | nil => exact same_keys_refl s
  | cons k l ih =>
    rw [List.foldl_cons]
    exact same_keys_trans (same_keys_update_step t gxu gyi gyj lr s k) (ih _)

theorem update_vectors_ok {F : Type} [LinearOrderedField F] (s : UserItemStore F)
    (t : Triplet) (gxu gyi gyj : List F) (params : TrainingParams F)
    (ht : triplet_known s t) :
    ∃ s2, SRPR_Trainer.update_vectors s t gxu gyi gyj params = .ok s2 ∧ same_keys s s2 := by
  obtain ⟨xu, yi, yj, hx, hi, hj⟩ := triplet_known_lookups ht
  simp only [SRPR_Trainer.update_vectors, hx, hi, hj]
  refine ⟨_, rfl, ?_⟩
  have h := same_keys_update_loop t gxu gyi gyj params.learning_rate
    (List.range xu.length) s
  exact ⟨by simp only [keys_umap_modify]; exact h.1,
    by simp only [keys_umap_modify]; exact h.2⟩

theorem compute_gradients_ok {F : Type} [LinearOrderedField F] (m : CMath F)
    (s : UserItemStore F) (t : Triplet) (params : TrainingParams F)
    (ht : triplet_known s t) :
    ∃ g, SRPR_Trainer.compute_gradients m s t params = .ok g := by
  obtain ⟨xu, yi, yj, hx, hi, hj⟩ := triplet_known_lookups ht
  simp only [SRPR_Trainer.compute_gradients, hx, hi, hj]
  split_ifs
  · exact ⟨_, rfl⟩
  · exact ⟨_, rfl⟩

theorem evaluate_triplet_total {F : Type} [LinearOrderedField F] (m : CMath F)
    (s : UserItemStore F) (t : Triplet) (params : TrainingParams F)
    (ht : triplet_known s t) :
    ∃ v, SRPR_Trainer.evaluate_triplet m s t params = .ok v := by
  obtain ⟨xu, yi, yj, hx, hi, hj⟩ := triplet_known_lookups ht
  simp only [SRPR_Trainer.evaluate_triplet, hx, hi, hj]
  exact ⟨_, rfl⟩

theorem int_wrap_of_is_int (x : Int) (h : is_int x) : int_wrap x = x := by
  unfold is_int at h
  unfold int_wrap
  omega

theorem train_triplets_ok {F : Type} [LinearOrderedField F] (m : CMath F)
    (params : TrainingParams F) (ts : List Triplet) (s : UserItemStore F) (loss : F)
    (updates : Int) (hts : ∀ t ∈ ts, triplet_known s t) :
    ∃ s2 loss2 updates2, SRPR_Trainer.train_triplets m params ts s loss updates =
        .ok (s2, loss2, updates2) ∧ same_keys s s2 ∧
      (0 ≤ updates → updates + ts.length < 2 ^ 31 → updates2 = updates + ts.length) := by
  induction ts generalizing s loss updates with
  | nil =>
    exact ⟨s, loss, updates, by simp [SRPR_Trainer.train_triplets], same_keys_refl s,
      fun _ _ => by simp⟩
  | cons t rest ih =>
    have ht := hts t (List.mem_cons_self _ _)
    obtain ⟨g, hg⟩ := compute_gradients_ok m s t params ht
    obtain ⟨s1, hs1, hk1⟩ := update_vectors_ok s t g.1 g.2.1 g.2.2 params ht
    obtain ⟨v, hv⟩ := evaluate_triplet_total m s1 t params (triplet_known_of_same_keys hk1 ht)
    obtain ⟨s2, loss2, u2, h2, hk2, hu2⟩ := ih s1 (loss + v) (int_wrap (updates + 1))
      (fun t2 ht2 => triplet_known_of_same_keys hk1 (hts t2 (List.mem_cons_of_mem _ ht2)))
    refine ⟨s2, loss2, u2, ?_, same_keys_trans hk1 hk2, ?_⟩
    · simp only [SRPR_Trainer.train_triplets, hg, hs1, hv, h2]
    · intro h0 hlt
      simp only [List.length_cons, Nat.cast_add, Nat.cast_one] at hlt
      have hw : int_wrap (updates + 1) = updates + 1 :=
        int_wrap_of_is_int _ (by unfold is_int; omega)
      rw [hw] at hu2
      rw [hu2 (by omega) (by omega)]
      simp only [List.length_cons, Nat.cast_add, Nat.cast_one]
      ring

theorem sum_losses_ok {F : Type} [LinearOrderedField F] (m : CMath F)
    (s : UserItemStore F) (params : TrainingParams F) (ts : List Triplet) (total : F)
    (hts : ∀ t ∈ ts, triplet_known s t) :
    ∃ v, SRPR_Trainer.sum_losses m s params ts total = .ok v := by
  induction ts generalizing total with
  | nil => exact ⟨total, rfl⟩
  | cons t rest ih =>
    obtain ⟨v, hv⟩ := evaluate_triplet_total m s t params (hts t (List.mem_cons_self _ _))
    obtain ⟨w, hw⟩ := ih (total + v) (fun t2 ht2 => hts t2 (List.mem_cons_of_mem _ ht2))
    exact ⟨w, by simp only [SRPR_Trainer.sum_losses, hv, hw]⟩

theorem calculate_total_loss_ok {F : Type} [LinearOrderedField F] (m : CMath F)
    (s : UserItemStore F) (params : TrainingParams F) (ts : List Triplet)
    (hts : ∀ t ∈ ts, triplet_known s t) :
    ∃ v, SRPR_Trainer.calculate_total_loss m s ts params = .ok v := by
  obtain ⟨w, hw⟩ := sum_losses_ok m s params ts 0.0 hts
  exact ⟨w / (ts.length : F), by simp only [SRPR_Trainer.calculate_total_loss, hw]⟩

theorem validation_step_ok {F : Type} [LinearOrderedField F] (m : CMath F)
    (validation : List Triplet) (params : TrainingParams F) (epoch : Int)
    (s : UserItemStore F) (stats : TrainingStats F)
    (hts : ∀ t ∈ validation, triplet_known s t) :
    ∃ stats2, SRPR_Trainer.validation_step m validation params epoch s stats = .ok stats2 ∧
      stats2.epoch_losses = stats.epoch_losses ∧ stats2.total_updates = stats.total_updates ∧
      stats2.converged = stats.converged := by
  unfold SRPR_Trainer.validation_step
  split_ifs
  · obtain ⟨v, hv⟩ := calculate_total_loss_ok m s params validation hts
    rw [hv]
    exact ⟨_, rfl, rfl, rfl, rfl⟩
  · exact ⟨stats, rfl, rfl, rfl, rfl⟩

/-- The epoch loop returns, keeps the keys of the store, and records one loss per
epoch run; it stops exactly at the first epoch whose convergence check succeeds.
The counter `total_updates` grows by the number of training triplets per epoch as
long as it stays in the range of `int`. -/
theorem train_epochs_spec {F : Type} [LinearOrderedField F] (m : CMath F)
    (training validation : List Triplet) (params : TrainingParams F) (n : Nat) :
    ∀ (epoch : Int) (s : UserItemStore F) (stats : TrainingStats F),
      (∀ t ∈ training, triplet_known s t) → (∀ t ∈ validation, triplet_known s t) →
      stats.converged = false →
      ∃ s2 stats2 new,
        SRPR_Trainer.train_epochs m training validation params n epoch s stats
          = .ok (s2, stats2) ∧
        same_keys s s2 ∧
        stats2.epoch_losses = stats.epoch_losses ++ new ∧
        new.length ≤ n ∧ (0 < n → 0 < new.length) ∧
        (stats2.converged = false → new.length = n) ∧
        (0 ≤ stats.total_updates →
          stats.total_updates + (n : Int) * (training.length : Int) < 2 ^ 31 →
          stats2.total_updates =
            stats.total_updates + (new.length : Int) * (training.length : Int)) ∧
        (∀ k, 0 < k → k < new.length →
          SRPR_Trainer.check_convergence (stats.epoch_losses ++ new.take k) 1e-6 = false) ∧
        (stats2.converged = true →
          SRPR_Trainer.check_convergence stats2.epoch_losses 1e-6 = true) ∧
        (stats2.converged = false → 0 < new.length →
          SRPR_Trainer.check_convergence stats2.epoch_losses 1e-6 = false) := by
  induction n with
  | zero =>
    intro epoch s stats _ _ hc
    refine ⟨s, stats, [], rfl, same_keys_refl s, by simp, le_refl _, by simp, fun _ => rfl,
      fun _ _ => by simp, ?_, ?_, ?_⟩
    · intro k _ hk
      simp at hk
    · intro h
      rw [hc] at h
      cases h
    · intro _ h
      simp at h
  | succ n ih =>
    intro epoch s stats htr hval hc
    obtain ⟨s1, loss1, u1, h1, hk1, hu1⟩ := train_triplets_ok m params training s 0.0 0 htr
    obtain ⟨st2, hv, hl2, hu2, hc2⟩ := validation_step_ok m validation params epoch s1
      { stats with
        epoch_losses := stats.epoch_losses ++ [loss1 / (training.length : F)]
        total_updates := int_wrap (stats.total_updates + u1) }
      (fun t ht => triplet_known_of_same_keys hk1 (hval t ht))
    simp only at hl2 hu2 hc2
    have hstep : 0 ≤ stats.total_updates →
        stats.total_updates + ((n + 1 : Nat) : Int) * (training.length : Int) < 2 ^ 31 →
        st2.total_updates = stats.total_updates + (training.length : Int) ∧
          0 ≤ st2.total_updates ∧
          st2.total_updates + (n : Int) * (training.length : Int) < 2 ^ 31 := by
      intro h0 hlt
      have hnl : (0 : Int) ≤ (n : Int) * (training.length : Int) :=
        mul_nonneg (Int.ofNat_nonneg _) (Int.ofNat_nonneg _)
      have hl0 : (0 : Int) ≤ (training.length : Int) := Int.ofNat_nonneg _
      have hexp : ((n + 1 : Nat) : Int) * (training.length : Int) =
          (n : Int) * (training.length : Int) + (training.length : Int) := by
        push_cast
        ring
      rw [hexp] at hlt
      have hu : u1 = 0 + (training.length : Int) := hu1 (le_refl 0) (by omega)
      have hw : int_wrap (stats.total_updates + u1) = stats.total_updates + u1 :=
        int_wrap_of_is_int _ (by unfold is_int; omega)
      rw [hu2, hw, hu]
      refine ⟨by ring, by omega, by omega⟩
    by_cases hcheck : SRPR_Trainer.check_convergence st2.epoch_losses 1e-6 = true
    · refine ⟨s1, { st2 with converged := true }, [loss1 / (training.length : F)], ?_, hk1,
        hl2, by simp, by simp, ?_, ?_, ?_, fun _ => hcheck, ?_⟩
      · simp only [SRPR_Trainer.train_epochs, h1, hv, hcheck, if_true]
      · intro h
        cases h
      · intro h0 hlt
        simp only [(hstep h0 hlt).1, List.length_singleton, Nat.cast_one, one_mul]
      · intro k hk0 hk
        simp only [List.length_singleton] at hk
        omega
      · intro h
        cases h
    · obtain ⟨s2, stats2, new, h2, hk2, hl, hlen, -, hnc, hup, hpre, hct, hcf⟩ :=
        ih (epoch + 1) s1 st2
          (fun t ht => triplet_known_of_same_keys hk1 (htr t ht))
          (fun t ht => triplet_known_of_same_keys hk1 (hval t ht))
          (hc2.trans hc)
      have hcheck2 : SRPR_Trainer.check_convergence st2.epoch_losses 1e-6 = false := by
        simpa using hcheck
      refine ⟨s2, stats2, loss1 / (training.length : F) :: new, ?_, same_keys_trans hk1 hk2,
        ?_, by simp only [List.length_cons]; omega, by simp, ?_, ?_, ?_, hct, ?_⟩
      · simp only [SRPR_Trainer.train_epochs, h1, hv, hcheck, Bool.false_eq_true, if_false,
          h2]
      · rw [hl, hl2, List.append_assoc, List.singleton_append]
      · intro h
        simp only [List.length_cons, hnc h]
      · intro h0 hlt
        obtain ⟨e1, e2, e3⟩ := hstep h0 hlt
        rw [hup e2 e3, e1]
        simp only [List.length_cons, Nat.cast_add, Nat.cast_one]
        ring
      · intro k hk0 hk
        rcases Nat.exists_eq_succ_of_ne_zero (Nat.pos_iff_ne_zero.mp hk0) with ⟨j, rfl⟩
        rw [List.take_succ_cons, ← List.singleton_append, ← List.append_assoc, ← hl2]
        rcases Nat.eq_zero_or_pos j with hj | hj
        · subst hj
          simpa using hcheck2
        · exact hpre j hj (by simp only [List.length_cons] at hk; omega)
      · intro h _
        rcases Nat.eq_zero_or_pos new.length with h0 | h0
        · have hnil : new = [] := List.length_eq_zero.mp h0
          rw [hl, hnil, List.append_nil]
          exact hcheck2
        · exact hcf h h0

theorem check_convergence_iff {F : Type} [LinearOrderedField F] (l : List F) (tol : F) :
    SRPR_Trainer.check_convergence l tol = true ↔
      3 ≤ l.length ∧ |l.getD (l.length - 1) 0 - l.getD (l.length - 2) 0| < tol := by
  unfold SRPR_Trainer.check_convergence
  by_cases h : l.length < 3
  · simp only [h, if_true, Bool.false_eq_true, false_iff, not_and]
    intro h3
    omega
  · simp only [h, if_false, decide_eq_true_eq, iff_and_self]
    intro _
    omega

theorem getD_take_of_lt {α : Type} (l : List α) (k i : Nat) (d : α) (h : i < k) :
    (l.take k).getD i d = l.getD i d := by
  simp only [List.getD_eq_getElem?_getD, List.getElem?_take_of_lt h]

/-- The result of `train` when every id of the training and validation triplets
is in the store. -/
theorem train_spec {F : Type} [LinearOrderedField F] (m : CMath F) (store : UserItemStore F)
    (training validation : List Triplet) (params : TrainingParams F) (duration : F)
    (htr : ∀ t ∈ training, triplet_known store t)
    (hval : ∀ t ∈ validation, triplet_known store t) :
    ∃ s2 stats, SRPR_Trainer.train m store training params validation duration
        = .ok (s2, stats) ∧
      same_keys store s2 ∧
      stats.epoch_losses.length ≤ params.epochs.toNat ∧
      (0 < params.epochs.toNat → 0 < stats.epoch_losses.length) ∧
      (stats.converged = false → stats.epoch_losses.length = params.epochs.toNat) ∧
      ((params.epochs.toNat : Int) * (training.length : Int) < 2 ^ 31 →
        stats.total_updates = (stats.epoch_losses.length : Int) * (training.length : Int)) ∧
      (∀ k, 0 < k → k < stats.epoch_losses.length →
        SRPR_Trainer.check_convergence (stats.epoch_losses.take k) 1e-6 = false) ∧
      (stats.converged = true →
        SRPR_Trainer.check_convergence stats.epoch_losses 1e-6 = true) ∧
      (stats.converged = false → 0 < stats.epoch_losses.length →
        SRPR_Trainer.check_convergence stats.epoch_losses 1e-6 = false) ∧
      stats.final_loss = stats.epoch_losses.getLastD 0 := by
  obtain ⟨s2, stats2, new, h, hk, hl, hlen, hpos, hnc, hup, hpre, hct, hcf⟩ :=
    train_epochs_spec m training validation params params.epochs.toNat 0 store
      { epoch_losses := [], validation_scores := [], final_loss := 0.0,
        training_time_ms := 0.0, total_updates := 0, converged := false } htr hval rfl
  simp only [List.nil_append] at hl hpre
  refine ⟨s2, { stats2 with
      final_loss := stats2.epoch_losses.getLastD 0
      training_time_ms := duration }, ?_, hk, ?_, ?_, ?_, ?_, ?_, hct,
    fun hc hp => hcf hc (by simpa only [hl] using hp), rfl⟩
  · simp only [SRPR_Trainer.train, h]
  · simp only [hl]
    exact hlen
  · simp only [hl]
    exact hpos
  · intro hc
    simp only [hl]
    exact hnc hc
  · intro hlt
    have h2 := hup (le_refl 0) (by rw [zero_add]; exact hlt)
    rw [zero_add] at h2
    simp only [hl]
    exact h2
  · intro k hk0 hk1
    simp only [hl] at hk1 ⊢
    exact hpre k hk0 hk1

/-- C11, as stated, fails: on the store `store_zero` with two epochs the two
recorded epoch losses are equal, so their difference is below `1e-6` after the
second epoch, yet `train` returns `converged = false`. -/
theorem C11_counterexample :
    (∀ t ∈ [(⟨1, 10, 20⟩ : Triplet)], triplet_known (store_zero ℝ) t) ∧
    ∃ s2 stats,
      SRPR_Trainer.train libm (store_zero ℝ) [⟨1, 10, 20⟩] (params_epochs ℝ 2) [] 0
        = .ok (s2, stats) ∧
      stats.epoch_losses.length = 2 ∧
      |stats.epoch_losses.getD 1 0 - stats.epoch_losses.getD 0 0| < 1e-6 ∧
      stats.converged = false := by
  have train_store_zero_two_epochs := zero_store_facts.2.2.2.2.1
  refine ⟨by simp [triplet_known, store_zero], _, _, train_store_zero_two_epochs, rfl, ?_, rfl⟩
  norm_num

/-- C11, amended: in every run of `train` on a non-empty training set whose ids
are in the store, convergence is detected (the loop stops early with
`converged = true`) at the first epoch, counted from the third, after which the
absolute difference of the two most recent epoch losses is below `1e-6`, and
`converged` stays false, with all `epochs` epochs run, when there is no such epoch. -/
theorem C11_convergence_from_third_epoch {F : Type} [LinearOrderedField F] (m : CMath F)
    (store : UserItemStore F) (training validation : List Triplet)
    (params : TrainingParams F) (duration : F)
    (hne : training ≠ [])
    (htr : ∀ t ∈ training, triplet_known store t)
    (hval : ∀ t ∈ validation, triplet_known store t) :
    ∃ s2 stats, SRPR_Trainer.train m store training params validation duration
        = .ok (s2, stats) ∧
      stats.epoch_losses.length ≤ params.epochs.toNat ∧
      (∀ k, 3 ≤ k → k < stats.epoch_losses.length →
        ¬ |stats.epoch_losses.getD (k - 1) 0 - stats.epoch_losses.getD (k - 2) 0| < 1e-6) ∧
      (stats.converged = true →
        3 ≤ stats.epoch_losses.length ∧
        |stats.epoch_losses.getD (stats.epoch_losses.length - 1) 0 -
          stats.epoch_losses.getD (stats.epoch_losses.length - 2) 0| < 1e-6) ∧
      (stats.converged = false →
        stats.epoch_losses.length = params.epochs.toNat ∧
        (3 ≤ stats.epoch_losses.length →
          ¬ |stats.epoch_losses.getD (stats.epoch_losses.length - 1) 0 -
            stats.epoch_losses.getD (stats.epoch_losses.length - 2) 0| < 1e-6)) := by
  have _ := hne
  obtain ⟨s2, stats, h, -, hlen, -, hnc, -, hpre, hct, hcf, -⟩ :=
    train_spec m store training validation params duration htr hval
  refine ⟨s2, stats, h, hlen, ?_, ?_, ?_⟩
  · intro k hk3 hkn hlt
    have hfalse := hpre k (by omega) hkn
    have htrue : SRPR_Trainer.check_convergence (stats.epoch_losses.take k) 1e-6 = true := by
      rw [check_convergence_iff]
      have hlk : (stats.epoch_losses.take k).length = k := by
        rw [List.length_take]
        omega
      rw [hlk, getD_take_of_lt _ _ _ _ (by omega), getD_take_of_lt _ _ _ _ (by omega)]
      exact ⟨hk3, hlt⟩
    rw [hfalse] at htrue
    cases htrue
  · intro hc
    exact (check_convergence_iff _ _).1 (hct hc)
  · intro hc
    refine ⟨hnc hc, fun h3 hlt => ?_⟩
    have hfalse := hcf hc (by omega)
    rw [(check_convergence_iff _ _).2 ⟨h3, hlt⟩] at hfalse
    cases hfalse

/-- C11, amended, at the store `store_zero` with two epochs. -/
theorem C11_convergence_from_third_epoch_witness :
    [(⟨1, 10, 20⟩ : Triplet)] ≠ [] ∧
    (∀ t ∈ [(⟨1, 10, 20⟩ : Triplet)], triplet_known (store_zero ℝ) t) ∧
    ∃ s2 stats,
      SRPR_Trainer.train libm (store_zero ℝ) [⟨1, 10, 20⟩] (params_epochs ℝ 2) [] 0
        = .ok (s2, stats) ∧
      stats.epoch_losses.length ≤ (params_epochs ℝ 2).epochs.toNat ∧
      (stats.converged = false →
        stats.epoch_losses.length = (params_epochs ℝ 2).epochs.toNat) := by
  refine ⟨by simp, by simp [triplet_known, store_zero], ?_⟩
  obtain ⟨s2, stats, h, hlen, -, -, hnc⟩ := C11_convergence_from_third_epoch libm
    (store_zero ℝ) [⟨1, 10, 20⟩] [] (params_epochs ℝ 2) 0 (by simp)
    (by simp [triplet_known, store_zero]) (by simp)
  exact ⟨s2, stats, h, hlen, fun hc => (hnc hc).1⟩

theorem count_fold (P : Nat → Prop) [DecidablePred P] (l : List Nat) (c0 : Int) :
    l.foldl (fun (c : Int) i => if P i then c + 1 else c) c0 =
      c0 + ((l.filter fun i => decide (P i)).length : Int) := by
  induction l generalizing c0 with
  | nil => simp
  | cons i l ih =>
    rw [List.foldl_cons, ih]
    by_cases h : P i
    · simp only [h, if_true, List.filter_cons, decide_True, List.length_cons, Nat.cast_add,
        Nat.cast_one]
      ring
    · simp only [h, if_false, List.filter_cons, decide_False, Bool.false_eq_true]

theorem item_id_at_of_getElem? {F : Type} [LinearOrderedField F]
    (recs : List (RecommendationResult F)) (i : Nat) (x : RecommendationResult F)
    (h : recs[i]? = some x) : ExhaustiveBenchmark.item_id_at recs i = x.item_id := by
  simp only [ExhaustiveBenchmark.item_id_at, h]

/-- Counting the relevant positions below `j` is counting the relevant items among
the first `j` recommendations. -/
theorem filter_range_length {F : Type} [LinearOrderedField F]
    (recs : List (RecommendationResult F)) (gt : Finset Int) (j : Nat)
    (hj : j ≤ recs.length) :
    ((List.range j).filter fun i =>
        decide (ExhaustiveBenchmark.item_id_at recs i ∈ gt)).length =
      relevant_count recs gt j := by
  induction j with
  | zero => simp [relevant_count]
  | succ j ih =>
    have hlt : j < recs.length := hj
    have hget : recs[j]? = some recs[j] := List.getElem?_eq_getElem hlt
    rw [List.range_succ, List.filter_append, List.length_append, ih (by omega)]
    simp only [relevant_count, List.take_succ, hget, Option.toList_some, List.filter_append,
      List.length_append]
    congr 1
    simp only [List.filter_cons, List.filter_nil, item_id_at_of_getElem? recs j _ hget]
    split_ifs <;> rfl

theorem count_relevant_eq {F : Type} [LinearOrderedField F]
    (recs : List (RecommendationResult F)) (gt : Finset Int) (n : Int)
    (hn : n.toNat ≤ recs.length) :
    ExhaustiveBenchmark.count_relevant recs gt n = (relevant_count recs gt n.toNat : Int) := by
  unfold ExhaustiveBenchmark.count_relevant
  rw [count_fold (fun i => ExhaustiveBenchmark.item_id_at recs i ∈ gt), zero_add,
    filter_range_length recs gt _ hn]

theorem relevant_count_min {F : Type} (recs : List (RecommendationResult F))
    (gt : Finset Int) (k : Int) :
    relevant_count recs gt (min k (recs.length : Int)).toNat = relevant_count recs gt k.toNat := by
  unfold relevant_count
  rcases le_total k (recs.length : Int) with h | h
  · rw [min_eq_left h]
  · rw [min_eq_right h, Int.toNat_ofNat, List.take_of_length_le (le_refl _),
      List.take_of_length_le (by omega)]

theorem min_toNat_le_length (k : Int) (n : Nat) : (min k (n : Int)).toNat ≤ n := by
  have : min k (n : Int) ≤ (n : Int) := min_le_right _ _
  omega

theorem precision_eq {F : Type} [LinearOrderedField F]
    (recs : List (RecommendationResult F)) (gt : Finset Int) (k : Int)
    (hk : 1 ≤ k) (hne : recs ≠ []) :
    ExhaustiveBenchmark.calculate_precision_at_k recs gt k =
      (relevant_count recs gt k.toNat : F) / ((min k (recs.length : Int) : Int) : F) := by
  have h1 : recs.isEmpty = false := by
    cases recs with
    | nil => exact absurd rfl hne
    | cons a l => rfl
  have h2 : ¬ k ≤ 0 := by omega
  simp only [ExhaustiveBenchmark.calculate_precision_at_k, h1, h2, decide_False,
    Bool.or_self, Bool.false_eq_true, if_false]
  rw [count_relevant_eq recs gt _ (min_toNat_le_length k recs.length), relevant_count_min]
  norm_cast

theorem recall_eq {F : Type} [LinearOrderedField F]
    (recs : List (RecommendationResult F)) (gt : Finset Int) (k : Int)
    (hk : 1 ≤ k) (hgt : gt ≠ ∅) :
    ExhaustiveBenchmark.calculate_recall_at_k recs gt k =
      (relevant_count recs gt k.toNat : F) / (gt.card : F) := by
  have h2 : ¬ k ≤ 0 := by omega
  simp only [ExhaustiveBenchmark.calculate_recall_at_k, hgt, h2, decide_False,
    Bool.or_self, Bool.false_eq_true, if_false]
  rw [count_relevant_eq recs gt _ (min_toNat_le_length k recs.length), relevant_count_min]
  rw [Int.cast_natCast]

theorem relevant_count_empty_truth {F : Type} (recs : List (RecommendationResult F))
    (r : Nat) : relevant_count recs ∅ r = 0 := by
  simp [relevant_count]

theorem relevant_count_nil {F : Type} (gt : Finset Int) (r : Nat) :
    relevant_count ([] : List (RecommendationResult F)) gt r = 0 := by
  simp [relevant_count]

theorem relevant_count_recs_one : relevant_count (recs_one ℚ) {1} 2 = 1 := by
  simp [relevant_count, recs_one]

/-- C16, as stated, fails: for the single recommendation of item `1`, the ground
truth `{1}` and `K = 2`, one of the first two recommendations is relevant, but
`calculate_precision_at_k` returns `1` and not `1 / 2`. -/
theorem C16_counterexample :
    (1 : Int) ≤ 2 ∧ recs_one ℚ ≠ [] ∧
    ExhaustiveBenchmark.calculate_precision_at_k (recs_one ℚ) {1} 2 = 1 ∧
    ExhaustiveBenchmark.calculate_precision_at_k (recs_one ℚ) {1} 2 ≠
      (relevant_count (recs_one ℚ) {1} (2 : Int).toNat : ℚ) / ((2 : Int) : ℚ) := by
  have hp : ExhaustiveBenchmark.calculate_precision_at_k (recs_one ℚ) {1} 2 = 1 := by
    rw [precision_eq (recs_one ℚ) {1} 2 (by decide) (by simp [recs_one])]
    have h2 : (2 : Int).toNat = 2 := rfl
    rw [h2, relevant_count_recs_one]
    simp [recs_one]
  refine ⟨by decide, by simp [recs_one], hp, ?_⟩
  have h2 : (2 : Int).toNat = 2 := rfl
  rw [hp, h2, relevant_count_recs_one]
  norm_num

/-- C16, amended: for every `K ≥ 1`, every non-empty recommendation list and every
ground-truth set, `calculate_precision_at_k` returns the number of entries among
the first `K` recommendations whose item id is in the ground truth, divided by
the minimum of `K` and the number of recommendations. -/
theorem C16_precision_at_k_formula {F : Type} [LinearOrderedField F]
    (recs : List (RecommendationResult F)) (gt : Finset Int) (k : Int)
    (hk : 1 ≤ k) (hne : recs ≠ []) :
    ExhaustiveBenchmark.calculate_precision_at_k recs gt k =
      (relevant_count recs gt k.toNat : F) / ((min k (recs.length : Int) : Int) : F) :=
  precision_eq recs gt k hk hne

/-- C16, amended, at three recommendations, the ground truth `{1, 3}` and `K = 2`:
the precision is `1 / 2`. -/
theorem C16_precision_at_k_formula_witness :
    (1 : Int) ≤ 2 ∧ recs_three ℚ ≠ [] ∧
    ExhaustiveBenchmark.calculate_precision_at_k (recs_three ℚ) {1, 3} 2 = 1 / 2 := by
  refine ⟨by decide, by simp [recs_three], ?_⟩
  rw [C16_precision_at_k_formula (recs_three ℚ) {1, 3} 2 (by decide) (by simp [recs_three])]
  have h2 : (2 : Int).toNat = 2 := rfl
  rw [h2]
  simp [relevant_count, recs_three]

/-- C17: for every `K ≥ 1`, every recommendation list and every non-empty
ground-truth set, `calculate_recall_at_k` returns the number of entries among the
first `K` recommendations whose item id is in the ground truth, divided by the
size of the ground-truth set. -/
theorem C17_recall_at_k_formula {F : Type} [LinearOrderedField F]
    (recs : List (RecommendationResult F)) (gt : Finset Int) (k : Int)
    (hk : 1 ≤ k) (hgt : gt ≠ ∅) :
    ExhaustiveBenchmark.calculate_recall_at_k recs gt k =
      (relevant_count recs gt k.toNat : F) / (gt.card : F) :=
  recall_eq recs gt k hk hgt

/-- C17 at three recommendations, the ground truth `{1, 3}` and `K = 2`: the
recall is `1 / 2`. -/
theorem C17_recall_at_k_formula_witness :
    (1 : Int) ≤ 2 ∧ ({1, 3} : Finset Int) ≠ ∅ ∧
    ExhaustiveBenchmark.calculate_recall_at_k (recs_three ℚ) {1, 3} 2 = 1 / 2 := by
  refine ⟨by decide, by decide, ?_⟩
  rw [C17_recall_at_k_formula (recs_three ℚ) {1, 3} 2 (by decide) (by decide)]
  have h2 : (2 : Int).toNat = 2 := rfl
  rw [h2]
  simp [relevant_count, recs_three]

theorem isEmpty_false_of_ne_nil {α : Type} {l : List α} (h : l ≠ []) : l.isEmpty = false := by
  cases l with
  | nil => exact absurd rfl h
  | cons a l => rfl

theorem item_id_at_mem_own {F : Type} [LinearOrderedField F]
    (recs : List (RecommendationResult F)) (i : Nat) (hi : i < recs.length) :
    ExhaustiveBenchmark.item_id_at recs i ∈ (recs.map fun x => x.item_id).toFinset := by
  rw [item_id_at_of_getElem? recs i recs[i] (List.getElem?_eq_getElem hi), List.mem_toFinset]
  exact List.mem_map.2 ⟨recs[i], List.getElem_mem hi, rfl⟩

theorem map_fold {F : Type} [LinearOrderedField F] (recs : List (RecommendationResult F))
    (gt : Finset Int) (j : Nat) (hj : j ≤ recs.length) :
    (List.range j).foldl
      (fun (st : F × Int) i =>
        if ExhaustiveBenchmark.item_id_at recs i ∈ gt then
          let relevant_found := st.2 + 1
          let precision_at_i := (relevant_found : F) / ((i + 1 : Nat) : F)
          (st.1 + precision_at_i, relevant_found)
        else st) (0.0, 0) =
    ((((List.range j).filter fun i =>
          decide (ExhaustiveBenchmark.item_id_at recs i ∈ gt)).map fun i =>
        (relevant_count recs gt (i + 1) : F) / ((i + 1 : Nat) : F)).sum,
      (((List.range j).filter fun i =>
          decide (ExhaustiveBenchmark.item_id_at recs i ∈ gt)).length : Int)) := by
  induction j with
  | zero =>
    simp only [List.range_zero, List.foldl_nil, List.filter_nil, List.map_nil, List.sum_nil,
      List.length_nil, Nat.cast_zero, Prod.mk.injEq, and_true]
    norm_num
  | succ j ih =>
    rw [List.range_succ, List.foldl_append, ih (by omega), List.foldl_cons, List.foldl_nil,
      List.filter_append, List.map_append, List.sum_append, List.length_append]
    by_cases hP : ExhaustiveBenchmark.item_id_at recs j ∈ gt
    · have hcount : relevant_count recs gt (j + 1) =
          ((List.range j).filter fun i =>
            decide (ExhaustiveBenchmark.item_id_at recs i ∈ gt)).length + 1 := by
        rw [← filter_range_length recs gt (j + 1) hj, List.range_succ, List.filter_append,
          List.length_append]
        simp [hP]
      simp only [hP, if_true, List.filter_cons, decide_True, List.filter_nil, List.map_cons,
        List.map_nil, List.sum_cons, List.sum_nil, add_zero, List.length_cons,
        List.length_nil, zero_add, Nat.cast_add, Nat.cast_one, hcount, Int.cast_add,
        Int.cast_natCast, Int.cast_one]
    · simp only [hP, if_false, List.filter_cons, decide_False, Bool.false_eq_true,
        List.filter_nil, List.map_nil, List.sum_nil, add_zero, List.length_nil, Nat.cast_zero]

theorem relevant_positions_eq {F : Type} [LinearOrderedField F]
    (recs : List (RecommendationResult F)) (gt : Finset Int) :
    relevant_positions recs gt =
      (List.range recs.length).filter fun i =>
        decide (ExhaustiveBenchmark.item_id_at recs i ∈ gt) := by
  unfold relevant_positions
  apply List.filter_congr
  intro i hi
  rw [List.mem_range] at hi
  have hget : recs[i]? = some recs[i] := List.getElem?_eq_getElem hi
  simp only [hget, item_id_at_of_getElem? recs i _ hget]

theorem map_eq {F : Type} [LinearOrderedField F] (recs : List (RecommendationResult F))
    (gt : Finset Int) (hne : recs ≠ []) (hgt : gt ≠ ∅) :
    ExhaustiveBenchmark.calculate_map recs gt =
      if relevant_positions recs gt = [] then 0
      else ((relevant_positions recs gt).map fun i =>
          (relevant_count recs gt (i + 1) : F) / ((i + 1 : Nat) : F)).sum /
        ((relevant_positions recs gt).length : F) := by
  unfold ExhaustiveBenchmark.calculate_map
  rw [if_neg (by simp [isEmpty_false_of_ne_nil hne, hgt]), map_fold recs gt _ (le_refl _),
    ← relevant_positions_eq]
  by_cases hnil : relevant_positions recs gt = []
  · simp only [hnil, List.length_nil, Nat.cast_zero, gt_iff_lt, lt_self_iff_false, if_false,
      if_true]
    norm_num
  · have hpos : 0 < (relevant_positions recs gt).length := List.length_pos.2 hnil
    have hposi : ((relevant_positions recs gt).length : Int) > 0 := by omega
    simp only [hnil, if_false, hposi, if_true, Int.cast_natCast]

theorem relevant_positions_own {F : Type} [LinearOrderedField F]
    (recs : List (RecommendationResult F)) :
    relevant_positions recs (recs.map fun x => x.item_id).toFinset =
      List.range recs.length := by
  rw [relevant_positions_eq, List.filter_eq_self]
  intro i hi
  exact decide_eq_true (item_id_at_mem_own recs i (List.mem_range.1 hi))

theorem relevant_count_own {F : Type} (recs : List (RecommendationResult F)) (j : Nat)
    (hj : j ≤ recs.length) :
    relevant_count recs (recs.map fun x => x.item_id).toFinset j = j := by
  unfold relevant_count
  rw [List.filter_eq_self.2, List.length_take, min_eq_left hj]
  intro x hx
  apply decide_eq_true
  rw [List.mem_toFinset]
  exact List.mem_map.2 ⟨x, List.mem_of_mem_take hx, rfl⟩

theorem map_own {F : Type} [LinearOrderedField F] (recs : List (RecommendationResult F))
    (hne : recs ≠ []) :
    ExhaustiveBenchmark.calculate_map recs (recs.map fun x => x.item_id).toFinset = 1 := by
  have hpos : 0 < recs.length := List.length_pos.2 hne
  have hgne : (recs.map fun x => x.item_id).toFinset ≠ ∅ := by
    intro h
    have hm := item_id_at_mem_own recs 0 hpos
    rw [h] at hm
    simp at hm
  have hrange : List.range recs.length ≠ [] := by
    intro h
    have h0 := congrArg List.length h
    rw [List.length_range, List.length_nil] at h0
    omega
  rw [map_eq recs _ hne hgne, relevant_positions_own, if_neg hrange, List.length_range]
  have hterms : (List.range recs.length).map (fun i =>
      (relevant_count recs (recs.map fun x => x.item_id).toFinset (i + 1) : F) /
        ((i + 1 : Nat) : F)) = (List.range recs.length).map (fun _ => (1 : F)) := by
    apply List.map_congr_left
    intro i hi
    rw [relevant_count_own recs (i + 1) (List.mem_range.1 hi)]
    exact div_self (Nat.cast_ne_zero.2 (by omega))
  rw [hterms, List.map_const', List.sum_replicate, List.length_range, nsmul_eq_mul, mul_one]
  exact div_self (Nat.cast_ne_zero.2 (by omega))

/-- The discounted gains of the ranking metrics, and the benchmark of a store with one item. -/
theorem ranking_facts :
    -- fold_gain_pos
    (∀ (l : List Nat),
        l ≠ [] →
        0 < l.foldl (fun (idcg : ℝ) i => idcg + 1.0 / libm.log2 ((i + 2 : Nat) : ℝ)) 0.0) ∧
    -- benchmark_user_single_precision
    ((ExhaustiveBenchmark.benchmark_user libm sort_by_score_desc sort_by_distance_asc
        (store_single ℝ) hasher_xy 1 1 0 0).1.precision_at_k = 1) ∧
    -- dcg_fold_nonneg
    (∀ (P : Nat → Prop) [DecidablePred P] (l : List Nat) (acc : ℝ),
        0 ≤ acc →
        0 ≤ l.foldl (fun (dcg : ℝ) i =>
          if P i then dcg + 1.0 / libm.log2 ((i + 2 : Nat) : ℝ) else dcg) acc) ∧
    -- dcg_fold_le
    (∀ (P : Nat → Prop) [DecidablePred P] (m : Nat),
        (List.range m).foldl (fun (dcg : ℝ) i =>
            if P i then dcg + 1.0 / libm.log2 ((i + 2 : Nat) : ℝ) else dcg) 0.0 ≤
          (List.range ((List.range m).filter fun i => decide (P i)).length).foldl
            (fun (idcg : ℝ) i => idcg + 1.0 / libm.log2 ((i + 2 : Nat) : ℝ)) 0.0) ∧
    -- idcg_fold_mono
    (∀ (c r : Nat),
        c ≤ r →
        (List.range c).foldl
            (fun (idcg : ℝ) i => idcg + 1.0 / libm.log2 ((i + 2 : Nat) : ℝ)) 0.0 ≤
          (List.range r).foldl
            (fun (idcg : ℝ) i => idcg + 1.0 / libm.log2 ((i + 2 : Nat) : ℝ)) 0.0) ∧
    -- evaluate_own
    (∀ (recs : List (RecommendationResult ℝ)) (t : ℝ),
        recs ≠ [] →
        (recs.map fun x => x.item_id).Nodup →
        (ExhaustiveBenchmark.evaluate_recommendations libm recs
          (recs.map fun x => x.item_id).toFinset t).precision_at_k = 1 ∧
        (ExhaustiveBenchmark.evaluate_recommendations libm recs
          (recs.map fun x => x.item_id).toFinset t).recall_at_k = 1 ∧
        (ExhaustiveBenchmark.evaluate_recommendations libm recs
          (recs.map fun x => x.item_id).toFinset t).ndcg_at_k = 1 ∧
        (ExhaustiveBenchmark.evaluate_recommendations libm recs
          (recs.map fun x => x.item_id).toFinset t).map_score = 1) := by
  have gain_pos : ∀ (i : Nat),
        (0 : ℝ) < 1.0 / libm.log2 ((i + 2 : Nat) : ℝ) := by
    intro i
    have h1 : (1 : ℝ) < ((i + 2 : Nat) : ℝ) := by
      have : (1 : ℕ) < i + 2 := by omega
      exact_mod_cast this
    have hl : 0 < Real.logb 2 ((i + 2 : Nat) : ℝ) := Real.logb_pos (by norm_num) h1
    have h10 : (1.0 : ℝ) = 1 := by norm_num
    simp only [libm]
    rw [h10]
    exact one_div_pos.2 hl
  have fold_gain_ge : ∀ (l : List Nat) (acc : ℝ),
        acc ≤ l.foldl (fun (idcg : ℝ) i => idcg + 1.0 / libm.log2 ((i + 2 : Nat) : ℝ)) acc := by
    intro l acc
    induction l generalizing acc with
    | nil => exact le_refl _
    | cons i l ih =>
      rw [List.foldl_cons]
      exact le_trans (by linarith [gain_pos i]) (ih _)
  have fold_gain_pos : ∀ (l : List Nat),
        l ≠ [] →
        0 < l.foldl (fun (idcg : ℝ) i => idcg + 1.0 / libm.log2 ((i + 2 : Nat) : ℝ)) 0.0 := by
    intro l hl
    cases l with
    | nil => exact absurd rfl hl
    | cons i l =>
      rw [List.foldl_cons]
      have h0 : (0 : ℝ) < 0.0 + 1.0 / libm.log2 ((i + 2 : Nat) : ℝ) := by
        have := gain_pos i
        norm_num at this ⊢
        exact this
      exact lt_of_lt_of_le h0 (fold_gain_ge l _)
  have exhaustive_search_single : ExhaustiveBenchmark.exhaustive_search libm sort_by_score_desc (store_single ℝ) 1 1 =
        [{ item_id := 10, score := ExhaustiveBenchmark.cosine_similarity libm [1, 0] [1, 0],
           hamming_distance := -1, rank := 1 }] := by
    have hr : List.range 1 = [0] := rfl
    simp [ExhaustiveBenchmark.exhaustive_search, store_single, UserItemStore.get_user_vector,
      umap_at, UserItemStore.get_all_item_vectors, sort_by_score_desc, hr]
  have benchmark_user_single_precision : (ExhaustiveBenchmark.benchmark_user libm sort_by_score_desc sort_by_distance_asc
        (store_single ℝ) hasher_xy 1 1 0 0).1.precision_at_k = 1 := by
    have hr : List.range 1 = [0] := rfl
    have hg : (insert (10 : Int) (∅ : Finset Int)) ≠ ∅ := by decide
    simp [ExhaustiveBenchmark.benchmark_user, exhaustive_search_single,
      ExhaustiveBenchmark.evaluate_recommendations, hg,
      ExhaustiveBenchmark.calculate_precision_at_k, ExhaustiveBenchmark.count_relevant,
      ExhaustiveBenchmark.item_id_at, hr]
  have gain_antitone : ∀ (i j : Nat),
        i ≤ j →
        (1.0 : ℝ) / libm.log2 ((j + 2 : Nat) : ℝ) ≤ 1.0 / libm.log2 ((i + 2 : Nat) : ℝ) := by
    intro i j hij
    have h1 : (1 : ℝ) < ((i + 2 : Nat) : ℝ) := by
      have : (1 : ℕ) < i + 2 := by omega
      exact_mod_cast this
    have h2 : ((i + 2 : Nat) : ℝ) ≤ ((j + 2 : Nat) : ℝ) := by
      have : i + 2 ≤ j + 2 := by omega
      exact_mod_cast this
    have hl : 0 < Real.logb 2 ((i + 2 : Nat) : ℝ) := Real.logb_pos (by norm_num) h1
    have hmono : Real.logb 2 ((i + 2 : Nat) : ℝ) ≤ Real.logb 2 ((j + 2 : Nat) : ℝ) :=
      Real.logb_le_logb_of_le (by norm_num) (by linarith) h2
    have h10 : (1.0 : ℝ) = 1 := by norm_num
    simp only [libm]
    rw [h10]
    exact one_div_le_one_div_of_le hl hmono
  have dcg_fold_nonneg : ∀ (P : Nat → Prop) [DecidablePred P] (l : List Nat) (acc : ℝ),
        0 ≤ acc →
        0 ≤ l.foldl (fun (dcg : ℝ) i =>
          if P i then dcg + 1.0 / libm.log2 ((i + 2 : Nat) : ℝ) else dcg) acc := by
    intro P _ l acc hacc
    induction l generalizing acc with
    | nil => exact hacc
    | cons i l ih =>
      rw [List.foldl_cons]
      apply ih
      split_ifs
      · linarith [gain_pos i]
      · exact hacc
  have dcg_fold_le : ∀ (P : Nat → Prop) [DecidablePred P] (m : Nat),
        (List.range m).foldl (fun (dcg : ℝ) i =>
            if P i then dcg + 1.0 / libm.log2 ((i + 2 : Nat) : ℝ) else dcg) 0.0 ≤
          (List.range ((List.range m).filter fun i => decide (P i)).length).foldl
            (fun (idcg : ℝ) i => idcg + 1.0 / libm.log2 ((i + 2 : Nat) : ℝ)) 0.0 := by
    intro P _ m
    induction m with
    | zero => simp
    | succ m ih =>
      have hc : ((List.range m).filter fun i => decide (P i)).length ≤ m := by
        calc ((List.range m).filter fun i => decide (P i)).length
            ≤ (List.range m).length := List.length_filter_le _ _
          _ = m := List.length_range m
      rw [List.range_succ, List.foldl_append, List.filter_append, List.length_append]
      by_cases hp : P m
      · simp only [List.foldl_cons, List.foldl_nil, hp, if_true, List.filter_cons, decide_True,
          List.filter_nil, List.length_singleton]
        rw [List.range_succ, List.foldl_append]
        simp only [List.foldl_cons, List.foldl_nil]
        have := gain_antitone _ _ hc
        linarith
      · simp only [List.foldl_cons, List.foldl_nil, hp, if_false, List.filter_cons,
          decide_False, List.filter_nil, List.length_nil, Nat.add_zero, Bool.false_eq_true]
        exact ih
  have idcg_fold_mono : ∀ (c r : Nat),
        c ≤ r →
        (List.range c).foldl
            (fun (idcg : ℝ) i => idcg + 1.0 / libm.log2 ((i + 2 : Nat) : ℝ)) 0.0 ≤
          (List.range r).foldl
            (fun (idcg : ℝ) i => idcg + 1.0 / libm.log2 ((i + 2 : Nat) : ℝ)) 0.0 := by
    intro c r hcr
    obtain ⟨k, rfl⟩ := Nat.exists_eq_add_of_le hcr
    rw [List.range_add, List.foldl_append]
    exact fold_gain_ge _ _
  have ndcg_own : ∀ (recs : List (RecommendationResult ℝ)),
        recs ≠ [] →
        (recs.map fun x => x.item_id).Nodup →
        ExhaustiveBenchmark.calculate_ndcg_at_k libm recs (recs.map fun x => x.item_id).toFinset
          (recs.length : Int) = 1 := by
    intro recs hne hnd
    have hpos : 0 < recs.length := List.length_pos.2 hne
    have hcard : (recs.map fun x => x.item_id).toFinset.card = recs.length := by
      rw [List.toFinset_card_of_nodup hnd, List.length_map]
    have hgne : (recs.map fun x => x.item_id).toFinset ≠ ∅ := by
      intro h
      have h0 : recs.length = 0 := by rw [← hcard, h, Finset.card_empty]
      omega
    have h2 : ¬ (recs.length : Int) ≤ 0 := by omega
    simp only [ExhaustiveBenchmark.calculate_ndcg_at_k, isEmpty_false_of_ne_nil hne, hgne, h2,
      decide_False, Bool.or_self, Bool.false_eq_true, if_false, min_self, hcard,
      Int.toNat_ofNat]
    have hdcg : (List.range recs.length).foldl
        (fun (dcg : ℝ) i =>
          if ExhaustiveBenchmark.item_id_at recs i ∈ (recs.map fun x => x.item_id).toFinset then
            dcg + 1.0 / libm.log2 ((i + 2 : Nat) : ℝ)
          else dcg) 0.0 =
        (List.range recs.length).foldl
          (fun (idcg : ℝ) i => idcg + 1.0 / libm.log2 ((i + 2 : Nat) : ℝ)) 0.0 := by
      apply List.foldl_ext
      intro acc i hi
      rw [if_pos (item_id_at_mem_own recs i (List.mem_range.1 hi))]
    rw [hdcg]
    have hp := fold_gain_pos (List.range recs.length) (by
      intro h
      have h0 := congrArg List.length h
      rw [List.length_range, List.length_nil] at h0
      omega)
    rw [if_pos (lt_of_eq_of_lt (by norm_num : (0.0 : ℝ) = 0) hp)]
    exact div_self (ne_of_gt hp)
  have evaluate_own : ∀ (recs : List (RecommendationResult ℝ)) (t : ℝ),
        recs ≠ [] →
        (recs.map fun x => x.item_id).Nodup →
        (ExhaustiveBenchmark.evaluate_recommendations libm recs
          (recs.map fun x => x.item_id).toFinset t).precision_at_k = 1 ∧
        (ExhaustiveBenchmark.evaluate_recommendations libm recs
          (recs.map fun x => x.item_id).toFinset t).recall_at_k = 1 ∧
        (ExhaustiveBenchmark.evaluate_recommendations libm recs
          (recs.map fun x => x.item_id).toFinset t).ndcg_at_k = 1 ∧
        (ExhaustiveBenchmark.evaluate_recommendations libm recs
          (recs.map fun x => x.item_id).toFinset t).map_score = 1 := by
    intro recs t hne hnd
    have hpos : 0 < recs.length := List.length_pos.2 hne
    have hcard : (recs.map fun x => x.item_id).toFinset.card = recs.length := by
      rw [List.toFinset_card_of_nodup hnd, List.length_map]
    have hgne : (recs.map fun x => x.item_id).toFinset ≠ ∅ := by
      intro h
      have h0 : recs.length = 0 := by rw [← hcard, h, Finset.card_empty]
      omega
    have hk : (1 : Int) ≤ (recs.length : Int) := by omega
    have hn0 : ((recs.length : Nat) : ℝ) ≠ 0 := Nat.cast_ne_zero.2 (by omega)
    simp only [ExhaustiveBenchmark.evaluate_recommendations, isEmpty_false_of_ne_nil hne, hgne,
      decide_False, Bool.or_self, Bool.false_eq_true, if_false]
    refine ⟨?_, ?_, ndcg_own recs hne hnd, map_own recs hne⟩
    · rw [precision_eq recs _ _ hk hne, Int.toNat_ofNat, relevant_count_own recs _ (le_refl _),
        min_self, Int.cast_natCast]
      exact div_self hn0
    · rw [recall_eq recs _ _ hk hgne, Int.toNat_ofNat, relevant_count_own recs _ (le_refl _),
        hcard]
      exact div_self hn0
  exact ⟨fold_gain_pos, benchmark_user_single_precision, dcg_fold_nonneg, dcg_fold_le,
    idcg_fold_mono, evaluate_own⟩

/-- C18: for every `K ≥ 1`, every recommendation list with at least `K` entries
whose first `K` entries all have item ids in the ground truth, and every
ground-truth set of size at least `K`, `calculate_ndcg_at_k` returns exactly `1`. -/
theorem C18_ndcg_ideal_case (recs : List (RecommendationResult ℝ)) (gt : Finset Int)
    (k : Int) (hk : 1 ≤ k) (hlen : k ≤ (recs.length : Int))
    (hall : ∀ x ∈ recs.take k.toNat, x.item_id ∈ gt) (hgt : k ≤ (gt.card : Int)) :
    ExhaustiveBenchmark.calculate_ndcg_at_k libm recs gt k = 1 := by
  have fold_gain_pos := ranking_facts.1
  have hne : recs ≠ [] := by
    intro h
    rw [h] at hlen
    simp at hlen
    omega
  have hgne : gt ≠ ∅ := by
    intro h
    rw [h] at hgt
    simp at hgt
    omega
  have h2 : ¬ k ≤ 0 := by omega
  simp only [ExhaustiveBenchmark.calculate_ndcg_at_k, isEmpty_false_of_ne_nil hne, hgne, h2,
    decide_False, Bool.or_self, Bool.false_eq_true, if_false, min_eq_left hlen,
    min_eq_left hgt]
  have hdcg : (List.range k.toNat).foldl
      (fun (dcg : ℝ) i =>
        if ExhaustiveBenchmark.item_id_at recs i ∈ gt then
          dcg + 1.0 / libm.log2 ((i + 2 : Nat) : ℝ)
        else dcg) 0.0 =
      (List.range k.toNat).foldl
        (fun (idcg : ℝ) i => idcg + 1.0 / libm.log2 ((i + 2 : Nat) : ℝ)) 0.0 := by
    apply List.foldl_ext
    intro acc i hi
    rw [List.mem_range] at hi
    have hil : i < recs.length := by omega
    have hget : recs[i]? = some recs[i] := List.getElem?_eq_getElem hil
    have hmem : recs[i] ∈ recs.take k.toNat := by
      rw [List.mem_take_iff_getElem]
      exact ⟨i, by omega, rfl⟩
    rw [item_id_at_of_getElem? recs i _ hget, if_pos (hall _ hmem)]
  rw [hdcg]
  have hpos := fold_gain_pos (List.range k.toNat) (by
    intro h
    have := congrArg List.length h
    simp at this
    omega)
  rw [if_pos (lt_of_eq_of_lt (by norm_num : (0.0 : ℝ) = 0) hpos)]
  exact div_self (ne_of_gt hpos)

/-- C18 at three recommendations, the ground truth `{1, 2, 3}` and `K = 2`. -/
theorem C18_ndcg_ideal_case_witness :
    (1 : Int) ≤ 2 ∧ (2 : Int) ≤ ((recs_three ℝ).length : Int) ∧
    (∀ x ∈ (recs_three ℝ).take (2 : Int).toNat, x.item_id ∈ ({1, 2, 3} : Finset Int)) ∧
    (2 : Int) ≤ ((({1, 2, 3} : Finset Int).card : Nat) : Int) ∧
    ExhaustiveBenchmark.calculate_ndcg_at_k libm (recs_three ℝ) {1, 2, 3} 2 = 1 := by
  have h1 : (2 : Int) ≤ ((recs_three ℝ).length : Int) := by simp [recs_three]
  have h2 : ∀ x ∈ (recs_three ℝ).take (2 : Int).toNat,
      x.item_id ∈ ({1, 2, 3} : Finset Int) := by
    have ht : (2 : Int).toNat = 2 := rfl
    rw [ht]
    simp [recs_three]
  have h3 : (2 : Int) ≤ ((({1, 2, 3} : Finset Int).card : Nat) : Int) := by decide
  exact ⟨by decide, h1, h2, h3, C18_ndcg_ideal_case (recs_three ℝ) {1, 2, 3} 2 (by decide)
    h1 h2 h3⟩

/-- C19: for a non-empty recommendation list and a non-empty ground truth,
`calculate_map` returns the arithmetic mean, over the ranks `r = i + 1` at which
the recommendation is in the ground truth, of the number of relevant items
among the first `r` recommendations divided by `r`; it returns `0` when no
recommendation is relevant. -/
theorem C19_map_formula {F : Type} [LinearOrderedField F]
    (recs : List (RecommendationResult F)) (gt : Finset Int)
    (hne : recs ≠ []) (hgt : gt ≠ ∅) :
    ExhaustiveBenchmark.calculate_map recs gt =
      if relevant_positions recs gt = [] then 0
      else ((relevant_positions recs gt).map fun i =>
          (relevant_count recs gt (i + 1) : F) / ((i + 1 : Nat) : F)).sum /
        ((relevant_positions recs gt).length : F) :=
  map_eq recs gt hne hgt

/-- C19 at three recommendations and the ground truth `{1, 3}`: the relevant ranks
are `1` and `3`, with precisions `1/1` and `2/3`, so the value is `5/6`. -/
theorem C19_map_formula_witness :
    recs_three ℚ ≠ [] ∧ ({1, 3} : Finset Int) ≠ ∅ ∧
    ExhaustiveBenchmark.calculate_map (recs_three ℚ) {1, 3} = 5 / 6 := by
  refine ⟨by simp [recs_three], by decide, ?_⟩
  rw [C19_map_formula (recs_three ℚ) {1, 3} (by simp [recs_three]) (by decide)]
  have hpos : relevant_positions (recs_three ℚ) {1, 3} = [0, 2] := by
    simp [relevant_positions, recs_three, List.range, List.range.loop, List.filter]
  rw [hpos]
  simp [relevant_count, recs_three]
  norm_num

/-- C20: `calculate_precision_at_k`, `calculate_recall_at_k` and
`calculate_ndcg_at_k` return exactly `0` whenever the recommendation list is
empty, the ground-truth set is empty, or `K ≤ 0`; `calculate_map` returns exactly
`0` whenever the recommendation list or the ground-truth set is empty. -/
theorem C20_metrics_zero_at_boundary {F : Type} [LinearOrderedField F] (m : CMath F)
    (recs : List (RecommendationResult F)) (gt : Finset Int) (k : Int) :
    (recs = [] ∨ gt = ∅ ∨ k ≤ 0 →
      ExhaustiveBenchmark.calculate_precision_at_k recs gt k = 0 ∧
      ExhaustiveBenchmark.calculate_recall_at_k recs gt k = 0 ∧
      ExhaustiveBenchmark.calculate_ndcg_at_k m recs gt k = 0) ∧
    (recs = [] ∨ gt = ∅ → ExhaustiveBenchmark.calculate_map recs gt = 0) := by
  have h00 : (0.0 : F) = 0 := by norm_num
  constructor
  · intro h
    refine ⟨?_, ?_, ?_⟩
    · by_cases hg : recs.isEmpty || decide (k ≤ 0)
      · simp only [ExhaustiveBenchmark.calculate_precision_at_k, hg, if_true, h00]
      · have hne : recs ≠ [] := by
          intro hr
          simp [hr] at hg
        have hk : 1 ≤ k := by
          simp at hg
          omega
        have hgt : gt = ∅ := by
          rcases h with h | h | h
          · exact absurd h hne
          · exact h
          · omega
        rw [precision_eq recs gt k hk hne, hgt, relevant_count_empty_truth, Nat.cast_zero,
          zero_div]
    · by_cases hg : decide (gt = ∅) || decide (k ≤ 0)
      · simp only [ExhaustiveBenchmark.calculate_recall_at_k, hg, if_true, h00]
      · have hgt : gt ≠ ∅ := by
          intro hr
          simp [hr] at hg
        have hk : 1 ≤ k := by
          simp at hg
          omega
        have hr : recs = [] := by
          rcases h with h | h | h
          · exact h
          · exact absurd h hgt
          · omega
        rw [recall_eq recs gt k hk hgt, hr, relevant_count_nil, Nat.cast_zero, zero_div]
    · have hg : (recs.isEmpty || decide (gt = ∅) || decide (k ≤ 0)) = true := by
        rcases h with h | h | h
        · simp [h]
        · simp [h]
        · simp [h]
      simp only [ExhaustiveBenchmark.calculate_ndcg_at_k, hg, if_true, h00]
  · intro h
    have hg : (recs.isEmpty || decide (gt = ∅)) = true := by
      rcases h with h | h
      · simp [h]
      · simp [h]
    simp only [ExhaustiveBenchmark.calculate_map, hg, if_true, h00]

/-- C20 at a non-empty list with an empty ground truth and at an empty list with a
non-empty ground truth. -/
theorem C20_metrics_zero_at_boundary_witness :
    ExhaustiveBenchmark.calculate_precision_at_k (recs_three ℝ) ∅ 2 = 0 ∧
    ExhaustiveBenchmark.calculate_recall_at_k ([] : List (RecommendationResult ℝ)) {1} 2 = 0 ∧
    ExhaustiveBenchmark.calculate_ndcg_at_k libm (recs_three ℝ) {1} 0 = 0 ∧
    ExhaustiveBenchmark.calculate_map (recs_three ℝ) ∅ = 0 :=
  ⟨((C20_metrics_zero_at_boundary libm (recs_three ℝ) ∅ 2).1 (Or.inr (Or.inl rfl))).1,
    ((C20_metrics_zero_at_boundary libm ([] : List (RecommendationResult ℝ)) {1} 2).1
      (Or.inl rfl)).2.1,
    ((C20_metrics_zero_at_boundary libm (recs_three ℝ) {1} 0).1
      (Or.inr (Or.inr (le_refl _)))).2.2,
    (C20_metrics_zero_at_boundary libm (recs_three ℝ) ∅ 2).2 (Or.inr rfl)⟩

/-! ## The harness: the two searches -/

theorem map_range_getD {α : Type} (l : List α) (d : α) (k : Nat) (hk : k ≤ l.length) :
    (List.range k).map (fun i => l.getD i d) = l.take k := by
  apply List.ext_getElem?
  intro i
  by_cases hi : i < k
  · have hil : i < l.length := by omega
    rw [List.getElem?_map, List.getElem?_range hi, Option.map_some',
      List.getElem?_take_of_lt hi, List.getD_eq_getElem?_getD, List.getElem?_eq_getElem hil]
    rfl
  · have h1 : ((List.range k).map fun i => l.getD i d)[i]? = none :=
      List.getElem?_eq_none (by simp; omega)
    have h2 : (l.take k)[i]? = none :=
      List.getElem?_eq_none (by rw [List.length_take]; omega)
    rw [h1, h2]

theorem umap_at_of_mem_nodup {V : Type} (m : List (Int × V)) (k : Int) (v : V)
    (hnd : (m.map Prod.fst).Nodup) (hmem : (k, v) ∈ m) : umap_at m k = .ok v := by
  induction m with
  | nil => simp at hmem
  | cons e rest ih =>
    obtain ⟨k0, v0⟩ := e
    rw [List.map_cons, List.nodup_cons] at hnd
    rcases List.mem_cons.1 hmem with h | h
    · injection h with h1 h2
      subst h1
      subst h2
      simp [umap_at]
    · have hne : k0 ≠ k := by
        intro hk
        apply hnd.1
        rw [hk]
        exact List.mem_map.2 ⟨(k, v), h, rfl⟩
      simp only [umap_at, hne, if_false]
      exact ih hnd.2 h

theorem pairwise_take_drop {α : Type} {R : α → α → Prop} {l : List α} (h : l.Pairwise R)
    (k : Nat) : ∀ a ∈ l.take k, ∀ b ∈ l.drop k, R a b := by
  have h2 : (l.take k ++ l.drop k).Pairwise R := by
    rw [List.take_append_drop]
    exact h
  exact (List.pairwise_append.1 h2).2.2

theorem is_std_sort_score_desc {F : Type} [LinearOrderedField F] :
    is_std_sort (fun a b : Int × F => a.2 > b.2) sort_by_score_desc := by
  intro l
  haveI : IsTotal (Int × F) (fun a b => a.2 ≥ b.2) := ⟨fun a b => le_total b.2 a.2⟩
  haveI : IsTrans (Int × F) (fun a b => a.2 ≥ b.2) := ⟨fun a b c h1 h2 => le_trans h2 h1⟩
  refine ⟨List.perm_insertionSort _ l, ?_⟩
  have hs : (List.insertionSort (fun a b : Int × F => a.2 ≥ b.2) l).Pairwise
      (fun a b => a.2 ≥ b.2) := List.sorted_insertionSort _ l
  exact hs.imp (fun h => not_lt.mpr h)

theorem is_std_sort_distance_asc :
    is_std_sort (fun a b : Int × Int => a.2 < b.2) sort_by_distance_asc := by
  intro l
  haveI : IsTotal (Int × Int) (fun a b => a.2 ≤ b.2) := ⟨fun a b => le_total a.2 b.2⟩
  haveI : IsTrans (Int × Int) (fun a b => a.2 ≤ b.2) := ⟨fun a b c h1 h2 => le_trans h1 h2⟩
  refine ⟨List.perm_insertionSort _ l, ?_⟩
  have hs : (List.insertionSort (fun a b : Int × Int => a.2 ≤ b.2) l).Pairwise
      (fun a b => a.2 ≤ b.2) := List.sorted_insertionSort _ l
  exact hs.imp (fun h => not_lt.mpr h)

/-- The result of `exhaustive_search` for a known user: the pairs
`(item_id, score)` are the first `min(K, n)` entries of the sorted similarities,
the ranks count from `1` and every `hamming_distance` is `-1`. -/
theorem exhaustive_search_spec {F : Type} [LinearOrderedField F] (m : CMath F)
    (sort : List (Int × F) → List (Int × F)) (store : UserItemStore F)
    (user_id top_k : Int) (xu : List F)
    (hx : store.get_user_vector user_id = .ok xu)
    (hlen : ∀ l, (sort l).length = l.length) :
    (ExhaustiveBenchmark.exhaustive_search m sort store user_id top_k).map
        (fun r => (r.item_id, r.score)) =
      (sort (store.get_all_item_vectors.map fun e =>
        (e.1, ExhaustiveBenchmark.cosine_similarity m xu e.2))).take
        (min top_k (store.get_all_item_vectors.length : Int)).toNat ∧
    (ExhaustiveBenchmark.exhaustive_search m sort store user_id top_k).map (fun r => r.rank) =
      (List.range (min top_k (store.get_all_item_vectors.length : Int)).toNat).map
        (fun (i : Nat) => (i : Int) + 1) ∧
    (∀ r ∈ ExhaustiveBenchmark.exhaustive_search m sort store user_id top_k,
      r.hamming_distance = -1) ∧
    (ExhaustiveBenchmark.exhaustive_search m sort store user_id top_k).length =
      (min top_k (store.get_all_item_vectors.length : Int)).toNat := by
  simp only [ExhaustiveBenchmark.exhaustive_search, hx, hlen, List.length_map]
  refine ⟨?_, ?_, ?_, ?_⟩
  · rw [List.map_map]
    exact map_range_getD _ (0, 0) _ (by
      rw [hlen, List.length_map]
      exact min_toNat_le_length _ _)
  · rw [List.map_map]
    rfl
  · intro r hr
    obtain ⟨i, -, rfl⟩ := List.mem_map.1 hr
    rfl
  · simp

theorem length_of_is_std_sort {α : Type} {comp : α → α → Prop} {sort : List α → List α}
    (h : is_std_sort comp sort) (l : List α) : (sort l).length = l.length :=
  (h l).1.length_eq

theorem exhaustive_search_ids_nodup {F : Type} [LinearOrderedField F] (m : CMath F)
    (sort : List (Int × F) → List (Int × F)) (store : UserItemStore F)
    (user_id top_k : Int)
    (hsort : is_std_sort (fun a b : Int × F => a.2 > b.2) sort)
    (hnd : (store.item_vectors.map Prod.fst).Nodup) :
    ((ExhaustiveBenchmark.exhaustive_search m sort store user_id top_k).map
      fun x => x.item_id).Nodup := by
  cases hx : store.get_user_vector user_id with
  | error e => simp [ExhaustiveBenchmark.exhaustive_search, hx]
  | ok xu =>
    obtain ⟨hmap, -⟩ := exhaustive_search_spec m sort store user_id top_k xu hx
      (length_of_is_std_sort hsort)
    have h1 : (ExhaustiveBenchmark.exhaustive_search m sort store user_id top_k).map
        (fun x => x.item_id) =
        ((ExhaustiveBenchmark.exhaustive_search m sort store user_id top_k).map
          (fun r => (r.item_id, r.score))).map Prod.fst := by
      rw [List.map_map]
      rfl
    rw [h1, hmap]
    have hperm := ((hsort (store.get_all_item_vectors.map fun e =>
      (e.1, ExhaustiveBenchmark.cosine_similarity m xu e.2))).1).map Prod.fst
    have hkeys : (store.get_all_item_vectors.map fun e =>
        (e.1, ExhaustiveBenchmark.cosine_similarity m xu e.2)).map Prod.fst =
        store.item_vectors.map Prod.fst := by
      rw [List.map_map]
      rfl
    rw [hkeys] at hperm
    exact (hperm.nodup_iff.2 hnd).sublist ((List.take_sublist _ _).map _)

/-- C13: for a known user id and any `K`, `exhaustive_search` returns `min(K, n)`
results (none for `K ≤ 0`) with pairwise different item ids, in non-increasing
order of score; each score is the cosine similarity between the user vector and
the vector of that item; and every catalog item that is not returned has a cosine
similarity at most the score of every returned item: the result is a top-`K` of
the catalog of `n` items. -/
theorem C13_exhaustive_search_top_k {F : Type} [LinearOrderedField F] (m : CMath F)
    (sort : List (Int × F) → List (Int × F)) (store : UserItemStore F)
    (user_id top_k : Int) (xu : List F)
    (hsort : is_std_sort (fun a b : Int × F => a.2 > b.2) sort)
    (hx : store.get_user_vector user_id = .ok xu)
    (hnd : (store.item_vectors.map Prod.fst).Nodup) :
    (ExhaustiveBenchmark.exhaustive_search m sort store user_id top_k).length =
      (min top_k (store.get_all_item_vectors.length : Int)).toNat ∧
    ((ExhaustiveBenchmark.exhaustive_search m sort store user_id top_k).map
      fun r => r.item_id).Nodup ∧
    (ExhaustiveBenchmark.exhaustive_search m sort store user_id top_k).Pairwise
        (fun a b => a.score ≥ b.score) ∧
    (∀ r ∈ ExhaustiveBenchmark.exhaustive_search m sort store user_id top_k,
      ∃ yv, store.get_item_vector r.item_id = .ok yv ∧
        r.score = ExhaustiveBenchmark.cosine_similarity m xu yv) ∧
    (∀ e ∈ store.get_all_item_vectors,
      e.1 ∉ (ExhaustiveBenchmark.exhaustive_search m sort store user_id top_k).map
        (fun r => r.item_id) →
      ∀ r ∈ ExhaustiveBenchmark.exhaustive_search m sort store user_id top_k,
        ExhaustiveBenchmark.cosine_similarity m xu e.2 ≤ r.score) := by
  obtain ⟨hpairs, -, -, hcount⟩ := exhaustive_search_spec m sort store user_id top_k xu hx
    (length_of_is_std_sort hsort)
  obtain ⟨hperm, hsorted⟩ := hsort (store.get_all_item_vectors.map fun e =>
    (e.1, ExhaustiveBenchmark.cosine_similarity m xu e.2))
  have hmem : ∀ r ∈ ExhaustiveBenchmark.exhaustive_search m sort store user_id top_k,
      (r.item_id, r.score) ∈ (sort (store.get_all_item_vectors.map fun e =>
        (e.1, ExhaustiveBenchmark.cosine_similarity m xu e.2))).take
        (min top_k (store.get_all_item_vectors.length : Int)).toNat := by
    intro r hr
    rw [← hpairs]
    exact List.mem_map.2 ⟨r, hr, rfl⟩
  refine ⟨hcount, exhaustive_search_ids_nodup m sort store user_id top_k hsort hnd, ?_, ?_, ?_⟩
  · apply List.Pairwise.of_map (fun r : RecommendationResult F => (r.item_id, r.score))
      (S := fun p q : Int × F => p.2 ≥ q.2)
    · intro a b h
      exact h
    · rw [hpairs]
      exact ((hsorted.sublist (List.take_sublist _ _)).imp (fun h => not_lt.mp h))
  · intro r hr
    have h1 := hperm.subset (List.mem_of_mem_take (hmem r hr))
    obtain ⟨e, he, heq⟩ := List.mem_map.1 h1
    injection heq with h1 h2
    refine ⟨e.2, ?_, h2.symm⟩
    rw [← h1]
    exact umap_at_of_mem_nodup _ _ _ hnd he
  · intro e he hnot r hr
    have hin : (e.1, ExhaustiveBenchmark.cosine_similarity m xu e.2) ∈
        sort (store.get_all_item_vectors.map fun e =>
          (e.1, ExhaustiveBenchmark.cosine_similarity m xu e.2)) :=
      hperm.symm.subset (List.mem_map.2 ⟨e, he, rfl⟩)
    rw [← List.take_append_drop (min top_k (store.get_all_item_vectors.length : Int)).toNat
      (sort _), List.mem_append] at hin
    rcases hin with hin | hin
    · exfalso
      apply hnot
      rw [← hpairs] at hin
      obtain ⟨r2, hr2, heq⟩ := List.mem_map.1 hin
      injection heq with h1 h2
      exact List.mem_map.2 ⟨r2, hr2, h1⟩
    · exact not_lt.mp (pairwise_take_drop hsorted _ _ (hmem r hr) _ hin)

/-- C13 at the store `store_par`, whose catalog has the two items `10` and `20`,
with `K = 1` and insertion sort as the sorting function: one result is returned,
and the item that is not returned scores at most as much. -/
theorem C13_exhaustive_search_top_k_witness :
    is_std_sort (fun a b : Int × ℝ => a.2 > b.2) sort_by_score_desc ∧
    (store_par ℝ).get_user_vector 1 = .ok [1, 0] ∧
    ((store_par ℝ).item_vectors.map Prod.fst).Nodup ∧
    (ExhaustiveBenchmark.exhaustive_search libm sort_by_score_desc (store_par ℝ) 1 1).length
      = 1 ∧
    ((ExhaustiveBenchmark.exhaustive_search libm sort_by_score_desc (store_par ℝ) 1 1).map
      fun r => r.item_id).Nodup ∧
    (ExhaustiveBenchmark.exhaustive_search libm sort_by_score_desc (store_par ℝ) 1 1).Pairwise
        (fun a b => a.score ≥ b.score) ∧
    (∀ r ∈ ExhaustiveBenchmark.exhaustive_search libm sort_by_score_desc (store_par ℝ) 1 1,
      ∃ yv, (store_par ℝ).get_item_vector r.item_id = .ok yv ∧
        r.score = ExhaustiveBenchmark.cosine_similarity libm [1, 0] yv) ∧
    (∀ e ∈ (store_par ℝ).get_all_item_vectors,
      e.1 ∉ (ExhaustiveBenchmark.exhaustive_search libm sort_by_score_desc (store_par ℝ) 1
        1).map (fun r => r.item_id) →
      ∀ r ∈ ExhaustiveBenchmark.exhaustive_search libm sort_by_score_desc (store_par ℝ) 1 1,
        ExhaustiveBenchmark.cosine_similarity libm [1, 0] e.2 ≤ r.score) := by
  have hnd : ((store_par ℝ).item_vectors.map Prod.fst).Nodup := by
    simp [store_par]
  obtain ⟨h0, h1, h2, h3, h4⟩ := C13_exhaustive_search_top_k libm sort_by_score_desc
    (store_par ℝ) 1 1 [1, 0] is_std_sort_score_desc rfl hnd
  exact ⟨is_std_sort_score_desc, rfl, hnd, h0, h1, h2, h3, h4⟩

theorem zip_eq_map_range (c1 c2 : List Char) (h : c1.length = c2.length) :
    (List.range c1.length).map (fun i => (c1.getD i ' ', c2.getD i ' ')) = List.zip c1 c2 := by
  apply List.ext_getElem?
  intro i
  by_cases hi : i < c1.length
  · have hi2 : i < c2.length := by omega
    rw [List.getElem?_map, List.getElem?_range hi, Option.map_some', List.zip,
      List.getElem?_zipWith', List.getD_eq_getElem?_getD, List.getD_eq_getElem?_getD,
      List.getElem?_eq_getElem hi, List.getElem?_eq_getElem hi2]
    rfl
  · have h1 : ((List.range c1.length).map fun i => (c1.getD i ' ', c2.getD i ' '))[i]? = none :=
      List.getElem?_eq_none (by simp; omega)
    have h2 : (List.zip c1 c2)[i]? = none :=
      List.getElem?_eq_none (by rw [List.length_zip]; omega)
    rw [h1, h2]

/-- On codes of equal length `hamming_distance` is the number of positions at
which the codes differ. -/
theorem hamming_distance_eq (c1 c2 : String) (h : c1.length = c2.length) :
    ExhaustiveBenchmark.hamming_distance c1 c2 = (hamming c1.data c2.data : Int) := by
  have hd : c1.data.length = c2.data.length := h
  unfold ExhaustiveBenchmark.hamming_distance
  rw [if_neg (not_not.mpr h),
    count_fold (fun i => c1.data.getD i ' ' ≠ c2.data.getD i ' '), zero_add]
  congr 1
  unfold hamming
  rw [← zip_eq_map_range c1.data c2.data hd, List.filter_map, List.length_map]
  rfl

theorem code_of_length {F : Type} [LinearOrderedField F] (hasher : SRPHasher F) (v : List F) :
    (code_of hasher v).length = hasher.b.toNat := by
  simp [code_of, String.length]

theorem generate_code_eq_code_of {F : Type} [LinearOrderedField F] (hasher : SRPHasher F)
    (v : List F) (hb : 0 ≤ hasher.b) : hasher.generate_code v = .ok (code_of hasher v) :=
  generate_code_ok hasher.b hasher.hash_to_bit v hb

theorem item_distances_ok {F : Type} [LinearOrderedField F] (hasher : SRPHasher F)
    (user_code : String) (items : List (Int × List F)) (hb : 0 ≤ hasher.b) :
    ExhaustiveBenchmark.item_distances hasher user_code items =
      .ok (items.map fun e =>
        (e.1, ExhaustiveBenchmark.hamming_distance user_code (code_of hasher e.2))) := by
  induction items with
  | nil => rfl
  | cons e rest ih =>
    simp only [ExhaustiveBenchmark.item_distances, generate_code_eq_code_of hasher e.2 hb, ih,
      List.map_cons]

/-- The result of `lsh_search` for a known user and a hasher with `b ≥ 0`: the
pairs `(item_id, hamming_distance)` are the first `min(K, n)` entries of the
sorted distances, the ranks count from `1` and each score is `1 - h / b`. -/
theorem lsh_search_spec {F : Type} [LinearOrderedField F]
    (sort : List (Int × Int) → List (Int × Int)) (store : UserItemStore F)
    (hasher : SRPHasher F) (user_id top_k : Int) (xu : List F)
    (hx : store.get_user_vector user_id = .ok xu) (hb : 0 ≤ hasher.b)
    (hlen : ∀ l, (sort l).length = l.length) :
    (ExhaustiveBenchmark.lsh_search sort store hasher user_id top_k).map
        (fun r => (r.item_id, r.hamming_distance)) =
      (sort (store.get_all_item_vectors.map fun e =>
        (e.1, ExhaustiveBenchmark.hamming_distance (code_of hasher xu)
          (code_of hasher e.2)))).take
        (min top_k (store.get_all_item_vectors.length : Int)).toNat ∧
    (ExhaustiveBenchmark.lsh_search sort store hasher user_id top_k).map (fun r => r.rank) =
      (List.range (min top_k (store.get_all_item_vectors.length : Int)).toNat).map
        (fun (i : Nat) => (i : Int) + 1) ∧
    (∀ r ∈ ExhaustiveBenchmark.lsh_search sort store hasher user_id top_k,
      r.score = 1 - (r.hamming_distance : F) / (hasher.b : F)) ∧
    (ExhaustiveBenchmark.lsh_search sort store hasher user_id top_k).length =
      (min top_k (store.get_all_item_vectors.length : Int)).toNat := by
  simp only [ExhaustiveBenchmark.lsh_search, hx, generate_code_eq_code_of hasher xu hb,
    item_distances_ok hasher _ _ hb, hlen, List.length_map]
  refine ⟨?_, ?_, ?_, ?_⟩
  · rw [List.map_map]
    exact map_range_getD _ (0, 0) _ (by
      rw [hlen, List.length_map]
      exact min_toNat_le_length _ _)
  · rw [List.map_map]
    rfl
  · intro r hr
    obtain ⟨i, -, rfl⟩ := List.mem_map.1 hr
    norm_num
  · simp

/-- C14: for a known user id, a hasher with `b ≥ 1` bits and any `K`, `lsh_search`
returns its results in non-decreasing order of `hamming_distance`; the
`hamming_distance` of a result is the Hamming distance between the codes of the
user vector and of the vector of that item, its score is `1 - hamming_distance / b`,
and every catalog item that is not returned has a Hamming distance at least that
of every returned item. -/
theorem C14_lsh_search_top_k {F : Type} [LinearOrderedField F]
    (sort : List (Int × Int) → List (Int × Int)) (store : UserItemStore F)
    (hasher : SRPHasher F) (user_id top_k : Int) (xu : List F)
    (hsort : is_std_sort (fun a b : Int × Int => a.2 < b.2) sort)
    (hx : store.get_user_vector user_id = .ok xu)
    (hnd : (store.item_vectors.map Prod.fst).Nodup)
    (hb : 1 ≤ hasher.b) :
    ∃ user_code, hasher.generate_code xu = .ok user_code ∧
      (ExhaustiveBenchmark.lsh_search sort store hasher user_id top_k).Pairwise
        (fun a b => a.hamming_distance ≤ b.hamming_distance) ∧
      (∀ r ∈ ExhaustiveBenchmark.lsh_search sort store hasher user_id top_k,
        ∃ yv item_code, store.get_item_vector r.item_id = .ok yv ∧
          hasher.generate_code yv = .ok item_code ∧
          r.hamming_distance = (hamming user_code.data item_code.data : Int) ∧
          r.score = 1 - (r.hamming_distance : F) / (hasher.b : F)) ∧
      (∀ e ∈ store.get_all_item_vectors,
        e.1 ∉ (ExhaustiveBenchmark.lsh_search sort store hasher user_id top_k).map
          (fun r => r.item_id) →
        ∃ item_code, hasher.generate_code e.2 = .ok item_code ∧
          ∀ r ∈ ExhaustiveBenchmark.lsh_search sort store hasher user_id top_k,
            r.hamming_distance ≤ (hamming user_code.data item_code.data : Int)) := by
  have hb0 : 0 ≤ hasher.b := by omega
  obtain ⟨hpairs, -, hscore, -⟩ := lsh_search_spec sort store hasher user_id top_k xu hx hb0
    (length_of_is_std_sort hsort)
  obtain ⟨hperm, hsorted⟩ := hsort (store.get_all_item_vectors.map fun e =>
    (e.1, ExhaustiveBenchmark.hamming_distance (code_of hasher xu) (code_of hasher e.2)))
  have hham : ∀ v : List F,
      ExhaustiveBenchmark.hamming_distance (code_of hasher xu) (code_of hasher v) =
        (hamming (code_of hasher xu).data (code_of hasher v).data : Int) := fun v =>
    hamming_distance_eq _ _ (by rw [code_of_length, code_of_length])
  have hmem : ∀ r ∈ ExhaustiveBenchmark.lsh_search sort store hasher user_id top_k,
      (r.item_id, r.hamming_distance) ∈ (sort (store.get_all_item_vectors.map fun e =>
        (e.1, ExhaustiveBenchmark.hamming_distance (code_of hasher xu)
          (code_of hasher e.2)))).take
        (min top_k (store.get_all_item_vectors.length : Int)).toNat := by
    intro r hr
    rw [← hpairs]
    exact List.mem_map.2 ⟨r, hr, rfl⟩
  refine ⟨code_of hasher xu, generate_code_eq_code_of hasher xu hb0, ?_, ?_, ?_⟩
  · apply List.Pairwise.of_map
      (fun r : RecommendationResult F => (r.item_id, r.hamming_distance))
      (S := fun p q : Int × Int => p.2 ≤ q.2)
    · intro a b h
      exact h
    · rw [hpairs]
      exact ((hsorted.sublist (List.take_sublist _ _)).imp (fun h => not_lt.mp h))
  · intro r hr
    have h1 := hperm.subset (List.mem_of_mem_take (hmem r hr))
    obtain ⟨e, he, heq⟩ := List.mem_map.1 h1
    injection heq with h1 h2
    refine ⟨e.2, code_of hasher e.2, ?_, generate_code_eq_code_of hasher e.2 hb0, ?_,
      hscore r hr⟩
    · rw [← h1]
      exact umap_at_of_mem_nodup _ _ _ hnd he
    · rw [← h2]
      exact hham e.2
  · intro e he hnot
    refine ⟨code_of hasher e.2, generate_code_eq_code_of hasher e.2 hb0, fun r hr => ?_⟩
    have hin : (e.1, ExhaustiveBenchmark.hamming_distance (code_of hasher xu)
        (code_of hasher e.2)) ∈
        sort (store.get_all_item_vectors.map fun e =>
          (e.1, ExhaustiveBenchmark.hamming_distance (code_of hasher xu)
            (code_of hasher e.2))) :=
      hperm.symm.subset (List.mem_map.2 ⟨e, he, rfl⟩)
    rw [← List.take_append_drop (min top_k (store.get_all_item_vectors.length : Int)).toNat
      (sort _), List.mem_append] at hin
    rcases hin with hin | hin
    · exfalso
      apply hnot
      rw [← hpairs] at hin
      obtain ⟨r2, hr2, heq⟩ := List.mem_map.1 hin
      injection heq with h1 h2
      exact List.mem_map.2 ⟨r2, hr2, h1⟩
    · rw [← hham e.2]
      exact not_lt.mp (pairwise_take_drop hsorted _ _ (hmem r hr) _ hin)

/-- C14 at the store `store_par` and the hasher `hasher_xy`, with insertion sort as
the sorting function. -/
theorem C14_lsh_search_top_k_witness :
    is_std_sort (fun a b : Int × Int => a.2 < b.2) sort_by_distance_asc ∧
    (store_par ℝ).get_user_vector 1 = .ok [1, 0] ∧
    ((store_par ℝ).item_vectors.map Prod.fst).Nodup ∧ (1 : Int) ≤ hasher_xy.b ∧
    ∃ user_code, hasher_xy.generate_code [1, 0] = .ok user_code ∧
      (ExhaustiveBenchmark.lsh_search sort_by_distance_asc (store_par ℝ) hasher_xy 1 1).Pairwise
        (fun a b => a.hamming_distance ≤ b.hamming_distance) := by
  have hnd : ((store_par ℝ).item_vectors.map Prod.fst).Nodup := by
    simp [store_par]
  obtain ⟨uc, h1, h2, -⟩ := C14_lsh_search_top_k sort_by_distance_asc (store_par ℝ) hasher_xy
    1 1 [1, 0] is_std_sort_distance_asc rfl hnd (by decide)
  exact ⟨is_std_sort_distance_asc, rfl, hnd, by decide, uc, h1, h2⟩

/-- C15: for a known user id and a catalog of `n` items, `exhaustive_search` and
`lsh_search` each return exactly `min(K, n)` results when `K ≥ 0` and none when
`K ≤ 0`; the `i`-th result, counted from `1`, has rank `i`; the exhaustive
results have `hamming_distance = -1` and the results of `lsh_search` carry the
Hamming distance between the code of the user and the code of their item. -/
theorem C15_top_k_size_and_ranks {F : Type} [LinearOrderedField F] (m : CMath F)
    (sort_e : List (Int × F) → List (Int × F)) (sort_l : List (Int × Int) → List (Int × Int))
    (store : UserItemStore F) (hasher : SRPHasher F) (user_id top_k : Int) (xu : List F)
    (hsort_e : is_std_sort (fun a b : Int × F => a.2 > b.2) sort_e)
    (hsort_l : is_std_sort (fun a b : Int × Int => a.2 < b.2) sort_l)
    (hx : store.get_user_vector user_id = .ok xu) (hb : 0 ≤ hasher.b) :
    (0 ≤ top_k →
      ((ExhaustiveBenchmark.exhaustive_search m sort_e store user_id top_k).length : Int) =
        min top_k (store.get_all_item_vectors.length : Int) ∧
      ((ExhaustiveBenchmark.lsh_search sort_l store hasher user_id top_k).length : Int) =
        min top_k (store.get_all_item_vectors.length : Int)) ∧
    (top_k ≤ 0 →
      ExhaustiveBenchmark.exhaustive_search m sort_e store user_id top_k = [] ∧
      ExhaustiveBenchmark.lsh_search sort_l store hasher user_id top_k = []) ∧
    (ExhaustiveBenchmark.exhaustive_search m sort_e store user_id top_k).map (fun r => r.rank) =
      (List.range (ExhaustiveBenchmark.exhaustive_search m sort_e store user_id top_k).length).map
        (fun (i : Nat) => (i : Int) + 1) ∧
    (ExhaustiveBenchmark.lsh_search sort_l store hasher user_id top_k).map (fun r => r.rank) =
      (List.range (ExhaustiveBenchmark.lsh_search sort_l store hasher user_id top_k).length).map
        (fun (i : Nat) => (i : Int) + 1) ∧
    (∀ r ∈ ExhaustiveBenchmark.exhaustive_search m sort_e store user_id top_k,
      r.hamming_distance = -1) ∧
    (∀ r ∈ ExhaustiveBenchmark.lsh_search sort_l store hasher user_id top_k,
      ∃ e ∈ store.get_all_item_vectors, ∃ user_code item_code,
        hasher.generate_code xu = .ok user_code ∧ hasher.generate_code e.2 = .ok item_code ∧
        e.1 = r.item_id ∧
        r.hamming_distance = (hamming user_code.data item_code.data : Int)) := by
  obtain ⟨-, hre, hhe, hle⟩ := exhaustive_search_spec m sort_e store user_id top_k xu hx
    (length_of_is_std_sort hsort_e)
  obtain ⟨hpl, hrl, -, hll⟩ := lsh_search_spec sort_l store hasher user_id top_k xu hx hb
    (length_of_is_std_sort hsort_l)
  refine ⟨?_, ?_, ?_, ?_, hhe, ?_⟩
  · intro hk
    have h0 : 0 ≤ min top_k (store.get_all_item_vectors.length : Int) :=
      le_min hk (Int.ofNat_nonneg _)
    rw [hle, hll, Int.toNat_of_nonneg h0]
    exact ⟨rfl, rfl⟩
  · intro hk
    have h0 : (min top_k (store.get_all_item_vectors.length : Int)).toNat = 0 := by
      have : min top_k (store.get_all_item_vectors.length : Int) ≤ 0 :=
        le_trans (min_le_left _ _) hk
      omega
    rw [h0] at hle hll
    exact ⟨List.length_eq_zero.1 hle, List.length_eq_zero.1 hll⟩
  · rw [hre, hle]
  · rw [hrl, hll]
  · intro r hr
    have hmem : (r.item_id, r.hamming_distance) ∈
        (sort_l (store.get_all_item_vectors.map fun e =>
          (e.1, ExhaustiveBenchmark.hamming_distance (code_of hasher xu)
            (code_of hasher e.2)))).take
          (min top_k (store.get_all_item_vectors.length : Int)).toNat := by
      rw [← hpl]
      exact List.mem_map.2 ⟨r, hr, rfl⟩
    have h1 := (hsort_l _).1.subset (List.mem_of_mem_take hmem)
    obtain ⟨e, he, heq⟩ := List.mem_map.1 h1
    injection heq with h1 h2
    refine ⟨e, he, code_of hasher xu, code_of hasher e.2,
      generate_code_eq_code_of hasher xu hb, generate_code_eq_code_of hasher e.2 hb, h1, ?_⟩
    rw [← h2]
    exact hamming_distance_eq _ _ (by rw [code_of_length, code_of_length])

/-- C15 at the store `store_par`, whose catalog has two items, with `K = 5`: both
searches return two results. -/
theorem C15_top_k_size_and_ranks_witness :
    is_std_sort (fun a b : Int × ℝ => a.2 > b.2) sort_by_score_desc ∧
    is_std_sort (fun a b : Int × Int => a.2 < b.2) sort_by_distance_asc ∧
    (store_par ℝ).get_user_vector 1 = .ok [1, 0] ∧ (0 : Int) ≤ hasher_xy.b ∧
    (ExhaustiveBenchmark.exhaustive_search libm sort_by_score_desc (store_par ℝ) 1 5).length
      = 2 ∧
    (ExhaustiveBenchmark.lsh_search sort_by_distance_asc (store_par ℝ) hasher_xy 1 5).length
      = 2 := by
  obtain ⟨h1, -⟩ := C15_top_k_size_and_ranks libm sort_by_score_desc sort_by_distance_asc
    (store_par ℝ) hasher_xy 1 5 [1, 0] is_std_sort_score_desc is_std_sort_distance_asc rfl
    (by decide)
  obtain ⟨ha, hb⟩ := h1 (by decide)
  have hn : (((store_par ℝ).get_all_item_vectors.length : Nat) : Int) = 2 := rfl
  rw [hn] at ha hb
  have h25 : min (5 : Int) 2 = 2 := by decide
  rw [h25] at ha hb
  exact ⟨is_std_sort_score_desc, is_std_sort_distance_asc, rfl, by decide,
    by exact_mod_cast ha, by exact_mod_cast hb⟩

/-! ## The harness: cosine similarity and unknown users -/

theorem cosine_similarity_eq {F : Type} [LinearOrderedField F] (m : CMath F) (v1 v2 : List F) :
    ExhaustiveBenchmark.cosine_similarity m v1 v2 =
      if v1.length ≠ v2.length then 0
      else if euclidean_norm m v1 = 0 ∨ euclidean_norm m v2 = 0 then 0
      else dot v1 v2 / (euclidean_norm m v1 * euclidean_norm m v2) := by
  have h0 : (0.0 : F) = 0 := by norm_num
  simp only [ExhaustiveBenchmark.cosine_similarity, h0, inner_product_zero_eq_dot, dot_self,
    euclidean_norm]

/-- C21: `cosine_similarity` returns exactly `0` when the lengths differ or when
the norm of one of the two vectors is zero, and the dot product over the product
of the norms otherwise. -/
theorem C21_cosine_similarity_formula {F : Type} [LinearOrderedField F] (m : CMath F)
    (v1 v2 : List F) :
    ((v1.length ≠ v2.length ∨ euclidean_norm m v1 = 0 ∨ euclidean_norm m v2 = 0) →
      ExhaustiveBenchmark.cosine_similarity m v1 v2 = 0) ∧
    (v1.length = v2.length → euclidean_norm m v1 ≠ 0 → euclidean_norm m v2 ≠ 0 →
      ExhaustiveBenchmark.cosine_similarity m v1 v2 =
        dot v1 v2 / (euclidean_norm m v1 * euclidean_norm m v2)) := by
  rw [cosine_similarity_eq]
  constructor
  · intro h
    by_cases hl : v1.length ≠ v2.length
    · rw [if_pos hl]
    · rw [if_neg hl, if_pos (h.resolve_left hl)]
  · intro hl h1 h2
    rw [if_neg (not_not.mpr hl), if_neg (not_or.mpr ⟨h1, h2⟩)]

/-- C21 on the reals: the zero vector against `(1, 0)` gives `0`, the vectors of
different lengths `(1, 0)` and `(1)` give `0`, and `(1, 0)` against itself gives
`1 / (1 * 1)`. -/
theorem C21_cosine_similarity_formula_witness :
    euclidean_norm libm [0, 0] = 0 ∧
    ExhaustiveBenchmark.cosine_similarity libm [0, 0] [1, 0] = 0 ∧
    ExhaustiveBenchmark.cosine_similarity libm [1, 0] [1] = 0 ∧
    ExhaustiveBenchmark.cosine_similarity libm [1, 0] [1, 0] =
      dot ([1, 0] : List ℝ) [1, 0] / (euclidean_norm libm [1, 0] * euclidean_norm libm [1, 0]) := by
  have euclidean_norm_zero := unit_vector_facts.1
  have euclidean_norm_unit_x := unit_vector_facts.2.1
  exact have hz : euclidean_norm libm [0, 0] = 0 := euclidean_norm_zero _ (by simp)
      have hu : euclidean_norm libm [1, 0] ≠ 0 := by rw [euclidean_norm_unit_x]; exact one_ne_zero
      ⟨hz, (C21_cosine_similarity_formula libm [0, 0] [1, 0]).1 (Or.inr (Or.inl hz)),
        (C21_cosine_similarity_formula libm [1, 0] [1]).1 (Or.inl (by decide)),
        (C21_cosine_similarity_formula libm [1, 0] [1, 0]).2 rfl hu hu⟩

/-- C22, as stated, fails: on the store `store_par`, which has no user `99`, the
lookup of user `99` raises `std::out_of_range`, yet both searches return to their
caller normally, with an empty result list. -/
theorem C22_counterexample :
    (store_par ℝ).get_user_vector 99 = .error Exn.out_of_range ∧
    ExhaustiveBenchmark.exhaustive_search libm sort_by_score_desc (store_par ℝ) 99 5 = [] ∧
    ExhaustiveBenchmark.lsh_search sort_by_distance_asc (store_par ℝ) hasher_xy 99 5 = [] :=
  ⟨rfl, rfl, rfl⟩

/-- C22, amended: for a user id without embedding the lookup inside the search
fails, the failure is caught inside `exhaustive_search` and `lsh_search`, and both
return the empty result list to the caller, whatever `top_k` is. -/
theorem C22_unknown_user_empty_result {F : Type} [LinearOrderedField F] (m : CMath F)
    (sort_scores : List (Int × F) → List (Int × F))
    (sort_distances : List (Int × Int) → List (Int × Int))
    (store : UserItemStore F) (hasher : SRPHasher F) (user_id top_k : Int)
    (h : ¬ user_known store user_id) :
    store.get_user_vector user_id = .error Exn.out_of_range ∧
    ExhaustiveBenchmark.exhaustive_search m sort_scores store user_id top_k = [] ∧
    ExhaustiveBenchmark.lsh_search sort_distances store hasher user_id top_k = [] := by
  have hx : store.get_user_vector user_id = .error Exn.out_of_range :=
    (umap_at_error_iff _ _).2 h
  refine ⟨hx, ?_, ?_⟩
  · simp only [ExhaustiveBenchmark.exhaustive_search, hx]
  · simp only [ExhaustiveBenchmark.lsh_search, hx]

/-- C22 amended, at the store `store_par` and the user id `99`. -/
theorem C22_unknown_user_empty_result_witness :
    ¬ user_known (store_par ℝ) 99 ∧
    (store_par ℝ).get_user_vector 99 = .error Exn.out_of_range ∧
    ExhaustiveBenchmark.exhaustive_search libm sort_by_score_desc (store_par ℝ) 99 5 = [] ∧
    ExhaustiveBenchmark.lsh_search sort_by_distance_asc (store_par ℝ) hasher_xy 99 5 = [] :=
  ⟨by decide, C22_unknown_user_empty_result libm sort_by_score_desc sort_by_distance_asc
    (store_par ℝ) hasher_xy 99 5 (by decide)⟩

/-! ## The hasher: seeds and determinism -/

/-- C26: two constructions with the same nonzero seed, the same dimension and the
same number of hash functions have the same outcome, whatever `std::random_device`
returns; when the sizes are not negative both succeed, the two hashers hold the
same projection vectors, and `generate_code` returns the same code from both for
every vector. -/
theorem C26_same_seed_same_family {F : Type} [LinearOrderedField F] (d b : Int)
    (seed entropy_1 entropy_2 : Nat) (gen : Nat → Nat → F) (hseed : seed ≠ 0) :
    SRPHasher.new d b seed entropy_1 gen = SRPHasher.new d b seed entropy_2 gen ∧
    (0 ≤ b → 0 ≤ d → ∃ h1 h2,
      SRPHasher.new d b seed entropy_1 gen = .ok h1 ∧
      SRPHasher.new d b seed entropy_2 gen = .ok h2 ∧
      h1.random_vectors = h2.random_vectors ∧
      ∀ v : List F, ∃ code, h1.generate_code v = .ok code ∧ h2.generate_code v = .ok code) := by
  have heq : SRPHasher.new d b seed entropy_1 gen = SRPHasher.new d b seed entropy_2 gen := by
    simp only [SRPHasher.new, hseed, if_false]
  refine ⟨heq, fun hb hd => ?_⟩
  have hok : ∃ h, SRPHasher.new d b seed entropy_2 gen = .ok h := by
    simp only [SRPHasher.new, not_lt.mpr hb, not_lt.mpr hd, and_false, if_false]
    exact ⟨_, rfl⟩
  obtain ⟨h, hh⟩ := hok
  have hbb : 0 ≤ h.b := by
    rw [(SRPHasher.new_ok hh).2.2.2.1]
    exact hb
  exact ⟨h, h, heq.trans hh, hh, rfl, fun v =>
    ⟨code_of h v, generate_code_eq_code_of h v hbb, generate_code_eq_code_of h v hbb⟩⟩

/-- C26 for `SRPHasher(2, 3, 7)` over the rationals, with the two values `11` and
`12` of `std::random_device` and a generator whose `k`-th draw is `k - 2`. -/
theorem C26_same_seed_same_family_witness :
    (7 : Nat) ≠ 0 ∧
    SRPHasher.new 2 3 7 11 (fun _ k => ((k : ℚ) - 2)) =
      SRPHasher.new 2 3 7 12 (fun _ k => ((k : ℚ) - 2)) ∧
    ∃ h1 h2,
      SRPHasher.new 2 3 7 11 (fun _ k => ((k : ℚ) - 2)) = .ok h1 ∧
      SRPHasher.new 2 3 7 12 (fun _ k => ((k : ℚ) - 2)) = .ok h2 ∧
      h1.random_vectors = h2.random_vectors ∧
      ∀ v : List ℚ, ∃ code, h1.generate_code v = .ok code ∧ h2.generate_code v = .ok code :=
  have h := C26_same_seed_same_family 2 3 7 11 12 (fun _ k => ((k : ℚ) - 2)) (by decide)
  ⟨by decide, h.1, h.2 (by decide) (by decide)⟩

/-- C27: two successive calls of `generate_code` on one hasher and one vector
return the same result and leave the projection vectors of the hasher as they
were; for `b ≥ 0` both calls return the same code of `b` characters. -/
theorem C27_generate_code_deterministic {F : Type} [LinearOrderedField F]
    (hasher : SRPHasher F) (vec : List F) :
    (generate_code_twice hasher vec).1 = (generate_code_twice hasher vec).2.1 ∧
    (generate_code_twice hasher vec).2.2.random_vectors = hasher.random_vectors ∧
    (0 ≤ hasher.b → ∃ code,
      (generate_code_twice hasher vec).1 = .ok code ∧
      (generate_code_twice hasher vec).2.1 = .ok code ∧
      code.length = hasher.b.toNat) :=
  ⟨rfl, rfl, fun hb => ⟨code_of hasher vec, generate_code_eq_code_of hasher vec hb,
    generate_code_eq_code_of hasher vec hb, code_of_length hasher vec⟩⟩

/-- C27 at the hasher `hasher_7` and the vector `(1, 1)`. -/
theorem C27_generate_code_deterministic_witness :
    (0 : Int) ≤ hasher_7.b ∧
    (generate_code_twice hasher_7 [1, 1]).1 = (generate_code_twice hasher_7 [1, 1]).2.1 ∧
    (generate_code_twice hasher_7 [1, 1]).2.2.random_vectors = hasher_7.random_vectors ∧
    ∃ code,
      (generate_code_twice hasher_7 [1, 1]).1 = .ok code ∧
      (generate_code_twice hasher_7 [1, 1]).2.1 = .ok code ∧
      code.length = hasher_7.b.toNat :=
  have h := C27_generate_code_deterministic hasher_7 [1, 1]
  ⟨by decide, h.1, h.2.1, h.2.2 (by decide)⟩

/-! ## The trainer: unknown ids and the validation scores -/

theorem compute_gradients_unknown {F : Type} [LinearOrderedField F] (m : CMath F)
    (s : UserItemStore F) (t : Triplet) (params : TrainingParams F)
    (ht : ¬ triplet_known s t) :
    SRPR_Trainer.compute_gradients m s t params = .error Exn.out_of_range := by
  by_cases hu : t.user_id ∈ s.user_vectors.map Prod.fst
  · obtain ⟨xu, hx, -⟩ := umap_at_of_mem_keys _ _ hu
    by_cases hp : t.preferred_item_id ∈ s.item_vectors.map Prod.fst
    · obtain ⟨yi, hi, -⟩ := umap_at_of_mem_keys _ _ hp
      have hl : t.less_preferred_item_id ∉ s.item_vectors.map Prod.fst :=
        fun hl => ht ⟨hu, hp, hl⟩
      have hj := (umap_at_error_iff _ _).2 hl
      simp only [SRPR_Trainer.compute_gradients, UserItemStore.get_user_vector,
        UserItemStore.get_item_vector, hx, hi, hj]
    · have hi := (umap_at_error_iff _ _).2 hp
      simp only [SRPR_Trainer.compute_gradients, UserItemStore.get_user_vector,
        UserItemStore.get_item_vector, hx, hi]
  · have hx := (umap_at_error_iff _ _).2 hu
    simp only [SRPR_Trainer.compute_gradients, UserItemStore.get_user_vector, hx]

theorem train_triplets_unknown {F : Type} [LinearOrderedField F] (m : CMath F)
    (params : TrainingParams F) (ts : List Triplet) (s : UserItemStore F) (loss : F)
    (updates : Int) (hts : ∃ t ∈ ts, ¬ triplet_known s t) :
    SRPR_Trainer.train_triplets m params ts s loss updates = .error Exn.out_of_range := by
  induction ts generalizing s loss updates with
  | nil =>
    obtain ⟨t, ht, -⟩ := hts
    simp at ht
  | cons t rest ih =>
    by_cases ht : triplet_known s t
    · obtain ⟨g, hg⟩ := compute_gradients_ok m s t params ht
      obtain ⟨s1, hs1, hk1⟩ := update_vectors_ok s t g.1 g.2.1 g.2.2 params ht
      obtain ⟨v, hv⟩ := evaluate_triplet_total m s1 t params (triplet_known_of_same_keys hk1 ht)
      obtain ⟨t2, ht2, hn2⟩ := hts
      have hrest : ∃ t ∈ rest, ¬ triplet_known s1 t := by
        rcases List.mem_cons.1 ht2 with h | h
        · rw [h] at hn2
          exact absurd ht hn2
        · refine ⟨t2, h, fun hk => hn2 ?_⟩
          exact triplet_known_of_same_keys ⟨hk1.1.symm, hk1.2.symm⟩ hk
      simp only [SRPR_Trainer.train_triplets, hg, hs1, hv]
      exact ih s1 (loss + v) (int_wrap (updates + 1)) hrest
    · simp only [SRPR_Trainer.train_triplets, compute_gradients_unknown m s t params ht]

theorem train_unknown {F : Type} [LinearOrderedField F] (m : CMath F) (store : UserItemStore F)
    (training validation : List Triplet) (params : TrainingParams F) (duration : F)
    (hep : 1 ≤ params.epochs) (hts : ∃ t ∈ training, ¬ triplet_known store t) :
    SRPR_Trainer.train m store training params validation duration =
      .error Exn.out_of_range := by
  obtain ⟨n, hn⟩ : ∃ n, params.epochs.toNat = n + 1 :=
    Nat.exists_eq_succ_of_ne_zero (by omega)
  simp only [SRPR_Trainer.train, hn, SRPR_Trainer.train_epochs,
    train_triplets_unknown m params training store 0.0 0 hts]

/-- C23, as stated, fails: on the store `store_par`, whose only user is `1`, a
run over the triplets `(1, 10, 20)` and `(99, 10, 20)` does not skip the second
triplet: `train` ends with `std::out_of_range` and returns no statistics. -/
theorem C23_counterexample :
    SRPR_Trainer.train libm (store_par ℝ) [⟨1, 10, 20⟩, ⟨99, 10, 20⟩] (default_params ℝ) [] 0 =
      .error Exn.out_of_range ∧
    ¬ ∃ r, SRPR_Trainer.train libm (store_par ℝ) [⟨1, 10, 20⟩, ⟨99, 10, 20⟩]
      (default_params ℝ) [] 0 = .ok r := by
  have h : SRPR_Trainer.train libm (store_par ℝ) [⟨1, 10, 20⟩, ⟨99, 10, 20⟩]
      (default_params ℝ) [] 0 = .error Exn.out_of_range :=
    train_unknown libm (store_par ℝ) _ [] (default_params ℝ) 0 (by decide)
      ⟨⟨99, 10, 20⟩, by simp, by simp [triplet_known, store_par]⟩
  refine ⟨h, ?_⟩
  rintro ⟨r, hr⟩
  rw [h] at hr
  cases hr

/-- C23, amended: `train` has no handler for the lookup failure.  When at least one
epoch is to run and the training list contains a triplet with an id that has no
embedding, the first such triplet ends the run: `std::out_of_range` leaves `train`
and no statistics are returned. -/
theorem C23_train_aborts_on_unknown_id {F : Type} [LinearOrderedField F] (m : CMath F)
    (store : UserItemStore F) (training validation : List Triplet)
    (params : TrainingParams F) (duration : F)
    (hep : 1 ≤ params.epochs) (hts : ∃ t ∈ training, ¬ triplet_known store t) :
    SRPR_Trainer.train m store training params validation duration =
        .error Exn.out_of_range ∧
      ¬ ∃ r, SRPR_Trainer.train m store training params validation duration = .ok r := by
  have h := train_unknown m store training validation params duration hep hts
  refine ⟨h, ?_⟩
  rintro ⟨r, hr⟩
  rw [h] at hr
  cases hr

/-- C23 amended, at the store `store_par` with the unknown item `77` in the first
triplet and the default parameters. -/
theorem C23_train_aborts_on_unknown_id_witness :
    (1 : Int) ≤ (default_params ℝ).epochs ∧
    (∃ t ∈ [(⟨1, 77, 20⟩ : Triplet), ⟨1, 10, 20⟩], ¬ triplet_known (store_par ℝ) t) ∧
    SRPR_Trainer.train libm (store_par ℝ) [⟨1, 77, 20⟩, ⟨1, 10, 20⟩] (default_params ℝ) [] 0 =
      .error Exn.out_of_range ∧
    ¬ ∃ r, SRPR_Trainer.train libm (store_par ℝ) [⟨1, 77, 20⟩, ⟨1, 10, 20⟩]
      (default_params ℝ) [] 0 = .ok r :=
  have hep : (1 : Int) ≤ (default_params ℝ).epochs := by decide
  have hts : ∃ t ∈ [(⟨1, 77, 20⟩ : Triplet), ⟨1, 10, 20⟩], ¬ triplet_known (store_par ℝ) t :=
    ⟨⟨1, 77, 20⟩, by simp, by simp [triplet_known, store_par]⟩
  ⟨hep, hts, C23_train_aborts_on_unknown_id libm (store_par ℝ) _ [] (default_params ℝ) 0
    hep hts⟩

theorem validation_step_scores {F : Type} [LinearOrderedField F] (m : CMath F)
    (validation : List Triplet) (params : TrainingParams F) (e : Nat)
    (s : UserItemStore F) (stats stats2 : TrainingStats F)
    (hne : validation ≠ []) (hf : 1 ≤ params.validation_freq)
    (h : SRPR_Trainer.validation_step m validation params (e : Int) s stats = .ok stats2) :
    stats2.epoch_losses = stats.epoch_losses ∧
    stats2.validation_scores.length = stats.validation_scores.length +
      if params.validation_freq.toNat ∣ e + 1 then 1 else 0 := by
  obtain ⟨f, hfe⟩ : ∃ f : Nat, params.validation_freq = (f : Int) :=
    ⟨params.validation_freq.toNat, (Int.toNat_of_nonneg (by omega)).symm⟩
  have hcond : Int.tmod ((e : Int) + 1) params.validation_freq = 0 ↔ f ∣ e + 1 := by
    have h1 : ((e : Int) + 1) = ((e + 1 : Nat) : Int) := by push_cast; rfl
    rw [hfe, h1, ← Int.ofNat_tmod, Nat.dvd_iff_mod_eq_zero]
    exact_mod_cast Iff.rfl
  have hemp : validation.isEmpty = false := isEmpty_false_of_ne_nil hne
  unfold SRPR_Trainer.validation_step at h
  rw [hfe, Int.toNat_ofNat]
  by_cases hd : f ∣ e + 1
  · have hc := hcond.2 hd
    rw [hfe] at hc
    simp only [hemp, hfe, hc, Bool.not_false, decide_True, Bool.and_self, if_true] at h
    cases hv : SRPR_Trainer.calculate_total_loss m s validation params with
    | error err =>
      rw [hv] at h
      cases h
    | ok v =>
      rw [hv] at h
      injection h with h
      subst h
      simp [hd]
  · have hc : ¬ Int.tmod ((e : Int) + 1) (f : Int) = 0 := by
      rw [← hfe]
      exact fun hh => hd (hcond.1 hh)
    simp only [hemp, hfe, hc, Bool.not_false, decide_False, Bool.and_false,
      Bool.false_eq_true, if_false] at h
    injection h with h
    subst h
    simp [hd]

theorem train_epochs_validation_count {F : Type} [LinearOrderedField F] (m : CMath F)
    (training validation : List Triplet) (params : TrainingParams F)
    (hne : validation ≠ []) (hf : 1 ≤ params.validation_freq) (n : Nat) :
    ∀ (e : Nat) (s : UserItemStore F) (stats : TrainingStats F) (s2 : UserItemStore F)
      (stats2 : TrainingStats F),
      SRPR_Trainer.train_epochs m training validation params n (e : Int) s stats
        = .ok (s2, stats2) →
      ∃ k, stats2.epoch_losses.length = stats.epoch_losses.length + k ∧
        stats2.validation_scores.length = stats.validation_scores.length +
          ((e + k) / params.validation_freq.toNat - e / params.validation_freq.toNat) := by
  induction n with
  | zero =>
    intro e s stats s2 stats2 h
    simp only [SRPR_Trainer.train_epochs] at h
    injection h with h
    injection h with h1 h2
    subst h2
    exact ⟨0, by simp, by simp⟩
  | succ n ih =>
    intro e s stats s2 stats2 h
    simp only [SRPR_Trainer.train_epochs] at h
    cases hA : SRPR_Trainer.train_triplets m params training s 0.0 0 with
    | error err =>
      rw [hA] at h
      cases h
    | ok r =>
      rw [hA] at h
      simp only at h
      cases hB : SRPR_Trainer.validation_step m validation params (e : Int) r.1
          { stats with
            epoch_losses := stats.epoch_losses ++ [r.2.1 / (training.length : F)]
            total_updates := int_wrap (stats.total_updates + r.2.2) } with
      | error err =>
        rw [hB] at h
        cases h
      | ok st2 =>
        rw [hB] at h
        simp only at h
        obtain ⟨hl, hv⟩ := validation_step_scores m validation params e r.1 _ st2 hne hf hB
        simp only [List.length_append, List.length_singleton] at hl hv
        have hstep : (e + 1) / params.validation_freq.toNat =
            e / params.validation_freq.toNat +
              if params.validation_freq.toNat ∣ e + 1 then 1 else 0 := Nat.succ_div _ _
        split_ifs at h with hc
        · injection h with h
          injection h with h1 h2
          subst h2
          refine ⟨1, ?_, ?_⟩
          · simp only [hl, List.length_append, List.length_singleton]
          · simp only [hv]
            omega
        · have h' : SRPR_Trainer.train_epochs m training validation params n
              ((e + 1 : Nat) : Int) r.1 st2 = .ok (s2, stats2) := by
            rw [← h]
            push_cast
            rfl
          obtain ⟨k, hk1, hk2⟩ := ih (e + 1) r.1 st2 s2 stats2 h'
          have hmono : (e + 1) / params.validation_freq.toNat ≤
              (e + 1 + k) / params.validation_freq.toNat :=
            Nat.div_le_div_right (by omega)
          refine ⟨k + 1, ?_, ?_⟩
          · rw [hk1, hl, List.length_append, List.length_singleton]
            omega
          · rw [hk2, hv]
            have e1 : e + (k + 1) = e + 1 + k := by omega
            rw [e1]
            omega

theorem validation_step_empty {F : Type} [LinearOrderedField F] (m : CMath F)
    (params : TrainingParams F) (epoch : Int) (s : UserItemStore F) (stats : TrainingStats F) :
    SRPR_Trainer.validation_step m [] params epoch s stats = .ok stats := by
  simp [SRPR_Trainer.validation_step]

theorem train_epochs_validation_empty {F : Type} [LinearOrderedField F] (m : CMath F)
    (training : List Triplet) (params : TrainingParams F) (n : Nat) :
    ∀ (epoch : Int) (s : UserItemStore F) (stats : TrainingStats F) (s2 : UserItemStore F)
      (stats2 : TrainingStats F),
      SRPR_Trainer.train_epochs m training [] params n epoch s stats = .ok (s2, stats2) →
      stats2.validation_scores = stats.validation_scores := by
  induction n with
  | zero =>
    intro epoch s stats s2 stats2 h
    simp only [SRPR_Trainer.train_epochs] at h
    injection h with h
    injection h with h1 h2
    subst h2
    rfl
  | succ n ih =>
    intro epoch s stats s2 stats2 h
    simp only [SRPR_Trainer.train_epochs, validation_step_empty] at h
    cases hA : SRPR_Trainer.train_triplets m params training s 0.0 0 with
    | error err =>
      rw [hA] at h
      cases h
    | ok r =>
      rw [hA] at h
      simp only at h
      split_ifs at h with hc
      · injection h with h
        injection h with h1 h2
        subst h2
        rfl
      · have h2 := ih _ _ _ _ _ h
        exact h2

theorem train_ok_inv {F : Type} [LinearOrderedField F] (m : CMath F) (store : UserItemStore F)
    (training validation : List Triplet) (params : TrainingParams F) (duration : F)
    {s2 : UserItemStore F} {stats : TrainingStats F}
    (h : SRPR_Trainer.train m store training params validation duration = .ok (s2, stats)) :
    ∃ r, SRPR_Trainer.train_epochs m training validation params params.epochs.toNat 0 store
        { epoch_losses := [], validation_scores := [], final_loss := 0.0,
          training_time_ms := 0.0, total_updates := 0, converged := false } = .ok r ∧
      s2 = r.1 ∧ stats.validation_scores = r.2.validation_scores ∧
      stats.epoch_losses = r.2.epoch_losses := by
  simp only [SRPR_Trainer.train] at h
  split at h
  · cases h
  · rename_i r hE
    injection h with h
    injection h with h1 h2
    subst h1
    subst h2
    exact ⟨r, hE, rfl, rfl, rfl⟩

/-- C25: on a store that knows every id of the training and validation triplets,
`train` returns.  The validation block of the epoch with 0-based index `epoch`
appends exactly one validation loss when the 1-based index `epoch + 1` is a
multiple of `validation_freq` and none otherwise, so that with a non-empty
validation set and `validation_freq ≥ 1` the number of validation scores is the
number of epochs run divided by `validation_freq`, rounded down; with an empty
validation set `validation_scores` is empty. -/
theorem C25_validation_scores_count {F : Type} [LinearOrderedField F] (m : CMath F)
    (store : UserItemStore F) (training validation : List Triplet)
    (params : TrainingParams F) (duration : F)
    (htr : ∀ t ∈ training, triplet_known store t)
    (hval : ∀ t ∈ validation, triplet_known store t) :
    ∃ s2 stats, SRPR_Trainer.train m store training params validation duration
        = .ok (s2, stats) ∧
      (validation ≠ [] → 1 ≤ params.validation_freq →
        (∀ (epoch : Nat) (s : UserItemStore F) (st : TrainingStats F), same_keys store s →
          ∃ st2, SRPR_Trainer.validation_step m validation params (epoch : Int) s st
              = .ok st2 ∧
            st2.validation_scores.length = st.validation_scores.length +
              if ((epoch : Int) + 1) % params.validation_freq = 0 then 1 else 0) ∧
        (stats.validation_scores.length : Int) =
          (stats.epoch_losses.length : Int) / params.validation_freq) ∧
      (validation = [] → stats.validation_scores = []) := by
  obtain ⟨s2, stats, h, -⟩ := train_spec m store training validation params duration htr hval
  refine ⟨s2, stats, h, ?_, ?_⟩
  · intro hne hf
    obtain ⟨f, hfe⟩ : ∃ f : Nat, params.validation_freq = (f : Int) :=
      ⟨params.validation_freq.toNat, (Int.toNat_of_nonneg (by omega)).symm⟩
    constructor
    · intro epoch s st hk
      obtain ⟨st2, hst, -⟩ := validation_step_ok m validation params (epoch : Int) s st
        (fun t ht => triplet_known_of_same_keys hk (hval t ht))
      refine ⟨st2, hst, ?_⟩
      rw [(validation_step_scores m validation params epoch s st st2 hne hf hst).2, hfe,
        Int.toNat_ofNat]
      have h1 : ((epoch : Int) + 1) = ((epoch + 1 : Nat) : Int) := by push_cast; rfl
      have hiff : f ∣ epoch + 1 ↔ ((epoch : Int) + 1) % (f : Int) = 0 := by
        rw [h1, Nat.dvd_iff_mod_eq_zero]
        exact_mod_cast Iff.rfl
      by_cases hd : f ∣ epoch + 1
      · rw [if_pos hd, if_pos (hiff.1 hd)]
      · rw [if_neg hd, if_neg (fun hh => hd (hiff.2 hh))]
    · obtain ⟨r, hE, -, hv, hl⟩ := train_ok_inv m store training validation params duration h
      obtain ⟨k, hk1, hk2⟩ := train_epochs_validation_count m training validation params
        hne hf params.epochs.toNat 0 store _ r.1 r.2 (by exact_mod_cast hE)
      simp only [List.length_nil, zero_add, Nat.zero_div, Nat.sub_zero] at hk1 hk2
      simp only [hv, hl, hk1, hk2, hfe, Int.toNat_ofNat]
      exact Int.ofNat_ediv _ _
  · intro hemp
    subst hemp
    obtain ⟨r, hE, -, hv, -⟩ := train_ok_inv m store training [] params duration h
    rw [hv]
    exact train_epochs_validation_empty m training params _ _ _ _ r.1 r.2 hE

/-- C25 at the store `store_par`, one training triplet that is also the
validation set, and the default parameters, whose `validation_freq` is `5`. -/
theorem C25_validation_scores_count_witness :
    (∀ t ∈ [(⟨1, 10, 20⟩ : Triplet)], triplet_known (store_par ℝ) t) ∧
    ∃ s2 stats, SRPR_Trainer.train libm (store_par ℝ) [⟨1, 10, 20⟩] (default_params ℝ)
        [⟨1, 10, 20⟩] 0 = .ok (s2, stats) ∧
      (stats.validation_scores.length : Int) = (stats.epoch_losses.length : Int) / 5 := by
  have hk : ∀ t ∈ [(⟨1, 10, 20⟩ : Triplet)], triplet_known (store_par ℝ) t := by
    intro t ht
    rw [List.mem_singleton.1 ht]
    simp [triplet_known, store_par]
  obtain ⟨s2, stats, h, hc, -⟩ := C25_validation_scores_count libm (store_par ℝ)
    [⟨1, 10, 20⟩] [⟨1, 10, 20⟩] (default_params ℝ) 0 hk hk
  exact ⟨hk, s2, stats, h, (hc (by simp) (by decide)).2⟩

/-! ## The harness: the batch evaluation -/

theorem dot_replicate {F : Type} [LinearOrderedField F] (c : F) (row : List F) :
    dot (List.replicate row.length c) row = c * row.sum := by
  induction row with
  | nil => simp [dot]
  | cons x xs ih =>
    unfold dot at ih ⊢
    simp only [List.length_cons, List.replicate_succ, List.zipWith_cons_cons, List.sum_cons, ih]
    ring

theorem code_of_data {F : Type} [LinearOrderedField F] (h : SRPHasher F) (v : List F)
    (hinit : h.initialized = true) (hrows : h.random_vectors.length = h.b.toNat)
    (hlen : (v.length : Int) = h.d % 2 ^ 64) :
    (code_of h v).data =
      h.random_vectors.map (fun row => if 0 ≤ dot v row then '1' else '0') := by
  have h1 : (List.range h.b.toNat).map (fun (i : Nat) => h.hash_to_bit v (i : Int)) =
      (List.range h.b.toNat).map (fun (i : Nat) =>
        (fun row => if 0 ≤ dot v row then '1' else '0') (h.random_vectors.getD i [])) := by
    apply List.map_congr_left
    intro i hi
    have hi2 : i < h.b.toNat := List.mem_range.1 hi
    exact hash_to_bit_of_guard h v i hinit (by omega) hlen
  have h2 : (List.range h.b.toNat).map (fun (i : Nat) => h.random_vectors.getD i []) =
      h.random_vectors := by
    rw [map_range_getD _ _ _ (le_of_eq hrows.symm), ← hrows, List.take_length]
  unfold code_of
  rw [h1]
  show List.map ((fun row => if 0 ≤ dot v row then '1' else '0') ∘
    (fun (i : Nat) => h.random_vectors.getD i [])) (List.range h.b.toNat) = _
  rw [← List.map_map, h2]

theorem hamming_of_maps {α : Type} (f g : α → Char) (l : List α) :
    hamming (l.map f) (l.map g) = (l.filter (fun a => decide (f a ≠ g a))).length := by
  unfold hamming
  rw [List.zip_map', List.filter_map, List.length_map]
  rfl

theorem sign_bit_scaled {F : Type} [LinearOrderedField F] (s : F) :
    (if 0 ≤ (1.0 : F) * s then '1' else '0') = (if 0 ≤ (0.9 : F) * s then '1' else '0') := by
  have h9 : (0 : F) < 0.9 := by norm_num
  have h1 : (1.0 : F) * s = s := by norm_num
  have hiff : 0 ≤ (0.9 : F) * s ↔ 0 ≤ s := by
    constructor
    · intro h
      by_contra hs
      have := mul_neg_of_pos_of_neg h9 (not_le.mp hs)
      exact absurd h (not_le.mpr this)
    · intro h
      exact mul_nonneg h9.le h
  rw [h1]
  by_cases hs : 0 ≤ s
  · rw [if_pos hs, if_pos (hiff.2 hs)]
  · rw [if_neg hs, if_neg (fun h => hs (hiff.1 h))]

theorem sign_bit_opposite {F : Type} [LinearOrderedField F] (s : F) :
    (if 0 ≤ (1.0 : F) * s then '1' else '0') ≠ (if 0 ≤ (-1.0 : F) * s then '1' else '0') ↔
      s ≠ 0 := by
  have h1 : (1.0 : F) * s = s := by norm_num
  have h2 : (-1.0 : F) * s = -s := by norm_num
  rw [h1, h2]
  rcases lt_trichotomy s 0 with hs | hs | hs
  · have a1 : ¬ 0 ≤ s := not_le.mpr hs
    have a2 : 0 ≤ -s := by linarith
    simp [a1, a2, hs.ne]
  · subst hs
    simp
  · have a1 : 0 ≤ s := hs.le
    have a2 : ¬ 0 ≤ -s := by
      intro h
      linarith
    simp [a1, a2, hs.ne']

/-- The codes of the constant vectors on a constructed hasher of dimension
`1 ≤ d < 2 ^ 31`: the bit of a projection vector is the sign test of the constant
times the sum of its entries. -/
theorem code_of_replicate {F : Type} [LinearOrderedField F] (d b : Int) (seed entropy : Nat)
    (gen : Nat → Nat → F) (h : SRPHasher F)
    (hnew : SRPHasher.new d b seed entropy gen = .ok h) (hd : 1 ≤ d) (hd2 : d < 2 ^ 31)
    (c : F) :
    (code_of h (List.replicate d.toNat c)).data =
      h.random_vectors.map (fun row => if 0 ≤ c * row.sum then '1' else '0') := by
  obtain ⟨hb0, -, hdd, hbb, hinit, hrv⟩ := SRPHasher.new_ok hnew
  have hrows : h.random_vectors.length = h.b.toNat := by
    rw [hrv, hbb, List.length_map, List.length_range]
  have hlen : ((List.replicate d.toNat c).length : Int) = h.d % 2 ^ 64 := by
    rw [List.length_replicate, hdd]
    omega
  rw [code_of_data h _ hinit hrows hlen]
  apply List.map_congr_left
  intro row hrow
  have hl : row.length = d.toNat := by
    rw [hrv] at hrow
    obtain ⟨i, -, rfl⟩ := List.mem_map.1 hrow
    rw [List.length_map, List.length_range]
  rw [← hl, dot_replicate]

/-- In exact arithmetic, on every hasher that the constructor returns for
`1 ≤ d < 2 ^ 31` and `b ≥ 1`, the codes of the all-`1.0` and the all-`0.9` vector are
equal, and the Hamming distance between the codes of the all-`1.0` and the
all-`(-1.0)` vector is the number of projection vectors whose entries do not sum to
zero.  The values that the generator of the constructor draws, and the rounding of
the sums, are not part of this statement. -/
theorem opposite_and_scaled_exact {F : Type} [LinearOrderedField F] (d b : Int)
    (seed entropy : Nat) (gen : Nat → Nat → F) (h : SRPHasher F)
    (hnew : SRPHasher.new d b seed entropy gen = .ok h) (hd : 1 ≤ d) (hd2 : d < 2 ^ 31)
    (hb : 1 ≤ b) :
    ∃ code_ones code_scaled code_negs,
      h.generate_code (List.replicate d.toNat 1.0) = .ok code_ones ∧
      h.generate_code (List.replicate d.toNat 0.9) = .ok code_scaled ∧
      h.generate_code (List.replicate d.toNat (-1.0)) = .ok code_negs ∧
      code_scaled = code_ones ∧
      ExhaustiveBenchmark.hamming_distance code_ones code_scaled = 0 ∧
      ExhaustiveBenchmark.hamming_distance code_ones code_negs =
        ((h.random_vectors.filter (fun row => decide (row.sum ≠ 0))).length : Int) ∧
      (ExhaustiveBenchmark.hamming_distance code_ones code_scaled <
          ExhaustiveBenchmark.hamming_distance code_ones code_negs ↔
        ∃ row ∈ h.random_vectors, row.sum ≠ 0) := by
  have hbb : 0 ≤ h.b := by
    rw [(SRPHasher.new_ok hnew).2.2.2.1]
    omega
  have e1 := code_of_replicate d b seed entropy gen h hnew hd hd2 1.0
  have e2 := code_of_replicate d b seed entropy gen h hnew hd hd2 0.9
  have e3 := code_of_replicate d b seed entropy gen h hnew hd hd2 (-1.0)
  have hsame : code_of h (List.replicate d.toNat 0.9) = code_of h (List.replicate d.toNat 1.0) := by
    apply String.ext
    rw [e1, e2]
    exact List.map_congr_left (fun row _ => (sign_bit_scaled row.sum).symm)
  have h12 : ExhaustiveBenchmark.hamming_distance (code_of h (List.replicate d.toNat 1.0))
      (code_of h (List.replicate d.toNat 0.9)) = 0 := by
    rw [hamming_distance_eq _ _ (by rw [code_of_length, code_of_length]), hsame, e1,
      hamming_of_maps]
    simp
  have h13 : ExhaustiveBenchmark.hamming_distance (code_of h (List.replicate d.toNat 1.0))
      (code_of h (List.replicate d.toNat (-1.0))) =
      ((h.random_vectors.filter (fun row => decide (row.sum ≠ 0))).length : Int) := by
    rw [hamming_distance_eq _ _ (by rw [code_of_length, code_of_length]), e1, e3,
      hamming_of_maps]
    congr 2
    apply List.filter_congr
    intro row _
    exact decide_eq_decide.mpr (sign_bit_opposite row.sum)
  refine ⟨_, _, _, generate_code_eq_code_of h _ hbb, generate_code_eq_code_of h _ hbb,
    generate_code_eq_code_of h _ hbb, hsame, h12, h13, ?_⟩
  rw [h12, h13, Int.natCast_pos, List.length_pos]
  constructor
  · intro hne
    obtain ⟨row, hrow⟩ := List.exists_mem_of_ne_nil _ hne
    rw [List.mem_filter] at hrow
    exact ⟨row, hrow.1, of_decide_eq_true hrow.2⟩
  · rintro ⟨row, hrow, hs⟩
    exact List.ne_nil_of_mem (List.mem_filter.2 ⟨hrow, decide_eq_true hs⟩)

/-! ## The trainer: the saturation guard -/

theorem zipWith_add_zero {F : Type} [LinearOrderedField F] (lr : F) (v : List F) :
    List.zipWith (fun x y => x + lr * y) v (List.replicate v.length 0) = v := by
  induction v with
  | nil => rfl
  | cons x xs ih =>
    simp only [List.length_cons, List.replicate_succ, List.zipWith_cons_cons, ih, mul_zero,
      add_zero]

theorem apply_regularization_eq {F : Type} [LinearOrderedField F] (v : List F) (reg lr : F) :
    SRPR_Trainer.apply_regularization v reg lr = v.map (fun x => (1 - lr * reg) * x) := by
  unfold SRPR_Trainer.apply_regularization
  apply List.map_congr_left
  intro x _
  ring

theorem update_vectors_zero_grad {F : Type} [LinearOrderedField F]
    (store : UserItemStore F) (t : Triplet) (params : TrainingParams F) (xu yi yj : List F)
    (hx : store.get_user_vector t.user_id = .ok xu)
    (hi : store.get_item_vector t.preferred_item_id = .ok yi)
    (hj : store.get_item_vector t.less_preferred_item_id = .ok yj)
    (hne : t.preferred_item_id ≠ t.less_preferred_item_id)
    (hyi : yi.length = xu.length) (hyj : yj.length = xu.length) :
    ∃ s, SRPR_Trainer.update_vectors store t (List.replicate xu.length 0)
        (List.replicate xu.length 0) (List.replicate xu.length 0) params = .ok s ∧
      s.get_user_vector t.user_id =
        .ok (xu.map fun v => (1 - params.learning_rate * params.regularization) * v) ∧
      s.get_item_vector t.preferred_item_id =
        .ok (yi.map fun v => (1 - params.learning_rate * params.regularization) * v) ∧
      s.get_item_vector t.less_preferred_item_id =
        .ok (yj.map fun v => (1 - params.learning_rate * params.regularization) * v) := by
  obtain ⟨h1, h2, h3⟩ := update_loop_lookup t (List.replicate xu.length 0)
    (List.replicate xu.length 0) (List.replicate xu.length 0) params.learning_rate hne
    (List.range xu.length) store xu yi yj hx hi hj
  have hfold : ∀ v : List F, v.length = xu.length →
      (List.range xu.length).foldl (fun w j => SRPR_Trainer.add_scaled_at params.learning_rate
        (List.replicate xu.length 0) j w) v = v := by
    intro v hv
    have e := fold_add_scaled_eq_zipWith params.learning_rate (List.replicate v.length 0) v
      (List.length_replicate _ _)
    rw [zipWith_add_zero, hv] at e
    exact e
  rw [hfold xu rfl] at h1
  rw [hfold yi hyi] at h2
  rw [hfold yj hyj] at h3
  simp only [SRPR_Trainer.update_vectors, hx, hi, hj]
  refine ⟨_, rfl, ?_, ?_, ?_⟩
  · rw [← apply_regularization_eq]
    exact umap_at_modify_same _ _ _ _ h1
  · rw [← apply_regularization_eq]
    simp only [UserItemStore.get_item_vector]
    rw [umap_at_modify_ne _ _ _ _ (Ne.symm hne)]
    exact umap_at_modify_same _ _ _ _ h2
  · rw [← apply_regularization_eq]
    simp only [UserItemStore.get_item_vector]
    apply umap_at_modify_same
    rw [umap_at_modify_ne _ _ _ _ hne]
    exact h3

theorem compute_gradients_saturated {F : Type} [LinearOrderedField F] (m : CMath F)
    (store : UserItemStore F) (t : Triplet) (params : TrainingParams F) (xu yi yj : List F)
    (hx : store.get_user_vector t.user_id = .ok xu)
    (hi : store.get_item_vector t.preferred_item_id = .ok yi)
    (hj : store.get_item_vector t.less_preferred_item_id = .ok yj)
    (hphi : SRPR_Trainer.phi m (m.sqrt (params.b_lsh_length : F) *
      SRPR_Trainer.calculate_gamma m (SRPR_Trainer.calculate_p_srp m xu yi)
        (SRPR_Trainer.calculate_p_srp m xu yj) params.b_lsh_length) < 1e-12) :
    SRPR_Trainer.compute_gradients m store t params =
      .ok (List.replicate xu.length 0, List.replicate xu.length 0,
        List.replicate xu.length 0) := by
  have h0 : (0.0 : F) = 0 := by norm_num
  simp only [SRPR_Trainer.compute_gradients, hx, hi, hj, hphi, if_true, h0]

/-- C29: when `Φ(sqrt(b) * gamma)` of a triplet is below `1e-12`, `compute_gradients`
returns three all-zero gradients, of the dimension of the user vector.  Such a
triplet has two different items, and on a store whose three vectors have one
dimension `update_vectors` with these gradients replaces each of the three
vectors `v` by `(1 - learning_rate * regularization) * v`, componentwise. -/
theorem C29_saturated_step_is_weight_decay (store : UserItemStore ℝ) (t : Triplet)
    (params : TrainingParams ℝ) (xu yi yj : List ℝ)
    (hx : store.get_user_vector t.user_id = .ok xu)
    (hi : store.get_item_vector t.preferred_item_id = .ok yi)
    (hj : store.get_item_vector t.less_preferred_item_id = .ok yj)
    (hyi : yi.length = xu.length) (hyj : yj.length = xu.length)
    (hphi : SRPR_Trainer.phi libm (libm.sqrt (params.b_lsh_length : ℝ) *
      SRPR_Trainer.calculate_gamma libm (SRPR_Trainer.calculate_p_srp libm xu yi)
        (SRPR_Trainer.calculate_p_srp libm xu yj) params.b_lsh_length) < 1e-12) :
    ∃ grad_xu grad_yi grad_yj store2,
      SRPR_Trainer.compute_gradients libm store t params = .ok (grad_xu, grad_yi, grad_yj) ∧
      grad_xu = List.replicate xu.length 0 ∧ grad_yi = List.replicate xu.length 0 ∧
      grad_yj = List.replicate xu.length 0 ∧
      SRPR_Trainer.update_vectors store t grad_xu grad_yi grad_yj params = .ok store2 ∧
      store2.get_user_vector t.user_id =
        .ok (xu.map fun v => (1 - params.learning_rate * params.regularization) * v) ∧
      store2.get_item_vector t.preferred_item_id =
        .ok (yi.map fun v => (1 - params.learning_rate * params.regularization) * v) ∧
      store2.get_item_vector t.less_preferred_item_id =
        .ok (yj.map fun v => (1 - params.learning_rate * params.regularization) * v) := by
  have saturated_items_differ := zero_store_facts.2.2.2.2.2
  have hne := saturated_items_differ store t params xu yi yj hi hj hphi
  obtain ⟨s, hs, h1, h2, h3⟩ := update_vectors_zero_grad store t params xu yi yj hx hi hj hne
    hyi hyj
  exact ⟨_, _, _, s, compute_gradients_saturated libm store t params xu yi yj hx hi hj hphi,
    rfl, rfl, rfl, hs, h1, h2, h3⟩

/-- C29 at the store `store_opp` with the default parameters: the preferred item
is parallel and the other item opposite to the user, `Φ(4 * gamma)` is below
`1e-12`, and the step multiplies the three vectors by `1 - 0.01 * 0.001`. -/
theorem C29_saturated_step_is_weight_decay_witness :
    SRPR_Trainer.phi libm (libm.sqrt ((default_params ℝ).b_lsh_length : ℝ) *
      SRPR_Trainer.calculate_gamma libm (SRPR_Trainer.calculate_p_srp libm [1, 0] [1, 0])
        (SRPR_Trainer.calculate_p_srp libm [1, 0] [-1, 0]) (default_params ℝ).b_lsh_length)
      < 1e-12 ∧
    ∃ store2,
      SRPR_Trainer.compute_gradients libm (store_opp ℝ) ⟨1, 10, 20⟩ (default_params ℝ) =
        .ok ([0, 0], [0, 0], [0, 0]) ∧
      SRPR_Trainer.update_vectors (store_opp ℝ) ⟨1, 10, 20⟩ [0, 0] [0, 0] [0, 0]
        (default_params ℝ) = .ok store2 ∧
      store2.get_user_vector 1 = .ok [(1 - 0.01 * 0.001) * 1, (1 - 0.01 * 0.001) * 0] ∧
      store2.get_item_vector 10 = .ok [(1 - 0.01 * 0.001) * 1, (1 - 0.01 * 0.001) * 0] ∧
      store2.get_item_vector 20 = .ok [(1 - 0.01 * 0.001) * (-1), (1 - 0.01 * 0.001) * 0] := by
  have phi_store_opp := erf_facts.2.2.2.2.2
  obtain ⟨g1, g2, g3, s2, hg, e1, e2, e3, hu, h1, h2, h3⟩ :=
    C29_saturated_step_is_weight_decay (store_opp ℝ) ⟨1, 10, 20⟩ (default_params ℝ)
      [1, 0] [1, 0] [-1, 0] rfl rfl rfl rfl rfl phi_store_opp
  subst e1
  subst e2
  subst e3
  exact ⟨phi_store_opp, s2, hg, hu, h1, h2, h3⟩

/-! ## The trainer: the derivatives of the separation statistic -/

theorem variance_sum_pos (p q : ℝ) (hp1 : 1e-12 < p) (hp2 : p < 1 - 1e-12) (hq1 : 1e-12 < q)
    (hq2 : q < 1 - 1e-12) : 0 < p * (1 - p) + q * (1 - q) := by
  have h1 : 0 < p * (1 - p) := mul_pos (by linarith) (by linarith)
  have h2 : 0 < q * (1 - q) := mul_pos (by linarith) (by linarith)
  linarith

theorem dot_map_mul_left {F : Type} [LinearOrderedField F] (c : F) (v w : List F) :
    dot (v.map fun x => c * x) w = c * dot v w := by
  induction v generalizing w with
  | nil => simp [dot]
  | cons x xs ih =>
    cases w with
    | nil => simp [dot]
    | cons y ys =>
      unfold dot at ih ⊢
      simp only [List.map_cons, List.zipWith_cons_cons, List.sum_cons, ih]
      ring

theorem dot_comm {F : Type} [LinearOrderedField F] (v w : List F) : dot v w = dot w v := by
  unfold dot
  rw [List.zipWith_comm_of_comm _ (fun x y => mul_comm x y)]

theorem dot_self_nonneg {F : Type} [LinearOrderedField F] (v : List F) : 0 ≤ dot v v := by
  rw [dot_self]
  apply List.sum_nonneg
  intro x hx
  obtain ⟨y, -, rfl⟩ := List.mem_map.1 hx
  exact mul_self_nonneg y

theorem dot_eq_sum {F : Type} [LinearOrderedField F] (u v : List F)
    (h : u.length = v.length) :
    dot u v = ∑ i in Finset.range u.length, u.getD i 0 * v.getD i 0 := by
  induction u generalizing v with
  | nil => simp [dot]
  | cons x xs ih =>
    cases v with
    | nil => simp at h
    | cons y ys =>
      have h2 : xs.length = ys.length := by simpa using h
      have ih2 := ih ys h2
      unfold dot at ih2 ⊢
      rw [List.zipWith_cons_cons, List.sum_cons, ih2, List.length_cons,
        Finset.sum_range_succ']
      simp only [List.getD_cons_succ, List.getD_cons_zero]
      ring

theorem cauchy_schwarz (v w : List ℝ) (h : v.length = w.length) :
    dot v w ^ 2 ≤ dot v v * dot w w := by
  rw [dot_eq_sum v w h, dot_eq_sum v v rfl, dot_eq_sum w w rfl, ← h]
  have hcs := Finset.sum_mul_sq_le_sq_mul_sq (Finset.range v.length)
    (fun i => v.getD i 0) (fun i => w.getD i 0)
  simp only [pow_two] at hcs ⊢
  exact hcs

theorem dot_set {F : Type} [LinearOrderedField F] (v w : List F) (i : Nat) (t : F)
    (hi : i < v.length) :
    dot (v.set i t) w = dot v w + (t - v.getD i 0) * w.getD i 0 := by
  induction v generalizing w i with
  | nil => simp at hi
  | cons x xs ih =>
    cases w with
    | nil => simp [dot]
    | cons y ys =>
      cases i with
      | zero =>
        simp only [dot, List.set_cons_zero, List.zipWith_cons_cons, List.sum_cons,
          List.getD_cons_zero]
        ring
      | succ i =>
        have hi2 : i < xs.length := by simpa using hi
        have ih2 := ih ys i hi2
        unfold dot at ih2 ⊢
        simp only [List.set_cons_succ, List.zipWith_cons_cons, List.sum_cons, ih2,
          List.getD_cons_succ]
        ring

theorem getD_set_self {F : Type} [LinearOrderedField F] (v : List F) (i : Nat) (t : F)
    (hi : i < v.length) : (v.set i t).getD i 0 = t := by
  rw [List.getD_eq_getElem?_getD, List.getElem?_set_eq_of_lt _ hi]
  rfl

theorem dot_set_self {F : Type} [LinearOrderedField F] (v : List F) (i : Nat) (t : F)
    (hi : i < v.length) :
    dot (v.set i t) (v.set i t) = dot v v - v.getD i 0 * v.getD i 0 + t * t := by
  rw [dot_set v _ i t hi, dot_comm v (v.set i t), dot_set v v i t hi, getD_set_self v i t hi]
  ring

/-- The norm as the root of the dot product, the cosine and the collision probability
under scaling and exchange of the vectors, and the bound `|cos| ≤ 1`. -/
theorem norm_cosine_facts :
    -- p_srp_range
    (∀ (v1 v2 : List ℝ),
        0 ≤ SRPR_Trainer.calculate_p_srp libm v1 v2 ∧
          SRPR_Trainer.calculate_p_srp libm v1 v2 ≤ 1) ∧
    -- p_srp_symm
    (∀ (v1 v2 : List ℝ),
        SRPR_Trainer.calculate_p_srp libm v1 v2 = SRPR_Trainer.calculate_p_srp libm v2 v1) ∧
    -- cos_sim_scaled
    (∀ (v : List ℝ) (c : ℝ),
        c ≠ 0 →
        0 < euclidean_norm libm v →
        cos_sim libm v (v.map fun x => c * x) = c / |c|) ∧
    -- norm_mul_self
    (∀ (v : List ℝ),
        euclidean_norm libm v * euclidean_norm libm v = dot v v) ∧
    -- cos_sim_abs_le_one
    (∀ (v w : List ℝ),
        v.length = w.length →
        0 < euclidean_norm libm v →
        0 < euclidean_norm libm w →
        -1 ≤ cos_sim libm v w ∧ cos_sim libm v w ≤ 1) ∧
    -- p_srp_set_eq
    (∀ (v w : List ℝ) (i : Nat) (t : ℝ),
        i < v.length →
        SRPR_Trainer.calculate_p_srp libm (v.set i t) w =
          if Real.sqrt (dot v v - v.getD i 0 * v.getD i 0 + t * t) < 1e-12 ∨
              euclidean_norm libm w < 1e-12 then 0.5
          else 1 - Real.arccos (clamp ((dot v w + (t - v.getD i 0) * w.getD i 0) /
            (Real.sqrt (dot v v - v.getD i 0 * v.getD i 0 + t * t) * euclidean_norm libm w))
            (-1) 1) / Real.pi) := by
  have euclidean_norm_eq_sqrt_dot : ∀ (v : List ℝ),
        euclidean_norm libm v = Real.sqrt (dot v v) := by
    intro v
    rw [dot_self]
    rfl
  have euclidean_norm_scaled : ∀ (c : ℝ) (v : List ℝ),
        euclidean_norm libm (v.map fun x => c * x) = |c| * euclidean_norm libm v := by
    intro c v
    rw [euclidean_norm_eq_sqrt_dot, euclidean_norm_eq_sqrt_dot, dot_map_mul_left, dot_comm,
      dot_map_mul_left, ← mul_assoc, Real.sqrt_mul (mul_self_nonneg c), Real.sqrt_mul_self_eq_abs]
  have p_srp_range : ∀ (v1 v2 : List ℝ),
        0 ≤ SRPR_Trainer.calculate_p_srp libm v1 v2 ∧
          SRPR_Trainer.calculate_p_srp libm v1 v2 ≤ 1 := by
    intro v1 v2
    rw [calculate_p_srp_eq]
    split_ifs
    · constructor <;> norm_num
    · have h1 := Real.arccos_nonneg (clamp (cos_sim libm v1 v2) (-1) 1)
      have h2 := Real.arccos_le_pi (clamp (cos_sim libm v1 v2) (-1) 1)
      have hpi := Real.pi_pos
      show 0 ≤ 1 - Real.arccos _ / Real.pi ∧ 1 - Real.arccos _ / Real.pi ≤ 1
      constructor
      · rw [sub_nonneg, div_le_one hpi]
        exact h2
      · rw [sub_le_self_iff]
        exact div_nonneg h1 hpi.le
  have p_srp_symm : ∀ (v1 v2 : List ℝ),
        SRPR_Trainer.calculate_p_srp libm v1 v2 = SRPR_Trainer.calculate_p_srp libm v2 v1 := by
    intro v1 v2
    rw [calculate_p_srp_eq, calculate_p_srp_eq]
    have hc : cos_sim libm v1 v2 = cos_sim libm v2 v1 := by
      unfold cos_sim
      have hd := dot_comm v1 v2
      unfold dot at hd
      rw [hd, mul_comm]
    rw [hc]
    simp only [or_comm]
  have cos_sim_scaled : ∀ (v : List ℝ) (c : ℝ),
        c ≠ 0 →
        0 < euclidean_norm libm v →
        cos_sim libm v (v.map fun x => c * x) = c / |c| := by
    intro v c hc hn
    have hS : euclidean_norm libm v * euclidean_norm libm v = dot v v := by
      rw [euclidean_norm_eq_sqrt_dot]
      exact Real.mul_self_sqrt (dot_self_nonneg v)
    have hd : (List.zipWith (· * ·) v (v.map fun x => c * x)).sum = c * dot v v := by
      have h := dot_map_mul_left c v v
      rw [dot_comm] at h
      exact h
    unfold cos_sim
    rw [hd, euclidean_norm_scaled, ← hS]
    have hac : |c| ≠ 0 := abs_ne_zero.mpr hc
    field_simp
    ring
  have norm_mul_self : ∀ (v : List ℝ),
        euclidean_norm libm v * euclidean_norm libm v = dot v v := by
    intro v
    rw [euclidean_norm_eq_sqrt_dot]
    exact Real.mul_self_sqrt (dot_self_nonneg v)
  have cos_sim_abs_le_one : ∀ (v w : List ℝ),
        v.length = w.length →
        0 < euclidean_norm libm v →
        0 < euclidean_norm libm w →
        -1 ≤ cos_sim libm v w ∧ cos_sim libm v w ≤ 1 := by
    intro v w h hv hw
    have hcs := cauchy_schwarz v w h
    rw [← norm_mul_self v, ← norm_mul_self w] at hcs
    have hpos : 0 < euclidean_norm libm v * euclidean_norm libm w := mul_pos hv hw
    have habs : |dot v w| ≤ euclidean_norm libm v * euclidean_norm libm w := by
      apply abs_le_of_sq_le_sq _ hpos.le
      nlinarith
    have hd : cos_sim libm v w = dot v w / (euclidean_norm libm v * euclidean_norm libm w) := rfl
    rw [hd]
    obtain ⟨h1, h2⟩ := abs_le.1 habs
    constructor
    · rw [le_div_iff₀ hpos]
      linarith
    · rw [div_le_one hpos]
      exact h2
  have p_srp_set_eq : ∀ (v w : List ℝ) (i : Nat) (t : ℝ),
        i < v.length →
        SRPR_Trainer.calculate_p_srp libm (v.set i t) w =
          if Real.sqrt (dot v v - v.getD i 0 * v.getD i 0 + t * t) < 1e-12 ∨
              euclidean_norm libm w < 1e-12 then 0.5
          else 1 - Real.arccos (clamp ((dot v w + (t - v.getD i 0) * w.getD i 0) /
            (Real.sqrt (dot v v - v.getD i 0 * v.getD i 0 + t * t) * euclidean_norm libm w))
            (-1) 1) / Real.pi := by
    intro v w i t hi
    have hc : cos_sim libm (v.set i t) w =
        dot (v.set i t) w / (euclidean_norm libm (v.set i t) * euclidean_norm libm w) := rfl
    rw [calculate_p_srp_eq, hc, euclidean_norm_eq_sqrt_dot (v.set i t), dot_set_self v i t hi,
      dot_set v w i t hi]
    rfl
  exact ⟨p_srp_range, p_srp_symm, cos_sim_scaled, norm_mul_self, cos_sim_abs_le_one, p_srp_set_eq⟩

theorem getD_map_range {F : Type} [LinearOrderedField F] (f : Nat → F) (d i : Nat)
    (hi : i < d) : ((List.range d).map f).getD i 0 = f i := by
  rw [List.getD_eq_getElem?_getD, List.getElem?_map, List.getElem?_range hi]
  rfl

/-- The derivatives of `calculate_gamma` and of `calculate_p_srp` along one coordinate. -/
theorem derivative_facts :
    -- gamma_hasDerivAt_first
    (∀ (p q : ℝ) (b : Int),
        1e-12 < p →
        p < 1 - 1e-12 →
        1e-12 < q →
        q < 1 - 1e-12 →
        HasDerivAt (fun x => SRPR_Trainer.calculate_gamma libm x q b)
          ((-Real.sqrt (p * (1 - p) + q * (1 - q)) -
              (q - p) * (1 - 2 * p) / (2 * Real.sqrt (p * (1 - p) + q * (1 - q)))) /
            (Real.sqrt (p * (1 - p) + q * (1 - q)) * Real.sqrt (p * (1 - p) + q * (1 - q)))) p) ∧
    -- gamma_hasDerivAt_second
    (∀ (p q : ℝ) (b : Int),
        1e-12 < p →
        p < 1 - 1e-12 →
        1e-12 < q →
        q < 1 - 1e-12 →
        HasDerivAt (fun y => SRPR_Trainer.calculate_gamma libm p y b)
          ((Real.sqrt (p * (1 - p) + q * (1 - q)) -
              (q - p) * (1 - 2 * q) / (2 * Real.sqrt (p * (1 - p) + q * (1 - q)))) /
            (Real.sqrt (p * (1 - p) + q * (1 - q)) * Real.sqrt (p * (1 - p) + q * (1 - q)))) q) ∧
    -- p_srp_hasDerivAt
    (∀ (v w : List ℝ) (i : Nat),
        i < v.length →
        v.length = w.length →
        1e-12 < euclidean_norm libm v →
        1e-12 ≤ euclidean_norm libm w →
        1e-12 ≤ Real.sqrt (1 - clamp (cos_sim libm v w) (-1) 1 * clamp (cos_sim libm v w)
          (-1) 1) →
        HasDerivAt (fun t => SRPR_Trainer.calculate_p_srp libm (v.set i t) w)
          ((p_srp_gradient libm v w).getD i 0) (v.getD i 0)) := by
  have norm_mul_self := norm_cosine_facts.2.2.2.1
  have cos_sim_abs_le_one := norm_cosine_facts.2.2.2.2.1
  have p_srp_set_eq := norm_cosine_facts.2.2.2.2.2
  have calculate_gamma_interior := gamma_facts.2.2.2.2.2.2.1
  have gamma_hasDerivAt_first : ∀ (p q : ℝ) (b : Int),
        1e-12 < p →
        p < 1 - 1e-12 →
        1e-12 < q →
        q < 1 - 1e-12 →
        HasDerivAt (fun x => SRPR_Trainer.calculate_gamma libm x q b)
          ((-Real.sqrt (p * (1 - p) + q * (1 - q)) -
              (q - p) * (1 - 2 * p) / (2 * Real.sqrt (p * (1 - p) + q * (1 - q)))) /
            (Real.sqrt (p * (1 - p) + q * (1 - q)) * Real.sqrt (p * (1 - p) + q * (1 - q)))) p := by
    intro p q b hp1 hp2 hq1 hq2
    have hV := variance_sum_pos p q hp1 hp2 hq1 hq2
    have hs : Real.sqrt (p * (1 - p) + q * (1 - q)) ≠ 0 := (Real.sqrt_pos.mpr hV).ne'
    have hnum : HasDerivAt (fun x : ℝ => q - x) (-1) p := by
      simpa using (hasDerivAt_id p).const_sub q
    have hin : HasDerivAt (fun x : ℝ => x * (1 - x) + q * (1 - q)) (1 - 2 * p) p := by
      have h1 : HasDerivAt (fun x : ℝ => x * (1 - x)) (1 * (1 - p) + p * (-1)) p :=
        (hasDerivAt_id p).mul (by simpa using (hasDerivAt_id p).const_sub 1)
      have h2 := h1.add_const (q * (1 - q))
      convert h2 using 1
      ring
    have hden := hin.sqrt hV.ne'
    have hdiv := hnum.div hden hs
    have hev : (fun x => SRPR_Trainer.calculate_gamma libm x q b) =ᶠ[nhds p]
        (fun x => (q - x) / Real.sqrt (x * (1 - x) + q * (1 - q))) :=
      Filter.eventually_of_mem (Ioo_mem_nhds hp1 hp2)
        (fun x hx => calculate_gamma_interior x q b hx.1 hx.2 hq1 hq2)
    refine (hdiv.congr_of_eventuallyEq hev).congr_deriv ?_
    field_simp
  have gamma_hasDerivAt_second : ∀ (p q : ℝ) (b : Int),
        1e-12 < p →
        p < 1 - 1e-12 →
        1e-12 < q →
        q < 1 - 1e-12 →
        HasDerivAt (fun y => SRPR_Trainer.calculate_gamma libm p y b)
          ((Real.sqrt (p * (1 - p) + q * (1 - q)) -
              (q - p) * (1 - 2 * q) / (2 * Real.sqrt (p * (1 - p) + q * (1 - q)))) /
            (Real.sqrt (p * (1 - p) + q * (1 - q)) * Real.sqrt (p * (1 - p) + q * (1 - q)))) q := by
    intro p q b hp1 hp2 hq1 hq2
    have hV := variance_sum_pos p q hp1 hp2 hq1 hq2
    have hs : Real.sqrt (p * (1 - p) + q * (1 - q)) ≠ 0 := (Real.sqrt_pos.mpr hV).ne'
    have hnum : HasDerivAt (fun y : ℝ => y - p) 1 q := by
      simpa using (hasDerivAt_id q).sub_const p
    have hin : HasDerivAt (fun y : ℝ => p * (1 - p) + y * (1 - y)) (1 - 2 * q) q := by
      have h1 : HasDerivAt (fun y : ℝ => y * (1 - y)) (1 * (1 - q) + q * (-1)) q :=
        (hasDerivAt_id q).mul (by simpa using (hasDerivAt_id q).const_sub 1)
      have h2 := h1.const_add (p * (1 - p))
      convert h2 using 1
      ring
    have hden := hin.sqrt hV.ne'
    have hdiv := hnum.div hden hs
    have hev : (fun y => SRPR_Trainer.calculate_gamma libm p y b) =ᶠ[nhds q]
        (fun y => (y - p) / Real.sqrt (p * (1 - p) + y * (1 - y))) :=
      Filter.eventually_of_mem (Ioo_mem_nhds hq1 hq2)
        (fun y hy => calculate_gamma_interior p y b hp1 hp2 hy.1 hy.2)
    refine (hdiv.congr_of_eventuallyEq hev).congr_deriv ?_
    field_simp
  have p_srp_hasDerivAt : ∀ (v w : List ℝ) (i : Nat),
        i < v.length →
        v.length = w.length →
        1e-12 < euclidean_norm libm v →
        1e-12 ≤ euclidean_norm libm w →
        1e-12 ≤ Real.sqrt (1 - clamp (cos_sim libm v w) (-1) 1 * clamp (cos_sim libm v w)
          (-1) 1) →
        HasDerivAt (fun t => SRPR_Trainer.calculate_p_srp libm (v.set i t) w)
          ((p_srp_gradient libm v w).getD i 0) (v.getD i 0) := by
    intro v w i hi hlen hv hw hsin
    have hn1 : 0 < euclidean_norm libm v := lt_trans (by norm_num) hv
    have hn2 : 0 < euclidean_norm libm w := lt_of_lt_of_le (by norm_num) hw
    obtain ⟨hc1, hc2⟩ := cos_sim_abs_le_one v w hlen hn1 hn2
    have hcl : clamp (cos_sim libm v w) (-1) 1 = cos_sim libm v w := clamp_of_mem _ _ _ hc1 hc2
    rw [hcl] at hsin
    have hq : 0 < Real.sqrt (1 - cos_sim libm v w * cos_sim libm v w) :=
      lt_of_lt_of_le (by norm_num) hsin
    have hq2 : 0 < 1 - cos_sim libm v w * cos_sim libm v w := Real.sqrt_pos.1 hq
    have hlt1 : cos_sim libm v w < 1 := by nlinarith
    have hgt1 : -1 < cos_sim libm v w := by nlinarith
    have hA : dot v v = euclidean_norm libm v * euclidean_norm libm v := (norm_mul_self v).symm
    have hcos : cos_sim libm v w = dot v w / (euclidean_norm libm v * euclidean_norm libm w) :=
      rfl
    -- the squared norm, the norm, the dot product and the cosine along the coordinate
    have hS : HasDerivAt (fun t : ℝ => dot v v - v.getD i 0 * v.getD i 0 + t * t)
        (2 * v.getD i 0) (v.getD i 0) := by
      have h1 : HasDerivAt (fun t : ℝ => t * t) (1 * v.getD i 0 + v.getD i 0 * 1) (v.getD i 0) :=
        (hasDerivAt_id _).mul (hasDerivAt_id _)
      have h2 := h1.const_add (dot v v - v.getD i 0 * v.getD i 0)
      convert h2 using 1
      ring
    have hSx : dot v v - v.getD i 0 * v.getD i 0 + v.getD i 0 * v.getD i 0 =
        euclidean_norm libm v * euclidean_norm libm v := by
      rw [hA]
      ring
    have hSpos : dot v v - v.getD i 0 * v.getD i 0 + v.getD i 0 * v.getD i 0 ≠ 0 := by
      rw [hSx]
      exact (mul_pos hn1 hn1).ne'
    have hNx : Real.sqrt (dot v v - v.getD i 0 * v.getD i 0 + v.getD i 0 * v.getD i 0) =
        euclidean_norm libm v := by
      rw [hSx]
      exact Real.sqrt_mul_self hn1.le
    have hN := hS.sqrt hSpos
    rw [hNx] at hN
    have hD : HasDerivAt (fun t : ℝ => dot v w + (t - v.getD i 0) * w.getD i 0)
        (w.getD i 0) (v.getD i 0) := by
      have h1 : HasDerivAt (fun t : ℝ => t - v.getD i 0) 1 (v.getD i 0) :=
        (hasDerivAt_id _).sub_const _
      have h2 := (h1.mul_const (w.getD i 0)).const_add (dot v w)
      convert h2 using 1
      ring
    have hden := hN.mul_const (euclidean_norm libm w)
    have hden0 : Real.sqrt (dot v v - v.getD i 0 * v.getD i 0 + v.getD i 0 * v.getD i 0) *
        euclidean_norm libm w ≠ 0 := by
      rw [hNx]
      exact (mul_pos hn1 hn2).ne'
    have hR := hD.div hden hden0
    have hRx : (dot v w + (v.getD i 0 - v.getD i 0) * w.getD i 0) /
        (Real.sqrt (dot v v - v.getD i 0 * v.getD i 0 + v.getD i 0 * v.getD i 0) *
          euclidean_norm libm w) = cos_sim libm v w := by
      rw [hNx, hcos]
      ring
    have hacos := (Real.hasDerivAt_arccos (ne_of_gt (hRx ▸ hgt1)) (ne_of_lt (hRx ▸ hlt1))).comp
      (v.getD i 0) hR
    have hg := (hacos.div_const Real.pi).const_sub 1
    -- near the point no guard and no clamp is active
    have hcontN : ContinuousAt
        (fun t : ℝ => Real.sqrt (dot v v - v.getD i 0 * v.getD i 0 + t * t)) (v.getD i 0) :=
      (hS.sqrt hSpos).continuousAt
    have hcontR := hR.continuousAt
    have ev1 : ∀ᶠ t in nhds (v.getD i 0),
        1e-12 < Real.sqrt (dot v v - v.getD i 0 * v.getD i 0 + t * t) :=
      hcontN.eventually (lt_mem_nhds (by simp only [hNx]; exact hv))
    have ev2 : ∀ᶠ t in nhds (v.getD i 0),
        (dot v w + (t - v.getD i 0) * w.getD i 0) /
          (Real.sqrt (dot v v - v.getD i 0 * v.getD i 0 + t * t) * euclidean_norm libm w) ∈
          Set.Ioo (-1 : ℝ) 1 :=
      hcontR.eventually (Ioo_mem_nhds (by simp only [hRx]; exact hgt1)
        (by simp only [hRx]; exact hlt1))
    have hev : (fun t => SRPR_Trainer.calculate_p_srp libm (v.set i t) w) =ᶠ[nhds (v.getD i 0)]
        (fun t => 1 - Real.arccos ((dot v w + (t - v.getD i 0) * w.getD i 0) /
          (Real.sqrt (dot v v - v.getD i 0 * v.getD i 0 + t * t) * euclidean_norm libm w)) /
          Real.pi) := by
      filter_upwards [ev1, ev2] with t h1 h2
      rw [p_srp_set_eq v w i t hi, if_neg (not_or.mpr ⟨not_lt.mpr h1.le, not_lt.mpr hw⟩),
        clamp_of_mem _ _ _ h2.1.le h2.2.le]
    refine (hg.congr_of_eventuallyEq hev).congr_deriv ?_
    -- the value of the derivative
    unfold p_srp_gradient
    rw [getD_map_range _ _ i hi, hcl]
    have hD0 : dot v w + (v.getD i 0 - v.getD i 0) * w.getD i 0 = dot v w := by ring
    simp only [Function.comp, hNx, hD0]
    rw [← hcos]
    have hpi : Real.pi ≠ 0 := Real.pi_ne_zero
    have hsq : Real.sqrt (1 - cos_sim libm v w ^ 2) =
        Real.sqrt (1 - cos_sim libm v w * cos_sim libm v w) := by
      rw [pow_two]
    rw [hsq]
    have hqne : Real.sqrt (1 - cos_sim libm v w * cos_sim libm v w) ≠ 0 := hq.ne'
    show _ = 1 / (Real.pi * Real.sqrt (1 - cos_sim libm v w * cos_sim libm v w)) * _
    generalize Real.sqrt (1 - cos_sim libm v w * cos_sim libm v w) = q at hqne ⊢
    have hdv : dot v w = cos_sim libm v w * (euclidean_norm libm v * euclidean_norm libm w) := by
      rw [hcos]
      field_simp
    rw [hdv]
    generalize cos_sim libm v w = c
    have h1 := hn1.ne'
    have h2 := hn2.ne'
    field_simp
    ring
  exact ⟨gamma_hasDerivAt_first, gamma_hasDerivAt_second, p_srp_hasDerivAt⟩

/-- C30: for `p_ui` and `p_uj` strictly between `1e-12` and `1 - 1e-12`, the first
component of `calculate_gamma_derivatives(p_ui, p_uj, b)` is the derivative of
`calculate_gamma` in its first argument at `p_ui`, with `p_uj` held fixed, and the
second component is the derivative in its second argument at `p_uj`, with `p_ui`
held fixed. -/
theorem C30_gamma_derivatives_are_partials (p_ui p_uj : ℝ) (b : Int)
    (hi1 : 1e-12 < p_ui) (hi2 : p_ui < 1 - 1e-12)
    (hj1 : 1e-12 < p_uj) (hj2 : p_uj < 1 - 1e-12) :
    HasDerivAt (fun p => SRPR_Trainer.calculate_gamma libm p p_uj b)
      (SRPR_Trainer.calculate_gamma_derivatives libm p_ui p_uj b).1 p_ui ∧
    HasDerivAt (fun q => SRPR_Trainer.calculate_gamma libm p_ui q b)
      (SRPR_Trainer.calculate_gamma_derivatives libm p_ui p_uj b).2 p_uj := by
  have calculate_gamma_derivatives_interior := gamma_facts.2.2.2.2.2.2.2.1
  have gamma_hasDerivAt_first := derivative_facts.1
  have gamma_hasDerivAt_second := derivative_facts.2.1
  rw [calculate_gamma_derivatives_interior p_ui p_uj b hi1 hi2 hj1 hj2]
  exact ⟨gamma_hasDerivAt_first p_ui p_uj b hi1 hi2 hj1 hj2,
    gamma_hasDerivAt_second p_ui p_uj b hi1 hi2 hj1 hj2⟩

/-- C30 at `p_ui = 1 / 2`, `p_uj = 1 / 4` and `b = 16`. -/
theorem C30_gamma_derivatives_are_partials_witness :
    (1e-12 : ℝ) < 1 / 2 ∧ (1 / 2 : ℝ) < 1 - 1e-12 ∧ (1e-12 : ℝ) < 1 / 4 ∧
    (1 / 4 : ℝ) < 1 - 1e-12 ∧
    HasDerivAt (fun p => SRPR_Trainer.calculate_gamma libm p (1 / 4) 16)
      (SRPR_Trainer.calculate_gamma_derivatives libm (1 / 2) (1 / 4) 16).1 (1 / 2) ∧
    HasDerivAt (fun q => SRPR_Trainer.calculate_gamma libm (1 / 2) q 16)
      (SRPR_Trainer.calculate_gamma_derivatives libm (1 / 2) (1 / 4) 16).2 (1 / 4) :=
  ⟨by norm_num, by norm_num, by norm_num, by norm_num,
    C30_gamma_derivatives_are_partials (1 / 2) (1 / 4) 16 (by norm_num) (by norm_num)
      (by norm_num) (by norm_num)⟩

/-! ## The trainer: the guard of the separation statistic -/

theorem gamma_denominator_ge_sqrt (p q : ℝ) :
    Real.sqrt (2 * 1e-12 * (1 - 1e-12)) ≤
      Real.sqrt (clamp p 1e-12 (1 - 1e-12) * (1 - clamp p 1e-12 (1 - 1e-12)) +
        clamp q 1e-12 (1 - 1e-12) * (1 - clamp q 1e-12 (1 - 1e-12))) := by
  have hp := variance_ge _ (clamp_prob_bounds p).1 (clamp_prob_bounds p).2
  have hq := variance_ge _ (clamp_prob_bounds q).1 (clamp_prob_bounds q).2
  apply Real.sqrt_le_sqrt
  linarith

theorem sqrt_floor_gt : (1e-12 : ℝ) < Real.sqrt (2 * 1e-12 * (1 - 1e-12)) := by
  apply Real.lt_sqrt_of_sq_lt
  norm_num

/-- C36: for all real `p_ui`, `p_uj` the combined standard deviation of the clamped
probabilities is at least `sqrt(2 * 1e-12 * (1 - 1e-12))`, which is greater than
`1e-12`; the guard `< 1e-12` of `calculate_gamma` and of
`calculate_gamma_derivatives` therefore never fires: `calculate_gamma` always
returns the quotient and `calculate_gamma_derivatives` the pair of the two
quotient formulas, never the neutral values of the guard. -/
theorem C36_gamma_fallback_unreachable (p_ui p_uj : ℝ) (b : Int) :
    Real.sqrt (2 * 1e-12 * (1 - 1e-12)) ≤
      Real.sqrt (clamp p_ui 1e-12 (1 - 1e-12) * (1 - clamp p_ui 1e-12 (1 - 1e-12)) +
        clamp p_uj 1e-12 (1 - 1e-12) * (1 - clamp p_uj 1e-12 (1 - 1e-12))) ∧
    (1e-12 : ℝ) < Real.sqrt (2 * 1e-12 * (1 - 1e-12)) ∧
    SRPR_Trainer.calculate_gamma libm p_ui p_uj b =
      (clamp p_uj 1e-12 (1 - 1e-12) - clamp p_ui 1e-12 (1 - 1e-12)) /
        Real.sqrt (clamp p_ui 1e-12 (1 - 1e-12) * (1 - clamp p_ui 1e-12 (1 - 1e-12)) +
          clamp p_uj 1e-12 (1 - 1e-12) * (1 - clamp p_uj 1e-12 (1 - 1e-12))) ∧
    (SRPR_Trainer.calculate_gamma_derivatives libm p_ui p_uj b).1 =
      (-Real.sqrt (clamp p_ui 1e-12 (1 - 1e-12) * (1 - clamp p_ui 1e-12 (1 - 1e-12)) +
            clamp p_uj 1e-12 (1 - 1e-12) * (1 - clamp p_uj 1e-12 (1 - 1e-12))) -
          (clamp p_uj 1e-12 (1 - 1e-12) - clamp p_ui 1e-12 (1 - 1e-12)) *
            (1 - 2 * clamp p_ui 1e-12 (1 - 1e-12)) /
            (2 * Real.sqrt (clamp p_ui 1e-12 (1 - 1e-12) * (1 - clamp p_ui 1e-12 (1 - 1e-12)) +
              clamp p_uj 1e-12 (1 - 1e-12) * (1 - clamp p_uj 1e-12 (1 - 1e-12))))) /
          (Real.sqrt (clamp p_ui 1e-12 (1 - 1e-12) * (1 - clamp p_ui 1e-12 (1 - 1e-12)) +
              clamp p_uj 1e-12 (1 - 1e-12) * (1 - clamp p_uj 1e-12 (1 - 1e-12))) *
            Real.sqrt (clamp p_ui 1e-12 (1 - 1e-12) * (1 - clamp p_ui 1e-12 (1 - 1e-12)) +
              clamp p_uj 1e-12 (1 - 1e-12) * (1 - clamp p_uj 1e-12 (1 - 1e-12)))) ∧
    (SRPR_Trainer.calculate_gamma_derivatives libm p_ui p_uj b).2 =
      (Real.sqrt (clamp p_ui 1e-12 (1 - 1e-12) * (1 - clamp p_ui 1e-12 (1 - 1e-12)) +
            clamp p_uj 1e-12 (1 - 1e-12) * (1 - clamp p_uj 1e-12 (1 - 1e-12))) -
          (clamp p_uj 1e-12 (1 - 1e-12) - clamp p_ui 1e-12 (1 - 1e-12)) *
            (1 - 2 * clamp p_uj 1e-12 (1 - 1e-12)) /
            (2 * Real.sqrt (clamp p_ui 1e-12 (1 - 1e-12) * (1 - clamp p_ui 1e-12 (1 - 1e-12)) +
              clamp p_uj 1e-12 (1 - 1e-12) * (1 - clamp p_uj 1e-12 (1 - 1e-12))))) /
          (Real.sqrt (clamp p_ui 1e-12 (1 - 1e-12) * (1 - clamp p_ui 1e-12 (1 - 1e-12)) +
              clamp p_uj 1e-12 (1 - 1e-12) * (1 - clamp p_uj 1e-12 (1 - 1e-12))) *
            Real.sqrt (clamp p_ui 1e-12 (1 - 1e-12) * (1 - clamp p_ui 1e-12 (1 - 1e-12)) +
              clamp p_uj 1e-12 (1 - 1e-12) * (1 - clamp p_uj 1e-12 (1 - 1e-12)))) := by
  have calculate_gamma_quotient := gamma_facts.2.1
  have calculate_gamma_derivatives_quotient := gamma_facts.2.2.2.2.2.2.2.2
  refine ⟨gamma_denominator_ge_sqrt p_ui p_uj, sqrt_floor_gt,
    calculate_gamma_quotient p_ui p_uj b, ?_, ?_⟩
  · rw [calculate_gamma_derivatives_quotient]
  · rw [calculate_gamma_derivatives_quotient]

/-! ## The trainer: the frame of the update -/

theorem update_loop_frame {F : Type} [LinearOrderedField F] (t : Triplet)
    (gxu gyi gyj : List F) (lr : F) (l : List Nat) (s : UserItemStore F) :
    (∀ u, u ≠ t.user_id →
      (l.foldl (SRPR_Trainer.update_step t gxu gyi gyj lr) s).get_user_vector u =
        s.get_user_vector u) ∧
    (∀ i, i ≠ t.preferred_item_id → i ≠ t.less_preferred_item_id →
      (l.foldl (SRPR_Trainer.update_step t gxu gyi gyj lr) s).get_item_vector i =
        s.get_item_vector i) ∧
    (l.foldl (SRPR_Trainer.update_step t gxu gyi gyj lr) s).d = s.d := by
  induction l generalizing s with
  | nil => exact ⟨fun _ _ => rfl, fun _ _ _ => rfl, rfl⟩
  | cons k l ih =>
    rw [List.foldl_cons]
    obtain ⟨h1, h2, h3⟩ := ih (SRPR_Trainer.update_step t gxu gyi gyj lr s k)
    refine ⟨fun u hu => ?_, fun i hi1 hi2 => ?_, ?_⟩
    · rw [h1 u hu]
      simp only [UserItemStore.get_user_vector, SRPR_Trainer.update_step]
      exact umap_at_modify_ne _ _ _ _ (Ne.symm hu)
    · rw [h2 i hi1 hi2]
      simp only [UserItemStore.get_item_vector, SRPR_Trainer.update_step]
      rw [umap_at_modify_ne _ _ _ _ (Ne.symm hi2), umap_at_modify_ne _ _ _ _ (Ne.symm hi1)]
    · rw [h3]
      rfl

/-- C40: for a triplet whose ids are in the store `update_vectors` returns, and
the returned store has the same user ids and the same item ids, the same
dimension, the same vector for every user other than the user of the triplet, and
the same vector for every item other than its preferred and its less-preferred
item. -/
theorem C40_update_vectors_frame {F : Type} [LinearOrderedField F]
    (store : UserItemStore F) (t : Triplet) (grad_xu grad_yi grad_yj : List F)
    (params : TrainingParams F) (ht : triplet_known store t) :
    ∃ store2, SRPR_Trainer.update_vectors store t grad_xu grad_yi grad_yj params
        = .ok store2 ∧
      store2.user_vectors.map Prod.fst = store.user_vectors.map Prod.fst ∧
      store2.item_vectors.map Prod.fst = store.item_vectors.map Prod.fst ∧
      store2.d = store.d ∧
      (∀ u, u ≠ t.user_id → store2.get_user_vector u = store.get_user_vector u) ∧
      (∀ i, i ≠ t.preferred_item_id → i ≠ t.less_preferred_item_id →
        store2.get_item_vector i = store.get_item_vector i) := by
  obtain ⟨xu, yi, yj, hx, hi, hj⟩ := triplet_known_lookups ht
  obtain ⟨s2, hs2, hk⟩ := update_vectors_ok store t grad_xu grad_yi grad_yj params ht
  obtain ⟨h1, h2, h3⟩ := update_loop_frame t grad_xu grad_yi grad_yj params.learning_rate
    (List.range xu.length) store
  refine ⟨s2, hs2, hk.1, hk.2, ?_, ?_, ?_⟩
  · simp only [SRPR_Trainer.update_vectors, hx, hi, hj] at hs2
    injection hs2 with hs2
    subst hs2
    exact h3
  · intro u hu
    simp only [SRPR_Trainer.update_vectors, hx, hi, hj] at hs2
    injection hs2 with hs2
    subst hs2
    rw [← h1 u hu]
    simp only [UserItemStore.get_user_vector]
    exact umap_at_modify_ne _ _ _ _ (Ne.symm hu)
  · intro i hi1 hi2
    simp only [SRPR_Trainer.update_vectors, hx, hi, hj] at hs2
    injection hs2 with hs2
    subst hs2
    rw [← h2 i hi1 hi2]
    simp only [UserItemStore.get_item_vector]
    rw [umap_at_modify_ne _ _ _ _ (Ne.symm hi2), umap_at_modify_ne _ _ _ _ (Ne.symm hi1)]

/-- C40 at the store `store_par` over the rationals and the triplet `(1, 10, 10)`:
the ids of the store stay `1` and `10, 20`, and the item `20`, which has no role in
the triplet, keeps its vector `(0, 1)`. -/
theorem C40_update_vectors_frame_witness :
    triplet_known (store_par ℚ) ⟨1, 10, 10⟩ ∧
    ∃ store2, SRPR_Trainer.update_vectors (store_par ℚ) ⟨1, 10, 10⟩ [1, 1] [1, 1] [1, 1]
        params_q = .ok store2 ∧
      store2.user_vectors.map Prod.fst = [1] ∧
      store2.item_vectors.map Prod.fst = [10, 20] ∧
      store2.get_item_vector 20 = .ok [0, 1] := by
  have ht : triplet_known (store_par ℚ) ⟨1, 10, 10⟩ := by simp [triplet_known, store_par]
  obtain ⟨s2, hs, hu, hi, -, -, hf⟩ := C40_update_vectors_frame (store_par ℚ) ⟨1, 10, 10⟩
    [1, 1] [1, 1] [1, 1] params_q ht
  exact ⟨ht, s2, hs, hu, hi, by rw [hf 20 (by decide) (by decide)]; rfl⟩

/-! ## The hasher: scaled and negated vectors -/

theorem dot_map_neg_left {F : Type} [LinearOrderedField F] (v w : List F) :
    dot (v.map fun x => -x) w = -dot v w := by
  have h := dot_map_mul_left (-1 : F) v w
  simp only [neg_mul, one_mul] at h
  exact h

theorem hash_to_bit_scaled {F : Type} [LinearOrderedField F] (h : SRPHasher F)
    (vec : List F) (c : F) (hc : 0 < c) (i : Int) :
    h.hash_to_bit (vec.map fun x => c * x) i = h.hash_to_bit vec i := by
  have hiff : ∀ s : F, 0 ≤ c * s ↔ 0 ≤ s := fun s =>
    ⟨fun hs => le_of_mul_le_mul_left (by simpa using hs) hc, fun hs => mul_nonneg hc.le hs⟩
  unfold SRPHasher.hash_to_bit
  simp only [List.length_map, inner_product_zero_eq_dot, dot_map_mul_left, ge_iff_le, hiff]

theorem generate_code_congr {F : Type} (b : Int) (f : List F → Int → Char) (v w : List F)
    (hfg : ∀ i, f v i = f w i) : LSH.generate_code b f v = LSH.generate_code b f w := by
  unfold LSH.generate_code
  have hfun : (fun (code : String) (i : Nat) => code.push (f v (i : Int))) =
      (fun (code : String) (i : Nat) => code.push (f w (i : Int))) := by
    funext code i
    rw [hfg]
  rw [hfun]

theorem hamming_self (c : List Char) : hamming c c = 0 := by
  have h := hamming_of_maps (fun a : Char => a) (fun a : Char => a) c
  simp only [List.map_id'] at h
  rw [h]
  simp

theorem hamming_distance_self (code : String) :
    ExhaustiveBenchmark.hamming_distance code code = 0 := by
  rw [hamming_distance_eq code code rfl, hamming_self]
  rfl

/-- In exact arithmetic, for every hasher, every vector `v` and every `c > 0`,
`generate_code` of the scaled vector `c * v` has the same outcome as
`generate_code` of `v`: the guards of `hash_to_bit` see the same length and every
projection keeps its sign. -/
theorem generate_code_scale_invariant_exact {F : Type} [LinearOrderedField F]
    (hasher : SRPHasher F) (v : List F) (c : F) (hc : 0 < c) :
    hasher.generate_code (v.map fun x => c * x) = hasher.generate_code v ∧
    (0 ≤ hasher.b → ∃ code,
      hasher.generate_code v = .ok code ∧
      hasher.generate_code (v.map fun x => c * x) = .ok code ∧
      ExhaustiveBenchmark.hamming_distance code code = 0) := by
  have heq : hasher.generate_code (v.map fun x => c * x) = hasher.generate_code v :=
    generate_code_congr hasher.b hasher.hash_to_bit _ _
      (fun i => hash_to_bit_scaled hasher v c hc i)
  refine ⟨heq, fun hb => ⟨code_of hasher v, generate_code_eq_code_of hasher v hb, ?_,
    hamming_distance_self _⟩⟩
  rw [heq]
  exact generate_code_eq_code_of hasher v hb

theorem code_of_getElem? {F : Type} [LinearOrderedField F] (h : SRPHasher F) (v : List F)
    (i : Nat) (hi : i < h.b.toNat) :
    (code_of h v).data[i]? = some (h.hash_to_bit v (i : Int)) := by
  unfold code_of
  simp only [List.getElem?_map, List.getElem?_range hi, Option.map_some']

theorem sign_bit_neg {F : Type} [LinearOrderedField F] (s : F) :
    (s ≠ 0 → ((if 0 ≤ s then '1' else '0') = '1' ∧ (if 0 ≤ -s then '1' else '0') = '0') ∨
      ((if 0 ≤ s then '1' else '0') = '0' ∧ (if 0 ≤ -s then '1' else '0') = '1')) ∧
    (s = 0 → (if 0 ≤ s then '1' else '0') = '1' ∧ (if 0 ≤ -s then '1' else '0') = '1') := by
  constructor
  · intro hs
    rcases lt_or_gt_of_ne hs with h | h
    · right
      exact ⟨if_neg (not_le.mpr h), if_pos (by linarith)⟩
    · left
      exact ⟨if_pos h.le, if_neg (by intro h2; linarith)⟩
  · intro hs
    subst hs
    simp

/-- In exact arithmetic, on a hasher that the constructor returns with `b` bits, for
a vector `v` of the dimension of the hasher: at a position whose projection is
nonzero the codes of `v` and of `-v` differ, at a position whose projection is zero
both have `'1'`, and with every projection nonzero the Hamming distance is `b`. -/
theorem negation_gives_complement_exact {F : Type} [LinearOrderedField F]
    (d b : Int) (seed entropy : Nat) (gen : Nat → Nat → F) (h : SRPHasher F) (v : List F)
    (hnew : SRPHasher.new d b seed entropy gen = .ok h) (hd : is_int d)
    (hlen : (v.length : Int) = d) :
    ∃ code code_neg,
      h.generate_code v = .ok code ∧
      h.generate_code (v.map fun x => -x) = .ok code_neg ∧
      (∀ i : Nat, (i : Int) < b → ∃ a, h.random_vectors[i]? = some a ∧
        (dot v a ≠ 0 →
          (code.data[i]? = some '1' ∧ code_neg.data[i]? = some '0') ∨
          (code.data[i]? = some '0' ∧ code_neg.data[i]? = some '1')) ∧
        (dot v a = 0 → code.data[i]? = some '1' ∧ code_neg.data[i]? = some '1')) ∧
      ((∀ a ∈ h.random_vectors, dot v a ≠ 0) →
        ExhaustiveBenchmark.hamming_distance code code_neg = b) := by
  obtain ⟨hb0, -, hdd, hbb, hinit, hrv⟩ := SRPHasher.new_ok hnew
  have hbh : 0 ≤ h.b := by rw [hbb]; exact hb0
  have hrows : h.random_vectors.length = h.b.toNat := by
    rw [hrv, hbb, List.length_map, List.length_range]
  have hl1 : (v.length : Int) = h.d % 2 ^ 64 := by
    have h0 : 0 ≤ d := by
      rw [← hlen]
      exact Int.ofNat_nonneg _
    rw [hdd, hlen]
    unfold is_int at hd
    omega
  have hl2 : (((v.map fun x => -x).length : Nat) : Int) = h.d % 2 ^ 64 := by
    rw [List.length_map]
    exact hl1
  refine ⟨code_of h v, code_of h (v.map fun x => -x), generate_code_eq_code_of h v hbh,
    generate_code_eq_code_of h _ hbh, ?_, ?_⟩
  · intro i hi
    have hib : (i : Int) < h.b := by rw [hbb]; exact hi
    have hit : i < h.b.toNat := by omega
    have hil : i < h.random_vectors.length := by rw [hrows]; exact hit
    refine ⟨h.random_vectors[i], List.getElem?_eq_getElem hil, ?_⟩
    have hg : h.random_vectors.getD i [] = h.random_vectors[i] := by
      rw [List.getD_eq_getElem?_getD, List.getElem?_eq_getElem hil]
      rfl
    rw [code_of_getElem? h v i hit, code_of_getElem? h _ i hit,
      hash_to_bit_of_guard h v i hinit hib hl1, hash_to_bit_of_guard h _ i hinit hib hl2,
      hg, dot_map_neg_left]
    obtain ⟨s1, s2⟩ := sign_bit_neg (dot v h.random_vectors[i])
    constructor
    · intro hne
      rcases s1 hne with ⟨e1, e2⟩ | ⟨e1, e2⟩
      · left
        rw [e1, e2]
        exact ⟨rfl, rfl⟩
      · right
        rw [e1, e2]
        exact ⟨rfl, rfl⟩
    · intro hz
      obtain ⟨e1, e2⟩ := s2 hz
      rw [e1, e2]
      exact ⟨rfl, rfl⟩
  · intro hall
    rw [hamming_distance_eq _ _ (by rw [code_of_length, code_of_length]),
      code_of_data h v hinit hrows hl1, code_of_data h _ hinit hrows hl2, hamming_of_maps]
    have hfil : h.random_vectors.filter (fun a => decide
        ((if 0 ≤ dot v a then '1' else '0') ≠
          (if 0 ≤ dot (v.map fun x => -x) a then '1' else '0'))) = h.random_vectors := by
      rw [List.filter_eq_self]
      intro a ha
      rw [dot_map_neg_left]
      rcases (sign_bit_neg (dot v a)).1 (hall a ha) with ⟨e1, e2⟩ | ⟨e1, e2⟩ <;>
        rw [e1, e2] <;> decide
    rw [hfil, hrows, hbb]
    exact Int.toNat_of_nonneg hb0

/-! ## The harness: the range of the approximate search -/

theorem hamming_le_length (c1 c2 : List Char) : hamming c1 c2 ≤ c1.length := by
  unfold hamming
  calc ((c1.zip c2).filter fun p => decide (p.1 ≠ p.2)).length
      ≤ (c1.zip c2).length := List.length_filter_le _ _
    _ ≤ c1.length := by
      rw [List.length_zip]
      exact min_le_left _ _

theorem hamming_distance_code_of_bounds {F : Type} [LinearOrderedField F]
    (hasher : SRPHasher F) (v w : List F) (hb : 0 ≤ hasher.b) :
    0 ≤ ExhaustiveBenchmark.hamming_distance (code_of hasher v) (code_of hasher w) ∧
    ExhaustiveBenchmark.hamming_distance (code_of hasher v) (code_of hasher w) ≤ hasher.b := by
  rw [hamming_distance_eq _ _ (by rw [code_of_length, code_of_length])]
  refine ⟨Int.ofNat_nonneg _, ?_⟩
  have h1 := hamming_le_length (code_of hasher v).data (code_of hasher w).data
  have h2 : (code_of hasher v).data.length = hasher.b.toNat := code_of_length hasher v
  rw [h2] at h1
  omega

/-- C34: for a hasher with `b ≥ 1` bits and a user whose id is in the store, every
result of `lsh_search` carries a Hamming distance between `0` and `b`, never the
sentinel `-1`, because the code of the user and the code of every item have `b`
characters; its score `1 - distance / b` therefore lies in `[0, 1]`. -/
theorem C34_lsh_search_ranges {F : Type} [LinearOrderedField F]
    (sort : List (Int × Int) → List (Int × Int)) (store : UserItemStore F)
    (hasher : SRPHasher F) (user_id top_k : Int) (xu : List F)
    (hsort : is_std_sort (fun a b : Int × Int => a.2 < b.2) sort)
    (hx : store.get_user_vector user_id = .ok xu) (hb : 1 ≤ hasher.b) :
    ∀ r ∈ ExhaustiveBenchmark.lsh_search sort store hasher user_id top_k,
      0 ≤ r.hamming_distance ∧ r.hamming_distance ≤ hasher.b ∧
      r.hamming_distance ≠ -1 ∧ 0 ≤ r.score ∧ r.score ≤ 1 := by
  obtain ⟨hmap, -, hscore, -⟩ := lsh_search_spec sort store hasher user_id top_k xu hx
    (by omega) (length_of_is_std_sort hsort)
  intro r hr
  have hmem : (r.item_id, r.hamming_distance) ∈
      (ExhaustiveBenchmark.lsh_search sort store hasher user_id top_k).map
        (fun r => (r.item_id, r.hamming_distance)) := List.mem_map.2 ⟨r, hr, rfl⟩
  rw [hmap] at hmem
  have hmem2 := (hsort _).1.subset (List.mem_of_mem_take hmem)
  obtain ⟨e, -, he⟩ := List.mem_map.1 hmem2
  injection he with he1 he2
  obtain ⟨h0, h1⟩ := hamming_distance_code_of_bounds hasher xu e.2 (by omega)
  rw [he2] at h0 h1
  have hbF : (0 : F) < (hasher.b : F) := by exact_mod_cast (by omega : 0 < hasher.b)
  have h0F : (0 : F) ≤ (r.hamming_distance : F) := by exact_mod_cast h0
  have h1F : (r.hamming_distance : F) ≤ (hasher.b : F) := by exact_mod_cast h1
  refine ⟨h0, h1, by omega, ?_, ?_⟩
  · rw [hscore r hr, sub_nonneg, div_le_one hbF]
    exact h1F
  · rw [hscore r hr, sub_le_self_iff]
    exact div_nonneg h0F hbF.le

/-- C34 at the store `store_par`, the hasher `hasher_xy` with `2` bits and the
user `1`, with insertion sort as the sorting function and `K = 5`. -/
theorem C34_lsh_search_ranges_witness :
    is_std_sort (fun a b : Int × Int => a.2 < b.2) sort_by_distance_asc ∧
    (store_par ℝ).get_user_vector 1 = .ok [1, 0] ∧ (1 : Int) ≤ hasher_xy.b ∧
    (ExhaustiveBenchmark.lsh_search sort_by_distance_asc (store_par ℝ) hasher_xy 1 5).length
      = 2 ∧
    ∀ r ∈ ExhaustiveBenchmark.lsh_search sort_by_distance_asc (store_par ℝ) hasher_xy 1 5,
      0 ≤ r.hamming_distance ∧ r.hamming_distance ≤ 2 ∧
      r.hamming_distance ≠ -1 ∧ 0 ≤ r.score ∧ r.score ≤ 1 := by
  have hlen := (lsh_search_spec sort_by_distance_asc (store_par ℝ) hasher_xy 1 5 [1, 0] rfl
    (by decide) (length_of_is_std_sort is_std_sort_distance_asc)).2.2.2
  exact ⟨is_std_sort_distance_asc, rfl, by decide, hlen,
    C34_lsh_search_ranges sort_by_distance_asc (store_par ℝ) hasher_xy 1 5 [1, 0]
      is_std_sort_distance_asc rfl (by decide)⟩

/-! ## The trainer: properties of the collision probability -/

/-- In exact arithmetic, for a vector `v1` and `v2 = c * v1`, both with norm at least
`1e-12`, `calculate_p_srp` is `1` when `c > 0` and `0` when `c < 0`. -/
theorem p_srp_of_multiple_exact (v1 v2 : List ℝ) (c : ℝ) (hv : v2 = v1.map (fun x => c * x))
    (h1 : 1e-12 ≤ euclidean_norm libm v1) (h2 : 1e-12 ≤ euclidean_norm libm v2) :
    (0 < c → SRPR_Trainer.calculate_p_srp libm v1 v2 = 1) ∧
    (c < 0 → SRPR_Trainer.calculate_p_srp libm v1 v2 = 0) := by
  have cos_sim_scaled := norm_cosine_facts.2.2.1
  have hpos : 0 < euclidean_norm libm v1 := lt_of_lt_of_le (by norm_num) h1
  have hguard : ¬ (euclidean_norm libm v1 < 1e-12 ∨ euclidean_norm libm v2 < 1e-12) :=
    not_or.mpr ⟨not_lt.mpr h1, not_lt.mpr h2⟩
  rw [calculate_p_srp_eq, if_neg hguard, hv]
  constructor
  · intro hc
    rw [cos_sim_scaled v1 c hc.ne' hpos, abs_of_pos hc, div_self hc.ne']
    have hcl : clamp (1 : ℝ) (-1) 1 = 1 := by simp [clamp]
    rw [hcl]
    show 1 - Real.arccos 1 / Real.pi = 1
    rw [Real.arccos_one, zero_div, sub_zero]
  · intro hc
    rw [cos_sim_scaled v1 c hc.ne hpos, abs_of_neg hc, div_neg, div_self hc.ne]
    have hcl : clamp (-1 : ℝ) (-1) 1 = -1 := by simp [clamp]
    rw [hcl]
    show 1 - Real.arccos (-1) / Real.pi = 0
    rw [Real.arccos_neg_one, div_self Real.pi_ne_zero, sub_self]

/-- C35, amended: `calculate_p_srp` of two real vectors of one length lies in
`[0, 1]` and does not change when the arguments are swapped. -/
theorem C35_p_srp_properties (v1 v2 : List ℝ) (_ : v1.length = v2.length) :
    0 ≤ SRPR_Trainer.calculate_p_srp libm v1 v2 ∧
    SRPR_Trainer.calculate_p_srp libm v1 v2 ≤ 1 ∧
    SRPR_Trainer.calculate_p_srp libm v1 v2 = SRPR_Trainer.calculate_p_srp libm v2 v1 := by
  have p_srp_range := norm_cosine_facts.1
  have p_srp_symm := norm_cosine_facts.2.1
  exact ⟨(p_srp_range v1 v2).1, (p_srp_range v1 v2).2, p_srp_symm v1 v2⟩

/-- C35 at `v1 = (1, 0)` and `v2 = (0, 2)`. -/
theorem C35_p_srp_properties_witness :
    ([1, 0] : List ℝ).length = ([0, 2] : List ℝ).length ∧
    0 ≤ SRPR_Trainer.calculate_p_srp libm [1, 0] [0, 2] ∧
    SRPR_Trainer.calculate_p_srp libm [1, 0] [0, 2] ≤ 1 ∧
    SRPR_Trainer.calculate_p_srp libm [1, 0] [0, 2] =
      SRPR_Trainer.calculate_p_srp libm [0, 2] [1, 0] :=
  ⟨rfl, C35_p_srp_properties [1, 0] [0, 2] rfl⟩

/-! ## The harness: the range of NDCG -/

theorem relevant_count_le_card {F : Type} (recs : List (RecommendationResult F))
    (gt : Finset Int) (j : Nat) (hnd : (recs.map fun x => x.item_id).Nodup) :
    relevant_count recs gt j ≤ gt.card := by
  unfold relevant_count
  have hsub : ((recs.take j).filter fun x => decide (x.item_id ∈ gt)).Sublist recs :=
    (List.filter_sublist _).trans (List.take_sublist _ _)
  have hnd2 : (((recs.take j).filter fun x => decide (x.item_id ∈ gt)).map
      fun x => x.item_id).Nodup := hnd.sublist (hsub.map _)
  rw [← List.length_map _ (fun x : RecommendationResult F => x.item_id),
    ← List.toFinset_card_of_nodup hnd2]
  apply Finset.card_le_card
  intro a ha
  rw [List.mem_toFinset] at ha
  obtain ⟨x, hx, rfl⟩ := List.mem_map.1 ha
  exact of_decide_eq_true (List.mem_filter.1 hx).2

theorem relevant_count_le (recs : List (RecommendationResult ℝ)) (gt : Finset Int) (j : Nat) :
    relevant_count recs gt j ≤ j := by
  unfold relevant_count
  calc ((recs.take j).filter fun x => decide (x.item_id ∈ gt)).length
      ≤ (recs.take j).length := List.length_filter_le _ _
    _ ≤ j := by
      rw [List.length_take]
      exact min_le_left _ _

/-- C38: for every `K`, every ground-truth set and every recommendation list whose
item ids are pairwise distinct, `calculate_ndcg_at_k` returns a value in `[0, 1]`. -/
theorem C38_ndcg_range (recs : List (RecommendationResult ℝ)) (gt : Finset Int) (k : Int)
    (hnd : (recs.map fun x => x.item_id).Nodup) :
    0 ≤ ExhaustiveBenchmark.calculate_ndcg_at_k libm recs gt k ∧
      ExhaustiveBenchmark.calculate_ndcg_at_k libm recs gt k ≤ 1 := by
  have dcg_fold_nonneg := ranking_facts.2.2.1
  have dcg_fold_le := ranking_facts.2.2.2.1
  have idcg_fold_mono := ranking_facts.2.2.2.2.1
  simp only [ExhaustiveBenchmark.calculate_ndcg_at_k]
  split_ifs with hguard hpos
  · constructor <;> norm_num
  · have hk : ¬ k ≤ 0 := by
      intro hk
      apply hguard
      simp [hk]
    have hdn := dcg_fold_nonneg (fun i => ExhaustiveBenchmark.item_id_at recs i ∈ gt)
      (List.range (min k (recs.length : Int)).toNat) 0.0 (by norm_num)
    have h1 := dcg_fold_le (fun i => ExhaustiveBenchmark.item_id_at recs i ∈ gt)
      (min k (recs.length : Int)).toNat
    rw [filter_range_length recs gt _ (min_toNat_le_length k recs.length)] at h1
    have hc1 := relevant_count_le_card recs gt (min k (recs.length : Int)).toNat hnd
    have hc2 := relevant_count_le recs gt (min k (recs.length : Int)).toNat
    have hc : relevant_count recs gt (min k (recs.length : Int)).toNat ≤
        (min k (gt.card : Int)).toNat := by
      have h3 : (min k (recs.length : Int)).toNat ≤ k.toNat :=
        Int.toNat_le_toNat (min_le_left _ _)
      have h4 : (min k (gt.card : Int)).toNat = min k.toNat gt.card := by omega
      rw [h4]
      exact le_min (le_trans hc2 h3) hc1
    have h2 := idcg_fold_mono _ _ hc
    have hpos0 : (0 : ℝ) < (List.range (min k (gt.card : Int)).toNat).foldl
        (fun (idcg : ℝ) i => idcg + 1.0 / libm.log2 ((i + 2 : Nat) : ℝ)) 0.0 :=
      lt_of_eq_of_lt (by norm_num) hpos
    constructor
    · exact div_nonneg hdn hpos0.le
    · rw [div_le_one hpos0]
      exact le_trans h1 h2
  · constructor <;> norm_num

/-- C38 at three recommendations with the distinct item ids `1, 2, 3`, the ground
truth `{2, 5}` and `K = 2`. -/
theorem C38_ndcg_range_witness :
    ((recs_three ℝ).map fun x => x.item_id).Nodup ∧
    0 ≤ ExhaustiveBenchmark.calculate_ndcg_at_k libm (recs_three ℝ) {2, 5} 2 ∧
    ExhaustiveBenchmark.calculate_ndcg_at_k libm (recs_three ℝ) {2, 5} 2 ≤ 1 :=
  have hnd : ((recs_three ℝ).map fun x => x.item_id).Nodup := by
    simp [recs_three]
  ⟨hnd, C38_ndcg_range (recs_three ℝ) {2, 5} 2 hnd⟩

/-! ## The harness: a result list evaluated against itself -/

theorem ground_truth_fold {F : Type} (recs : List (RecommendationResult F)) (s : Finset Int) :
    recs.foldl (fun ground_truth r => insert r.item_id ground_truth) s =
      s ∪ (recs.map fun x => x.item_id).toFinset := by
  induction recs generalizing s with
  | nil => simp
  | cons r rest ih =>
    rw [List.foldl_cons, ih, List.map_cons, List.toFinset_cons]
    ext a
    simp only [Finset.mem_union, Finset.mem_insert]
    tauto

/-- C39: for a non-empty recommendation list with pairwise distinct item ids,
`evaluate_recommendations` against the set of the item ids of that list gives
Precision@K, Recall@K, NDCG@K and MAP all equal to `1`.  In the loop body of
`benchmark_methods` the ground truth is the set of the item ids of the exhaustive
result, so that for every user whose exhaustive result is non-empty the metrics of
the exhaustive search are all `1`. -/
theorem C39_self_evaluation_is_perfect :
    (∀ (recs : List (RecommendationResult ℝ)) (t : ℝ), recs ≠ [] →
      (recs.map fun x => x.item_id).Nodup →
      (ExhaustiveBenchmark.evaluate_recommendations libm recs
        (recs.map fun x => x.item_id).toFinset t).precision_at_k = 1 ∧
      (ExhaustiveBenchmark.evaluate_recommendations libm recs
        (recs.map fun x => x.item_id).toFinset t).recall_at_k = 1 ∧
      (ExhaustiveBenchmark.evaluate_recommendations libm recs
        (recs.map fun x => x.item_id).toFinset t).ndcg_at_k = 1 ∧
      (ExhaustiveBenchmark.evaluate_recommendations libm recs
        (recs.map fun x => x.item_id).toFinset t).map_score = 1) ∧
    (∀ (sort_scores : List (Int × ℝ) → List (Int × ℝ))
      (sort_distances : List (Int × Int) → List (Int × Int)) (store : UserItemStore ℝ)
      (hasher : SRPHasher ℝ) (top_k user_id exhaustive_time lsh_time : Int),
      is_std_sort (fun a b : Int × ℝ => a.2 > b.2) sort_scores →
      (store.item_vectors.map Prod.fst).Nodup →
      ExhaustiveBenchmark.exhaustive_search libm sort_scores store user_id top_k ≠ [] →
      (ExhaustiveBenchmark.benchmark_user libm sort_scores sort_distances store hasher top_k
        user_id exhaustive_time lsh_time).1.precision_at_k = 1 ∧
      (ExhaustiveBenchmark.benchmark_user libm sort_scores sort_distances store hasher top_k
        user_id exhaustive_time lsh_time).1.recall_at_k = 1 ∧
      (ExhaustiveBenchmark.benchmark_user libm sort_scores sort_distances store hasher top_k
        user_id exhaustive_time lsh_time).1.ndcg_at_k = 1 ∧
      (ExhaustiveBenchmark.benchmark_user libm sort_scores sort_distances store hasher top_k
        user_id exhaustive_time lsh_time).1.map_score = 1) := by
  have evaluate_own := ranking_facts.2.2.2.2.2
  refine ⟨fun recs t hne hnd => evaluate_own recs t hne hnd, ?_⟩
  intro sort_scores sort_distances store hasher top_k user_id exhaustive_time lsh_time hsort
    hnd hne
  have hids := exhaustive_search_ids_nodup libm sort_scores store user_id top_k hsort hnd
  simp only [ExhaustiveBenchmark.benchmark_user, ground_truth_fold, Finset.empty_union]
  exact evaluate_own _ _ hne hids

/-- C39 at the three recommendations of the items `1, 2, 3`, and at the user `1`
of the store `store_par` with `K = 5`, whose exhaustive result has two entries. -/
theorem C39_self_evaluation_is_perfect_witness :
    recs_three ℝ ≠ [] ∧ ((recs_three ℝ).map fun x => x.item_id).Nodup ∧
    (ExhaustiveBenchmark.evaluate_recommendations libm (recs_three ℝ)
      ((recs_three ℝ).map fun x => x.item_id).toFinset 0).ndcg_at_k = 1 ∧
    is_std_sort (fun a b : Int × ℝ => a.2 > b.2) sort_by_score_desc ∧
    ((store_par ℝ).item_vectors.map Prod.fst).Nodup ∧
    ExhaustiveBenchmark.exhaustive_search libm sort_by_score_desc (store_par ℝ) 1 5 ≠ [] ∧
    (ExhaustiveBenchmark.benchmark_user libm sort_by_score_desc sort_by_distance_asc
      (store_par ℝ) hasher_xy 5 1 1000 500).1.map_score = 1 := by
  have h1 : recs_three ℝ ≠ [] := by simp [recs_three]
  have h2 : ((recs_three ℝ).map fun x => x.item_id).Nodup := by simp [recs_three]
  have h3 : ((store_par ℝ).item_vectors.map Prod.fst).Nodup := by simp [store_par]
  have hlen := (exhaustive_search_spec libm sort_by_score_desc (store_par ℝ) 1 5 [1, 0] rfl
    (length_of_is_std_sort is_std_sort_score_desc)).2.2.2
  have h4 : ExhaustiveBenchmark.exhaustive_search libm sort_by_score_desc (store_par ℝ) 1 5
      ≠ [] := by
    intro h
    rw [h] at hlen
    exact absurd hlen (by decide)
  exact ⟨h1, h2, (C39_self_evaluation_is_perfect.1 (recs_three ℝ) 0 h1 h2).2.2.1,
    is_std_sort_score_desc, h3, h4,
    (C39_self_evaluation_is_perfect.2 sort_by_score_desc sort_by_distance_asc (store_par ℝ)
      hasher_xy 5 1 1000 500 is_std_sort_score_desc h3 h4).2.2.2⟩

/-! ## The trainer: the gradients of one triplet -/

theorem foldl_set_range {F : Type} [LinearOrderedField F] (f : Nat → F) (g0 : List F)
    (k : Nat) (hk : k ≤ g0.length) :
    (List.range k).foldl (fun (g : List F) i => g.set i (f i)) g0 =
      (List.range k).map f ++ g0.drop k := by
  induction k with
  | zero => simp
  | succ k ih =>
    have hlt : k < g0.length := hk
    rw [List.range_succ, List.foldl_append, ih (by omega), List.foldl_cons, List.foldl_nil,
      List.set_append, List.length_map, List.length_range, if_neg (lt_irrefl k), Nat.sub_self,
      List.drop_eq_getElem_cons hlt, List.set_cons_zero, List.map_append, List.map_cons,
      List.map_nil, List.append_assoc, List.singleton_append]

theorem foldl_set_replicate {F : Type} [LinearOrderedField F] (f : Nat → F) (d : Nat) :
    (List.range d).foldl (fun (g : List F) i => g.set i (f i)) (List.replicate d 0) =
      (List.range d).map f := by
  rw [foldl_set_range f _ d (by rw [List.length_replicate]), List.drop_of_length_le
    (by rw [List.length_replicate]), List.append_nil]

theorem foldl_set_pair {F : Type} [LinearOrderedField F] (f1 f2 : Nat → F) (l : List Nat)
    (g1 g2 : List F) :
    l.foldl (fun (g : List F × List F) i => (g.1.set i (f1 i), g.2.set i (f2 i))) (g1, g2) =
      (l.foldl (fun (g : List F) i => g.set i (f1 i)) g1,
        l.foldl (fun (g : List F) i => g.set i (f2 i)) g2) := by
  induction l generalizing g1 g2 with
  | nil => rfl
  | cons i l ih => simp only [List.foldl_cons, ih]

theorem foldl_set_triple {F : Type} [LinearOrderedField F] (f1 f2 f3 : Nat → F) (l : List Nat)
    (g1 g2 g3 : List F) :
    l.foldl (fun (g : List F × List F × List F) i =>
        (g.1.set i (f1 i), g.2.1.set i (f2 i), g.2.2.set i (f3 i))) (g1, g2, g3) =
      (l.foldl (fun (g : List F) i => g.set i (f1 i)) g1,
        l.foldl (fun (g : List F) i => g.set i (f2 i)) g2,
        l.foldl (fun (g : List F) i => g.set i (f3 i)) g3) := by
  induction l generalizing g1 g2 g3 with
  | nil => rfl
  | cons i l ih => simp only [List.foldl_cons, ih]

theorem dot_map_range {F : Type} [LinearOrderedField F] (f : Nat → F) (v : List F) :
    dot ((List.range v.length).map f) v =
      ∑ i in Finset.range v.length, f i * v.getD i 0 := by
  rw [dot_eq_sum _ _ (by rw [List.length_map, List.length_range]), List.length_map,
    List.length_range]
  apply Finset.sum_congr rfl
  intro i hi
  rw [getD_map_range f _ i (Finset.mem_range.1 hi)]

theorem dot_replicate_zero {F : Type} [LinearOrderedField F] (v : List F) (d : Nat) :
    dot (List.replicate d (0 : F)) v = 0 := by
  induction d generalizing v with
  | zero => simp [dot]
  | succ d ih =>
    cases v with
    | nil => simp [dot]
    | cons y ys =>
      have ih2 := ih ys
      unfold dot at ih2 ⊢
      rw [List.replicate_succ, List.zipWith_cons_cons, List.sum_cons, ih2]
      ring

theorem cos_sim_comm {F : Type} [LinearOrderedField F] (m : CMath F) (v w : List F) :
    cos_sim m v w = cos_sim m w v := by
  unfold cos_sim
  have hd := dot_comm v w
  unfold dot at hd
  rw [hd, mul_comm]

theorem p_srp_derivatives_eq {F : Type} [LinearOrderedField F] (m : CMath F) (v1 v2 : List F)
    (hlen : v1.length = v2.length) :
    SRPR_Trainer.calculate_p_srp_derivatives m v1 v2 =
      if euclidean_norm m v1 < 1e-12 ∨ euclidean_norm m v2 < 1e-12 then
        (List.replicate v1.length 0, List.replicate v1.length 0)
      else if m.sqrt (1 - clamp (cos_sim m v1 v2) (-1) 1 * clamp (cos_sim m v1 v2) (-1) 1)
          < 1e-12 then
        (List.replicate v1.length 0, List.replicate v1.length 0)
      else (p_srp_gradient m v1 v2, p_srp_gradient m v2 v1) := by
  have h0 : (0.0 : F) = 0 := by norm_num
  have h1 : (1.0 : F) = 1 := by norm_num
  have hc : max (-1 : F) (min 1 (SRPR_Trainer.dot_product v1 v2 /
      (euclidean_norm m v1 * euclidean_norm m v2))) = clamp (cos_sim m v1 v2) (-1) 1 := by
    rw [dot_product_eq_dot]
    rfl
  simp only [SRPR_Trainer.calculate_p_srp_derivatives, norm_eq_euclidean_norm, h0, h1, hc]
  split_ifs with hg hs
  · rfl
  · rfl
  · rw [foldl_set_pair, foldl_set_replicate, foldl_set_replicate]
    unfold p_srp_gradient
    rw [← hlen, cos_sim_comm m v2 v1]
    congr 1
    apply List.map_congr_left
    intro i _
    rw [mul_comm (euclidean_norm m v2) (euclidean_norm m v1)]

theorem p_srp_gradient_length {F : Type} [LinearOrderedField F] (m : CMath F) (v w : List F) :
    (p_srp_gradient m v w).length = v.length := by
  unfold p_srp_gradient
  rw [List.length_map, List.length_range]

theorem compute_gradients_eq {F : Type} [LinearOrderedField F] (m : CMath F)
    (store : UserItemStore F) (t : Triplet) (params : TrainingParams F) (xu yi yj : List F)
    (hx : store.get_user_vector t.user_id = .ok xu)
    (hi : store.get_item_vector t.preferred_item_id = .ok yi)
    (hj : store.get_item_vector t.less_preferred_item_id = .ok yj) :
    ∃ cf dgi dgj : F,
      SRPR_Trainer.compute_gradients m store t params = .ok
        (List.replicate xu.length 0, List.replicate xu.length 0, List.replicate xu.length 0) ∨
      SRPR_Trainer.compute_gradients m store t params = .ok
        ((List.range xu.length).map (fun k => cf *
            (dgi * (SRPR_Trainer.calculate_p_srp_derivatives m xu yi).1.getD k 0 +
              dgj * (SRPR_Trainer.calculate_p_srp_derivatives m xu yj).1.getD k 0)),
          (List.range xu.length).map (fun k => cf * dgi *
            (SRPR_Trainer.calculate_p_srp_derivatives m xu yi).2.getD k 0),
          (List.range xu.length).map (fun k => cf * dgj *
            (SRPR_Trainer.calculate_p_srp_derivatives m xu yj).2.getD k 0)) := by
  have h0 : (0.0 : F) = 0 := by norm_num
  refine ⟨SRPR_Trainer.phi_prime m (m.sqrt (params.b_lsh_length : F) *
      SRPR_Trainer.calculate_gamma m (SRPR_Trainer.calculate_p_srp m xu yi)
        (SRPR_Trainer.calculate_p_srp m xu yj) params.b_lsh_length) /
      SRPR_Trainer.phi m (m.sqrt (params.b_lsh_length : F) *
        SRPR_Trainer.calculate_gamma m (SRPR_Trainer.calculate_p_srp m xu yi)
          (SRPR_Trainer.calculate_p_srp m xu yj) params.b_lsh_length) *
      m.sqrt (params.b_lsh_length : F),
    (SRPR_Trainer.calculate_gamma_derivatives m (SRPR_Trainer.calculate_p_srp m xu yi)
      (SRPR_Trainer.calculate_p_srp m xu yj) params.b_lsh_length).1,
    (SRPR_Trainer.calculate_gamma_derivatives m (SRPR_Trainer.calculate_p_srp m xu yi)
      (SRPR_Trainer.calculate_p_srp m xu yj) params.b_lsh_length).2, ?_⟩
  simp only [SRPR_Trainer.compute_gradients, hx, hi, hj, h0]
  split_ifs with hs
  · exact Or.inl rfl
  · right
    rw [foldl_set_triple, foldl_set_replicate, foldl_set_replicate, foldl_set_replicate]

theorem dot_lincomb_range {F : Type} [LinearOrderedField F] (cf a b : F) (A B x : List F)
    (hA : A.length = x.length) (hB : B.length = x.length) :
    dot ((List.range x.length).map fun k => cf * (a * A.getD k 0 + b * B.getD k 0)) x =
      cf * (a * dot A x + b * dot B x) := by
  rw [dot_map_range, dot_eq_sum A x hA, dot_eq_sum B x hB, hA, hB, Finset.mul_sum,
    Finset.mul_sum, ← Finset.sum_add_distrib, Finset.mul_sum]
  apply Finset.sum_congr rfl
  intro i _
  ring

theorem dot_scaled_range {F : Type} [LinearOrderedField F] (cf : F) (A x : List F)
    (hA : A.length = x.length) (n : Nat) (hn : n = x.length) :
    dot ((List.range n).map fun k => cf * A.getD k 0) x = cf * dot A x := by
  subst hn
  rw [dot_map_range, dot_eq_sum A x hA, hA, Finset.mul_sum]
  apply Finset.sum_congr rfl
  intro i _
  ring

/-- The gradients of the trainer: orthogonality to the differentiated vector, and the regular and parallel cases. -/
theorem gradient_facts :
    -- compute_gradients_orthogonal
    (∀ (store : UserItemStore ℝ) (t : Triplet) (params : TrainingParams ℝ)
          (xu yi yj : List ℝ),
        store.get_user_vector t.user_id = .ok xu →
        store.get_item_vector t.preferred_item_id = .ok yi →
        store.get_item_vector t.less_preferred_item_id = .ok yj →
        yi.length = xu.length →
        yj.length = xu.length →
        ∃ grad_xu grad_yi grad_yj,
          SRPR_Trainer.compute_gradients libm store t params = .ok (grad_xu, grad_yi, grad_yj) ∧
          grad_xu.length = xu.length ∧ grad_yi.length = yi.length ∧ grad_yj.length = yj.length ∧
          dot grad_xu xu = 0 ∧ dot grad_yi yi = 0 ∧ dot grad_yj yj = 0) ∧
    -- p_srp_derivatives_regular
    (∀ (v1 v2 : List ℝ),
        v1.length = v2.length →
        1e-12 ≤ euclidean_norm libm v1 →
        1e-12 ≤ euclidean_norm libm v2 →
        1e-12 ≤ Real.sqrt (1 - clamp (cos_sim libm v1 v2) (-1) 1 * clamp (cos_sim libm v1
          v2) (-1) 1) →
        SRPR_Trainer.calculate_p_srp_derivatives libm v1 v2 =
          (p_srp_gradient libm v1 v2, p_srp_gradient libm v2 v1)) := by
  have norm_mul_self := norm_cosine_facts.2.2.2.1
  have cos_sim_abs_le_one := norm_cosine_facts.2.2.2.2.1
  have p_srp_gradient_orthogonal : ∀ (v w : List ℝ),
        v.length = w.length →
        0 < euclidean_norm libm v →
        0 < euclidean_norm libm w →
        dot (p_srp_gradient libm v w) v = 0 := by
    intro v w hlen hv hw
    obtain ⟨hc1, hc2⟩ := cos_sim_abs_le_one v w hlen hv hw
    have hcl : clamp (cos_sim libm v w) (-1) 1 = cos_sim libm v w := clamp_of_mem _ _ _ hc1 hc2
    have hsum1 : ∑ i in Finset.range v.length, w.getD i 0 * v.getD i 0 = dot w v := by
      rw [dot_eq_sum w v hlen.symm, hlen]
    have hsum2 : ∑ i in Finset.range v.length, v.getD i 0 * v.getD i 0 = dot v v :=
      (dot_eq_sum v v rfl).symm
    have hcos : cos_sim libm v w = dot v w / (euclidean_norm libm v * euclidean_norm libm w) :=
      rfl
    unfold p_srp_gradient
    rw [dot_map_range, hcl]
    have hrew : ∀ i ∈ Finset.range v.length,
        1 / (libm.M_PI * libm.sqrt (1 - cos_sim libm v w * cos_sim libm v w)) *
          (w.getD i 0 / (euclidean_norm libm v * euclidean_norm libm w) -
            cos_sim libm v w * v.getD i 0 / (euclidean_norm libm v * euclidean_norm libm v)) *
          v.getD i 0 =
        1 / (libm.M_PI * libm.sqrt (1 - cos_sim libm v w * cos_sim libm v w)) /
            (euclidean_norm libm v * euclidean_norm libm w) * (w.getD i 0 * v.getD i 0) -
          1 / (libm.M_PI * libm.sqrt (1 - cos_sim libm v w * cos_sim libm v w)) *
            cos_sim libm v w / (euclidean_norm libm v * euclidean_norm libm v) *
            (v.getD i 0 * v.getD i 0) := by
      intro i _
      ring
    have hn : euclidean_norm libm v * euclidean_norm libm v ≠ 0 := (mul_pos hv hv).ne'
    rw [Finset.sum_congr rfl hrew, Finset.sum_sub_distrib, ← Finset.mul_sum, ← Finset.mul_sum,
      hsum1, hsum2, ← norm_mul_self v, div_mul_cancel₀ _ hn, dot_comm w v]
    generalize 1 / (libm.M_PI * libm.sqrt (1 - cos_sim libm v w * cos_sim libm v w)) = dp
    rw [hcos]
    ring
  have p_srp_derivatives_orthogonal : ∀ (v1 v2 : List ℝ),
        v1.length = v2.length →
        (SRPR_Trainer.calculate_p_srp_derivatives libm v1 v2).1.length = v1.length ∧
        (SRPR_Trainer.calculate_p_srp_derivatives libm v1 v2).2.length = v1.length ∧
        dot (SRPR_Trainer.calculate_p_srp_derivatives libm v1 v2).1 v1 = 0 ∧
        dot (SRPR_Trainer.calculate_p_srp_derivatives libm v1 v2).2 v2 = 0 := by
    intro v1 v2 hlen
    rw [p_srp_derivatives_eq libm v1 v2 hlen]
    split_ifs with hg hs
    · exact ⟨List.length_replicate _ _, List.length_replicate _ _, dot_replicate_zero _ _,
        dot_replicate_zero _ _⟩
    · exact ⟨List.length_replicate _ _, List.length_replicate _ _, dot_replicate_zero _ _,
        dot_replicate_zero _ _⟩
    · rw [not_or, not_lt, not_lt] at hg
      have hv1 : 0 < euclidean_norm libm v1 := lt_of_lt_of_le (by norm_num) hg.1
      have hv2 : 0 < euclidean_norm libm v2 := lt_of_lt_of_le (by norm_num) hg.2
      exact ⟨p_srp_gradient_length _ _ _, by rw [p_srp_gradient_length, hlen],
        p_srp_gradient_orthogonal v1 v2 hlen hv1 hv2,
        p_srp_gradient_orthogonal v2 v1 hlen.symm hv2 hv1⟩
  have compute_gradients_orthogonal : ∀ (store : UserItemStore ℝ) (t : Triplet) (params : TrainingParams ℝ)
          (xu yi yj : List ℝ),
        store.get_user_vector t.user_id = .ok xu →
        store.get_item_vector t.preferred_item_id = .ok yi →
        store.get_item_vector t.less_preferred_item_id = .ok yj →
        yi.length = xu.length →
        yj.length = xu.length →
        ∃ grad_xu grad_yi grad_yj,
          SRPR_Trainer.compute_gradients libm store t params = .ok (grad_xu, grad_yi, grad_yj) ∧
          grad_xu.length = xu.length ∧ grad_yi.length = yi.length ∧ grad_yj.length = yj.length ∧
          dot grad_xu xu = 0 ∧ dot grad_yi yi = 0 ∧ dot grad_yj yj = 0 := by
    intro store t params xu yi yj hx hi hj hyi hyj
    obtain ⟨cf, dgi, dgj, h | h⟩ := compute_gradients_eq libm store t params xu yi yj hx hi hj
    · exact ⟨_, _, _, h, List.length_replicate _ _, by rw [List.length_replicate, hyi],
        by rw [List.length_replicate, hyj], dot_replicate_zero _ _, dot_replicate_zero _ _,
        dot_replicate_zero _ _⟩
    · obtain ⟨a1, a2, a3, a4⟩ := p_srp_derivatives_orthogonal xu yi hyi.symm
      obtain ⟨b1, b2, b3, b4⟩ := p_srp_derivatives_orthogonal xu yj hyj.symm
      refine ⟨_, _, _, h, by rw [List.length_map, List.length_range],
        by rw [List.length_map, List.length_range, hyi],
        by rw [List.length_map, List.length_range, hyj], ?_, ?_, ?_⟩
      · rw [dot_lincomb_range cf dgi dgj _ _ xu a1 b1, a3, b3]
        ring
      · rw [dot_scaled_range (cf * dgi) _ yi (a2.trans hyi.symm) _ hyi.symm, a4, mul_zero]
      · rw [dot_scaled_range (cf * dgj) _ yj (b2.trans hyj.symm) _ hyj.symm, b4, mul_zero]
  have p_srp_derivatives_regular : ∀ (v1 v2 : List ℝ),
        v1.length = v2.length →
        1e-12 ≤ euclidean_norm libm v1 →
        1e-12 ≤ euclidean_norm libm v2 →
        1e-12 ≤ Real.sqrt (1 - clamp (cos_sim libm v1 v2) (-1) 1 * clamp (cos_sim libm v1
          v2) (-1) 1) →
        SRPR_Trainer.calculate_p_srp_derivatives libm v1 v2 =
          (p_srp_gradient libm v1 v2, p_srp_gradient libm v2 v1) := by
    intro v1 v2 hlen h1 h2 hsin
    rw [p_srp_derivatives_eq libm v1 v2 hlen,
      if_neg (not_or.mpr ⟨not_lt.mpr h1, not_lt.mpr h2⟩)]
    exact if_neg (not_lt.mpr hsin)
  exact ⟨compute_gradients_orthogonal, p_srp_derivatives_regular⟩

theorem dot_step_expand {F : Type} [LinearOrderedField F] (lr : F) (v g : List F)
    (h : g.length = v.length) :
    dot (List.zipWith (fun x y => x + lr * y) v g) (List.zipWith (fun x y => x + lr * y) v g) =
      dot v v + 2 * lr * dot g v + lr ^ 2 * dot g g := by
  induction v generalizing g with
  | nil =>
    have hg : g = [] := List.length_eq_zero.1 h
    subst hg
    simp [dot]
  | cons x xs ih =>
    cases g with
    | nil => simp at h
    | cons y ys =>
      have h2 : ys.length = xs.length := by simpa using h
      have ih2 := ih ys h2
      unfold dot at ih2 ⊢
      simp only [List.zipWith_cons_cons, List.sum_cons, ih2]
      ring

/-- C37, amended: with the quotients, the square roots and the functions of the
library evaluated exactly (on the real `libm`), for a triplet whose three vectors
are in the store and have one dimension, `compute_gradients` returns three
gradients, each orthogonal to the vector it updates; hence for every learning rate
the squared norm of `v + lr * g` is `|v|² + lr² * |g|²` for each of the three
vectors, which is at least `|v|²`. -/
theorem C37_gradients_orthogonal (store : UserItemStore ℝ) (t : Triplet)
    (params : TrainingParams ℝ) (xu yi yj : List ℝ)
    (hx : store.get_user_vector t.user_id = .ok xu)
    (hi : store.get_item_vector t.preferred_item_id = .ok yi)
    (hj : store.get_item_vector t.less_preferred_item_id = .ok yj)
    (hyi : yi.length = xu.length) (hyj : yj.length = xu.length) :
    ∃ grad_xu grad_yi grad_yj,
      SRPR_Trainer.compute_gradients libm store t params = .ok (grad_xu, grad_yi, grad_yj) ∧
      dot grad_xu xu = 0 ∧ dot grad_yi yi = 0 ∧ dot grad_yj yj = 0 ∧
      ∀ lr : ℝ,
        dot (List.zipWith (fun x y => x + lr * y) xu grad_xu)
            (List.zipWith (fun x y => x + lr * y) xu grad_xu) =
          dot xu xu + lr ^ 2 * dot grad_xu grad_xu ∧
        dot (List.zipWith (fun x y => x + lr * y) yi grad_yi)
            (List.zipWith (fun x y => x + lr * y) yi grad_yi) =
          dot yi yi + lr ^ 2 * dot grad_yi grad_yi ∧
        dot (List.zipWith (fun x y => x + lr * y) yj grad_yj)
            (List.zipWith (fun x y => x + lr * y) yj grad_yj) =
          dot yj yj + lr ^ 2 * dot grad_yj grad_yj ∧
        dot xu xu ≤ dot (List.zipWith (fun x y => x + lr * y) xu grad_xu)
            (List.zipWith (fun x y => x + lr * y) xu grad_xu) ∧
        dot yi yi ≤ dot (List.zipWith (fun x y => x + lr * y) yi grad_yi)
            (List.zipWith (fun x y => x + lr * y) yi grad_yi) ∧
        dot yj yj ≤ dot (List.zipWith (fun x y => x + lr * y) yj grad_yj)
            (List.zipWith (fun x y => x + lr * y) yj grad_yj) := by
  have compute_gradients_orthogonal := gradient_facts.1
  obtain ⟨gx, gi, gj, h, l1, l2, l3, o1, o2, o3⟩ :=
    compute_gradients_orthogonal store t params xu yi yj hx hi hj hyi hyj
  refine ⟨gx, gi, gj, h, o1, o2, o3, fun lr => ?_⟩
  have e1 := dot_step_expand lr xu gx l1
  have e2 := dot_step_expand lr yi gi l2
  have e3 := dot_step_expand lr yj gj l3
  rw [o1, mul_zero, add_zero] at e1
  rw [o2, mul_zero, add_zero] at e2
  rw [o3, mul_zero, add_zero] at e3
  have n1 := mul_nonneg (sq_nonneg lr) (dot_self_nonneg gx)
  have n2 := mul_nonneg (sq_nonneg lr) (dot_self_nonneg gi)
  have n3 := mul_nonneg (sq_nonneg lr) (dot_self_nonneg gj)
  exact ⟨e1, e2, e3, by rw [e1]; linarith, by rw [e2]; linarith, by rw [e3]; linarith⟩

/-- C37 in exact arithmetic at the store `store_par`, the triplet `(1, 10, 20)` and
the default parameters. -/
theorem C37_gradients_orthogonal_witness :
    (store_par ℝ).get_user_vector 1 = .ok [1, 0] ∧
    (store_par ℝ).get_item_vector 10 = .ok [1, 0] ∧
    (store_par ℝ).get_item_vector 20 = .ok [0, 1] ∧
    ∃ grad_xu grad_yi grad_yj,
      SRPR_Trainer.compute_gradients libm (store_par ℝ) ⟨1, 10, 20⟩ (default_params ℝ) =
        .ok (grad_xu, grad_yi, grad_yj) ∧
      dot grad_xu [1, 0] = 0 ∧ dot grad_yi [1, 0] = 0 ∧ dot grad_yj [0, 1] = 0 := by
  obtain ⟨gx, gi, gj, h, o1, o2, o3, -⟩ := C37_gradients_orthogonal (store_par ℝ) ⟨1, 10, 20⟩
    (default_params ℝ) [1, 0] [1, 0] [0, 1] rfl rfl rfl rfl rfl
  exact ⟨rfl, rfl, rfl, gx, gi, gj, h, o1, o2, o3⟩

/-! ## The trainer: the derivatives of the collision probability -/

/-- The collision probability at a vector whose norm is exactly `1e-12`. -/
theorem boundary_facts :
    -- norm_boundary_x
    (euclidean_norm libm [1e-12, 0] = 1e-12) ∧
    -- norm_diag
    (euclidean_norm libm [1, 1] = Real.sqrt 2) ∧
    -- cos_sim_boundary
    (cos_sim libm [1e-12, 0] [1, 1] = 1 / Real.sqrt 2) ∧
    -- p_srp_not_continuous_at_boundary
    (¬ ContinuousAt (fun t : ℝ => SRPR_Trainer.calculate_p_srp libm [t, 0] [1, 1]) 1e-12) := by
  have norm_boundary_x : euclidean_norm libm [1e-12, 0] = 1e-12 := by
    have h : euclidean_norm libm [1e-12, 0] = Real.sqrt (1e-12 * 1e-12) := by
      simp [euclidean_norm, libm]
    rw [h]
    exact Real.sqrt_mul_self (by norm_num)
  have norm_diag : euclidean_norm libm [1, 1] = Real.sqrt 2 := by
    have h : euclidean_norm libm [1, 1] = Real.sqrt (1 + 1) := by
      simp [euclidean_norm, libm]
    rw [h]
    norm_num
  have cos_sim_boundary : cos_sim libm [1e-12, 0] [1, 1] = 1 / Real.sqrt 2 := by
    have hd : cos_sim libm [1e-12, 0] [1, 1] =
        dot [1e-12, 0] [1, 1] / (euclidean_norm libm [1e-12, 0] * euclidean_norm libm [1, 1]) :=
      rfl
    have hdot : dot ([1e-12, 0] : List ℝ) [1, 1] = 1e-12 := by simp [dot]
    have hs2 : Real.sqrt 2 ≠ 0 := (Real.sqrt_pos.mpr two_pos).ne'
    rw [hd, hdot, norm_boundary_x, norm_diag]
    field_simp
  have p_srp_below_boundary : ∀ (t : ℝ),
        0 < t →
        t < 1e-12 →
        SRPR_Trainer.calculate_p_srp libm [t, 0] [1, 1] = 1 / 2 := by
    intro t h0 h1
    have hn : euclidean_norm libm [t, 0] = t := by
      have h : euclidean_norm libm [t, 0] = Real.sqrt (t * t) := by
        simp [euclidean_norm, libm]
      rw [h]
      exact Real.sqrt_mul_self h0.le
    rw [calculate_p_srp_eq, if_pos (Or.inl (by rw [hn]; exact h1))]
    norm_num
  have p_srp_at_boundary : 1 / 2 < SRPR_Trainer.calculate_p_srp libm [1e-12, 0] [1, 1] := by
    have hs2 : 0 < Real.sqrt 2 := Real.sqrt_pos.mpr two_pos
    have h1s : (1e-12 : ℝ) ≤ Real.sqrt 2 := by
      apply Real.le_sqrt_of_sq_le
      norm_num
    rw [calculate_p_srp_eq, if_neg (by
      rw [norm_boundary_x, norm_diag, not_or, not_lt, not_lt]
      exact ⟨le_refl _, h1s⟩), cos_sim_boundary]
    have hcpos : 0 < clamp (1 / Real.sqrt 2) (-1) 1 := by
      unfold clamp
      exact lt_max_of_lt_right (lt_min one_pos (one_div_pos.mpr hs2))
    have hacos := Real.arccos_lt_pi_div_two.2 hcpos
    have hpi := Real.pi_pos
    show 1 / 2 < 1 - Real.arccos (clamp (1 / Real.sqrt 2) (-1) 1) / Real.pi
    have : Real.arccos (clamp (1 / Real.sqrt 2) (-1) 1) / Real.pi < 1 / 2 := by
      rw [div_lt_iff₀ hpi]
      linarith
    linarith
  have p_srp_not_continuous_at_boundary :
      ¬ ContinuousAt (fun t : ℝ => SRPR_Trainer.calculate_p_srp libm [t, 0] [1, 1]) 1e-12 := by
    intro hc
    have hev := hc.eventually (lt_mem_nhds p_srp_at_boundary)
    obtain ⟨ε, hε, hball⟩ := Metric.eventually_nhds_iff.1 hev
    have hpos : (0 : ℝ) < 1e-12 := by norm_num
    have hm : 0 < min (ε / 2) (1e-12 / 2 : ℝ) := lt_min (by linarith) (by linarith)
    have hm1 : min (ε / 2) (1e-12 / 2 : ℝ) ≤ ε / 2 := min_le_left _ _
    have hm2 : min (ε / 2) (1e-12 / 2 : ℝ) ≤ 1e-12 / 2 := min_le_right _ _
    have hdist : dist (1e-12 - min (ε / 2) (1e-12 / 2 : ℝ)) 1e-12 < ε := by
      rw [Real.dist_eq, sub_sub_cancel_left, abs_neg, abs_of_pos hm]
      linarith
    have hval := hball hdist
    rw [p_srp_below_boundary _ (by linarith) (by linarith)] at hval
    exact lt_irrefl _ hval
  exact ⟨norm_boundary_x, norm_diag, cos_sim_boundary, p_srp_not_continuous_at_boundary⟩

/-- C31, as stated, fails at a norm of exactly `1e-12`: for `v1 = (1e-12, 0)` and
`v2 = (1, 1)` the lengths agree, both norms are at least `1e-12` and the sine is at
least `1e-12`, but `calculate_p_srp` is `1/2` for every shorter first vector
`(t, 0)` with `0 < t < 1e-12` and greater than `1/2` at `v1`; it is not continuous
in the first coordinate of `v1`, so the returned value is not its derivative. -/
theorem C31_counterexample :
    ([1e-12, 0] : List ℝ).length = ([1, 1] : List ℝ).length ∧
    (1e-12 : ℝ) ≤ euclidean_norm libm [1e-12, 0] ∧
    (1e-12 : ℝ) ≤ euclidean_norm libm [1, 1] ∧
    (1e-12 : ℝ) ≤ Real.sqrt (1 - clamp (cos_sim libm [1e-12, 0] [1, 1]) (-1) 1 *
      clamp (cos_sim libm [1e-12, 0] [1, 1]) (-1) 1) ∧
    ¬ HasDerivAt (fun t => SRPR_Trainer.calculate_p_srp libm (([1e-12, 0] : List ℝ).set 0 t)
        [1, 1])
      ((SRPR_Trainer.calculate_p_srp_derivatives libm [1e-12, 0] [1, 1]).1.getD 0 0)
      (([1e-12, 0] : List ℝ).getD 0 0) := by
  have norm_boundary_x := boundary_facts.1
  have norm_diag := boundary_facts.2.1
  have cos_sim_boundary := boundary_facts.2.2.1
  have p_srp_not_continuous_at_boundary := boundary_facts.2.2.2
  have hs2 : 0 < Real.sqrt 2 := Real.sqrt_pos.mpr two_pos
  have h1s : (1e-12 : ℝ) ≤ Real.sqrt 2 := by
    apply Real.le_sqrt_of_sq_le
    norm_num
  have hs1 : (1 : ℝ) ≤ Real.sqrt 2 := by
    rw [Real.one_le_sqrt]
    norm_num
  refine ⟨rfl, by rw [norm_boundary_x], by rw [norm_diag]; exact h1s, ?_, ?_⟩
  · rw [cos_sim_boundary]
    have hcl : clamp (1 / Real.sqrt 2) (-1) 1 = 1 / Real.sqrt 2 :=
      clamp_of_mem _ _ _ (by linarith [one_div_pos.mpr hs2])
        (by rw [div_le_one hs2]; exact hs1)
    have hsq : 1 / Real.sqrt 2 * (1 / Real.sqrt 2) = 1 / 2 := by
      rw [div_mul_div_comm, one_mul, Real.mul_self_sqrt (by norm_num)]
    rw [hcl, hsq]
    apply Real.le_sqrt_of_sq_le
    norm_num
  · intro h
    exact p_srp_not_continuous_at_boundary h.continuousAt

/-- C31, amended: for real vectors `v1`, `v2` of one length with norms at least
`1e-12` and sine at least `1e-12`, the components of the first vector returned by
`calculate_p_srp_derivatives` are the partial derivatives of `calculate_p_srp` in
the coordinates of `v1` when the norm of `v1` is greater than `1e-12`, and the
components of the second vector are those in the coordinates of `v2` when the norm
of `v2` is greater than `1e-12`.  When a norm is below `1e-12` or the sine
`sqrt(1 - cos^2)` that the function computes is below `1e-12`, both returned
vectors are all-zero, of the dimension of `v1`. -/
theorem C31_p_srp_derivatives_are_partials (v1 v2 : List ℝ) (hlen : v1.length = v2.length) :
    (1e-12 ≤ euclidean_norm libm v1 → 1e-12 ≤ euclidean_norm libm v2 →
      1e-12 ≤ Real.sqrt (1 - clamp (cos_sim libm v1 v2) (-1) 1 *
        clamp (cos_sim libm v1 v2) (-1) 1) →
      (1e-12 < euclidean_norm libm v1 → ∀ i, i < v1.length →
        HasDerivAt (fun t => SRPR_Trainer.calculate_p_srp libm (v1.set i t) v2)
          ((SRPR_Trainer.calculate_p_srp_derivatives libm v1 v2).1.getD i 0)
          (v1.getD i 0)) ∧
      (1e-12 < euclidean_norm libm v2 → ∀ i, i < v2.length →
        HasDerivAt (fun t => SRPR_Trainer.calculate_p_srp libm v1 (v2.set i t))
          ((SRPR_Trainer.calculate_p_srp_derivatives libm v1 v2).2.getD i 0)
          (v2.getD i 0))) ∧
    ((euclidean_norm libm v1 < 1e-12 ∨ euclidean_norm libm v2 < 1e-12 ∨
        Real.sqrt (1 - clamp (cos_sim libm v1 v2) (-1) 1 *
          clamp (cos_sim libm v1 v2) (-1) 1) < 1e-12) →
      SRPR_Trainer.calculate_p_srp_derivatives libm v1 v2 =
        (List.replicate v1.length 0, List.replicate v1.length 0)) := by
  have p_srp_symm := norm_cosine_facts.2.1
  have p_srp_hasDerivAt := derivative_facts.2.2
  have p_srp_derivatives_regular := gradient_facts.2
  refine ⟨fun h1 h2 hsin => ?_, fun hdeg => ?_⟩
  · rw [p_srp_derivatives_regular v1 v2 hlen h1 h2 hsin]
    constructor
    · intro hv i hi
      exact p_srp_hasDerivAt v1 v2 i hi hlen hv h2 hsin
    · intro hv i hi
      have hfun : (fun t => SRPR_Trainer.calculate_p_srp libm v1 (v2.set i t)) =
          (fun t => SRPR_Trainer.calculate_p_srp libm (v2.set i t) v1) := by
        funext t
        exact p_srp_symm _ _
      rw [hfun]
      exact p_srp_hasDerivAt v2 v1 i hi hlen.symm hv h1 (by rw [cos_sim_comm libm v2 v1]; exact hsin)
  · rw [p_srp_derivatives_eq libm v1 v2 hlen]
    split_ifs with hg hs
    · rfl
    · rfl
    · exfalso
      rcases hdeg with h | h | h
      · exact hg (Or.inl h)
      · exact hg (Or.inr h)
      · exact hs h

/-- C31 amended, at `v1 = (1, 0)` and `v2 = (0, 1)`: both norms are `1`, the
cosine is `0` and the sine is `1`. -/
theorem C31_p_srp_derivatives_are_partials_witness :
    ([1, 0] : List ℝ).length = ([0, 1] : List ℝ).length ∧
    (1e-12 : ℝ) < euclidean_norm libm [1, 0] ∧ (1e-12 : ℝ) < euclidean_norm libm [0, 1] ∧
    (1e-12 : ℝ) ≤ Real.sqrt (1 - clamp (cos_sim libm [1, 0] [0, 1]) (-1) 1 *
      clamp (cos_sim libm [1, 0] [0, 1]) (-1) 1) ∧
    HasDerivAt (fun t => SRPR_Trainer.calculate_p_srp libm (([1, 0] : List ℝ).set 1 t) [0, 1])
      ((SRPR_Trainer.calculate_p_srp_derivatives libm [1, 0] [0, 1]).1.getD 1 0)
      (([1, 0] : List ℝ).getD 1 0) ∧
    HasDerivAt (fun t => SRPR_Trainer.calculate_p_srp libm [1, 0] (([0, 1] : List ℝ).set 0 t))
      ((SRPR_Trainer.calculate_p_srp_derivatives libm [1, 0] [0, 1]).2.getD 0 0)
      (([0, 1] : List ℝ).getD 0 0) := by
  have euclidean_norm_unit_x := unit_vector_facts.2.1
  have euclidean_norm_unit_y := unit_vector_facts.2.2.1
  have h1 : (1e-12 : ℝ) < euclidean_norm libm [1, 0] := by
    rw [euclidean_norm_unit_x]
    norm_num
  have h2 : (1e-12 : ℝ) < euclidean_norm libm [0, 1] := by
    rw [euclidean_norm_unit_y]
    norm_num
  have hcos : cos_sim libm [1, 0] [0, 1] = 0 := by
    simp [cos_sim]
  have hsin : (1e-12 : ℝ) ≤ Real.sqrt (1 - clamp (cos_sim libm [1, 0] [0, 1]) (-1) 1 *
      clamp (cos_sim libm [1, 0] [0, 1]) (-1) 1) := by
    have hcl : clamp (0 : ℝ) (-1) 1 = 0 := by simp [clamp]
    rw [hcos, hcl, mul_zero, sub_zero, Real.sqrt_one]
    norm_num
  obtain ⟨ha, hb⟩ := (C31_p_srp_derivatives_are_partials [1, 0] [0, 1] rfl).1 h1.le h2.le hsin
  exact ⟨rfl, h1, h2, hsin, ha h1 1 (by decide), hb h2 0 (by decide)⟩

/-! ## Rounding to `double` -/

/-- Rounding to `double`: the numbers that rounding leaves unchanged, overflow, the
symmetry under negation, and the scaling by a power of two in the normal range. -/
theorem rounding_facts :
    -- round_zero
    (Double.round (0 : ℚ) = Double.fin 0) ∧
    -- round_neg
    (∀ (x : ℚ),
        Double.round (-x) = Double.neg (Double.round x)) ∧
    -- round_dyadic
    (∀ (m : ℤ) (k : ℤ),
        |m| < 2 ^ 53 →
        -1074 ≤ k →
        |(m : ℚ)| * 2 ^ k < 2 ^ 1024 →
        Double.round ((m : ℚ) * 2 ^ k) = Double.fin ((m : ℚ) * 2 ^ k)) ∧
    -- round_int
    (∀ (q : ℚ) (n : ℤ),
        q = n →
        |n| < 2 ^ 53 →
        Double.round q = Double.fin q) ∧
    -- round_overflow
    (∀ (x : ℚ),
        (2 : ℚ) ^ 1024 ≤ x →
        Double.round x = Double.pinf) ∧
    -- round_neg_overflow
    (∀ (x : ℚ),
        x ≤ -(2 : ℚ) ^ 1024 →
        Double.round x = Double.ninf) ∧
    -- double_lit_zero
    ((0.0 : Double) = Double.fin 0) ∧
    -- double_lit_one
    ((1.0 : Double) = Double.fin 1) ∧
    -- double_fin_mul
    (∀ (x y : ℚ),
        Double.fin x * Double.fin y = Double.round (x * y)) ∧
    -- double_fin_add
    (∀ (x y : ℚ),
        Double.fin x + Double.fin y = Double.round (x + y)) ∧
    -- double_neg_mul
    (∀ (a b : Double),
        (-a) * b = -(a * b)) ∧
    -- double_neg_add
    (∀ (a b : Double),
        (-a) + (-b) = -(a + b)) ∧
    -- double_neg_lit_zero
    (-(0.0 : Double) = 0.0) ∧
    -- double_fin_ge_zero
    (∀ (q : ℚ),
        (Double.fin q ≥ (0.0 : Double)) ↔ 0 ≤ q) ∧
    -- round_scale
    (∀ (x : ℚ) (k : ℤ) (r s : ℚ),
        x = 0 ∨ (2 : ℚ) ^ (-1022 : ℤ) ≤ |x| →
        x * 2 ^ k = 0 ∨ (2 : ℚ) ^ (-1022 : ℤ) ≤ |x * 2 ^ k| →
        Double.round x = Double.fin r →
        Double.round (x * 2 ^ k) = Double.fin s →
        s = r * 2 ^ k) ∧
    -- round_nonneg
    (∀ (x : ℚ),
        0 ≤ x →
        Double.round x ≥ (0.0 : Double)) ∧
    -- in_range_fin
    (∀ (x : ℚ),
        Double.in_range x →
        ∃ r, Double.round x = Double.fin r) ∧
    -- in_range_int
    (∀ (q : ℚ) (n : ℤ),
        q = n →
        |n| < 2 ^ 53 →
        Double.in_range q) ∧
    -- double_pinf_not_lt
    (∀ (a : Double),
        ¬ (Double.pinf < a)) := by
  have rne_intCast : ∀ (n : ℤ),
        Double.rne (n : ℚ) = n := by
    intro n
    simp [Double.rne]
  have floor_le_rne : ∀ (x : ℚ),
        ⌊x⌋ ≤ Double.rne x := by
    intro x
    unfold Double.rne
    split_ifs <;> omega
  have zpow_split : ∀ (e : ℤ) (p : ℕ),
        ((2 : ℤ) ^ p : ℤ) * (2 : ℚ) ^ (e - p) = 2 ^ e := by
    intro e p
    have h : ((((2 : ℤ) ^ p : ℤ)) : ℚ) = (2 : ℚ) ^ (p : ℤ) := by
      rw [zpow_natCast]
      norm_cast
    rw [h, ← zpow_add₀ (two_ne_zero)]
    congr 1
    ring
  have mul_zpow_split : ∀ (m : ℤ) (e : ℤ) (j : ℕ),
        ((m * 2 ^ j : ℤ) : ℚ) * (2 : ℚ) ^ e = (m : ℚ) * 2 ^ (e + j) := by
    intro m e j
    rw [zpow_add₀ (two_ne_zero), zpow_natCast]
    push_cast
    ring
  -- A number with at most 53 significant bits, an exponent of at least `-1074` and
  -- a magnitude below `2 ^ 1024` is a `double`: rounding leaves it unchanged.
  have round_pos_exact : ∀ (m : ℕ) (k : ℤ),
        0 < m →
        m < 2 ^ 53 →
        -1074 ≤ k →
        (m : ℚ) * 2 ^ k < 2 ^ 1024 →
        Double.round_pos ((m : ℚ) * 2 ^ k) = Double.fin ((m : ℚ) * 2 ^ k) := by
    intro m k hm0 hm hk hlt
    have hlog : Int.log 2 ((m : ℚ) * 2 ^ k) ≤ 52 + k := by
      have hpos : (0 : ℚ) < (m : ℚ) * 2 ^ k := by positivity
      have h1 : (m : ℚ) * 2 ^ k < (2 : ℚ) ^ (53 + k) := by
        rw [zpow_add₀ (by norm_num : (2 : ℚ) ≠ 0)]
        apply mul_lt_mul_of_pos_right _ (by positivity)
        exact_mod_cast hm
      have h2 := (Int.lt_zpow_iff_log_lt (b := 2) (by norm_num) hpos).1 (by exact_mod_cast h1)
      omega
    have he : max (Int.log 2 ((m : ℚ) * 2 ^ k)) (-1022) ≤ 52 + k := max_le hlog (by omega)
    unfold Double.round_pos
    simp only
    generalize max (Int.log 2 ((m : ℚ) * 2 ^ k)) (-1022) = e at he
    obtain ⟨j, hj⟩ : ∃ j : ℕ, k = e - 52 + j := ⟨(k - (e - 52)).toNat, by omega⟩
    have hr : ((((m : ℤ) * 2 ^ j : ℤ) : ℚ)) * 2 ^ (e - 52) = (m : ℚ) * 2 ^ k := by
      rw [hj]
      have h := mul_zpow_split (m : ℤ) (e - 52) j
      rw [Int.cast_natCast] at h
      exact h
    have hdiv : (m : ℚ) * 2 ^ k / 2 ^ (e - 52) = ((((m : ℤ) * 2 ^ j : ℤ)) : ℚ) := by
      rw [← hr, mul_div_assoc, div_self (by positivity), mul_one]
    rw [hdiv, rne_intCast, hr, if_pos hlt]
  -- A number of magnitude `2 ^ 1024` or more overflows.
  have round_pos_overflow : ∀ (a : ℚ),
        (2 : ℚ) ^ 1024 ≤ a →
        Double.round_pos a = Double.pinf := by
    intro a h
    have hpos : (0 : ℚ) < a := lt_of_lt_of_le (by positivity) h
    have hlog : (1024 : ℤ) ≤ Int.log 2 a := by
      apply (Int.zpow_le_iff_le_log (b := 2) (by norm_num) hpos).1
      have e : ((2 : ℕ) : ℚ) ^ (1024 : ℤ) = (2 : ℚ) ^ 1024 := by
        rw [zpow_ofNat, Nat.cast_ofNat]
      rw [e]
      exact h
    unfold Double.round_pos
    simp only
    have he : max (Int.log 2 a) (-1022) = Int.log 2 a := max_eq_left (by omega)
    rw [he]
    have h1 : (2 : ℚ) ^ (Int.log 2 a) ≤ a := by
      have := Int.zpow_log_le_self (b := 2) (by norm_num) hpos
      exact_mod_cast this
    have h2 : ((((2 : ℤ) ^ 52 : ℤ)) : ℚ) ≤ a / 2 ^ (Int.log 2 a - 52) := by
      rw [le_div_iff₀ (by positivity)]
      have := zpow_split (Int.log 2 a) 52
      rw [show ((52 : ℕ) : ℤ) = 52 from rfl] at this
      rw [this]
      exact h1
    have h3 : ((2 : ℤ) ^ 52 : ℤ) ≤ Double.rne (a / 2 ^ (Int.log 2 a - 52)) :=
      le_trans (Int.le_floor.2 h2) (floor_le_rne _)
    rw [if_neg]
    rw [not_lt]
    have h4 := zpow_split (Int.log 2 a) 52
    rw [show ((52 : ℕ) : ℤ) = 52 from rfl] at h4
    calc (2 : ℚ) ^ 1024 ≤ 2 ^ (Int.log 2 a) := by
          rw [← zpow_natCast]
          exact zpow_le_zpow_right₀ (by norm_num) (by exact_mod_cast hlog)
      _ = (((2 : ℤ) ^ 52 : ℤ) : ℚ) * 2 ^ (Int.log 2 a - 52) := h4.symm
      _ ≤ _ := by
          apply mul_le_mul_of_nonneg_right _ (by positivity)
          exact_mod_cast h3
  have double_neg_neg : ∀ (a : Double),
        Double.neg (Double.neg a) = a := by
    intro a
    cases a <;> simp [Double.neg]
  have round_zero : Double.round (0 : ℚ) = Double.fin 0 := by
    simp [Double.round]
  -- Rounding commutes with negation.
  have round_neg : ∀ (x : ℚ),
        Double.round (-x) = Double.neg (Double.round x) := by
    intro x
    unfold Double.round
    rcases lt_trichotomy x 0 with h | h | h
    · rw [if_neg (by linarith), if_pos (by linarith), if_neg h.ne, if_neg (by linarith),
        double_neg_neg]
    · subst h
      simp [Double.neg]
    · rw [if_neg (by linarith), if_neg (by linarith), if_neg h.ne', if_pos h, neg_neg]
  -- An integer of magnitude below `2 ^ 53` times a power `2 ^ k` with `k ≥ -1074`,
  -- of magnitude below `2 ^ 1024`, is a `double`.
  have round_dyadic : ∀ (m : ℤ) (k : ℤ),
        |m| < 2 ^ 53 →
        -1074 ≤ k →
        |(m : ℚ)| * 2 ^ k < 2 ^ 1024 →
        Double.round ((m : ℚ) * 2 ^ k) = Double.fin ((m : ℚ) * 2 ^ k) := by
    intro m k hm hk hlt
    have key : ∀ n : ℕ, 0 < n → n < 2 ^ 53 → (n : ℚ) * 2 ^ k < 2 ^ 1024 →
        Double.round ((n : ℚ) * 2 ^ k) = Double.fin ((n : ℚ) * 2 ^ k) := by
      intro n h0 h1 h2
      have hpos : (0 : ℚ) < (n : ℚ) * 2 ^ k := by positivity
      unfold Double.round
      rw [if_neg hpos.ne', if_pos hpos]
      exact round_pos_exact n k h0 h1 hk h2
    rcases lt_trichotomy m 0 with h | h | h
    · obtain ⟨n, hn⟩ : ∃ n : ℕ, -m = (n : ℤ) := Int.eq_ofNat_of_zero_le (by linarith)
      have hmn : m = -(n : ℤ) := by linarith
      subst hmn
      have h0 : 0 < n := by
        rcases Nat.eq_zero_or_pos n with h1 | h1
        · subst h1
          simp at h
        · exact h1
      rw [abs_neg, Nat.abs_cast] at hm
      have h53 : n < 2 ^ 53 := by exact_mod_cast hm
      rw [Int.cast_neg, Int.cast_natCast, abs_neg, Nat.abs_cast] at hlt
      rw [Int.cast_neg, Int.cast_natCast, neg_mul, round_neg, key n h0 h53 hlt]
      rfl
    · subst h
      simp [round_zero]
    · obtain ⟨n, hn⟩ : ∃ n : ℕ, m = (n : ℤ) := Int.eq_ofNat_of_zero_le h.le
      subst hn
      have h0 : 0 < n := by exact_mod_cast h
      rw [Nat.abs_cast] at hm
      have h53 : n < 2 ^ 53 := by exact_mod_cast hm
      rw [Int.cast_natCast, Nat.abs_cast] at hlt
      rw [Int.cast_natCast]
      exact key n h0 h53 hlt
  have round_int : ∀ (q : ℚ) (n : ℤ),
        q = n →
        |n| < 2 ^ 53 →
        Double.round q = Double.fin q := by
    intro q n hq hn
    have h := round_dyadic n 0 hn (by norm_num) (by
      rw [zpow_zero, mul_one]
      have h1 : |(n : ℚ)| < 2 ^ 53 := by exact_mod_cast hn
      exact lt_trans h1 (by norm_num))
    rw [zpow_zero, mul_one, ← hq] at h
    exact h
  have round_overflow : ∀ (x : ℚ),
        (2 : ℚ) ^ 1024 ≤ x →
        Double.round x = Double.pinf := by
    intro x h
    have hpos : (0 : ℚ) < x := lt_of_lt_of_le (by positivity) h
    unfold Double.round
    rw [if_neg hpos.ne', if_pos hpos]
    exact round_pos_overflow x h
  have round_neg_overflow : ∀ (x : ℚ),
        x ≤ -(2 : ℚ) ^ 1024 →
        Double.round x = Double.ninf := by
    intro x h
    have h2 := round_overflow (-x) (by linarith)
    rw [round_neg] at h2
    have h3 := congrArg Double.neg h2
    rw [double_neg_neg] at h3
    exact h3
  have double_lit_zero : (0.0 : Double) = Double.fin 0 := by
    show Double.round (0.0 : ℚ) = Double.fin 0
    norm_num [round_zero]
  have double_lit_one : (1.0 : Double) = Double.fin 1 := by
    show Double.round (1.0 : ℚ) = Double.fin 1
    have h : (1.0 : ℚ) = 1 := by norm_num
    rw [h]
    exact round_int 1 1 (by norm_num) (by norm_num)
  have double_fin_mul : ∀ (x y : ℚ),
        Double.fin x * Double.fin y = Double.round (x * y) := by
    intro x y
    exact rfl
  have double_fin_add : ∀ (x y : ℚ),
        Double.fin x + Double.fin y = Double.round (x + y) := by
    intro x y
    exact rfl
  have double_neg_mul : ∀ (a b : Double),
        (-a) * b = -(a * b) := by
    intro a b
    show Double.mul (Double.neg a) b = Double.neg (Double.mul a b)
    cases a with
    | fin x =>
      cases b with
      | fin y =>
        show Double.round (-x * y) = Double.neg (Double.round (x * y))
        rw [neg_mul, round_neg]
      | pinf =>
        rcases lt_trichotomy x 0 with h | h | h
        · simp [Double.mul, Double.neg, h.ne, h, not_lt.mpr h.le]
        · simp [Double.mul, Double.neg, h]
        · simp [Double.mul, Double.neg, h.ne', h, not_lt.mpr h.le]
      | ninf =>
        rcases lt_trichotomy x 0 with h | h | h
        · simp [Double.mul, Double.neg, h.ne, h, not_lt.mpr h.le]
        · simp [Double.mul, Double.neg, h]
        · simp [Double.mul, Double.neg, h.ne', h, not_lt.mpr h.le]
      | nan => rfl
    | pinf =>
      cases b with
      | fin y =>
        rcases lt_trichotomy y 0 with h | h | h
        · simp [Double.mul, Double.neg, h.ne, not_lt.mpr h.le]
        · simp [Double.mul, Double.neg, h]
        · simp [Double.mul, Double.neg, h.ne', h]
      | pinf => rfl
      | ninf => rfl
      | nan => rfl
    | ninf =>
      cases b with
      | fin y =>
        rcases lt_trichotomy y 0 with h | h | h
        · simp [Double.mul, Double.neg, h.ne, not_lt.mpr h.le]
        · simp [Double.mul, Double.neg, h]
        · simp [Double.mul, Double.neg, h.ne', h]
      | pinf => rfl
      | ninf => rfl
      | nan => rfl
    | nan => cases b <;> rfl
  have double_neg_add : ∀ (a b : Double),
        (-a) + (-b) = -(a + b) := by
    intro a b
    show Double.add (Double.neg a) (Double.neg b) = Double.neg (Double.add a b)
    cases a with
    | fin x =>
      cases b with
      | fin y =>
        show Double.round (-x + -y) = Double.neg (Double.round (x + y))
        rw [← neg_add, round_neg]
      | pinf => rfl
      | ninf => rfl
      | nan => rfl
    | pinf => cases b <;> rfl
    | ninf => cases b <;> rfl
    | nan => cases b <;> rfl
  have double_neg_lit_zero : -(0.0 : Double) = 0.0 := by
    rw [double_lit_zero]
    show Double.fin (-0) = Double.fin 0
    rw [neg_zero]
  have double_fin_ge_zero : ∀ (q : ℚ),
        (Double.fin q ≥ (0.0 : Double)) ↔ 0 ≤ q := by
    intro q
    rw [double_lit_zero]
    show Double.le (Double.fin 0) (Double.fin q) = true ↔ _
    simp [Double.le]
  have int_log_mul_zpow : ∀ (x : ℚ) (k : ℤ),
        0 < x →
        Int.log 2 (x * 2 ^ k) = Int.log 2 x + k := by
    intro x k hx
    have hpos : (0 : ℚ) < x * 2 ^ k := by positivity
    have h2 : (0 : ℚ) < 2 ^ k := by positivity
    apply le_antisymm
    · have h := Int.lt_zpow_succ_log_self (b := 2) (by norm_num) x
      have h3 : x * 2 ^ k < ((2 : ℕ) : ℚ) ^ (Int.log 2 x + k + 1) := by
        have e : ((2 : ℕ) : ℚ) ^ (Int.log 2 x + k + 1) =
            ((2 : ℕ) : ℚ) ^ (Int.log 2 x + 1) * 2 ^ k := by
          rw [show Int.log 2 x + k + 1 = Int.log 2 x + 1 + k by ring,
            zpow_add₀ (by norm_num : ((2 : ℕ) : ℚ) ≠ 0)]
          norm_num
        rw [e]
        exact mul_lt_mul_of_pos_right h h2
      have h4 := (Int.lt_zpow_iff_log_lt (b := 2) (by norm_num) hpos).1 h3
      omega
    · apply (Int.zpow_le_iff_le_log (b := 2) (by norm_num) hpos).1
      have h := Int.zpow_log_le_self (b := 2) (by norm_num) hx
      have e : ((2 : ℕ) : ℚ) ^ (Int.log 2 x + k) = ((2 : ℕ) : ℚ) ^ (Int.log 2 x) * 2 ^ k := by
        rw [zpow_add₀ (by norm_num : ((2 : ℕ) : ℚ) ≠ 0)]
        norm_num
      rw [e]
      exact mul_le_mul_of_nonneg_right h h2.le
  -- Rounding of a positive number commutes with a scaling by `2 ^ k` when the number
  -- and the scaled number are at least `2 ^ (-1022)` and neither result overflows.
  have round_pos_scale : ∀ (x : ℚ) (k : ℤ),
        0 < x →
        -1022 ≤ Int.log 2 x →
        -1022 ≤ Int.log 2 x + k →
        ∀ (r s : ℚ),
        Double.round_pos x = Double.fin r →
        Double.round_pos (x * 2 ^ k) = Double.fin s →
        s = r * 2 ^ k := by
    intro x k hx h1 h2 r s h hs
    unfold Double.round_pos at h hs
    simp only at h hs
    rw [int_log_mul_zpow x k hx, max_eq_left h2] at hs
    rw [max_eq_left h1] at h
    have hq : x * 2 ^ k / 2 ^ (Int.log 2 x + k - 52) = x / 2 ^ (Int.log 2 x - 52) := by
      rw [show Int.log 2 x + k - 52 = Int.log 2 x - 52 + k by ring,
        zpow_add₀ (by norm_num : (2 : ℚ) ≠ 0)]
      field_simp
      ring
    rw [hq] at hs
    split_ifs at h hs
    injection h with h
    injection hs with hs
    rw [← h, ← hs, show Int.log 2 x + k - 52 = Int.log 2 x - 52 + k by ring,
      zpow_add₀ (by norm_num : (2 : ℚ) ≠ 0)]
    ring
  have round_of_pos : ∀ (x : ℚ),
        0 < x →
        Double.round x = Double.round_pos x := by
    intro x hx
    unfold Double.round
    rw [if_neg hx.ne', if_pos hx]
  have min_normal_le_log : ∀ (x : ℚ),
        0 < x →
        (2 : ℚ) ^ (-1022 : ℤ) ≤ x →
        -1022 ≤ Int.log 2 x := by
    intro x hx h
    apply (Int.zpow_le_iff_le_log (b := 2) (by norm_num) hx).1
    exact_mod_cast h
  -- Rounding commutes with a scaling by `2 ^ k` when the number and the scaled number
  -- are zero or of magnitude at least `2 ^ (-1022)` and neither result is infinite.
  have round_scale : ∀ (x : ℚ) (k : ℤ) (r s : ℚ),
        x = 0 ∨ (2 : ℚ) ^ (-1022 : ℤ) ≤ |x| →
        x * 2 ^ k = 0 ∨ (2 : ℚ) ^ (-1022 : ℤ) ≤ |x * 2 ^ k| →
        Double.round x = Double.fin r →
        Double.round (x * 2 ^ k) = Double.fin s →
        s = r * 2 ^ k := by
    intro x k r s hx hxs h hs
    have h2 : (0 : ℚ) < 2 ^ k := by positivity
    rcases lt_trichotomy x 0 with hneg | hz | hpos
    · have hx1 : (2 : ℚ) ^ (-1022 : ℤ) ≤ -x := by
        rcases hx with hx | hx
        · exact absurd hx hneg.ne
        · rwa [abs_of_neg hneg] at hx
      have hx2 : (2 : ℚ) ^ (-1022 : ℤ) ≤ -x * 2 ^ k := by
        have hn : x * 2 ^ k < 0 := mul_neg_of_neg_of_pos hneg h2
        rcases hxs with hxs | hxs
        · exact absurd hxs hn.ne
        · rw [abs_of_neg hn] at hxs
          linarith
      have hp : (0 : ℚ) < -x := by linarith
      have e1 : Double.round_pos (-x) = Double.fin (-r) := by
        have := round_neg x
        rw [h, round_of_pos _ hp] at this
        exact this
      have e2 : Double.round_pos (-x * 2 ^ k) = Double.fin (-s) := by
        have := round_neg (x * 2 ^ k)
        rw [hs, ← neg_mul, round_of_pos _ (by positivity)] at this
        exact this
      have l1 := min_normal_le_log _ hp hx1
      have l2 := min_normal_le_log _ (by positivity) hx2
      rw [int_log_mul_zpow _ k hp] at l2
      have := round_pos_scale (-x) k hp l1 l2 (-r) (-s) e1 e2
      linarith
    · subst hz
      rw [zero_mul, round_zero] at hs
      rw [round_zero] at h
      injection h with h
      injection hs with hs
      rw [← h, ← hs, zero_mul]
    · have hx1 : (2 : ℚ) ^ (-1022 : ℤ) ≤ x := by
        rcases hx with hx | hx
        · exact absurd hx hpos.ne'
        · rwa [abs_of_pos hpos] at hx
      have hx2 : (2 : ℚ) ^ (-1022 : ℤ) ≤ x * 2 ^ k := by
        have hn : 0 < x * 2 ^ k := by positivity
        rcases hxs with hxs | hxs
        · exact absurd hxs hn.ne'
        · rwa [abs_of_pos hn] at hxs
      have l1 := min_normal_le_log _ hpos hx1
      have l2 := min_normal_le_log _ (by positivity) hx2
      rw [int_log_mul_zpow _ k hpos] at l2
      rw [round_of_pos _ hpos] at h
      rw [round_of_pos _ (by positivity)] at hs
      exact round_pos_scale x k hpos l1 l2 r s h hs
  have round_nonneg : ∀ (x : ℚ),
        0 ≤ x →
        Double.round x ≥ (0.0 : Double) := by
    intro x hx
    rcases hx.eq_or_lt with h | h
    · rw [← h, round_zero, double_fin_ge_zero]
    · rw [round_of_pos _ h]
      unfold Double.round_pos
      simp only
      split_ifs
      · rw [double_fin_ge_zero]
        apply mul_nonneg _ (by positivity)
        have h1 : (0 : ℤ) ≤ ⌊x / 2 ^ (max (Int.log 2 x) (-1022) - 52)⌋ :=
          Int.floor_nonneg.2 (by positivity)
        exact_mod_cast le_trans h1 (floor_le_rne _)
      · rw [double_lit_zero]
        rfl
  have round_pos_ne : ∀ (a : ℚ),
        Double.round_pos a ≠ Double.ninf ∧ Double.round_pos a ≠ Double.nan := by
    intro a
    unfold Double.round_pos
    simp only
    split_ifs <;> exact ⟨fun h => Double.noConfusion h, fun h => Double.noConfusion h⟩
  have round_ne_nan : ∀ (x : ℚ),
        Double.round x ≠ Double.nan := by
    intro x
    unfold Double.round
    split_ifs
    · exact fun h => Double.noConfusion h
    · exact (round_pos_ne x).2
    · intro h
      have h1 := round_pos_ne (-x)
      cases hr : Double.round_pos (-x) <;> rw [hr] at h h1 <;> simp [Double.neg] at h h1
  have in_range_fin : ∀ (x : ℚ),
        Double.in_range x →
        ∃ r, Double.round x = Double.fin r := by
    intro x h
    obtain ⟨-, h1, h2⟩ := h
    have h3 := round_ne_nan x
    cases hr : Double.round x with
    | fin r => exact ⟨r, rfl⟩
    | pinf => exact absurd hr h1
    | ninf => exact absurd hr h2
    | nan => exact absurd hr h3
  have in_range_int : ∀ (q : ℚ) (n : ℤ),
        q = n →
        |n| < 2 ^ 53 →
        Double.in_range q := by
    intro q n hq hn
    have hr := round_int q n hq hn
    refine ⟨?_, by rw [hr]; exact fun h => Double.noConfusion h,
      by rw [hr]; exact fun h => Double.noConfusion h⟩
    by_cases h0 : n = 0
    · left
      rw [hq, h0, Int.cast_zero]
    · right
      have h1 : (1 : ℤ) ≤ |n| := Int.one_le_abs h0
      have h2 : (1 : ℚ) ≤ |(n : ℚ)| := by exact_mod_cast h1
      rw [hq]
      refine le_trans ?_ h2
      exact zpow_le_one_of_nonpos₀ (by norm_num) (by norm_num)
  have double_pinf_not_lt : ∀ (a : Double),
        ¬ (Double.pinf < a) := by
    intro a
    intro h
    change Double.lt Double.pinf a = true at h
    cases a <;> simp [Double.lt] at h
  exact ⟨round_zero, round_neg, round_dyadic, round_int, round_overflow, round_neg_overflow,
    double_lit_zero, double_lit_one, double_fin_mul, double_fin_add, double_neg_mul,
    double_neg_add, double_neg_lit_zero, double_fin_ge_zero, round_scale, round_nonneg,
    in_range_fin, in_range_int, double_pinf_not_lt⟩

/-! ## The hasher in `double` arithmetic -/

/-- The projection of `hash_to_bit` in `double` arithmetic: negated and scaled
vectors, and the codes on the hasher `hasher_7_double`. -/
theorem projection_facts :
    -- hasher_7_double_new
    (SRPHasher.new 2 3 7 0 (fun _ k => Double.fin ((k : ℚ) - 2)) = .ok hasher_7_double) ∧
    -- ieee_inner_product_neg
    (∀ (v w : List Double) (acc : Double),
        inner_product (v.map fun x => -x) w (-acc) = -(inner_product v w acc)) ∧
    -- ieee_sign_bit_neg
    (∀ (p : Double),
        (p ≠ Double.fin 0 → p ≠ Double.nan →
          ((if p ≥ (0.0 : Double) then '1' else '0') = '1' ∧
            (if -p ≥ (0.0 : Double) then '1' else '0') = '0') ∨
          ((if p ≥ (0.0 : Double) then '1' else '0') = '0' ∧
            (if -p ≥ (0.0 : Double) then '1' else '0') = '1')) ∧
        (p = Double.fin 0 → (if p ≥ (0.0 : Double) then '1' else '0') = '1' ∧
          (if -p ≥ (0.0 : Double) then '1' else '0') = '1') ∧
        (p = Double.nan → (if p ≥ (0.0 : Double) then '1' else '0') = '0' ∧
          (if -p ≥ (0.0 : Double) then '1' else '0') = '0')) ∧
    -- ieee_hash_to_bit_of_guard
    (∀ (h : SRPHasher Double) (vec : List Double) (i : Nat),
        h.initialized = true →
        (i : Int) < h.b →
        (vec.length : Int) = h.d % 2 ^ 64 →
        IEEE.hash_to_bit h vec (i : Int) =
          if inner_product vec (h.random_vectors.getD i []) 0.0 ≥ (0.0 : Double) then '1'
          else '0') ∧
    -- ieee_code_data
    (∀ (h : SRPHasher Double) (v : List Double),
        h.initialized = true →
        h.random_vectors.length = h.b.toNat →
        (v.length : Int) = h.d % 2 ^ 64 →
        (List.range h.b.toNat).map (fun (i : Nat) => IEEE.hash_to_bit h v (i : Int)) =
          h.random_vectors.map
            (fun row => if inner_product v row 0.0 ≥ (0.0 : Double) then '1' else '0')) ∧
    -- hasher_7_double_proj_small
    (∀ (x y r1 r2 : ℤ),
        |x * r1| < 2 ^ 53 →
        |y * r2| < 2 ^ 53 →
        |x * r1 + y * r2| < 2 ^ 53 →
        Double.fin 0 + Double.fin x * Double.fin r1 + Double.fin y * Double.fin r2 =
          Double.fin ((x * r1 + y * r2 : ℤ) : ℚ)) ∧
    -- hasher_7_double_codes
    (IEEE.generate_code hasher_7_double [Double.fin 12, Double.fin (-6)] = .ok "001" ∧
      IEEE.generate_code hasher_7_double [Double.fin (-12), Double.fin 6] = .ok "110" ∧
      IEEE.generate_code hasher_7_double
        [Double.fin (12 * 2 ^ 1020), Double.fin (-6 * 2 ^ 1020)] = .ok "000" ∧
      IEEE.generate_code hasher_7_double
        [Double.fin (-(12 * 2 ^ 1020)), Double.fin (-(-6 * 2 ^ 1020))] = .ok "110") ∧
    -- ieee_inner_product_two
    (∀ (a b c d acc : Double),
        inner_product [a, b] [c, d] acc = acc + a * c + b * d) ∧
    -- ieee_hash_to_bit_scaled
    (∀ (hasher : SRPHasher Double) (v : List Double) (k : ℤ),
        (∀ x ∈ v, x.normal_or_zero ∧ Double.mul_in_range (Double.fin (2 ^ k)) x) →
        (∀ row ∈ hasher.random_vectors, IEEE.inner_product_in_range v row 0.0) →
        (∀ row ∈ hasher.random_vectors, IEEE.inner_product_in_range (v.map fun x =>
          Double.fin (2 ^ k) * x) row 0.0) →
        ∀ (i : Int),
        IEEE.hash_to_bit hasher (v.map fun x => Double.fin (2 ^ k) * x) i =
          IEEE.hash_to_bit hasher v i) ∧
    -- double_scale_big
    (([Double.fin 12, Double.fin (-6)].map fun x => Double.fin (2 ^ 1020) * x) =
        [Double.fin (12 * 2 ^ 1020), Double.fin (-6 * 2 ^ 1020)]) ∧
    -- inner_product_in_range_int
    (∀ (x y r1 r2 : ℤ),
        |x * r1| < 2 ^ 53 →
        |y * r2| < 2 ^ 53 →
        |x * r1 + y * r2| < 2 ^ 53 →
        IEEE.inner_product_in_range [Double.fin x, Double.fin y] [Double.fin r1, Double.fin r2]
          0.0) := by
  have round_zero := rounding_facts.1
  have round_dyadic := rounding_facts.2.2.1
  have round_int := rounding_facts.2.2.2.1
  have round_overflow := rounding_facts.2.2.2.2.1
  have round_neg_overflow := rounding_facts.2.2.2.2.2.1
  have double_lit_zero := rounding_facts.2.2.2.2.2.2.1
  have double_fin_mul := rounding_facts.2.2.2.2.2.2.2.2.1
  have double_fin_add := rounding_facts.2.2.2.2.2.2.2.2.2.1
  have double_neg_mul := rounding_facts.2.2.2.2.2.2.2.2.2.2.1
  have double_neg_add := rounding_facts.2.2.2.2.2.2.2.2.2.2.2.1
  have double_fin_ge_zero := rounding_facts.2.2.2.2.2.2.2.2.2.2.2.2.2.1
  have round_scale := rounding_facts.2.2.2.2.2.2.2.2.2.2.2.2.2.2.1
  have in_range_fin := rounding_facts.2.2.2.2.2.2.2.2.2.2.2.2.2.2.2.2.1
  have in_range_int := rounding_facts.2.2.2.2.2.2.2.2.2.2.2.2.2.2.2.2.2.1
  have ieee_generate_code_hasher_7 : ∀ (a b : Double),
        IEEE.generate_code hasher_7_double [a, b] = .ok (String.mk
          [if 0.0 + a * .fin (-2) + b * .fin (-1) ≥ (0.0 : Double) then '1' else '0',
           if 0.0 + a * .fin 0 + b * .fin 1 ≥ (0.0 : Double) then '1' else '0',
           if 0.0 + a * .fin 2 + b * .fin 3 ≥ (0.0 : Double) then '1' else '0']) := by
    intro a b
    rfl
  have hasher_7_double_new :
      SRPHasher.new 2 3 7 0 (fun _ k => Double.fin ((k : ℚ) - 2)) = .ok hasher_7_double := by
    simp only [SRPHasher.new]
    norm_num [List.range, List.range.loop, Int.toNat, hasher_7_double]
  -- The accumulation of `std::inner_product` on the negated vector gives the
  -- negated result: negation is exact and rounding is symmetric.
  have ieee_inner_product_neg : ∀ (v w : List Double) (acc : Double),
        inner_product (v.map fun x => -x) w (-acc) = -(inner_product v w acc) := by
    intro v w acc
    induction v generalizing w acc with
    | nil => simp [inner_product]
    | cons x xs ih =>
      cases w with
      | nil => simp [inner_product]
      | cons y ys =>
        simp only [List.map_cons, inner_product]
        rw [double_neg_mul, double_neg_add]
        exact ih ys (acc + x * y)
  -- The test `projection >= 0.0` on a `double` and on its negation.
  have ieee_sign_bit_neg : ∀ (p : Double),
        (p ≠ Double.fin 0 → p ≠ Double.nan →
          ((if p ≥ (0.0 : Double) then '1' else '0') = '1' ∧
            (if -p ≥ (0.0 : Double) then '1' else '0') = '0') ∨
          ((if p ≥ (0.0 : Double) then '1' else '0') = '0' ∧
            (if -p ≥ (0.0 : Double) then '1' else '0') = '1')) ∧
        (p = Double.fin 0 → (if p ≥ (0.0 : Double) then '1' else '0') = '1' ∧
          (if -p ≥ (0.0 : Double) then '1' else '0') = '1') ∧
        (p = Double.nan → (if p ≥ (0.0 : Double) then '1' else '0') = '0' ∧
          (if -p ≥ (0.0 : Double) then '1' else '0') = '0') := by
    intro p
    rw [double_lit_zero]
    refine ⟨?_, ?_, ?_⟩
    · intro h0 hn
      cases p with
      | fin q =>
        have hq : q ≠ 0 := fun h => h0 (by rw [h])
        rcases lt_or_gt_of_ne hq with h | h
        · right
          constructor
          · rw [if_neg]
            show ¬ (Double.le (Double.fin 0) (Double.fin q) = true)
            simp [Double.le, h]
          · rw [if_pos]
            show Double.le (Double.fin 0) (Double.fin (-q)) = true
            simp [Double.le, h.le]
        · left
          constructor
          · rw [if_pos]
            show Double.le (Double.fin 0) (Double.fin q) = true
            simp [Double.le, h.le]
          · rw [if_neg]
            show ¬ (Double.le (Double.fin 0) (Double.fin (-q)) = true)
            simp [Double.le, h]
      | pinf =>
        left
        exact ⟨rfl, rfl⟩
      | ninf =>
        right
        exact ⟨rfl, rfl⟩
      | nan => exact absurd rfl hn
    · intro h
      subst h
      constructor
      · rw [if_pos]
        show Double.le (Double.fin 0) (Double.fin 0) = true
        simp [Double.le]
      · rw [if_pos]
        show Double.le (Double.fin 0) (Double.fin (-0)) = true
        simp [Double.le]
    · intro h
      subst h
      exact ⟨rfl, rfl⟩
  have ieee_hash_to_bit_of_guard : ∀ (h : SRPHasher Double) (vec : List Double) (i : Nat),
        h.initialized = true →
        (i : Int) < h.b →
        (vec.length : Int) = h.d % 2 ^ 64 →
        IEEE.hash_to_bit h vec (i : Int) =
          if inner_product vec (h.random_vectors.getD i []) 0.0 ≥ (0.0 : Double) then '1'
          else '0' := by
    intro h vec i hinit hi hlen
    have h2 : ¬ ((i : Int) < 0) := not_lt.mpr (Int.ofNat_nonneg _)
    have h3 : ¬ ((i : Int) ≥ h.b) := not_le.mpr hi
    unfold IEEE.hash_to_bit
    rw [if_neg]
    · simp only [Int.toNat_ofNat]
    · simp only [hinit, Bool.not_true, Bool.false_or, Bool.or_eq_true, decide_eq_true_eq,
        not_or, not_not]
      exact ⟨⟨h2, h3⟩, hlen⟩
  have ieee_code_data : ∀ (h : SRPHasher Double) (v : List Double),
        h.initialized = true →
        h.random_vectors.length = h.b.toNat →
        (v.length : Int) = h.d % 2 ^ 64 →
        (List.range h.b.toNat).map (fun (i : Nat) => IEEE.hash_to_bit h v (i : Int)) =
          h.random_vectors.map
            (fun row => if inner_product v row 0.0 ≥ (0.0 : Double) then '1' else '0') := by
    intro h v hinit hrows hlen
    have h1 : (List.range h.b.toNat).map (fun (i : Nat) => IEEE.hash_to_bit h v (i : Int)) =
        (List.range h.b.toNat).map (fun (i : Nat) =>
          (fun row => if inner_product v row 0.0 ≥ (0.0 : Double) then '1' else '0')
            (h.random_vectors.getD i [])) := by
      apply List.map_congr_left
      intro i hi
      have hi2 : i < h.b.toNat := List.mem_range.1 hi
      exact ieee_hash_to_bit_of_guard h v i hinit (by omega) hlen
    have h2 : (List.range h.b.toNat).map (fun (i : Nat) => h.random_vectors.getD i []) =
        h.random_vectors := by
      rw [map_range_getD _ _ _ (le_of_eq hrows.symm), ← hrows, List.take_length]
    rw [h1]
    show List.map ((fun row => if inner_product v row 0.0 ≥ (0.0 : Double) then '1' else '0') ∘
      (fun (i : Nat) => h.random_vectors.getD i [])) (List.range h.b.toNat) = _
    rw [← List.map_map, h2]
  have hasher_7_double_proj : ∀ (x y r1 r2 : ℤ) (k : ℤ),
        -1074 ≤ k →
        |x * r1| < 2 ^ 53 →
        |y * r2| < 2 ^ 53 →
        |x * r1 + y * r2| < 2 ^ 53 →
        |((x * r1 : ℤ) : ℚ)| * 2 ^ k < 2 ^ 1024 →
        |((y * r2 : ℤ) : ℚ)| * 2 ^ k < 2 ^ 1024 →
        |((x * r1 + y * r2 : ℤ) : ℚ)| * 2 ^ k < 2 ^ 1024 →
        Double.fin 0 + Double.fin ((x : ℚ) * 2 ^ k) * Double.fin r1 +
            Double.fin ((y : ℚ) * 2 ^ k) * Double.fin r2 =
          Double.fin (((x * r1 + y * r2 : ℤ) : ℚ) * 2 ^ k) := by
    intro x y r1 r2 k hk h1 h2 h3 b1 b2 b3
    have e1 : (x : ℚ) * 2 ^ k * r1 = ((x * r1 : ℤ) : ℚ) * 2 ^ k := by
      push_cast
      ring
    have e2 : (y : ℚ) * 2 ^ k * r2 = ((y * r2 : ℤ) : ℚ) * 2 ^ k := by
      push_cast
      ring
    have e3 : ((x * r1 : ℤ) : ℚ) * 2 ^ k + ((y * r2 : ℤ) : ℚ) * 2 ^ k =
        ((x * r1 + y * r2 : ℤ) : ℚ) * 2 ^ k := by
      push_cast
      ring
    rw [double_fin_mul, e1, round_dyadic _ k h1 hk b1, double_fin_add, zero_add,
      round_dyadic _ k h1 hk b1, double_fin_mul, e2, round_dyadic _ k h2 hk b2, double_fin_add,
      e3, round_dyadic _ k h3 hk b3]
  have hasher_7_double_proj_small : ∀ (x y r1 r2 : ℤ),
        |x * r1| < 2 ^ 53 →
        |y * r2| < 2 ^ 53 →
        |x * r1 + y * r2| < 2 ^ 53 →
        Double.fin 0 + Double.fin x * Double.fin r1 + Double.fin y * Double.fin r2 =
          Double.fin ((x * r1 + y * r2 : ℤ) : ℚ) := by
    intro x y r1 r2 h1 h2 h3
    have b : ∀ n : ℤ, |n| < 2 ^ 53 → |(n : ℚ)| * 2 ^ (0 : ℤ) < 2 ^ 1024 := by
      intro n hn
      rw [zpow_zero, mul_one]
      have h : |(n : ℚ)| < 2 ^ 53 := by exact_mod_cast hn
      exact lt_trans h (by norm_num)
    have h := hasher_7_double_proj x y r1 r2 0 (by norm_num) h1 h2 h3 (b _ h1) (b _ h2) (b _ h3)
    simp only [zpow_zero, mul_one] at h
    exact h
  -- The codes of `(12, -6)`, of `2 ^ 1020 * (12, -6)` and of their negations on
  -- `hasher_7_double`.  On the projection vector `(2, 3)` the products
  -- `2 * 12 * 2 ^ 1020` and `3 * 6 * 2 ^ 1020` overflow, to infinities of opposite sign,
  -- and the projection is NaN for the scaled vector and for its negation.
  have hasher_7_double_codes : IEEE.generate_code hasher_7_double [Double.fin 12, Double.fin (-6)] = .ok "001" ∧
      IEEE.generate_code hasher_7_double [Double.fin (-12), Double.fin 6] = .ok "110" ∧
      IEEE.generate_code hasher_7_double
        [Double.fin (12 * 2 ^ 1020), Double.fin (-6 * 2 ^ 1020)] = .ok "000" ∧
      IEEE.generate_code hasher_7_double
        [Double.fin (-(12 * 2 ^ 1020)), Double.fin (-(-6 * 2 ^ 1020))] = .ok "110" := by
    have small : ∀ x y : ℤ, |x| ≤ 12 → |y| ≤ 12 →
        IEEE.generate_code hasher_7_double [Double.fin x, Double.fin y] = .ok (String.mk
          [if 0 ≤ x * (-2) + y * (-1) then '1' else '0',
           if 0 ≤ x * 0 + y * 1 then '1' else '0',
           if 0 ≤ x * 2 + y * 3 then '1' else '0']) := by
      intro x y hx hy
      rw [abs_le] at hx hy
      have a1 := hasher_7_double_proj_small x y (-2) (-1) (by rw [abs_lt]; omega)
        (by rw [abs_lt]; omega) (by rw [abs_lt]; omega)
      have a2 := hasher_7_double_proj_small x y 0 1 (by rw [abs_lt]; omega)
        (by rw [abs_lt]; omega) (by rw [abs_lt]; omega)
      have a3 := hasher_7_double_proj_small x y 2 3 (by rw [abs_lt]; omega)
        (by rw [abs_lt]; omega) (by rw [abs_lt]; omega)
      simp only [Int.cast_neg, Int.cast_one, Int.cast_zero, Int.cast_ofNat] at a1 a2 a3
      rw [ieee_generate_code_hasher_7, double_lit_zero, a1, a2, a3]
      simp only [← double_lit_zero, double_fin_ge_zero]
      norm_cast
    have p12 := small 12 (-6) (by norm_num) (by norm_num)
    have m12 := small (-12) 6 (by norm_num) (by norm_num)
    simp only [Int.cast_neg, Int.cast_ofNat] at p12 m12
    refine ⟨p12, m12, ?_, ?_⟩
    · rw [ieee_generate_code_hasher_7, double_lit_zero]
      have h6 := round_dyadic 6 1020 (by norm_num) (by norm_num) (by norm_num)
      have hm6 := round_dyadic (-6) 1020 (by norm_num) (by norm_num) (by norm_num)
      have e6 : ((6 : ℤ) : ℚ) * 2 ^ (1020 : ℤ) = -6 * 2 ^ 1020 * -1 := by norm_num
      have em6 : ((-6 : ℤ) : ℚ) * 2 ^ (1020 : ℤ) = -6 * 2 ^ 1020 := by norm_num
      rw [e6] at h6
      rw [em6] at hm6
      have b1 : Double.fin 0 + Double.fin (12 * 2 ^ 1020) * Double.fin (-2) +
          Double.fin (-6 * 2 ^ 1020) * Double.fin (-1) = Double.ninf := by
        rw [double_fin_mul, round_neg_overflow _ (by norm_num), double_fin_mul, h6]
        rfl
      have b2 : Double.fin 0 + Double.fin (12 * 2 ^ 1020) * Double.fin 0 +
          Double.fin (-6 * 2 ^ 1020) * Double.fin 1 = Double.fin (-6 * 2 ^ 1020) := by
        rw [double_fin_mul, mul_zero, round_zero, double_fin_add, add_zero, round_zero,
          double_fin_mul, mul_one, hm6, double_fin_add, zero_add, hm6]
      have b3 : Double.fin 0 + Double.fin (12 * 2 ^ 1020) * Double.fin 2 +
          Double.fin (-6 * 2 ^ 1020) * Double.fin 3 = Double.nan := by
        rw [double_fin_mul, round_overflow _ (by norm_num), double_fin_mul,
          round_neg_overflow _ (by norm_num)]
        rfl
      have c2 : ¬ (Double.fin (-6 * 2 ^ 1020) ≥ Double.fin 0) := by
        show ¬ (Double.le (Double.fin 0) (Double.fin (-6 * 2 ^ 1020)) = true)
        simp only [Double.le, decide_eq_true_eq]
        norm_num
      rw [b1, b2, b3, if_neg c2]
      rfl
    · rw [ieee_generate_code_hasher_7, double_lit_zero]
      have h6 := round_dyadic 6 1020 (by norm_num) (by norm_num) (by norm_num)
      have hm6 := round_dyadic (-6) 1020 (by norm_num) (by norm_num) (by norm_num)
      have em6 : ((-6 : ℤ) : ℚ) * 2 ^ (1020 : ℤ) = -(-6 * 2 ^ 1020) * -1 := by norm_num
      have e6b : ((6 : ℤ) : ℚ) * 2 ^ (1020 : ℤ) = -(-6 * 2 ^ 1020) := by norm_num
      have h6b := h6
      rw [em6] at hm6
      rw [e6b] at h6b
      have b1 : Double.fin 0 + Double.fin (-(12 * 2 ^ 1020)) * Double.fin (-2) +
          Double.fin (-(-6 * 2 ^ 1020)) * Double.fin (-1) = Double.pinf := by
        rw [double_fin_mul, round_overflow _ (by norm_num), double_fin_mul, hm6]
        rfl
      have b2 : Double.fin 0 + Double.fin (-(12 * 2 ^ 1020)) * Double.fin 0 +
          Double.fin (-(-6 * 2 ^ 1020)) * Double.fin 1 = Double.fin (-(-6 * 2 ^ 1020)) := by
        rw [double_fin_mul, mul_zero, round_zero, double_fin_add, add_zero, round_zero,
          double_fin_mul, mul_one, h6b, double_fin_add, zero_add, h6b]
      have b3 : Double.fin 0 + Double.fin (-(12 * 2 ^ 1020)) * Double.fin 2 +
          Double.fin (-(-6 * 2 ^ 1020)) * Double.fin 3 = Double.nan := by
        rw [double_fin_mul, round_neg_overflow _ (by norm_num), double_fin_mul,
          round_overflow _ (by norm_num)]
        rfl
      have c2 : Double.fin (-(-6 * 2 ^ 1020)) ≥ Double.fin 0 := by
        show Double.le (Double.fin 0) (Double.fin (-(-6 * 2 ^ 1020))) = true
        simp only [Double.le, decide_eq_true_eq]
        norm_num
      rw [b1, b2, b3, if_pos c2]
      rfl
  have ieee_inner_product_two : ∀ (a b c d acc : Double),
        inner_product [a, b] [c, d] acc = acc + a * c + b * d := by
    intro a b c d acc
    exact rfl
  -- The accumulation of `std::inner_product` on a vector scaled by `2 ^ k`, from an
  -- accumulator scaled by `2 ^ k`, gives the scaled result when no operation of the two
  -- computations underflows or overflows.
  have ieee_inner_product_scale : ∀ (k : ℤ) (v w : List Double) (a : ℚ),
        (∀ x ∈ v, x.normal_or_zero ∧ Double.mul_in_range (Double.fin (2 ^ k)) x) →
        IEEE.inner_product_in_range v w (Double.fin a) →
        IEEE.inner_product_in_range (v.map fun x => Double.fin (2 ^ k) * x) w (Double.fin (a
          * 2 ^ k)) →
        ∃ p, inner_product v w (Double.fin a) = Double.fin p ∧
          inner_product (v.map fun x => Double.fin (2 ^ k) * x) w (Double.fin (a * 2 ^ k)) =
            Double.fin (p * 2 ^ k) := by
    intro k v w a hv h1 h2
    induction v generalizing w a with
    | nil => exact ⟨a, by simp [inner_product], by simp [inner_product]⟩
    | cons x xs ih =>
      cases w with
      | nil => exact ⟨a, by simp [inner_product], by simp [inner_product]⟩
      | cons y ys =>
        obtain ⟨hx, hcx⟩ := hv x (List.mem_cons_self _ _)
        cases x with
        | fin q =>
          cases y with
          | fin t =>
            obtain ⟨hq, hqn⟩ := hx
            have hcx2 : Double.in_range (2 ^ k * q) := hcx
            obtain ⟨q2, hq2⟩ := in_range_fin _ hcx2
            have e0 : q * 2 ^ k = 2 ^ k * q := mul_comm _ _
            have hqs : q2 = q * 2 ^ k :=
              round_scale q k q q2 hqn (by rw [e0]; exact hcx2.1) hq (by rw [e0]; exact hq2)
            have hcq : Double.fin (2 ^ k) * Double.fin q = Double.fin (q * 2 ^ k) := by
              rw [double_fin_mul, hq2, hqs]
            rw [List.map_cons, hcq] at h2
            obtain ⟨m1, a1, r1⟩ := h1
            obtain ⟨m2, a2, r2⟩ := h2
            have m1b : Double.in_range (q * t) := m1
            have m2b : Double.in_range (q * 2 ^ k * t) := m2
            obtain ⟨p1, hp1⟩ := in_range_fin _ m1b
            obtain ⟨p2, hp2⟩ := in_range_fin _ m2b
            have e1 : q * t * 2 ^ k = q * 2 ^ k * t := by ring
            have hps : p2 = p1 * 2 ^ k :=
              round_scale (q * t) k p1 p2 m1b.1 (by rw [e1]; exact m2b.1) hp1
                (by rw [e1]; exact hp2)
            have hm1 : Double.fin q * Double.fin t = Double.fin p1 := by
              rw [double_fin_mul, hp1]
            have hm2 : Double.fin (q * 2 ^ k) * Double.fin t = Double.fin (p1 * 2 ^ k) := by
              rw [double_fin_mul, hp2, hps]
            rw [hm1] at a1 r1
            rw [hm2] at a2 r2
            have a1b : Double.in_range (a + p1) := a1
            have a2b : Double.in_range (a * 2 ^ k + p1 * 2 ^ k) := a2
            obtain ⟨s1, hs1⟩ := in_range_fin _ a1b
            obtain ⟨s2, hs2⟩ := in_range_fin _ a2b
            have e2 : (a + p1) * 2 ^ k = a * 2 ^ k + p1 * 2 ^ k := by ring
            have hss : s2 = s1 * 2 ^ k :=
              round_scale (a + p1) k s1 s2 a1b.1 (by rw [e2]; exact a2b.1) hs1
                (by rw [e2]; exact hs2)
            have ha1 : Double.fin a + Double.fin p1 = Double.fin s1 := by
              rw [double_fin_add, hs1]
            have ha2 : Double.fin (a * 2 ^ k) + Double.fin (p1 * 2 ^ k) =
                Double.fin (s1 * 2 ^ k) := by
              rw [double_fin_add, hs2, hss]
            rw [ha1] at r1
            rw [ha2] at r2
            obtain ⟨p, e3, e4⟩ := ih ys s1
              (fun z hz => hv z (List.mem_cons_of_mem _ hz)) r1 r2
            refine ⟨p, ?_, ?_⟩
            · rw [inner_product, hm1, ha1]
              exact e3
            · rw [List.map_cons, hcq, inner_product, hm2, ha2]
              exact e4
          | pinf => exact absurd h1.1 (fun h => h)
          | ninf => exact absurd h1.1 (fun h => h)
          | nan => exact absurd h1.1 (fun h => h)
        | pinf => exact absurd hx (fun h => h)
        | ninf => exact absurd hx (fun h => h)
        | nan => exact absurd hx (fun h => h)
  have ieee_inner_product_short : ∀ (v : List Double) (acc : Double),
        inner_product v [] acc = acc := by
    intro v acc
    cases v <;> rfl
  -- The bit of `hash_to_bit` for the vector scaled by `2 ^ k` when no operation
  -- underflows or overflows.
  have ieee_hash_to_bit_scaled : ∀ (hasher : SRPHasher Double) (v : List Double) (k : ℤ),
        (∀ x ∈ v, x.normal_or_zero ∧ Double.mul_in_range (Double.fin (2 ^ k)) x) →
        (∀ row ∈ hasher.random_vectors, IEEE.inner_product_in_range v row 0.0) →
        (∀ row ∈ hasher.random_vectors, IEEE.inner_product_in_range (v.map fun x =>
          Double.fin (2 ^ k) * x) row 0.0) →
        ∀ (i : Int),
        IEEE.hash_to_bit hasher (v.map fun x => Double.fin (2 ^ k) * x) i =
          IEEE.hash_to_bit hasher v i := by
    intro hasher v k hv h1 h2 i
    unfold IEEE.hash_to_bit
    rw [List.length_map]
    split_ifs with hg
    · rfl
    · simp only
      by_cases hi : i.toNat < hasher.random_vectors.length
      · have hrow : hasher.random_vectors.getD i.toNat [] = hasher.random_vectors[i.toNat] := by
          rw [List.getD_eq_getElem?_getD, List.getElem?_eq_getElem hi]
          rfl
        have hmem : hasher.random_vectors[i.toNat] ∈ hasher.random_vectors :=
          List.getElem_mem _
        have g1 := h1 _ hmem
        have g2 := h2 _ hmem
        rw [double_lit_zero] at g1 g2
        have e0 : Double.fin 0 = Double.fin (0 * 2 ^ k) := by rw [zero_mul]
        rw [e0] at g2
        obtain ⟨p, e1, e2⟩ := ieee_inner_product_scale k v _ 0 hv g1 g2
        rw [← e0] at e2
        rw [hrow]
        have hz : (0.0 : Double) = Double.fin 0 := double_lit_zero
        rw [hz, e1, e2, ← hz]
        have hiff : (Double.fin (p * 2 ^ k) ≥ (0.0 : Double)) ↔ (Double.fin p ≥ (0.0 : Double)) := by
          rw [double_fin_ge_zero, double_fin_ge_zero]
          have h2k : (0 : ℚ) < 2 ^ k := by positivity
          constructor
          · intro h
            by_contra hp
            have := mul_neg_of_neg_of_pos (not_le.mp hp) h2k
            exact absurd h (not_le.mpr this)
          · intro h
            exact mul_nonneg h h2k.le
        by_cases hp : Double.fin p ≥ (0.0 : Double)
        · rw [if_pos hp, if_pos (hiff.2 hp)]
        · rw [if_neg hp, if_neg (fun h => hp (hiff.1 h))]
      · have hrow : hasher.random_vectors.getD i.toNat [] = [] := by
          rw [List.getD_eq_getElem?_getD, List.getElem?_eq_none (not_lt.mp hi)]
          rfl
        rw [hrow, ieee_inner_product_short, ieee_inner_product_short]
  have double_scale_big : ([Double.fin 12, Double.fin (-6)].map fun x => Double.fin (2 ^ 1020) * x) =
        [Double.fin (12 * 2 ^ 1020), Double.fin (-6 * 2 ^ 1020)] := by
    have s1 : Double.fin (2 ^ 1020) * Double.fin 12 = Double.fin (12 * 2 ^ 1020) := by
      rw [double_fin_mul]
      have h := round_dyadic 12 1020 (by norm_num) (by norm_num) (by norm_num)
      have e : (2 : ℚ) ^ 1020 * 12 = ((12 : ℤ) : ℚ) * 2 ^ (1020 : ℤ) := by norm_num
      rw [e, h]
      norm_num
    have s2 : Double.fin (2 ^ 1020) * Double.fin (-6) = Double.fin (-6 * 2 ^ 1020) := by
      rw [double_fin_mul]
      have h := round_dyadic (-6) 1020 (by norm_num) (by norm_num) (by norm_num)
      have e : (2 : ℚ) ^ 1020 * (-6) = ((-6 : ℤ) : ℚ) * 2 ^ (1020 : ℤ) := by norm_num
      rw [e, h]
      norm_num
    simp only [List.map_cons, List.map_nil, s1, s2]
  -- On integer entries of small magnitude no operation of `std::inner_product`
  -- underflows or overflows.
  have inner_product_in_range_int : ∀ (x y r1 r2 : ℤ),
        |x * r1| < 2 ^ 53 →
        |y * r2| < 2 ^ 53 →
        |x * r1 + y * r2| < 2 ^ 53 →
        IEEE.inner_product_in_range [Double.fin x, Double.fin y] [Double.fin r1, Double.fin r2]
          0.0 := by
    intro x y r1 r2 h1 h2 h3
    have m1 : Double.fin x * Double.fin r1 = Double.fin ((x * r1 : ℤ) : ℚ) := by
      rw [double_fin_mul, round_int _ (x * r1) (by push_cast; ring) h1]
      push_cast
      ring_nf
    have s1 : Double.fin 0 + Double.fin ((x * r1 : ℤ) : ℚ) = Double.fin ((x * r1 : ℤ) : ℚ) := by
      rw [double_fin_add, zero_add, round_int _ (x * r1) rfl h1]
    have m2 : Double.fin y * Double.fin r2 = Double.fin ((y * r2 : ℤ) : ℚ) := by
      rw [double_fin_mul, round_int _ (y * r2) (by push_cast; ring) h2]
      push_cast
      ring_nf
    rw [double_lit_zero]
    refine ⟨?_, ?_, ?_, ?_, trivial⟩
    · exact in_range_int _ (x * r1) (by push_cast; ring) h1
    · rw [m1]
      exact in_range_int _ (x * r1) (by push_cast; ring) h1
    · exact in_range_int _ (y * r2) (by push_cast; ring) h2
    · rw [m1, s1, m2]
      exact in_range_int _ (x * r1 + y * r2) (by push_cast; ring) h3
  exact ⟨hasher_7_double_new, ieee_inner_product_neg, ieee_sign_bit_neg,
    ieee_hash_to_bit_of_guard, ieee_code_data, hasher_7_double_proj_small, hasher_7_double_codes,
    ieee_inner_product_two, ieee_hash_to_bit_scaled, double_scale_big, inner_product_in_range_int⟩

/-! ## Negation in `double` arithmetic -/

/-! ## The hasher `hasher_7_double` -/

/-! ## Scaling by a power of two in `double` arithmetic -/

/-! ## Overflow in the projection -/

/-- On every initialized hasher of dimension `2`, at every position whose projection
vector has two entries of `2` or more, the vector `(2 ^ 1023, -2 ^ 1023)` and its
negation both have the bit `'0'`: the two products overflow to infinities of
opposite sign and the projection is NaN.  When the two entries are `double`s, one of
the vectors `(1, -1)` and `(-1, 1)` has the bit `'1'` there, and its multiple by
`2 ^ 1023` the bit `'0'`. -/
theorem ieee_hash_to_bit_overflow (h : SRPHasher Double) (i : Nat) (g1 g2 : ℚ)
    (hinit : h.initialized = true) (hi : (i : Int) < h.b) (hd : h.d % 2 ^ 64 = 2)
    (hrow : h.random_vectors.getD i [] = [Double.fin g1, Double.fin g2])
    (h1 : 2 ≤ g1) (h2 : 2 ≤ g2) :
    IEEE.hash_to_bit h [Double.fin (2 ^ 1023), Double.fin (-2 ^ 1023)] i = '0' ∧
    IEEE.hash_to_bit h [Double.fin (-2 ^ 1023), Double.fin (2 ^ 1023)] i = '0' ∧
    (Double.round g1 = Double.fin g1 → Double.round g2 = Double.fin g2 → g2 ≤ g1 →
      IEEE.hash_to_bit h [Double.fin 1, Double.fin (-1)] i = '1') ∧
    (Double.round g1 = Double.fin g1 → Double.round g2 = Double.fin g2 → g1 ≤ g2 →
      IEEE.hash_to_bit h [Double.fin (-1), Double.fin 1] i = '1') := by
  have round_neg := rounding_facts.2.1
  have round_overflow := rounding_facts.2.2.2.2.1
  have double_lit_zero := rounding_facts.2.2.2.2.2.2.1
  have double_fin_mul := rounding_facts.2.2.2.2.2.2.2.2.1
  have double_fin_add := rounding_facts.2.2.2.2.2.2.2.2.2.1
  have double_neg_mul := rounding_facts.2.2.2.2.2.2.2.2.2.2.1
  have round_nonneg := rounding_facts.2.2.2.2.2.2.2.2.2.2.2.2.2.2.2.1
  have ieee_hash_to_bit_of_guard := projection_facts.2.2.2.1
  have ieee_inner_product_two := projection_facts.2.2.2.2.2.2.2.1
  have hlen : ∀ a b : Double, (([a, b].length : Nat) : Int) = h.d % 2 ^ 64 := by
    intro a b
    rw [hd]
    rfl
  have hnan : ¬ (Double.nan ≥ Double.fin 0) := by
    intro hge
    change Double.le (Double.fin 0) Double.nan = true at hge
    simp [Double.le] at hge
  have p1 : Double.fin (2 ^ 1023) * Double.fin g1 = Double.pinf := by
    rw [double_fin_mul]
    apply round_overflow
    have : (2 : ℚ) ^ 1024 = 2 ^ 1023 * 2 := by norm_num
    rw [this]
    exact mul_le_mul_of_nonneg_left h1 (by positivity)
  have p2 : Double.fin (2 ^ 1023) * Double.fin g2 = Double.pinf := by
    rw [double_fin_mul]
    apply round_overflow
    have : (2 : ℚ) ^ 1024 = 2 ^ 1023 * 2 := by norm_num
    rw [this]
    exact mul_le_mul_of_nonneg_left h2 (by positivity)
  have n1 : Double.fin (-2 ^ 1023) * Double.fin g1 = Double.ninf := by
    have := double_neg_mul (Double.fin (2 ^ 1023)) (Double.fin g1)
    rw [p1] at this
    exact this
  have n2 : Double.fin (-2 ^ 1023) * Double.fin g2 = Double.ninf := by
    have := double_neg_mul (Double.fin (2 ^ 1023)) (Double.fin g2)
    rw [p2] at this
    exact this
  refine ⟨?_, ?_, ?_, ?_⟩
  · rw [ieee_hash_to_bit_of_guard h _ i hinit hi (hlen _ _), hrow, ieee_inner_product_two,
      p1, n2, if_neg]
    rw [double_lit_zero]
    show ¬ (Double.nan ≥ Double.fin 0)
    exact hnan
  · rw [ieee_hash_to_bit_of_guard h _ i hinit hi (hlen _ _), hrow, ieee_inner_product_two,
      n1, p2, if_neg]
    rw [double_lit_zero]
    show ¬ (Double.nan ≥ Double.fin 0)
    exact hnan
  · intro r1 r2 hle
    rw [ieee_hash_to_bit_of_guard h _ i hinit hi (hlen _ _), hrow, ieee_inner_product_two,
      if_pos]
    have e1 : Double.fin 1 * Double.fin g1 = Double.fin g1 := by
      rw [double_fin_mul, one_mul, r1]
    have e2 : Double.fin (-1) * Double.fin g2 = Double.fin (-g2) := by
      rw [double_fin_mul, neg_one_mul, round_neg, r2]
      rfl
    rw [e1, e2, double_lit_zero, double_fin_add, zero_add, r1, double_fin_add,
      ← double_lit_zero, ← sub_eq_add_neg]
    exact round_nonneg _ (sub_nonneg.2 hle)
  · intro r1 r2 hle
    rw [ieee_hash_to_bit_of_guard h _ i hinit hi (hlen _ _), hrow, ieee_inner_product_two,
      if_pos]
    have e1 : Double.fin (-1) * Double.fin g1 = Double.fin (-g1) := by
      rw [double_fin_mul, neg_one_mul, round_neg, r1]
      rfl
    have e2 : Double.fin 1 * Double.fin g2 = Double.fin g2 := by
      rw [double_fin_mul, one_mul, r2]
    have r1n : Double.round (-g1) = Double.fin (-g1) := by
      rw [round_neg, r1]
      rfl
    rw [e1, e2, double_lit_zero, double_fin_add, zero_add, r1n, double_fin_add,
      ← double_lit_zero, neg_add_eq_sub]
    exact round_nonneg _ (sub_nonneg.2 hle)

/-- C32, as stated, fails in `double` arithmetic.  On the hasher that
`SRPHasher(2, 3, 7)` builds from the draws `-2, -1, 0, 1, 2, 3`, the vector
`v = (12, -6)` has the code `"001"`.  For `c = 2 ^ 1020` the vector `c * v` is
computed without rounding, but on the projection vector `(2, 3)` the product
`2 * 12 * 2 ^ 1020` overflows to `+∞` and `3 * (-6) * 2 ^ 1020` to `-∞`, whose sum
is NaN; the test `NaN >= 0.0` is false and the code of `c * v` is `"000"`, at
Hamming distance `1` from the code of `v`.  The overflow does not depend on the
values `2` and `3`: `ieee_hash_to_bit_overflow` has it for every projection vector
with two entries of `2` or more. -/
theorem C32_counterexample :
    SRPHasher.new 2 3 7 0 (fun _ k => Double.fin ((k : ℚ) - 2)) = .ok hasher_7_double ∧
    hasher_7_double.initialized = true ∧
    (([Double.fin 12, Double.fin (-6)].length : Int) = hasher_7_double.d) ∧
    (0 : ℚ) < 2 ^ 1020 ∧
    ([Double.fin 12, Double.fin (-6)].map fun x => Double.fin (2 ^ 1020) * x) =
      [Double.fin (12 * 2 ^ 1020), Double.fin (-6 * 2 ^ 1020)] ∧
    IEEE.generate_code hasher_7_double [Double.fin 12, Double.fin (-6)] = .ok "001" ∧
    IEEE.generate_code hasher_7_double
      ([Double.fin 12, Double.fin (-6)].map fun x => Double.fin (2 ^ 1020) * x) = .ok "000" ∧
    ExhaustiveBenchmark.hamming_distance "001" "000" = 1 := by
  have hasher_7_double_new := projection_facts.1
  have hasher_7_double_codes := projection_facts.2.2.2.2.2.2.1
  have double_scale_big := projection_facts.2.2.2.2.2.2.2.2.2.1
  refine ⟨hasher_7_double_new, rfl, rfl, by positivity, double_scale_big,
    hasher_7_double_codes.1, ?_, by decide⟩
  rw [double_scale_big]
  exact hasher_7_double_codes.2.2.1

/-- C33, amended, in `double` arithmetic: on a hasher that the constructor returns
with `b` bits, for a vector `v` of the dimension of the hasher, both
`generate_code(v)` and `generate_code(-v)` return a code.  At a position whose
computed projection is neither zero nor NaN one code has `'1'` and the other `'0'`;
where the computed projection is zero both codes have `'1'`, and where it is NaN
both have `'0'`.  When no computed projection is zero or NaN the Hamming distance
of the two codes is `b`. -/
theorem C33_negation_gives_complement
    (d b : Int) (seed entropy : Nat) (gen : Nat → Nat → Double) (h : SRPHasher Double)
    (v : List Double) (hnew : SRPHasher.new d b seed entropy gen = .ok h) (hd : is_int d)
    (hlen : (v.length : Int) = d) :
    ∃ code code_neg,
      IEEE.generate_code h v = .ok code ∧
      IEEE.generate_code h (v.map fun x => -x) = .ok code_neg ∧
      (∀ i : Nat, (i : Int) < b → ∃ a, h.random_vectors[i]? = some a ∧
        (inner_product v a 0.0 ≠ Double.fin 0 → inner_product v a 0.0 ≠ Double.nan →
          (code.data[i]? = some '1' ∧ code_neg.data[i]? = some '0') ∨
          (code.data[i]? = some '0' ∧ code_neg.data[i]? = some '1')) ∧
        (inner_product v a 0.0 = Double.fin 0 →
          code.data[i]? = some '1' ∧ code_neg.data[i]? = some '1') ∧
        (inner_product v a 0.0 = Double.nan →
          code.data[i]? = some '0' ∧ code_neg.data[i]? = some '0')) ∧
      ((∀ a ∈ h.random_vectors,
          inner_product v a 0.0 ≠ Double.fin 0 ∧ inner_product v a 0.0 ≠ Double.nan) →
        ExhaustiveBenchmark.hamming_distance code code_neg = b) := by
  have double_neg_lit_zero := rounding_facts.2.2.2.2.2.2.2.2.2.2.2.2.1
  have ieee_inner_product_neg := projection_facts.2.1
  have ieee_sign_bit_neg := projection_facts.2.2.1
  have ieee_code_data := projection_facts.2.2.2.2.1
  obtain ⟨hb0, -, hdd, hbb, hinit, hrv⟩ := SRPHasher.new_ok hnew
  have hbh : 0 ≤ h.b := by rw [hbb]; exact hb0
  have hrows : h.random_vectors.length = h.b.toNat := by
    rw [hrv, hbb, List.length_map, List.length_range]
  have hl1 : (v.length : Int) = h.d % 2 ^ 64 := by
    have h0 : 0 ≤ d := by
      rw [← hlen]
      exact Int.ofNat_nonneg _
    rw [hdd, hlen]
    unfold is_int at hd
    omega
  have hl2 : (((v.map fun x => -x).length : Nat) : Int) = h.d % 2 ^ 64 := by
    rw [List.length_map]
    exact hl1
  have hneg : ∀ a : List Double,
      inner_product (v.map fun x => -x) a 0.0 = -(inner_product v a 0.0) := by
    intro a
    have h1 := ieee_inner_product_neg v a 0.0
    rw [double_neg_lit_zero] at h1
    exact h1
  have hc1 := generate_code_ok h.b (IEEE.hash_to_bit h) v hbh
  have hc2 := generate_code_ok h.b (IEEE.hash_to_bit h) (v.map fun x => -x) hbh
  rw [ieee_code_data h v hinit hrows hl1] at hc1
  rw [ieee_code_data h _ hinit hrows hl2] at hc2
  refine ⟨_, _, hc1, hc2, ?_, ?_⟩
  · intro i hi
    have hib : (i : Int) < h.b := by rw [hbb]; exact hi
    have hit : i < h.b.toNat := by omega
    have hil : i < h.random_vectors.length := by rw [hrows]; exact hit
    refine ⟨h.random_vectors[i], List.getElem?_eq_getElem hil, ?_⟩
    simp only [List.getElem?_map, List.getElem?_eq_getElem hil, Option.map_some', hneg]
    obtain ⟨s1, s2, s3⟩ := ieee_sign_bit_neg (inner_product v h.random_vectors[i] 0.0)
    refine ⟨?_, ?_, ?_⟩
    · intro hne hnan
      rcases s1 hne hnan with ⟨e1, e2⟩ | ⟨e1, e2⟩
      · left
        rw [e1, e2]
        exact ⟨rfl, rfl⟩
      · right
        rw [e1, e2]
        exact ⟨rfl, rfl⟩
    · intro hz
      obtain ⟨e1, e2⟩ := s2 hz
      rw [e1, e2]
      exact ⟨rfl, rfl⟩
    · intro hz
      obtain ⟨e1, e2⟩ := s3 hz
      rw [e1, e2]
      exact ⟨rfl, rfl⟩
  · intro hall
    rw [hamming_distance_eq _ _ (by simp [String.length]), hamming_of_maps]
    have hfil : h.random_vectors.filter (fun a => decide
        ((if inner_product v a 0.0 ≥ (0.0 : Double) then '1' else '0') ≠
          (if inner_product (v.map fun x => -x) a 0.0 ≥ (0.0 : Double) then '1' else '0'))) =
        h.random_vectors := by
      rw [List.filter_eq_self]
      intro a ha
      rw [hneg]
      rcases (ieee_sign_bit_neg (inner_product v a 0.0)).1 (hall a ha).1 (hall a ha).2
        with ⟨e1, e2⟩ | ⟨e1, e2⟩ <;> rw [e1, e2] <;> decide
    rw [hfil, hrows, hbb]
    exact Int.toNat_of_nonneg hb0

/-- C33, as stated, fails in `double` arithmetic.  On the hasher that
`SRPHasher(2, 3, 7)` builds from the draws `-2, -1, 0, 1, 2, 3`, the vector
`v = 2 ^ 1020 * (12, -6)` has a nonzero dot product with each of the three projection
vectors.  On the projection vector `(2, 3)` the two products overflow to infinities
of opposite sign for `v` and for `-v`, the projection is NaN both times and both
codes have `'0'` there: the codes are `"000"` and `"110"`, at Hamming distance `2`,
not `3`.  The overflow does not depend on the values `2` and `3`:
`ieee_hash_to_bit_overflow` has it for every projection vector with two entries of
`2` or more. -/
theorem C33_counterexample :
    SRPHasher.new 2 3 7 0 (fun _ k => Double.fin ((k : ℚ) - 2)) = .ok hasher_7_double ∧
    hasher_7_double.initialized = true ∧ hasher_7_double.b = 3 ∧
    (([Double.fin (12 * 2 ^ 1020), Double.fin (-6 * 2 ^ 1020)].length : Int) =
      hasher_7_double.d) ∧
    (∀ a ∈ hasher_7.random_vectors, dot [(12 * 2 ^ 1020 : ℚ), -6 * 2 ^ 1020] a ≠ 0) ∧
    hasher_7_double.random_vectors = hasher_7.random_vectors.map (fun a => a.map Double.fin) ∧
    IEEE.generate_code hasher_7_double
      [Double.fin (12 * 2 ^ 1020), Double.fin (-6 * 2 ^ 1020)] = .ok "000" ∧
    IEEE.generate_code hasher_7_double
      ([Double.fin (12 * 2 ^ 1020), Double.fin (-6 * 2 ^ 1020)].map fun x => -x) = .ok "110" ∧
    ExhaustiveBenchmark.hamming_distance "000" "110" = 2 := by
  have hasher_7_double_new := projection_facts.1
  have hasher_7_double_codes := projection_facts.2.2.2.2.2.2.1
  refine ⟨hasher_7_double_new, rfl, rfl, rfl, ?_, rfl, hasher_7_double_codes.2.2.1,
    hasher_7_double_codes.2.2.2, by decide⟩
  intro a ha
  simp only [hasher_7, List.mem_cons, List.mem_singleton, List.not_mem_nil, or_false] at ha
  rcases ha with rfl | rfl | rfl <;> simp [dot] <;> norm_num

/-- C33 for `SRPHasher(2, 3, 7)` with a generator whose `k`-th draw is `k - 2` and
the vector `(12, -6)`: the computed projections are `-18`, `-6` and `6`, and the
codes of `(12, -6)` and `(-12, 6)`, which are `"001"` and `"110"`, are at Hamming
distance `3`. -/
theorem C33_negation_gives_complement_witness :
    SRPHasher.new 2 3 7 0 (fun _ k => Double.fin ((k : ℚ) - 2)) = .ok hasher_7_double ∧
    is_int 2 ∧ (([Double.fin 12, Double.fin (-6)].length : Int) = 2) ∧
    (∀ a ∈ hasher_7_double.random_vectors,
      inner_product [Double.fin 12, Double.fin (-6)] a 0.0 ≠ Double.fin 0 ∧
      inner_product [Double.fin 12, Double.fin (-6)] a 0.0 ≠ Double.nan) ∧
    ∃ code code_neg,
      IEEE.generate_code hasher_7_double [Double.fin 12, Double.fin (-6)] = .ok code ∧
      IEEE.generate_code hasher_7_double
        ([Double.fin 12, Double.fin (-6)].map fun x => -x) = .ok code_neg ∧
      ExhaustiveBenchmark.hamming_distance code code_neg = 3 := by
  have double_lit_zero := rounding_facts.2.2.2.2.2.2.1
  have hasher_7_double_new := projection_facts.1
  have hasher_7_double_proj_small := projection_facts.2.2.2.2.2.1
  have hall : ∀ a ∈ hasher_7_double.random_vectors,
      inner_product [Double.fin 12, Double.fin (-6)] a 0.0 ≠ Double.fin 0 ∧
      inner_product [Double.fin 12, Double.fin (-6)] a 0.0 ≠ Double.nan := by
    intro a ha
    have a1 := hasher_7_double_proj_small 12 (-6) (-2) (-1) (by norm_num) (by norm_num)
      (by norm_num)
    have a2 := hasher_7_double_proj_small 12 (-6) 0 1 (by norm_num) (by norm_num)
      (by norm_num)
    have a3 := hasher_7_double_proj_small 12 (-6) 2 3 (by norm_num) (by norm_num)
      (by norm_num)
    simp only [Int.cast_neg, Int.cast_one, Int.cast_zero, Int.cast_ofNat] at a1 a2 a3
    simp only [hasher_7_double, List.mem_cons, List.mem_singleton, List.not_mem_nil,
      or_false] at ha
    rcases ha with rfl | rfl | rfl
    · simp only [inner_product, double_lit_zero, a1]
      norm_num
      intro h
      cases h
    · simp only [inner_product, double_lit_zero, a2]
      norm_num
      intro h
      cases h
    · simp only [inner_product, double_lit_zero, a3]
      norm_num
      intro h
      cases h
  obtain ⟨code, code_neg, h1, h2, -, h4⟩ := C33_negation_gives_complement 2 3 7 0 _
    hasher_7_double [Double.fin 12, Double.fin (-6)] hasher_7_double_new (by decide) rfl
  exact ⟨hasher_7_double_new, by decide, rfl, hall, code, code_neg, h1, h2, h4 hall⟩

/-- C32, amended, in `double` arithmetic, for a factor `c = 2 ^ k`: when the entries
of `v` are zero or normal numbers and no multiplication or addition underflows or
overflows, neither in the scaling `c * v` nor in the projections of `v` and of
`c * v`, `generate_code` of `c * v` has the same outcome as `generate_code` of `v`.
For `b ≥ 0` both calls return one and the same code, at Hamming distance `0`. -/
theorem C32_generate_code_scale_invariant (hasher : SRPHasher Double) (v : List Double)
    (k : ℤ)
    (hv : ∀ x ∈ v, x.normal_or_zero ∧ Double.mul_in_range (Double.fin (2 ^ k)) x)
    (h1 : ∀ row ∈ hasher.random_vectors, IEEE.inner_product_in_range v row 0.0)
    (h2 : ∀ row ∈ hasher.random_vectors,
      IEEE.inner_product_in_range (v.map fun x => Double.fin (2 ^ k) * x) row 0.0) :
    IEEE.generate_code hasher (v.map fun x => Double.fin (2 ^ k) * x) =
      IEEE.generate_code hasher v ∧
    (0 ≤ hasher.b → ∃ code,
      IEEE.generate_code hasher v = .ok code ∧
      IEEE.generate_code hasher (v.map fun x => Double.fin (2 ^ k) * x) = .ok code ∧
      ExhaustiveBenchmark.hamming_distance code code = 0) := by
  have ieee_hash_to_bit_scaled := projection_facts.2.2.2.2.2.2.2.2.1
  have heq : IEEE.generate_code hasher (v.map fun x => Double.fin (2 ^ k) * x) =
      IEEE.generate_code hasher v :=
    generate_code_congr hasher.b (IEEE.hash_to_bit hasher) _ _
      (fun i => ieee_hash_to_bit_scaled hasher v k hv h1 h2 i)
  refine ⟨heq, fun hb => ⟨_, generate_code_ok hasher.b (IEEE.hash_to_bit hasher) v hb, ?_,
    hamming_distance_self _⟩⟩
  rw [heq]
  exact generate_code_ok hasher.b (IEEE.hash_to_bit hasher) v hb

/-- C32 at the hasher `hasher_7_double`, the vector `(12, -6)` and the factor
`c = 2 ^ 1`: every product and every sum is an integer of small magnitude, and the
codes of `(12, -6)` and of `(24, -12)` are the same. -/
theorem C32_generate_code_scale_invariant_witness :
    (0 : Int) ≤ hasher_7_double.b ∧
    ([Double.fin 12, Double.fin (-6)].map fun x => Double.fin (2 ^ (1 : ℤ)) * x) =
      [Double.fin 24, Double.fin (-12)] ∧
    IEEE.generate_code hasher_7_double
        ([Double.fin 12, Double.fin (-6)].map fun x => Double.fin (2 ^ (1 : ℤ)) * x) =
      IEEE.generate_code hasher_7_double [Double.fin 12, Double.fin (-6)] ∧
    ∃ code, IEEE.generate_code hasher_7_double [Double.fin 12, Double.fin (-6)] = .ok code ∧
      IEEE.generate_code hasher_7_double
        ([Double.fin 12, Double.fin (-6)].map fun x => Double.fin (2 ^ (1 : ℤ)) * x) =
          .ok code ∧
      ExhaustiveBenchmark.hamming_distance code code = 0 := by
  have round_int := rounding_facts.2.2.2.1
  have double_fin_mul := rounding_facts.2.2.2.2.2.2.2.2.1
  have in_range_int := rounding_facts.2.2.2.2.2.2.2.2.2.2.2.2.2.2.2.2.2.1
  have inner_product_in_range_int := projection_facts.2.2.2.2.2.2.2.2.2.2
  have c1 : Double.fin (2 ^ (1 : ℤ)) * Double.fin 12 = Double.fin 24 := by
    rw [double_fin_mul, round_int _ 24 (by norm_num) (by norm_num)]
    norm_num
  have c2 : Double.fin (2 ^ (1 : ℤ)) * Double.fin (-6) = Double.fin (-12) := by
    rw [double_fin_mul, round_int _ (-12) (by norm_num) (by norm_num)]
    norm_num
  have hmap : ([Double.fin 12, Double.fin (-6)].map fun x => Double.fin (2 ^ (1 : ℤ)) * x) =
      [Double.fin 24, Double.fin (-12)] := by
    simp only [List.map_cons, List.map_nil, c1, c2]
  have hv : ∀ x ∈ [Double.fin 12, Double.fin (-6)],
      x.normal_or_zero ∧ Double.mul_in_range (Double.fin (2 ^ (1 : ℤ))) x := by
    intro x hx
    simp only [List.mem_cons, List.mem_singleton, List.not_mem_nil, or_false] at hx
    rcases hx with rfl | rfl
    · exact ⟨⟨round_int _ 12 (by norm_num) (by norm_num),
        (in_range_int _ 12 (by norm_num) (by norm_num)).1⟩,
        in_range_int _ 24 (by norm_num) (by norm_num)⟩
    · exact ⟨⟨round_int _ (-6) (by norm_num) (by norm_num),
        (in_range_int _ (-6) (by norm_num) (by norm_num)).1⟩,
        in_range_int _ (-12) (by norm_num) (by norm_num)⟩
  have rows : ∀ x y : ℤ, |x| ≤ 24 → |y| ≤ 24 → ∀ row ∈ hasher_7_double.random_vectors,
      IEEE.inner_product_in_range [Double.fin x, Double.fin y] row 0.0 := by
    intro x y hx hy row hrow
    rw [abs_le] at hx hy
    simp only [hasher_7_double, List.mem_cons, List.mem_singleton, List.not_mem_nil,
      or_false] at hrow
    rcases hrow with rfl | rfl | rfl
    · have h := inner_product_in_range_int x y (-2) (-1) (by rw [abs_lt]; omega)
        (by rw [abs_lt]; omega) (by rw [abs_lt]; omega)
      simpa using h
    · have h := inner_product_in_range_int x y 0 1 (by rw [abs_lt]; omega)
        (by rw [abs_lt]; omega) (by rw [abs_lt]; omega)
      simpa using h
    · have h := inner_product_in_range_int x y 2 3 (by rw [abs_lt]; omega)
        (by rw [abs_lt]; omega) (by rw [abs_lt]; omega)
      simpa using h
  have h1 := rows 12 (-6) (by norm_num) (by norm_num)
  have h2 := rows 24 (-12) (by norm_num) (by norm_num)
  simp only [Int.cast_neg, Int.cast_ofNat] at h1 h2
  rw [← hmap] at h2
  have h := C32_generate_code_scale_invariant hasher_7_double [Double.fin 12, Double.fin (-6)]
    1 hv h1 h2
  exact ⟨by decide, hmap, h.1, h.2 (by decide)⟩

/-! ## The collision probability in `double` arithmetic -/

/-- The collision probability in `double` arithmetic on vectors whose squares
overflow. -/
theorem p_srp_double_facts :
    -- ieee_dot_product_two
    (∀ (a b c d : Double),
        IEEE.dot_product [a, b] [c, d] = 0.0 + a * c + b * d) ∧
    -- ieee_norm_big
    (∀ (s : ℚ),
        (2 : ℚ) ^ 1024 ≤ s * s →
        IEEE.norm [Double.fin s, Double.fin 0] = Double.pinf) ∧
    -- ieee_dot_product_big
    (∀ (s t : ℚ),
        s * t ≤ -(2 : ℚ) ^ 1024 →
        IEEE.dot_product [Double.fin s, Double.fin 0] [Double.fin t, Double.fin 0] =
          Double.ninf) ∧
    -- ieee_p_srp_overflow
    (∀ (v1 v2 : List Double),
        IEEE.norm v1 = Double.pinf →
        IEEE.norm v2 = Double.pinf →
        IEEE.dot_product v1 v2 = Double.ninf →
        IEEE.calculate_p_srp v1 v2 = Double.fin 1) ∧
    -- double_scale_neg_big
    (([Double.fin (2 ^ 600), Double.fin 0].map fun x => Double.fin (-1) * x) =
        [Double.fin (-2 ^ 600), Double.fin 0]) := by
  have round_zero := rounding_facts.1
  have round_dyadic := rounding_facts.2.2.1
  have round_int := rounding_facts.2.2.2.1
  have round_overflow := rounding_facts.2.2.2.2.1
  have round_neg_overflow := rounding_facts.2.2.2.2.2.1
  have double_lit_zero := rounding_facts.2.2.2.2.2.2.1
  have double_lit_one := rounding_facts.2.2.2.2.2.2.2.1
  have double_fin_mul := rounding_facts.2.2.2.2.2.2.2.2.1
  have double_pinf_not_lt := rounding_facts.2.2.2.2.2.2.2.2.2.2.2.2.2.2.2.2.2.2
  have double_acos_one : Double.acos (Double.fin 1) = Double.fin 0 := by
    show (if (1 : ℚ) < -1 ∨ (1 : ℚ) < 1 then Double.nan
      else Double.round (Real.arccos ((1 : ℚ) : ℝ))) = Double.fin 0
    rw [if_neg (by norm_num)]
    simp [Real.arccos_one, Double.round]
  have ieee_dot_product_two : ∀ (a b c d : Double),
        IEEE.dot_product [a, b] [c, d] = 0.0 + a * c + b * d := by
    intro a b c d
    exact rfl
  -- The function `norm` overflows on a vector `(s, 0)` with `s * s ≥ 2 ^ 1024`: the
  -- square is `+∞`, and so is its square root.
  have ieee_norm_big : ∀ (s : ℚ),
        (2 : ℚ) ^ 1024 ≤ s * s →
        IEEE.norm [Double.fin s, Double.fin 0] = Double.pinf := by
    intro s hs
    have h1 : Double.fin s * Double.fin s = Double.pinf := by
      rw [double_fin_mul]
      exact round_overflow (s * s) (by linarith)
    have h2 : (0.0 : Double) + Double.fin s * Double.fin s + Double.fin 0 * Double.fin 0 =
        Double.pinf := by
      rw [h1, double_lit_zero, double_fin_mul, mul_zero, round_zero]
      rfl
    unfold IEEE.norm
    simp only [inner_product]
    rw [h2]
    rfl
  have ieee_dot_product_big : ∀ (s t : ℚ),
        s * t ≤ -(2 : ℚ) ^ 1024 →
        IEEE.dot_product [Double.fin s, Double.fin 0] [Double.fin t, Double.fin 0] =
          Double.ninf := by
    intro s t hs
    have h1 : Double.fin s * Double.fin t = Double.ninf := by
      rw [double_fin_mul]
      exact round_neg_overflow (s * t) (by linarith)
    rw [ieee_dot_product_two, h1, double_lit_zero, double_fin_mul, mul_zero, round_zero]
    rfl
  -- The value of `calculate_p_srp` when both norms overflow to `+∞` and the dot
  -- product to `-∞`: the cosine `-∞ / +∞` is NaN, `std::min(1.0, NaN)` is `1.0`, and
  -- the result is `1.0 - acos(1.0) / M_PI = 1`.
  have ieee_p_srp_overflow : ∀ (v1 v2 : List Double),
        IEEE.norm v1 = Double.pinf →
        IEEE.norm v2 = Double.pinf →
        IEEE.dot_product v1 v2 = Double.ninf →
        IEEE.calculate_p_srp v1 v2 = Double.fin 1 := by
    intro v1 v2 h1 h2 hd
    unfold IEEE.calculate_p_srp
    simp only [h1, h2, hd]
    rw [if_neg (by
      intro h
      rcases h with h | h <;> exact double_pinf_not_lt _ h)]
    have hcos : Double.ninf / (Double.pinf * Double.pinf) = Double.nan := rfl
    have hmin : Double.min 1.0 Double.nan = 1.0 := by
      unfold Double.min
      rw [if_neg]
      intro h
      change Double.lt Double.nan 1.0 = true at h
      simp [Double.lt] at h
    have hmax : Double.max (-1.0) (1.0 : Double) = 1.0 := by
      unfold Double.max
      rw [if_pos]
      rw [double_lit_one]
      show Double.lt (Double.fin (-1)) (Double.fin 1) = true
      simp [Double.lt]
    rw [hcos, hmin, hmax, double_lit_one, double_acos_one]
    have hdiv : Double.fin 0 / Double.M_PI = Double.fin 0 := by
      show (if (884279719003555 / 281474976710656 : ℚ) = 0 then
          (if (0 : ℚ) = 0 then Double.nan else if (0 : ℚ) < 0 then Double.pinf else Double.ninf)
        else Double.round ((0 : ℚ) / (884279719003555 / 281474976710656))) = Double.fin 0
      rw [if_neg (by norm_num), zero_div, round_zero]
    rw [hdiv]
    show Double.round ((1 : ℚ) + -0) = Double.fin 1
    rw [neg_zero, add_zero]
    exact round_int 1 1 (by norm_num) (by norm_num)
  have double_scale_neg_big : ([Double.fin (2 ^ 600), Double.fin 0].map fun x => Double.fin (-1) * x) =
        [Double.fin (-2 ^ 600), Double.fin 0] := by
    have s1 : Double.fin (-1) * Double.fin (2 ^ 600) = Double.fin (-2 ^ 600) := by
      rw [double_fin_mul]
      have h := round_dyadic (-1) 600 (by norm_num) (by norm_num) (by norm_num)
      have e : (-1 : ℚ) * 2 ^ 600 = ((-1 : ℤ) : ℚ) * 2 ^ (600 : ℤ) := by norm_num
      rw [e, h]
      norm_num
    have s2 : Double.fin (-1) * Double.fin 0 = Double.fin 0 := by
      rw [double_fin_mul, mul_zero, round_zero]
    simp only [List.map_cons, List.map_nil, s1, s2]
  exact ⟨ieee_dot_product_two, ieee_norm_big, ieee_dot_product_big, ieee_p_srp_overflow,
    double_scale_neg_big⟩

/-- C35, as stated, fails in `double` arithmetic.  For `v1 = (2 ^ 600, 0)` and
`v2 = -1 * v1`, a negative multiple, both computed norms are `+∞` (the squares
overflow), hence not below `1e-12`; the dot product is `-∞`, the cosine
`-∞ / +∞` is NaN, `std::min(1.0, NaN)` is `1.0`, and the function returns
`1.0 - acos(1.0) / M_PI = 1`, not `0`. -/
theorem C35_counterexample :
    ([Double.fin (2 ^ 600), Double.fin 0].map fun x => Double.fin (-1) * x) =
      [Double.fin (-2 ^ 600), Double.fin 0] ∧
    [Double.fin (2 ^ 600), Double.fin 0].length =
      ([Double.fin (2 ^ 600), Double.fin 0].map fun x => Double.fin (-1) * x).length ∧
    ¬ (IEEE.norm [Double.fin (2 ^ 600), Double.fin 0] < 1e-12) ∧
    ¬ (IEEE.norm ([Double.fin (2 ^ 600), Double.fin 0].map fun x => Double.fin (-1) * x)
      < 1e-12) ∧
    IEEE.calculate_p_srp [Double.fin (2 ^ 600), Double.fin 0]
      ([Double.fin (2 ^ 600), Double.fin 0].map fun x => Double.fin (-1) * x) = Double.fin 1 ∧
    Double.fin 1 ≠ Double.fin 0 := by
  have double_pinf_not_lt := rounding_facts.2.2.2.2.2.2.2.2.2.2.2.2.2.2.2.2.2.2
  have ieee_norm_big := p_srp_double_facts.2.1
  have ieee_dot_product_big := p_srp_double_facts.2.2.1
  have ieee_p_srp_overflow := p_srp_double_facts.2.2.2.1
  have double_scale_neg_big := p_srp_double_facts.2.2.2.2
  have n1 : IEEE.norm [Double.fin (2 ^ 600), Double.fin 0] = Double.pinf := by
    apply ieee_norm_big
    norm_num
  have n2 : IEEE.norm [Double.fin (-2 ^ 600), Double.fin 0] = Double.pinf := by
    apply ieee_norm_big
    norm_num
  have hdot : IEEE.dot_product [Double.fin (2 ^ 600), Double.fin 0]
      [Double.fin (-2 ^ 600), Double.fin 0] = Double.ninf := by
    apply ieee_dot_product_big
    norm_num
  refine ⟨double_scale_neg_big, by rw [List.length_map], ?_, ?_, ?_, ?_⟩
  · rw [n1]
    exact double_pinf_not_lt _
  · rw [double_scale_neg_big, n2]
    exact double_pinf_not_lt _
  · rw [double_scale_neg_big]
    exact ieee_p_srp_overflow _ _ n1 n2 hdot
  · intro h
    injection h with h
    norm_num at h

/-! ## Rounding of a number between two neighbouring `double`s -/

theorem rne_eq_of_near {K : Type} [LinearOrderedField K] [FloorRing K] (y : K) (m : ℤ)
    (hlo : (m : K) - 1 / 2 < y) (hhi : y < (m : K) + 1 / 2) : Double.rne y = m := by
  unfold Double.rne
  by_cases h : (m : K) ≤ y
  · have hf : ⌊y⌋ = m := by
      rw [Int.floor_eq_iff]
      exact ⟨h, by linarith⟩
    rw [hf, if_pos (by linarith)]
  · have hf : ⌊y⌋ = m - 1 := by
      rw [Int.floor_eq_iff]
      push_cast
      exact ⟨by linarith, by linarith [not_le.mp h]⟩
    rw [hf]
    push_cast
    rw [if_neg (by linarith), if_pos (by linarith)]
    ring

/-- A positive number strictly between the midpoints around `m * 2 ^ e`, for a
mantissa `2 ^ 52 < m < 2 ^ 53` and an exponent `-1074 ≤ e ≤ 970`, rounds to
`m * 2 ^ e`. -/
theorem round_eq_of_near {K : Type} [LinearOrderedField K] [FloorRing K] (x : K) (m e : ℤ)
    (hm1 : 2 ^ 52 < m) (hm2 : m < 2 ^ 53) (he1 : -1074 ≤ e) (he2 : e ≤ 970)
    (hlo : ((m : K) - 1 / 2) * 2 ^ e < x) (hhi : x < ((m : K) + 1 / 2) * 2 ^ e) :
    Double.round x = Double.fin ((m : ℚ) * 2 ^ e) := by
  have h2e : (0 : K) < 2 ^ e := by positivity
  have hmK1 : ((2 : K) ^ 52 + 1) ≤ (m : K) := by
    have : (2 : ℤ) ^ 52 + 1 ≤ m := by omega
    exact_mod_cast this
  have hmK2 : (m : K) + 1 ≤ 2 ^ 53 := by
    have : m + 1 ≤ (2 : ℤ) ^ 53 := by omega
    exact_mod_cast this
  have hpos : 0 < x := by
    refine lt_trans ?_ hlo
    apply mul_pos _ h2e
    have : (0 : K) < 2 ^ 52 := by positivity
    linarith
  have hlog : Int.log 2 x = e + 52 := by
    apply le_antisymm
    · have h3 : x < ((2 : ℕ) : K) ^ (e + 52 + 1) := by
        have e1 : ((2 : ℕ) : K) ^ (e + 52 + 1) = 2 ^ 53 * 2 ^ e := by
          rw [show e + 52 + 1 = 53 + e by ring, zpow_add₀ (by norm_num : ((2 : ℕ) : K) ≠ 0)]
          norm_num
        rw [e1]
        refine lt_of_lt_of_le hhi ?_
        apply mul_le_mul_of_nonneg_right _ h2e.le
        linarith
      have := (Int.lt_zpow_iff_log_lt (b := 2) (by norm_num) hpos).1 h3
      omega
    · apply (Int.zpow_le_iff_le_log (b := 2) (by norm_num) hpos).1
      have e1 : ((2 : ℕ) : K) ^ (e + 52) = 2 ^ 52 * 2 ^ e := by
        rw [show e + 52 = 52 + e by ring, zpow_add₀ (by norm_num : ((2 : ℕ) : K) ≠ 0)]
        norm_num
      rw [e1]
      refine le_trans ?_ hlo.le
      apply mul_le_mul_of_nonneg_right _ h2e.le
      linarith
  unfold Double.round
  rw [if_neg hpos.ne', if_pos hpos]
  unfold Double.round_pos
  simp only
  rw [hlog, max_eq_left (by omega), show e + 52 - 52 = e by ring]
  have hr : Double.rne (x / 2 ^ e) = m := by
    apply rne_eq_of_near
    · rw [lt_div_iff₀ h2e]
      exact hlo
    · rw [div_lt_iff₀ h2e]
      exact hhi
  rw [hr, if_pos]
  have h2q : (0 : ℚ) < 2 ^ e := by positivity
  have hmq : (m : ℚ) < 2 ^ 53 := by exact_mod_cast hm2
  calc (m : ℚ) * 2 ^ e < 2 ^ 53 * 2 ^ e := mul_lt_mul_of_pos_right hmq h2q
    _ ≤ 2 ^ 53 * 2 ^ (970 : ℤ) := by
        apply mul_le_mul_of_nonneg_left _ (by positivity)
        exact zpow_le_zpow_right₀ (by norm_num) he2
    _ = 2 ^ 1023 := by norm_num
    _ < 2 ^ 1024 := by norm_num

/-- The steps of `compute_gradients` in `double` arithmetic at vectors of norm
`sqrt(26)` that are orthogonal: the literals, the values of the library functions at
`0` and `1`, the collision probability `0.5`, the separation statistic `0` with its
derivatives, and the derivative vectors. -/
theorem gradient_double_facts :
    -- round_eq_q
    (∀ (x : ℚ) (m : ℤ) (k : ℕ),
        2 ^ 52 < m →
        m < 2 ^ 53 →
        k ≤ 1074 →
        (m : ℚ) - 1 / 2 < x * 2 ^ k →
        x * 2 ^ k < (m : ℚ) + 1 / 2 →
        Double.round x = Double.fin ((m : ℚ) / 2 ^ k)) ∧
    -- round_eq_q_neg
    (∀ (x : ℚ) (m : ℤ) (k : ℕ),
        2 ^ 52 < m →
        m < 2 ^ 53 →
        k ≤ 1074 →
        (m : ℚ) - 1 / 2 < -x * 2 ^ k →
        -x * 2 ^ k < (m : ℚ) + 1 / 2 →
        Double.round x = Double.fin (-((m : ℚ) / 2 ^ k))) ∧
    -- double_fin_div
    (∀ (x y : ℚ),
        y ≠ 0 →
        Double.fin x / Double.fin y = Double.round (x / y)) ∧
    -- double_fin_sub
    (∀ (x y : ℚ),
        Double.fin x - Double.fin y = Double.round (x + -y)) ∧
    -- double_sqrt_sixteen
    (Double.sqrt (Double.fin 16) = Double.fin 4) ∧
    -- round_exact
    (∀ (q : ℚ) (m : ℤ) (k : ℕ),
        q = (m : ℚ) / 2 ^ k →
        |m| < 2 ^ 53 →
        k ≤ 1074 →
        Double.round q = Double.fin q) ∧
    -- ieee_norms_orth
    (IEEE.norm [Double.fin 5, Double.fin 1] = Double.fin (5740985595342838 / 2 ^ 50) ∧
      IEEE.norm [Double.fin 1, Double.fin (-5)] = Double.fin (5740985595342838 / 2 ^ 50) ∧
      IEEE.norm [Double.fin (-1), Double.fin 5] = Double.fin (5740985595342838 / 2 ^ 50) ∧
      IEEE.dot_product [Double.fin 5, Double.fin 1] [Double.fin 1, Double.fin (-5)] =
        Double.fin 0 ∧
      IEEE.dot_product [Double.fin 5, Double.fin 1] [Double.fin (-1), Double.fin 5] =
        Double.fin 0) ∧
    -- ieee_p_srp_orth
    (∀ (v1 v2 : List Double),
        IEEE.norm v1 = Double.fin (5740985595342838 / 2 ^ 50) →
        IEEE.norm v2 = Double.fin (5740985595342838 / 2 ^ 50) →
        IEEE.dot_product v1 v2 = Double.fin 0 →
        IEEE.calculate_p_srp v1 v2 = Double.fin (1 / 2)) ∧
    -- ieee_p_srp_derivatives_orth
    (∀ (x1 x2 y1 y2 : Double),
        IEEE.norm [x1, x2] = Double.fin (5740985595342838 / 2 ^ 50) →
        IEEE.norm [y1, y2] = Double.fin (5740985595342838 / 2 ^ 50) →
        IEEE.dot_product [x1, x2] [y1, y2] = Double.fin 0 →
        ∃ a1 a2, IEEE.calculate_p_srp_derivatives [x1, x2] [y1, y2] = ([a1, a2],
          [Double.fin (5734161139222659 / 2 ^ 54) *
            (x1 / Double.fin (7318349394477055 / 2 ^ 48) -
              (Double.fin 0 * y1) / Double.fin (7318349394477055 / 2 ^ 48)),
           Double.fin (5734161139222659 / 2 ^ 54) *
            (x2 / Double.fin (7318349394477055 / 2 ^ 48) -
              (Double.fin 0 * y2) / Double.fin (7318349394477055 / 2 ^ 48))])) ∧
    -- ieee_compute_gradients_half
    (∀ (store : UserItemStore Double) (t : Triplet) (params : TrainingParams Double)
          (x1 x2 y1 y2 z1 z2 a1 a2 b1 b2 c1 c2 e1 e2 : Double),
        store.get_user_vector t.user_id = .ok [x1, x2] →
        store.get_item_vector t.preferred_item_id = .ok [y1, y2] →
        store.get_item_vector t.less_preferred_item_id = .ok [z1, z2] →
        IEEE.calculate_p_srp [x1, x2] [y1, y2] = Double.fin (1 / 2) →
        IEEE.calculate_p_srp [x1, x2] [z1, z2] = Double.fin (1 / 2) →
        Double.sqrt (Double.ofInt params.b_lsh_length) = Double.fin 4 →
        IEEE.calculate_p_srp_derivatives [x1, x2] [y1, y2] = ([a1, a2], [b1, b2]) →
        IEEE.calculate_p_srp_derivatives [x1, x2] [z1, z2] = ([c1, c2], [e1, e2]) →
        IEEE.compute_gradients store t params = .ok
          ([Double.fin (7186705221432913 / 2 ^ 51) *
              (Double.fin (-(6369051672525772 / 2 ^ 52)) * a1 +
                Double.fin (6369051672525772 / 2 ^ 52) * c1),
            Double.fin (7186705221432913 / 2 ^ 51) *
              (Double.fin (-(6369051672525772 / 2 ^ 52)) * a2 +
                Double.fin (6369051672525772 / 2 ^ 52) * c2)],
           [Double.fin (7186705221432913 / 2 ^ 51) * Double.fin (-(6369051672525772 / 2 ^ 52)) * b1,
            Double.fin (7186705221432913 / 2 ^ 51) * Double.fin (-(6369051672525772 / 2 ^ 52)) * b2],
           [Double.fin (7186705221432913 / 2 ^ 51) * Double.fin (6369051672525772 / 2 ^ 52) * e1,
            Double.fin (7186705221432913 / 2 ^ 51) * Double.fin (6369051672525772 / 2 ^ 52) * e2])) := by
  have erf_zero := zero_store_facts.1
  have round_zero := rounding_facts.1
  have round_neg := rounding_facts.2.1
  have round_dyadic := rounding_facts.2.2.1
  have round_int := rounding_facts.2.2.2.1
  have double_lit_zero := rounding_facts.2.2.2.2.2.2.1
  have double_lit_one := rounding_facts.2.2.2.2.2.2.2.1
  have double_fin_mul := rounding_facts.2.2.2.2.2.2.2.2.1
  have double_fin_add := rounding_facts.2.2.2.2.2.2.2.2.2.1
  have hasher_7_double_proj_small := projection_facts.2.2.2.2.2.1
  have ieee_inner_product_two := projection_facts.2.2.2.2.2.2.2.1
  have ieee_dot_product_two := p_srp_double_facts.1
  have round_eq_q : ∀ (x : ℚ) (m : ℤ) (k : ℕ),
        2 ^ 52 < m →
        m < 2 ^ 53 →
        k ≤ 1074 →
        (m : ℚ) - 1 / 2 < x * 2 ^ k →
        x * 2 ^ k < (m : ℚ) + 1 / 2 →
        Double.round x = Double.fin ((m : ℚ) / 2 ^ k) := by
    intro x m k hm1 hm2 hk hlo hhi
    have h2k : (0 : ℚ) < 2 ^ k := by positivity
    have e1 : (2 : ℚ) ^ (-(k : ℤ)) = 1 / 2 ^ k := by
      rw [zpow_neg, zpow_natCast, one_div]
    have h := round_eq_of_near x m (-(k : ℤ)) hm1 hm2 (by omega) (by omega)
      (by rw [e1, mul_one_div, div_lt_iff₀ h2k]; exact hlo)
      (by rw [e1, mul_one_div, lt_div_iff₀ h2k]; exact hhi)
    rw [h, e1, mul_one_div]
  have round_eq_q_neg : ∀ (x : ℚ) (m : ℤ) (k : ℕ),
        2 ^ 52 < m →
        m < 2 ^ 53 →
        k ≤ 1074 →
        (m : ℚ) - 1 / 2 < -x * 2 ^ k →
        -x * 2 ^ k < (m : ℚ) + 1 / 2 →
        Double.round x = Double.fin (-((m : ℚ) / 2 ^ k)) := by
    intro x m k hm1 hm2 hk hlo hhi
    have h := round_eq_q (-x) m k hm1 hm2 hk hlo hhi
    rw [round_neg] at h
    cases hr : Double.round x <;> rw [hr] at h <;> simp [Double.neg] at h
    rw [← h, neg_neg]
  have sqrt_eq_q : ∀ (q : ℚ) (m : ℤ) (k : ℕ),
        2 ^ 52 < m →
        m < 2 ^ 53 →
        k ≤ 1074 →
        ((m : ℚ) - 1 / 2) ^ 2 < q * 4 ^ k →
        q * 4 ^ k < ((m : ℚ) + 1 / 2) ^ 2 →
        Double.sqrt (Double.fin q) = Double.fin ((m : ℚ) / 2 ^ k) := by
    intro q m k hm1 hm2 hk hlo hhi
    have h4 : (4 : ℚ) ^ k = (2 ^ k) ^ 2 := by
      rw [← pow_mul, mul_comm, pow_mul]
      norm_num
    have h2k : (0 : ℝ) < 2 ^ k := by positivity
    have hmpos : (0 : ℚ) < (m : ℚ) - 1 / 2 := by
      have : ((2 : ℚ) ^ 52) < (m : ℚ) := by exact_mod_cast hm1
      have : (0 : ℚ) < 2 ^ 52 := by positivity
      linarith
    have hq : 0 < q := by
      have : (0 : ℚ) < q * 4 ^ k := lt_trans (by positivity) hlo
      exact pos_of_mul_pos_left this (by positivity)
    have e1 : (2 : ℝ) ^ (-(k : ℤ)) = 1 / 2 ^ k := by
      rw [zpow_neg, zpow_natCast, one_div]
    have hloR : (((m : ℝ) - 1 / 2) / 2 ^ k) ^ 2 < (q : ℝ) := by
      rw [div_pow, div_lt_iff₀ (by positivity)]
      have h5 : (((m : ℚ) - 1 / 2) ^ 2 : ℚ) < q * (2 ^ k) ^ 2 := by rw [← h4]; exact hlo
      have h6 := (Rat.cast_lt (K := ℝ)).2 h5
      push_cast at h6
      exact h6
    have hhiR : (q : ℝ) < (((m : ℝ) + 1 / 2) / 2 ^ k) ^ 2 := by
      rw [div_pow, lt_div_iff₀ (by positivity)]
      have h5 : q * (2 ^ k) ^ 2 < (((m : ℚ) + 1 / 2) ^ 2 : ℚ) := by rw [← h4]; exact hhi
      have h6 := (Rat.cast_lt (K := ℝ)).2 h5
      push_cast at h6
      exact h6
    have hmR : (0 : ℝ) < (m : ℝ) - 1 / 2 := by
      have h6 := (Rat.cast_lt (K := ℝ)).2 hmpos
      push_cast at h6
      exact h6
    have h := round_eq_of_near (Real.sqrt (q : ℝ)) m (-(k : ℤ)) hm1 hm2 (by omega) (by omega)
      (by
        rw [e1, mul_one_div]
        exact (Real.lt_sqrt (by positivity)).2 hloR)
      (by
        rw [e1, mul_one_div]
        exact (Real.sqrt_lt' (by positivity)).2 hhiR)
    show (if q < 0 then Double.nan else Double.round (Real.sqrt (q : ℝ))) = _
    rw [if_neg (not_lt.mpr hq.le), h]
    congr 1
    rw [zpow_neg, zpow_natCast, div_eq_mul_inv]
  have double_fin_div : ∀ (x y : ℚ),
        y ≠ 0 →
        Double.fin x / Double.fin y = Double.round (x / y) := by
    intro x y hy
    show (if y = 0 then (if x = 0 then Double.nan else if 0 < x then Double.pinf
      else Double.ninf) else Double.round (x / y)) = _
    rw [if_neg hy]
  have double_fin_sub : ∀ (x y : ℚ),
        Double.fin x - Double.fin y = Double.round (x + -y) := by
    intro x y
    exact rfl
  have double_fin_neg : ∀ (x : ℚ),
        -(Double.fin x) = Double.fin (-x) := by
    intro x
    exact rfl
  have double_fin_lt : ∀ (x y : ℚ),
        (Double.fin x < Double.fin y) ↔ x < y := by
    intro x y
    show Double.lt (Double.fin x) (Double.fin y) = true ↔ _
    show decide (x < y) = true ↔ _
    rw [decide_eq_true_eq]
  have double_lit_two : (2.0 : Double) = Double.fin 2 := by
    show Double.round ((2.0 : ℚ)) = _
    rw [round_int (2.0 : ℚ) 2 (by norm_num) (by norm_num)]
    norm_num
  have double_lit_half : (0.5 : Double) = Double.fin (1 / 2) := by
    show Double.round ((0.5 : ℚ)) = _
    have h := round_dyadic 1 (-1) (by norm_num) (by norm_num) (by norm_num)
    have e : ((1 : ℤ) : ℚ) * 2 ^ (-1 : ℤ) = 0.5 := by norm_num
    rw [e] at h
    rw [h]
    norm_num
  -- The literal `1e-12` as a `double`.
  have double_lit_tiny : (1e-12 : Double) = Double.fin (4951760157141521 / 2 ^ 92) := by
    show Double.round ((1e-12 : ℚ)) = _
    have h := round_eq_q (1e-12 : ℚ) 4951760157141521 92 (by norm_num) (by norm_num)
      (by norm_num) (by norm_num) (by norm_num)
    rw [h]
    norm_num
  -- The call `acos(0.0)` returns the `double` nearest to `π / 2`, which is
  -- `M_PI / 2`.
  have double_acos_zero :
      Double.acos (Double.fin 0) = Double.fin (7074237752028440 / 2 ^ 52) := by
    show (if (0 : ℚ) < -1 ∨ (1 : ℚ) < 0 then Double.nan
      else Double.round (Real.arccos ((0 : ℚ) : ℝ))) = _
    rw [if_neg (by norm_num), Rat.cast_zero, Real.arccos_zero]
    have h1 := Real.pi_gt_d20
    have h2 := Real.pi_lt_d20
    have h := round_eq_of_near (Real.pi / 2) 7074237752028440 (-52) (by norm_num) (by norm_num)
      (by norm_num) (by norm_num)
      (by
        have e : (((7074237752028440 : ℤ) : ℝ) - 1 / 2) * 2 ^ (-52 : ℤ) <
            3.14159265358979323846 / 2 := by norm_num
        linarith)
      (by
        have e : (3.14159265358979323847 : ℝ) / 2 <
            (((7074237752028440 : ℤ) : ℝ) + 1 / 2) * 2 ^ (-52 : ℤ) := by norm_num
        linarith)
    rw [h]
    norm_num
  have double_erf_zero : Double.erf (Double.fin 0) = Double.fin 0 := by
    show Double.round (erf (((0 : ℚ)) : ℝ)) = _
    rw [Rat.cast_zero, erf_zero]
    simp [Double.round]
  -- A power of two in the normal range, as a real number, is a `double`.
  have round_two_zpow_real : ∀ (j : ℤ),
        -1022 ≤ j →
        j ≤ 1023 →
        Double.round ((2 : ℝ) ^ j) = Double.fin (2 ^ j) := by
    intro j h1 h2
    have hpos : (0 : ℝ) < 2 ^ j := by positivity
    have hlog : Int.log 2 ((2 : ℝ) ^ j) = j := by
      have := Int.log_zpow (R := ℝ) (b := 2) (by norm_num) j
      rw [Nat.cast_ofNat] at this
      exact this
    unfold Double.round
    rw [if_neg hpos.ne', if_pos hpos]
    unfold Double.round_pos
    simp only
    rw [hlog, max_eq_left h1]
    have hq : (2 : ℝ) ^ j / 2 ^ (j - 52) = (((2 : ℤ) ^ 52 : ℤ) : ℝ) := by
      rw [← zpow_sub₀ (by norm_num : (2 : ℝ) ≠ 0)]
      rw [show j - (j - 52) = 52 by ring]
      norm_num
    have hr : Double.rne ((2 : ℝ) ^ j / 2 ^ (j - 52)) = 2 ^ 52 := by
      rw [hq]
      simp [Double.rne]
    rw [hr]
    have hv : (((2 : ℤ) ^ 52 : ℤ) : ℚ) * 2 ^ (j - 52) = 2 ^ j := by
      rw [zpow_sub₀ (by norm_num : (2 : ℚ) ≠ 0)]
      have : (0 : ℚ) < 2 ^ (52 : ℤ) := by positivity
      field_simp
      norm_num
      ring
    rw [hv, if_pos]
    calc (2 : ℚ) ^ j ≤ 2 ^ (1023 : ℤ) := zpow_le_zpow_right₀ (by norm_num) h2
      _ < 2 ^ 1024 := by norm_num
  have double_exp_zero : Double.exp (Double.fin 0) = Double.fin 1 := by
    show Double.round (Real.exp (((0 : ℚ)) : ℝ)) = _
    rw [Rat.cast_zero, Real.exp_zero]
    have h := round_two_zpow_real 0 (by norm_num) (by norm_num)
    rw [zpow_zero, zpow_zero] at h
    exact h
  have double_sqrt_one : Double.sqrt (Double.fin 1) = Double.fin 1 := by
    show (if (1 : ℚ) < 0 then Double.nan else Double.round (Real.sqrt ((1 : ℚ) : ℝ))) = _
    rw [if_neg (by norm_num), Rat.cast_one, Real.sqrt_one]
    have h := round_two_zpow_real 0 (by norm_num) (by norm_num)
    rw [zpow_zero, zpow_zero] at h
    exact h
  have double_sqrt_sixteen : Double.sqrt (Double.fin 16) = Double.fin 4 := by
    show (if (16 : ℚ) < 0 then Double.nan else Double.round (Real.sqrt ((16 : ℚ) : ℝ))) = _
    have e : Real.sqrt ((16 : ℚ) : ℝ) = (2 : ℝ) ^ (2 : ℤ) := by
      have : ((16 : ℚ) : ℝ) = (4 : ℝ) ^ 2 := by norm_num
      rw [this, Real.sqrt_sq (by norm_num)]
      norm_num
    rw [if_neg (by norm_num), e, round_two_zpow_real 2 (by norm_num) (by norm_num)]
    norm_num
  -- An integer of magnitude below `2 ^ 53` over a power `2 ^ k` with `k ≤ 1074` is a
  -- `double`.
  have round_exact : ∀ (q : ℚ) (m : ℤ) (k : ℕ),
        q = (m : ℚ) / 2 ^ k →
        |m| < 2 ^ 53 →
        k ≤ 1074 →
        Double.round q = Double.fin q := by
    intro q m k hq hm hk
    have e1 : (2 : ℚ) ^ (-(k : ℤ)) = 1 / 2 ^ k := by
      rw [zpow_neg, zpow_natCast, one_div]
    have hb : |(m : ℚ)| * 2 ^ (-(k : ℤ)) < 2 ^ 1024 := by
      have h1 : |(m : ℚ)| < 2 ^ 53 := by exact_mod_cast hm
      have h2 : (2 : ℚ) ^ (-(k : ℤ)) ≤ 1 := zpow_le_one_of_nonpos₀ (by norm_num) (by omega)
      have h3 : (0 : ℚ) < 2 ^ (-(k : ℤ)) := by positivity
      calc |(m : ℚ)| * 2 ^ (-(k : ℤ)) ≤ |(m : ℚ)| * 1 :=
            mul_le_mul_of_nonneg_left h2 (abs_nonneg _)
        _ < 2 ^ 1024 := by
            rw [mul_one]
            exact lt_trans h1 (by norm_num)
    have h := round_dyadic m (-(k : ℤ)) hm (by omega) hb
    rw [e1, mul_one_div, ← hq] at h
    exact h
  have double_half_lt_literals : ¬ (Double.fin (1 / 2) < (1e-12 : Double)) ∧ ((1e-12 : Double) < Double.fin (1 / 2)) ∧
      (1.0 : Double) - 1e-12 = Double.fin (9007199254731985 / 2 ^ 53) ∧
      Double.fin (1 / 2) < Double.fin (9007199254731985 / 2 ^ 53) := by
    rw [double_lit_tiny, double_lit_one, double_fin_lt, double_fin_lt, double_fin_lt,
      double_fin_sub]
    refine ⟨by norm_num, by norm_num, ?_, by norm_num⟩
    have h := round_eq_q (1 + -(4951760157141521 / 2 ^ 92)) 9007199254731985 53
      (by norm_num) (by norm_num) (by norm_num) (by norm_num) (by norm_num)
    rw [h]
    norm_num
  -- The clamp `std::max(1e-12, std::min(1.0 - 1e-12, p))` leaves `p = 0.5`
  -- unchanged.
  have double_clamp_half :
      Double.max 1e-12 (Double.min (1.0 - 1e-12) (Double.fin (1 / 2))) = Double.fin (1 / 2) := by
    obtain ⟨-, h2, h3, h4⟩ := double_half_lt_literals
    rw [h3]
    unfold Double.min Double.max
    rw [if_pos h4, if_pos h2]
  have double_one_sub_half : (1.0 : Double) - Double.fin (1 / 2) = Double.fin (1 / 2) := by
    rw [double_lit_one, double_fin_sub]
    have h := round_exact (1 + -(1 / 2)) 1 1 (by norm_num) (by norm_num) (by norm_num)
    rw [h]
    norm_num
  -- The standard deviation `sqrt(0.25 + 0.25)` of `calculate_gamma` at
  -- `p_ui = p_uj = 0.5`.
  have double_sigma_half : Double.sqrt (Double.fin (1 / 2) * (1.0 - Double.fin (1 / 2)) +
        Double.fin (1 / 2) * (1.0 - Double.fin (1 / 2))) =
        Double.fin (6369051672525773 / 2 ^ 53) := by
    rw [double_one_sub_half, double_fin_mul,
      round_exact (1 / 2 * (1 / 2)) 1 2 (by norm_num) (by norm_num) (by norm_num),
      double_fin_add,
      round_exact (1 / 2 * (1 / 2) + 1 / 2 * (1 / 2)) 1 1 (by norm_num) (by norm_num)
        (by norm_num)]
    have h := sqrt_eq_q (1 / 2 * (1 / 2) + 1 / 2 * (1 / 2)) 6369051672525773 53 (by norm_num)
      (by norm_num) (by norm_num) (by norm_num) (by norm_num)
    exact h
  have ieee_calculate_gamma_half : ∀ (b : Int),
        IEEE.calculate_gamma (Double.fin (1 / 2)) (Double.fin (1 / 2)) b = Double.fin 0 := by
    intro b
    unfold IEEE.calculate_gamma
    simp only [double_clamp_half, double_sigma_half]
    rw [if_neg, double_fin_sub, add_neg_cancel, round_zero, double_fin_div _ _ (by norm_num),
      zero_div, round_zero]
    rw [double_lit_tiny, double_fin_lt]
    norm_num
  have ieee_calculate_gamma_derivatives_half : ∀ (b : Int),
        IEEE.calculate_gamma_derivatives (Double.fin (1 / 2)) (Double.fin (1 / 2)) b =
          (Double.fin (-(6369051672525772 / 2 ^ 52)), Double.fin (6369051672525772 / 2 ^ 52)) := by
    intro b
    unfold IEEE.calculate_gamma_derivatives
    simp only [double_clamp_half, double_sigma_half]
    rw [if_neg (by rw [double_lit_tiny, double_fin_lt]; norm_num)]
    have e1 : (2.0 : Double) * Double.fin (1 / 2) = Double.fin 1 := by
      rw [double_lit_two, double_fin_mul,
        round_exact (2 * (1 / 2)) 1 0 (by norm_num) (by norm_num) (by norm_num)]
      norm_num
    have e2 : (1.0 : Double) - Double.fin 1 = Double.fin 0 := by
      rw [double_lit_one, double_fin_sub, add_neg_cancel, round_zero]
    have e3 : Double.fin (1 / 2) - Double.fin (1 / 2) = Double.fin 0 := by
      rw [double_fin_sub, add_neg_cancel, round_zero]
    have e4 : Double.fin 0 * Double.fin 0 = Double.fin 0 := by
      rw [double_fin_mul, mul_zero, round_zero]
    have e5 : (2.0 : Double) * Double.fin (6369051672525773 / 2 ^ 53) =
        Double.fin (6369051672525773 / 2 ^ 52) := by
      rw [double_lit_two, double_fin_mul,
        round_exact (2 * (6369051672525773 / 2 ^ 53)) 6369051672525773 52 (by norm_num)
          (by norm_num) (by norm_num)]
      norm_num
    have e6 : Double.fin 0 / Double.fin (6369051672525773 / 2 ^ 52) = Double.fin 0 := by
      rw [double_fin_div _ _ (by norm_num), zero_div, round_zero]
    have e7 : -(Double.fin (6369051672525773 / 2 ^ 53)) - Double.fin 0 =
        Double.fin (-(6369051672525773 / 2 ^ 53)) := by
      rw [double_fin_neg, double_fin_sub, neg_zero, add_zero,
        round_exact (-(6369051672525773 / 2 ^ 53)) (-6369051672525773) 53 (by norm_num)
          (by norm_num) (by norm_num)]
    have e8 : Double.fin (6369051672525773 / 2 ^ 53) - Double.fin 0 =
        Double.fin (6369051672525773 / 2 ^ 53) := by
      rw [double_fin_sub, neg_zero, add_zero,
        round_exact (6369051672525773 / 2 ^ 53) 6369051672525773 53 (by norm_num)
          (by norm_num) (by norm_num)]
    have e9 : Double.fin (6369051672525773 / 2 ^ 53) * Double.fin (6369051672525773 / 2 ^ 53) =
        Double.fin (4503599627370497 / 2 ^ 53) := by
      rw [double_fin_mul]
      exact round_eq_q _ 4503599627370497 53 (by norm_num) (by norm_num) (by norm_num)
        (by norm_num) (by norm_num)
    have e10 : Double.fin (-(6369051672525773 / 2 ^ 53)) / Double.fin (4503599627370497 / 2 ^ 53) =
        Double.fin (-(6369051672525772 / 2 ^ 52)) := by
      rw [double_fin_div _ _ (by norm_num)]
      exact round_eq_q_neg _ 6369051672525772 52 (by norm_num) (by norm_num) (by norm_num)
        (by norm_num) (by norm_num)
    have e11 : Double.fin (6369051672525773 / 2 ^ 53) / Double.fin (4503599627370497 / 2 ^ 53) =
        Double.fin (6369051672525772 / 2 ^ 52) := by
      rw [double_fin_div _ _ (by norm_num)]
      exact round_eq_q _ 6369051672525772 52 (by norm_num) (by norm_num) (by norm_num)
        (by norm_num) (by norm_num)
    simp only [e1, e2, e3, e4, e5, e6, e7, e8, e9, e10, e11]
  -- The call `phi(0.0)` returns `0.5`.
  have ieee_phi_zero : IEEE.phi (Double.fin 0) = Double.fin (1 / 2) := by
    unfold IEEE.phi
    have e1 : Double.sqrt (2.0 : Double) = Double.fin (6369051672525773 / 2 ^ 52) := by
      rw [double_lit_two]
      exact sqrt_eq_q 2 6369051672525773 52 (by norm_num) (by norm_num) (by norm_num)
        (by norm_num) (by norm_num)
    rw [e1, double_fin_div _ _ (by norm_num), zero_div, round_zero, double_erf_zero,
      double_lit_one, double_fin_add, add_zero,
      round_exact 1 1 0 (by norm_num) (by norm_num) (by norm_num), double_lit_half,
      double_fin_mul, mul_one,
      round_exact (1 / 2) 1 1 (by norm_num) (by norm_num) (by norm_num)]
  -- The call `phi_prime(0.0)` returns the `double` `1 / sqrt(2 * M_PI)`.
  have ieee_phi_prime_zero :
      IEEE.phi_prime (Double.fin 0) = Double.fin (7186705221432913 / 2 ^ 54) := by
    unfold IEEE.phi_prime
    have e1 : (2.0 : Double) * Double.M_PI = Double.fin (884279719003555 / 2 ^ 47) := by
      rw [double_lit_two]
      show Double.fin 2 * Double.fin (884279719003555 / 281474976710656) = _
      rw [double_fin_mul,
        round_exact (2 * (884279719003555 / 281474976710656)) 884279719003555 47
          (by norm_num) (by norm_num) (by norm_num)]
      norm_num
    have e2 : Double.sqrt (Double.fin (884279719003555 / 2 ^ 47)) =
        Double.fin (5644425081792261 / 2 ^ 51) :=
      sqrt_eq_q _ 5644425081792261 51 (by norm_num) (by norm_num) (by norm_num)
        (by norm_num) (by norm_num)
    have e3 : (1.0 : Double) / Double.fin (5644425081792261 / 2 ^ 51) =
        Double.fin (7186705221432913 / 2 ^ 54) := by
      rw [double_lit_one, double_fin_div _ _ (by norm_num)]
      exact round_eq_q _ 7186705221432913 54 (by norm_num) (by norm_num) (by norm_num)
        (by norm_num) (by norm_num)
    have e4 : (-0.5 : Double) * Double.fin 0 * Double.fin 0 = Double.fin 0 := by
      rw [double_lit_half, double_fin_neg, double_fin_mul, mul_zero, round_zero, double_fin_mul,
        mul_zero, round_zero]
    rw [e1, e2, e3, e4, double_exp_zero, double_fin_mul, mul_one,
      round_exact (7186705221432913 / 2 ^ 54) 7186705221432913 54 (by norm_num) (by norm_num)
        (by norm_num)]
  -- The norms `sqrt(26)` of the vectors `(5, 1)`, `(1, -5)`, `(-1, 5)` and their
  -- dot products, which are `0`.
  have ieee_norms_orth : IEEE.norm [Double.fin 5, Double.fin 1] = Double.fin (5740985595342838 / 2 ^ 50) ∧
      IEEE.norm [Double.fin 1, Double.fin (-5)] = Double.fin (5740985595342838 / 2 ^ 50) ∧
      IEEE.norm [Double.fin (-1), Double.fin 5] = Double.fin (5740985595342838 / 2 ^ 50) ∧
      IEEE.dot_product [Double.fin 5, Double.fin 1] [Double.fin 1, Double.fin (-5)] =
        Double.fin 0 ∧
      IEEE.dot_product [Double.fin 5, Double.fin 1] [Double.fin (-1), Double.fin 5] =
        Double.fin 0 := by
    have hs : Double.sqrt (Double.fin 26) = Double.fin (5740985595342838 / 2 ^ 50) :=
      sqrt_eq_q 26 5740985595342838 50 (by norm_num) (by norm_num) (by norm_num)
        (by norm_num) (by norm_num)
    have n : ∀ x y : ℤ, |x * x| < 2 ^ 53 → |y * y| < 2 ^ 53 → x * x + y * y = 26 →
        IEEE.norm [Double.fin x, Double.fin y] = Double.fin (5740985595342838 / 2 ^ 50) := by
      intro x y hx hy h
      have h1 := hasher_7_double_proj_small x y x y hx hy (by rw [h]; norm_num)
      rw [h] at h1
      show Double.sqrt (inner_product [Double.fin x, Double.fin y] [Double.fin x, Double.fin y]
        0.0) = _
      rw [ieee_inner_product_two, double_lit_zero, h1]
      exact hs
    have d : ∀ x y z w : ℤ, |x * z| < 2 ^ 53 → |y * w| < 2 ^ 53 → x * z + y * w = 0 →
        IEEE.dot_product [Double.fin x, Double.fin y] [Double.fin z, Double.fin w] =
          Double.fin 0 := by
      intro x y z w hx hy h
      have h1 := hasher_7_double_proj_small x y z w hx hy (by rw [h]; norm_num)
      rw [h] at h1
      rw [ieee_dot_product_two, double_lit_zero, h1]
      norm_num
    have n1 := n 5 1 (by norm_num) (by norm_num) (by norm_num)
    have n2 := n 1 (-5) (by norm_num) (by norm_num) (by norm_num)
    have n3 := n (-1) 5 (by norm_num) (by norm_num) (by norm_num)
    have d1 := d 5 1 1 (-5) (by norm_num) (by norm_num) (by norm_num)
    have d2 := d 5 1 (-1) 5 (by norm_num) (by norm_num) (by norm_num)
    simp only [Int.cast_neg, Int.cast_one, Int.cast_ofNat] at n1 n2 n3 d1 d2
    exact ⟨n1, n2, n3, d1, d2⟩
  -- The product `n * n` of the norm `sqrt(26)` with itself, which is not `26`.
  have double_norm_sq : Double.fin (5740985595342838 / 2 ^ 50) * Double.fin (5740985595342838 / 2 ^ 50) =
        Double.fin (7318349394477055 / 2 ^ 48) := by
    rw [double_fin_mul]
    exact round_eq_q _ 7318349394477055 48 (by norm_num) (by norm_num) (by norm_num)
      (by norm_num) (by norm_num)
  -- The clamp `std::max(-1.0, std::min(1.0, c))` leaves `c = 0` unchanged.
  have double_clamp_zero : Double.max (-1.0) (Double.min 1.0 (Double.fin 0)) = Double.fin 0 := by
    unfold Double.min Double.max
    rw [double_lit_one, double_fin_neg, if_pos ((double_fin_lt _ _).2 (by norm_num)),
      if_pos ((double_fin_lt _ _).2 (by norm_num))]
  -- The collision probability of two vectors with the norm `sqrt(26)` and the dot
  -- product `0` is `0.5`.
  have ieee_p_srp_orth : ∀ (v1 v2 : List Double),
        IEEE.norm v1 = Double.fin (5740985595342838 / 2 ^ 50) →
        IEEE.norm v2 = Double.fin (5740985595342838 / 2 ^ 50) →
        IEEE.dot_product v1 v2 = Double.fin 0 →
        IEEE.calculate_p_srp v1 v2 = Double.fin (1 / 2) := by
    intro v1 v2 h1 h2 hd
    unfold IEEE.calculate_p_srp
    simp only [h1, h2, hd, double_norm_sq]
    rw [if_neg (by
      rw [double_lit_tiny, double_fin_lt]
      norm_num)]
    rw [double_fin_div _ _ (by norm_num), zero_div, round_zero, double_clamp_zero,
      double_acos_zero]
    show (1.0 : Double) - Double.fin (7074237752028440 / 2 ^ 52) /
      Double.fin (884279719003555 / 281474976710656) = _
    rw [double_fin_div _ _ (by norm_num),
      round_exact (7074237752028440 / 2 ^ 52 / (884279719003555 / 281474976710656)) 1 1
        (by norm_num) (by norm_num) (by norm_num)]
    have e : (7074237752028440 / 2 ^ 52 / (884279719003555 / 281474976710656) : ℚ) = 1 / 2 := by
      norm_num
    rw [e, double_one_sub_half]
  -- The second vector of `calculate_p_srp_derivatives` for two vectors of dimension
  -- `2` with the norm `sqrt(26)` and the dot product `0`: the cosine is `0`, the sine
  -- `1`, and `dp_dcos` is the `double` `1 / M_PI`.
  have ieee_p_srp_derivatives_orth : ∀ (x1 x2 y1 y2 : Double),
        IEEE.norm [x1, x2] = Double.fin (5740985595342838 / 2 ^ 50) →
        IEEE.norm [y1, y2] = Double.fin (5740985595342838 / 2 ^ 50) →
        IEEE.dot_product [x1, x2] [y1, y2] = Double.fin 0 →
        ∃ a1 a2, IEEE.calculate_p_srp_derivatives [x1, x2] [y1, y2] = ([a1, a2],
          [Double.fin (5734161139222659 / 2 ^ 54) *
            (x1 / Double.fin (7318349394477055 / 2 ^ 48) -
              (Double.fin 0 * y1) / Double.fin (7318349394477055 / 2 ^ 48)),
           Double.fin (5734161139222659 / 2 ^ 54) *
            (x2 / Double.fin (7318349394477055 / 2 ^ 48) -
              (Double.fin 0 * y2) / Double.fin (7318349394477055 / 2 ^ 48))]) := by
    intro x1 x2 y1 y2 h1 h2 hd
    have e1 : (1.0 : Double) - Double.fin 0 * Double.fin 0 = Double.fin 1 := by
      rw [double_fin_mul, mul_zero, round_zero, double_lit_one, double_fin_sub, neg_zero,
        add_zero, round_exact 1 1 0 (by norm_num) (by norm_num) (by norm_num)]
    have e2 : (1.0 : Double) / (Double.M_PI * Double.fin 1) =
        Double.fin (5734161139222659 / 2 ^ 54) := by
      show (1.0 : Double) / (Double.fin (884279719003555 / 281474976710656) * Double.fin 1) = _
      rw [double_fin_mul, mul_one,
        round_exact (884279719003555 / 281474976710656) 884279719003555 48 (by norm_num)
          (by norm_num) (by norm_num), double_lit_one, double_fin_div _ _ (by norm_num)]
      exact round_eq_q _ 5734161139222659 54 (by norm_num) (by norm_num) (by norm_num)
        (by norm_num) (by norm_num)
    unfold IEEE.calculate_p_srp_derivatives
    simp only [h1, h2, hd, double_norm_sq]
    rw [if_neg (by
      rw [double_lit_tiny, double_fin_lt]
      norm_num)]
    rw [double_fin_div _ _ (by norm_num), zero_div, round_zero, double_clamp_zero, e1,
      double_sqrt_one]
    rw [if_neg (by
      rw [double_lit_tiny, double_fin_lt]
      norm_num)]
    rw [e2]
    refine ⟨Double.fin (5734161139222659 / 2 ^ 54) *
        (y1 / Double.fin (7318349394477055 / 2 ^ 48) -
          (Double.fin 0 * x1) / Double.fin (7318349394477055 / 2 ^ 48)),
      Double.fin (5734161139222659 / 2 ^ 54) *
        (y2 / Double.fin (7318349394477055 / 2 ^ 48) -
          (Double.fin 0 * x2) / Double.fin (7318349394477055 / 2 ^ 48)), ?_⟩
    simp [List.range, List.range.loop]
  -- The result of `compute_gradients` for a triplet whose three vectors have the
  -- dimension `2`, when both collision probabilities are `0.5` and `sqrt(b)` is `4`:
  -- the separation statistic is `0`, `phi` is `0.5`, and each gradient is the common
  -- factor times a derivative of the statistic times a derivative of a collision
  -- probability.
  have ieee_compute_gradients_half : ∀ (store : UserItemStore Double) (t : Triplet) (params : TrainingParams Double)
          (x1 x2 y1 y2 z1 z2 a1 a2 b1 b2 c1 c2 e1 e2 : Double),
        store.get_user_vector t.user_id = .ok [x1, x2] →
        store.get_item_vector t.preferred_item_id = .ok [y1, y2] →
        store.get_item_vector t.less_preferred_item_id = .ok [z1, z2] →
        IEEE.calculate_p_srp [x1, x2] [y1, y2] = Double.fin (1 / 2) →
        IEEE.calculate_p_srp [x1, x2] [z1, z2] = Double.fin (1 / 2) →
        Double.sqrt (Double.ofInt params.b_lsh_length) = Double.fin 4 →
        IEEE.calculate_p_srp_derivatives [x1, x2] [y1, y2] = ([a1, a2], [b1, b2]) →
        IEEE.calculate_p_srp_derivatives [x1, x2] [z1, z2] = ([c1, c2], [e1, e2]) →
        IEEE.compute_gradients store t params = .ok
          ([Double.fin (7186705221432913 / 2 ^ 51) *
              (Double.fin (-(6369051672525772 / 2 ^ 52)) * a1 +
                Double.fin (6369051672525772 / 2 ^ 52) * c1),
            Double.fin (7186705221432913 / 2 ^ 51) *
              (Double.fin (-(6369051672525772 / 2 ^ 52)) * a2 +
                Double.fin (6369051672525772 / 2 ^ 52) * c2)],
           [Double.fin (7186705221432913 / 2 ^ 51) * Double.fin (-(6369051672525772 / 2 ^ 52)) * b1,
            Double.fin (7186705221432913 / 2 ^ 51) * Double.fin (-(6369051672525772 / 2 ^ 52)) * b2],
           [Double.fin (7186705221432913 / 2 ^ 51) * Double.fin (6369051672525772 / 2 ^ 52) * e1,
            Double.fin (7186705221432913 / 2 ^ 51) * Double.fin (6369051672525772 / 2 ^ 52) * e2]) := by
    intro store t params x1 x2 y1 y2 z1 z2 a1 a2 b1 b2 c1 c2 e1 e2 hx hi hj hp1 hp2 hb hd1 hd2
    have f1 : Double.fin 4 * Double.fin 0 = Double.fin 0 := by
      rw [double_fin_mul, mul_zero, round_zero]
    have f2 : Double.fin (7186705221432913 / 2 ^ 54) / Double.fin (1 / 2) * Double.fin 4 =
        Double.fin (7186705221432913 / 2 ^ 51) := by
      rw [double_fin_div _ _ (by norm_num),
        round_exact (7186705221432913 / 2 ^ 54 / (1 / 2)) 7186705221432913 53 (by norm_num)
          (by norm_num) (by norm_num), double_fin_mul,
        round_exact (7186705221432913 / 2 ^ 54 / (1 / 2) * 4) 7186705221432913 51 (by norm_num)
          (by norm_num) (by norm_num)]
      norm_num
    unfold IEEE.compute_gradients
    rw [hx, hi, hj]
    simp only [hp1, hp2, hb, ieee_calculate_gamma_half, ieee_calculate_gamma_derivatives_half, f1,
      ieee_phi_zero, ieee_phi_prime_zero, hd1, hd2]
    rw [if_neg double_half_lt_literals.1, f2]
    simp [List.range, List.range.loop]
  exact ⟨round_eq_q, round_eq_q_neg, double_fin_div, double_fin_sub, double_sqrt_sixteen,
    round_exact, ieee_norms_orth, ieee_p_srp_orth, ieee_p_srp_derivatives_orth,
    ieee_compute_gradients_half⟩

/-! ## Values of the library functions -/

/-! ## The collision probability and the separation statistic at orthogonal vectors -/

/-! ## The gradients at orthogonal vectors -/

/-- C37, as stated, fails in `double` arithmetic.  In the store with the user `1` at
`(5, 1)` and the items `10` and `20` at `(1, -5)` and `(-1, 5)`, both orthogonal to
the user vector, `compute_gradients` for the triplet `(1, 10, 20)` and the default
parameters returns for the item `10` the gradient
`(-4977159977128862 / 2 ^ 54, -7963455963406178 / 2 ^ 57)`: the quotients `5 / (n * n)`
and `1 / (n * n)` with `n = sqrt(26)` and the products with `1 / M_PI` and with the
common factor are each rounded, and the second entry is not `1 / 5` of the first.
The dot product of the gradient with the item vector `(1, -5)` is `-3 / 2 ^ 56`,
not `0`. -/
theorem C37_counterexample :
    store_orth_double.get_user_vector 1 = .ok [Double.fin 5, Double.fin 1] ∧
    store_orth_double.get_item_vector 10 = .ok [Double.fin 1, Double.fin (-5)] ∧
    store_orth_double.get_item_vector 20 = .ok [Double.fin (-1), Double.fin 5] ∧
    ∃ grad_xu grad_yj,
      IEEE.compute_gradients store_orth_double ⟨1, 10, 20⟩ default_params_double = .ok
        (grad_xu,
          [Double.fin (-(4977159977128862 / 2 ^ 54)), Double.fin (-(7963455963406178 / 2 ^ 57))],
          grad_yj) ∧
      dot [-(4977159977128862 / 2 ^ 54 : ℚ), -(7963455963406178 / 2 ^ 57)] [1, -5] =
        -(3 / 2 ^ 56) ∧
      dot [-(4977159977128862 / 2 ^ 54 : ℚ), -(7963455963406178 / 2 ^ 57)] [1, -5] ≠ 0 := by
  have round_zero := rounding_facts.1
  have round_int := rounding_facts.2.2.2.1
  have double_fin_mul := rounding_facts.2.2.2.2.2.2.2.2.1
  have round_eq_q := gradient_double_facts.1
  have round_eq_q_neg := gradient_double_facts.2.1
  have double_fin_div := gradient_double_facts.2.2.1
  have double_fin_sub := gradient_double_facts.2.2.2.1
  have double_sqrt_sixteen := gradient_double_facts.2.2.2.2.1
  have round_exact := gradient_double_facts.2.2.2.2.2.1
  have ieee_norms_orth := gradient_double_facts.2.2.2.2.2.2.1
  have ieee_p_srp_orth := gradient_double_facts.2.2.2.2.2.2.2.1
  have ieee_p_srp_derivatives_orth := gradient_double_facts.2.2.2.2.2.2.2.2.1
  have ieee_compute_gradients_half := gradient_double_facts.2.2.2.2.2.2.2.2.2
  obtain ⟨n1, n2, n3, d1, d2⟩ := ieee_norms_orth
  obtain ⟨a1, a2, hd1⟩ := ieee_p_srp_derivatives_orth _ _ _ _ n1 n2 d1
  obtain ⟨c1, c2, hd2⟩ := ieee_p_srp_derivatives_orth _ _ _ _ n1 n3 d2
  have hb : Double.sqrt (Double.ofInt default_params_double.b_lsh_length) = Double.fin 4 := by
    show Double.sqrt (Double.round (((16 : ℤ) : ℚ))) = _
    rw [round_int _ 16 rfl (by norm_num)]
    have e : (((16 : ℤ) : ℚ)) = 16 := by norm_num
    rw [e]
    exact double_sqrt_sixteen
  have h := ieee_compute_gradients_half store_orth_double ⟨1, 10, 20⟩ default_params_double
    _ _ _ _ _ _ _ _ _ _ _ _ _ _ rfl rfl rfl (ieee_p_srp_orth _ _ n1 n2 d1)
    (ieee_p_srp_orth _ _ n1 n3 d2) hb hd1 hd2
  -- the entries of the derivative of the collision probability
  have q5 : Double.fin 5 / Double.fin (7318349394477055 / 2 ^ 48) =
      Double.fin (6928614811339226 / 2 ^ 55) := by
    rw [double_fin_div _ _ (by norm_num)]
    exact round_eq_q _ 6928614811339226 55 (by norm_num) (by norm_num) (by norm_num)
      (by norm_num) (by norm_num)
  have q1 : Double.fin 1 / Double.fin (7318349394477055 / 2 ^ 48) =
      Double.fin (5542891849071380 / 2 ^ 57) := by
    rw [double_fin_div _ _ (by norm_num)]
    exact round_eq_q _ 5542891849071380 57 (by norm_num) (by norm_num) (by norm_num)
      (by norm_num) (by norm_num)
  have z : ∀ y : ℚ, Double.fin 0 * Double.fin y / Double.fin (7318349394477055 / 2 ^ 48) =
      Double.fin 0 := by
    intro y
    rw [double_fin_mul, zero_mul, round_zero, double_fin_div _ _ (by norm_num), zero_div,
      round_zero]
  have s5 : Double.fin (6928614811339226 / 2 ^ 55) - Double.fin 0 =
      Double.fin (6928614811339226 / 2 ^ 55) := by
    rw [double_fin_sub, neg_zero, add_zero,
      round_exact (6928614811339226 / 2 ^ 55) 6928614811339226 55 (by norm_num)
        (by norm_num) (by norm_num)]
  have s1 : Double.fin (5542891849071380 / 2 ^ 57) - Double.fin 0 =
      Double.fin (5542891849071380 / 2 ^ 57) := by
    rw [double_fin_sub, neg_zero, add_zero,
      round_exact (5542891849071380 / 2 ^ 57) 5542891849071380 57 (by norm_num)
        (by norm_num) (by norm_num)]
  have p5 : Double.fin (5734161139222659 / 2 ^ 54) * Double.fin (6928614811339226 / 2 ^ 55) =
      Double.fin (8821786368034862 / 2 ^ 57) := by
    rw [double_fin_mul]
    exact round_eq_q _ 8821786368034862 57 (by norm_num) (by norm_num) (by norm_num)
      (by norm_num) (by norm_num)
  have p1 : Double.fin (5734161139222659 / 2 ^ 54) * Double.fin (5542891849071380 / 2 ^ 57) =
      Double.fin (7057429094427888 / 2 ^ 59) := by
    rw [double_fin_mul]
    exact round_eq_q _ 7057429094427888 59 (by norm_num) (by norm_num) (by norm_num)
      (by norm_num) (by norm_num)
  -- the common factor times the derivative of the separation statistic
  have c : Double.fin (7186705221432913 / 2 ^ 51) * Double.fin (-(6369051672525772 / 2 ^ 52)) =
      Double.fin (-(5081767996463981 / 2 ^ 50)) := by
    rw [double_fin_mul]
    exact round_eq_q_neg _ 5081767996463981 50 (by norm_num) (by norm_num) (by norm_num)
      (by norm_num) (by norm_num)
  have g0 : Double.fin (-(5081767996463981 / 2 ^ 50)) * Double.fin (8821786368034862 / 2 ^ 57) =
      Double.fin (-(4977159977128862 / 2 ^ 54)) := by
    rw [double_fin_mul]
    exact round_eq_q_neg _ 4977159977128862 54 (by norm_num) (by norm_num) (by norm_num)
      (by norm_num) (by norm_num)
  have g1 : Double.fin (-(5081767996463981 / 2 ^ 50)) * Double.fin (7057429094427888 / 2 ^ 59) =
      Double.fin (-(7963455963406178 / 2 ^ 57)) := by
    rw [double_fin_mul]
    exact round_eq_q_neg _ 7963455963406178 57 (by norm_num) (by norm_num) (by norm_num)
      (by norm_num) (by norm_num)
  rw [q5, q1, z, z, s5, s1, p5, p1, c, g0, g1] at h
  refine ⟨rfl, rfl, rfl, _, _, h, ?_, ?_⟩
  · norm_num [dot]
  · norm_num [dot]

end SRPR
